import Mathlib

/-! ArgSpec: a shallow embedding of `ArgSpec.cpp`.

The development follows the source file top to bottom: the string helpers,
the per-type converters, the compiled argument table, the run-time matcher
(`Parse`, `ParseOption`, `ParseOptionArgs`, `ParseArgument`,
`ParseArrayArgument`) and the spec compiler (`ConstructSpec`).

Conventions of the embedding

* A C string is the list of its characters before the terminating NUL; each
  `Char` stands for one `char`.
* `argv .. argvEnd` is the list of the tokens not yet consumed; `*argv++` takes
  the head of that list.
* Caller-owned destinations live in a memory `Mem`, addressed by natural
  numbers; `mLocation` is `none` for a null pointer.
* Loops whose trip count is not fixed by the shape of their input take a
  budget (`fuel`) and return `Run.outOfFuel` when it is used up.
  `Run.fault` stands for behaviour that C++ leaves undefined (a read past
  `argvEnd`, a write through a null pointer that the source does not guard).
* Assertions are compiled out (`NDEBUG`).
-/

namespace AS

/-- A C string, without its terminator. -/
abbrev CStr := List Char

/-! ## Error classes (`ArgSpec.h`) -/

inductive tArgError
  | kArgNoError
  | kArgHelpRequested
  | kArgErrorNotEnoughArgs
  | kArgErrorTooManyArgs
  | kArgErrorBadSpec
  | kArgErrorUnknownOption
  | kArgErrorBadEnum
  | kArgErrorGarbage
  deriving DecidableEq, Repr

inductive tArgSpecError
  | kSpecNoError
  | kSpecUnbalancedBrackets
  | kSpecEllipsisError
  | kSpecUnknownType
  deriving DecidableEq, Repr

open tArgError tArgSpecError

structure cArgEnumInfo where
  mToken : CStr
  mValue : Int
  deriving DecidableEq, Repr

/-! ## Outcome of a run -/

/-- Outcome of running a piece of the program: a normal return, the loop
budget used up, or undefined behaviour. -/
inductive Run (α : Type)
  | ret (a : α)
  | outOfFuel
  | fault
  deriving DecidableEq, Repr

/-! ## The C library, as far as the program uses it -/

/-- A `float`, by its bit pattern; `0` is `0.0f`. -/
abbrev CFloat := Nat

/-- The platform parameters the source leaves to the C library: the width of
`long`, and `strtof`, which returns the value read and the unread rest of the
string (what `sEnd` points at). -/
structure Libc where
  longBits : Nat
  longBits_ge : 32 ≤ longBits
  strtof : CStr → CFloat × CStr

/-- C `isspace` in the "C" locale. -/
def isspace (c : Char) : Bool :=
  c == ' ' || c == '\t' || c == '\n' || c == '\x0b' || c == '\x0c' || c == '\r'

/-- C `isalpha` in the "C" locale. -/
def isalpha (c : Char) : Bool :=
  ('a' ≤ c && c ≤ 'z') || ('A' ≤ c && c ≤ 'Z')

/-- C `tolower` in the "C" locale. -/
def tolower (c : Char) : Char :=
  if 'A' ≤ c ∧ c ≤ 'Z' then Char.ofNat (c.toNat + 32) else c

/-- Value of `c` as a digit in bases up to 36, as `strtol` reads it. -/
def digitVal (c : Char) : Option Nat :=
  if '0' ≤ c ∧ c ≤ '9' then some (c.toNat - '0'.toNat)
  else if 'a' ≤ c ∧ c ≤ 'z' then some (c.toNat - 'a'.toNat + 10)
  else if 'A' ≤ c ∧ c ≤ 'Z' then some (c.toNat - 'A'.toNat + 10)
  else none

/-- Digit of `c` in the given base, if it is one. -/
def digitIn (base : Nat) (c : Char) : Option Nat :=
  match digitVal c with
  | some d => if d < base then some d else none
  | none => none

/-- The digit loop of `strtol`: reads the longest run of digits of the base,
returns the accumulated value, whether a digit was read, and the rest. -/
def strtolDigits (base : Nat) : CStr → Nat → Bool → Nat × Bool × CStr
  | [], acc, any => (acc, any, [])
  | c :: cs, acc, any =>
    match digitIn base c with
    | some d => strtolDigits base cs (acc * base + d) true
    | none => (acc, any, c :: cs)

/-- Clamp to the range of `long` (`LONG_MIN .. LONG_MAX`). -/
def clampLong (longBits : Nat) (x : Int) : Int :=
  if x > 2 ^ (longBits - 1) - 1 then 2 ^ (longBits - 1) - 1
  else if x < -(2 ^ (longBits - 1)) then -(2 ^ (longBits - 1))
  else x

/-- The optional sign of the subject sequence of `strtol`: whether it is
`-`, and the string after it. -/
def strtolSign (s1 : CStr) : Bool × CStr :=
  (s1.head? == some '-',
    if s1.head? == some '-' || s1.head? == some '+' then s1.drop 1 else s1)

/-- The base that `strtol` settles on when called with base 0, and the string
its digits are read from: `0x` or `0X` followed by a hexadecimal digit
selects base 16 and is skipped, a leading `0` selects base 8, anything else
base 10. -/
def strtolBase (s2 : CStr) : Nat × CStr :=
  if s2.head? == some '0' && (s2[1]? == some 'x' || s2[1]? == some 'X')
      && ((s2[2]?).bind (digitIn 16)).isSome then (16, s2.drop 2)
  else if s2.head? == some '0' then (8, s2)
  else (10, s2)

/-- C `strtol(s, &sEnd, 0)`: optional white space, optional sign, digits in
the base found by `strtolBase`. Returns the value, clamped to `long`, and the
unread rest; when no digit is read the rest is the whole string and the value
0. -/
def strtol (longBits : Nat) (s : CStr) : Int × CStr :=
  let sign := strtolSign (s.dropWhile isspace)
  let base := strtolBase sign.2
  let r := strtolDigits base.1 base.2 0 false
  if r.2.1 then
    (clampLong longBits (if sign.1 then -(r.1 : Int) else (r.1 : Int)), r.2.2)
  else (0, s)

/-- The conversion `(int)` of a `long`: reduction to 32-bit two's complement. -/
def toInt32 (x : Int) : Int :=
  (x + 2 ^ 31) % 2 ^ 32 - 2 ^ 31

/-- Decimal digits of a natural number, most significant first (`fuel` bounds
the number of digits). -/
def decimalDigits : Nat → Nat → CStr → CStr
  | 0, _, acc => acc
  | fuel + 1, n, acc =>
    let acc1 := Char.ofNat ('0'.toNat + n % 10) :: acc
    if n / 10 = 0 then acc1 else decimalDigits fuel (n / 10) acc1

/-- What `%d` prints for an `int`. -/
def fmtInt (x : Int) : CStr :=
  if x < 0 then '-' :: decimalDigits (x.natAbs + 1) x.natAbs []
  else decimalDigits (x.natAbs + 1) x.natAbs []

/-- What `%d` prints when handed a `size_t`: its low 32 bits read as an `int`. -/
def fmtSize (n : Nat) : CStr := fmtInt (toInt32 n)

/-! ## String helpers of `ArgSpec.cpp` -/

def kOptionChar : Char := '-'
def kOpenBracketChar : Char := '['
def kCloseBracketChar : Char := ']'
def kSetFlagChar : Char := '^'
def kEnumSpecChar : Char := ':'
def kEnumSpecInlineChar : Char := '='
def kBeginArgChar : Char := '<'
def kEndArgChar : Char := '>'
def kArgSepChar : Char := ':'
def kFormatChar : Char := '%'
def kEllipsisToken : CStr := ['.', '.', '.']

/-- `IsOption(s)`: `s[0] == '-' && (isalpha(s[1]) || s[1] == '-')`. -/
def IsOption (s : CStr) : Bool :=
  match s with
  | c0 :: c1 :: _ => c0 == kOptionChar && (isalpha c1 || c1 == kOptionChar)
  | _ => false

/-- The source's `Eq(lhs, rhs)`: `strcasecmp(lhs, rhs) == 0`. -/
def StrEq (lhs rhs : CStr) : Bool :=
  lhs.map tolower == rhs.map tolower

/-- The source's `Eq(lhs, rhs, n)`: `strncasecmp(lhs, rhs, n) == 0`. -/
def StrEqN (lhs rhs : CStr) (n : Nat) : Bool :=
  (lhs.take n).map tolower == (rhs.take n).map tolower

/-- `Sprintf(pStr, format, ...)`: the formatted text goes through a buffer of
1024 bytes (`vsnprintf(buffer, 1024, ...)`), so at most 1023 characters of it
are kept. The argument is the text after substitution of the conversions. -/
def Sprintf (formatted : CStr) : CStr := formatted.take 1023

/-- `SprintfAppend(pStr, format, ...)`: as `Sprintf`, appended to `*pStr`. -/
def SprintfAppend (str formatted : CStr) : CStr := str ++ formatted.take 1023

/-- The `strtok` loop of `Split`: `cur` is the token being read; the tokens
are the maximal runs of characters that are not separators. -/
def SplitLoop (separators : CStr) : CStr → CStr → List CStr
  | [], cur => if cur.isEmpty then [] else [cur]
  | c :: cs, cur =>
    if separators.contains c then
      (if cur.isEmpty then SplitLoop separators cs []
       else cur :: SplitLoop separators cs [])
    else SplitLoop separators cs (cur ++ [c])

/-- `Split(line, a)` with the default separators `" \t"`. -/
def Split (line : CStr) : List CStr := SplitLoop [' ', '\t'] line []

/-- `NextToken(str)` with the default separators `" \t\n"`: returns the
token and the new value of `str`. -/
def NextToken (str : CStr) : CStr × CStr :=
  let isSep : Char → Bool := fun c => [' ', '\t', '\n'].contains c
  let result := str.dropWhile isSep
  (result.takeWhile (fun c => !isSep c), (result.dropWhile (fun c => !isSep c)).drop 1)

/-! ## Destinations -/

/-- What one destination cell, or one element of a destination sequence, can
hold. `fvec` is one `Vec2`/`Vec3`/`Vec4` element of a sequence. -/
inductive Scalar
  | bool (b : Bool)
  | int (i : Int)
  | float (f : CFloat)
  | double (f : CFloat)
  | cstr (s : CStr)
  | str (s : CStr)
  | fvec (c : List CFloat)
  deriving DecidableEq, Repr

/-- Contents of a destination: a scalar cell or a `std::vector`. A `float[]`
destination occupies consecutive cells. -/
inductive Value
  | scalar (s : Scalar)
  | vector (l : List Scalar)
  deriving DecidableEq, Repr

/-- Caller-owned storage. -/
abbrev Mem := Nat → Value

/-- The assignment `*p = v`. -/
def Mem.write (m : Mem) (p : Nat) (v : Value) : Mem :=
  fun a => if a = p then v else m a

/-- `if (location) *location = result;` where `result` is absent when the
converter returned before assigning it. -/
def assign (location : Option Nat) (result : Option Scalar) (m : Mem) : Mem :=
  match location, result with
  | some p, some v => m.write p (Value.scalar v)
  | _, _ => m

/-- `if (location) location->push_back(result);` -/
def push_back (location : Option Nat) (result : Scalar) (m : Mem) : Mem :=
  match location with
  | some p =>
    match m p with
    | Value.vector l => m.write p (Value.vector (l ++ [result]))
    | Value.scalar _ => m.write p (Value.vector [result])
  | none => m

/-- The `float` read from a cell. -/
def floatAt (m : Mem) (p : Nat) : CFloat :=
  match m p with
  | Value.scalar (Scalar.float f) => f
  | _ => 0

/-! ## Converters -/

/-- What a converter hands back: the error class, the value it computed
(`result`, absent on an error return; the caller's `location` receives it
when it is not null) and the text it wrote to `*errorString`, if it wrote
any. -/
structure Converted (α : Type) where
  error : tArgError
  result : Option α
  errorString : Option CStr
  deriving DecidableEq, Repr

/-- The same outcome with the value injected into `Scalar`. -/
def Converted.map {α β : Type} (f : α → β) (c : Converted α) : Converted β :=
  ⟨c.error, c.result.map f, c.errorString⟩

/-- `Parse(int* location, const char* arg, string* errorString)`. -/
def Parse_int (libc : Libc) (arg : CStr) : Converted Int :=
  let r := strtol libc.longBits arg
  if r.2 ≠ [] then
    ⟨kArgErrorGarbage, none,
      some (Sprintf ("Garbage at end of number: '".toList ++ arg ++ "' ".toList))⟩
  else ⟨kArgNoError, some (toInt32 r.1), none⟩

/-- `Parse(bool* location, const char* arg, string* errorString)`. -/
def Parse_bool (libc : Libc) (arg : CStr) : Converted Bool :=
  if StrEq arg "true".toList then ⟨kArgNoError, some true, none⟩
  else if StrEq arg "false".toList then ⟨kArgNoError, some false, none⟩
  else if StrEq arg "on".toList then ⟨kArgNoError, some true, none⟩
  else if StrEq arg "off".toList then ⟨kArgNoError, some false, none⟩
  else
    let r := Parse_int libc arg
    if r.error ≠ kArgNoError then ⟨r.error, none, r.errorString⟩
    else ⟨kArgNoError, r.result.map (fun i => i != 0), r.errorString⟩

/-- `Parse(float* location, const char* arg, string* errorString)`; the same
body serves `Parse(double*, ...)`, which also reads with `strtof`. -/
def Parse_float (libc : Libc) (arg : CStr) : Converted CFloat :=
  let r := libc.strtof arg
  if r.2 ≠ [] then
    ⟨kArgErrorGarbage, none,
      some (Sprintf ("Garbage at end of number: '".toList ++ arg ++ "' ".toList))⟩
  else ⟨kArgNoError, some r.1, none⟩

/-- `Parse(const char** location, ...)` and `Parse(string* location, ...)`. -/
def Parse_string (arg : CStr) : Converted CStr :=
  ⟨kArgNoError, some arg, none⟩

/-- What the vector converter returns: the error class, the tokens left
(`argv`), the error string and the memory. -/
structure VecResult where
  error : tArgError
  argv : List CStr
  errorString : CStr
  mem : Mem

/-- The `for` loop of `Parse(int n, float v[], ...)`: returns with the
loop counter `i`. -/
def Parse_vec_loop (libc : Libc) (n : Nat) (v : Nat) :
    List CStr → Nat → Mem → CStr → Nat × VecResult
  | [], i, m, es => (i, ⟨kArgNoError, [], es, m⟩)
  | tok :: rest, i, m, es =>
    if i < n ∧ IsOption tok = false then
      let r := Parse_float libc tok
      if r.error ≠ kArgNoError then (i, ⟨r.error, rest, r.errorString.getD es, m⟩)
      else
        Parse_vec_loop libc n v rest (i + 1)
          (assign (some (v + i)) (r.result.map Scalar.float) m) (r.errorString.getD es)
    else (i, ⟨kArgNoError, tok :: rest, es, m⟩)

/-- The loop `for (int j = i; j < n; j++) v[j] = x;`, with `count = n - j`. -/
def fill_loop (v : Nat) (x : CFloat) : Nat → Nat → Mem → Mem
  | 0, _, m => m
  | count + 1, j, m =>
    fill_loop v x count (j + 1) (m.write (v + j) (Value.scalar (Scalar.float x)))

/-- `Parse(int n, float v[], const char**& argv, const char** argvEnd,
string* errorString)` for a non-null `v`. -/
def Parse_vec (libc : Libc) (n : Nat) (v : Nat) (argv : List CStr) (m : Mem)
    (errorString : CStr) : VecResult :=
  let r := Parse_vec_loop libc n v argv 0 m errorString
  if r.2.error ≠ kArgNoError then r.2
  else if r.1 = 1 then
    { r.2 with mem := fill_loop v (floatAt r.2.mem v) (n - r.1) r.1 r.2.mem }
  else
    { r.2 with mem := fill_loop v 0 (n - r.1) r.1 r.2.mem }

structure cEnumSpec where
  mName : CStr
  /-- The entries of the table before its `nullptr` terminator. -/
  mEnumInfo : List cArgEnumInfo
  deriving DecidableEq, Repr

/-- The `while (parseInfo->mToken)` loop of the enum converter. -/
def Parse_enum_loop (arg : CStr) : List cArgEnumInfo → Option Int
  | [] => none
  | parseInfo :: rest =>
    if StrEq arg parseInfo.mToken then some parseInfo.mValue
    else Parse_enum_loop arg rest

/-- `Parse(int* location, const cEnumSpec& enumSpec, const char* arg,
string* errorString)`. -/
def Parse_enum (enumSpec : cEnumSpec) (arg : CStr) : Converted Int :=
  match Parse_enum_loop arg enumSpec.mEnumInfo with
  | some v => ⟨kArgNoError, some v, none⟩
  | none =>
    ⟨kArgErrorBadEnum, none,
      some (Sprintf ("Unknown enum '".toList ++ arg ++ "' of type ".toList ++ enumSpec.mName))⟩

/-! ## The compiled table (`cArgSpec::Internal`) -/

def kTypeInvalid : Nat := 0
def kTypeBool : Nat := 1
def kTypeInt : Nat := 2
def kTypeFloat : Nat := 3
def kTypeDouble : Nat := 4
def kTypeCString : Nat := 5
def kTypeString : Nat := 6
def kTypeVec2 : Nat := 7
def kTypeVec3 : Nat := 8
def kTypeVec4 : Nat := 9
def kTypeEnumBegin : Nat := 10
def kTypeEnumEnd : Nat := kTypeEnumBegin + 1024
def kTypeArraySplitFlag : Nat := 0x4000
def kTypeArrayListFlag : Nat := 0x8000
def kTypeBaseMask : Nat := 0x3FFF

/-- One argument slot; `mType` is a `tArgType` (an `unsigned short`). -/
structure cArgInfo where
  mType : Nat
  mName : CStr
  mLocation : Option Nat
  mIsRequired : Bool
  mFlagToSet : Int
  deriving DecidableEq, Repr

structure cArgsSpec where
  mArguments : List cArgInfo
  mDescription : CStr
  deriving DecidableEq, Repr

/-- A `cOptionsSpec`: a `cArgsSpec` with the option's name and flag. -/
structure cOptionsSpec extends cArgsSpec where
  mName : CStr
  mFlagToSet : Int
  deriving DecidableEq, Repr

structure Internal where
  mCommandName : CStr
  mCommandDescription : CStr
  mMainArgs : cArgsSpec
  mOptions : List cOptionsSpec
  mEnumSpecs : List cEnumSpec
  mFlags : Nat
  mHelpRequested : Bool
  mErrorString : CStr
  deriving DecidableEq, Repr

/-- A freshly constructed `Internal`. -/
def Internal.fresh : Internal :=
  ⟨[], [], ⟨[], []⟩, [], [], 0, false, []⟩

/-- The update `mFlags |= 1 << flag` of the 32-bit mask. For `flag >= 32`
the C++ shift is undefined; here it contributes no bit. -/
def setFlagBit (mFlags : Nat) (flag : Int) : Nat :=
  (mFlags ||| (1 <<< flag.toNat)) % 2 ^ 32

/-- The statement `if (flag >= 0) mFlags |= 1 << flag;` of `ParseArgument`
and `ParseOption`. -/
def Internal.markFlag (self : Internal) (flag : Int) : Internal :=
  if flag ≥ 0 then { self with mFlags := setFlagBit self.mFlags flag } else self

/-- `cArgSpec::Flag(flag)`: `(mFlags & (1 << flag)) != 0`. -/
def Internal.Flag (self : Internal) (flag : Nat) : Bool :=
  (self.mFlags &&& (1 <<< flag)) != 0

/-- `cArgSpec::SetFlag(flag)`. -/
def Internal.SetFlag (self : Internal) (flag : Nat) : Internal :=
  { self with mFlags := setFlagBit self.mFlags flag }

/-- State after a matcher function returns: its return value, the tokens
left, the instance and the destinations. -/
structure PResult where
  error : tArgError
  argv : List CStr
  self : Internal
  mem : Mem

/-- The cases `kTypeBool` .. `kTypeString` and the enum case under `default`
of the `switch` statements of `ParseArgument` and `ParseArrayArgument`: the
converter that the case applies to `*argv++`. `none` when `type` is none of
these types (the vector cases and the final `kArgErrorBadSpec` are with the
callers). -/
def converterFor (libc : Libc) (mEnumSpecs : List cEnumSpec) (type : Nat) :
    Option (CStr → Converted Scalar) :=
  if type = kTypeBool then some (fun arg => (Parse_bool libc arg).map Scalar.bool)
  else if type = kTypeInt then some (fun arg => (Parse_int libc arg).map Scalar.int)
  else if type = kTypeFloat then some (fun arg => (Parse_float libc arg).map Scalar.float)
  else if type = kTypeDouble then some (fun arg => (Parse_float libc arg).map Scalar.double)
  else if type = kTypeCString then some (fun arg => (Parse_string arg).map Scalar.cstr)
  else if type = kTypeString then some (fun arg => (Parse_string arg).map Scalar.str)
  else if type ≥ kTypeEnumBegin ∧ type - kTypeEnumBegin < mEnumSpecs.length then
    match mEnumSpecs[type - kTypeEnumBegin]? with
    | some enumSpec => some (fun arg => (Parse_enum enumSpec arg).map Scalar.int)
    | none => none
  else none

/-- The text of `*errorString` after a converter call. -/
def errorStringAfter {α : Type} (c : Converted α) (errorString : CStr) : CStr :=
  c.errorString.getD errorString

/-- The common tail of the templates `Parse(vector<T>* location, ...)`:
return the error, or push the converted value. -/
def pushConverted (c : Converted Scalar) (info : cArgInfo)
    (rest : List CStr) (self : Internal) (m : Mem) : PResult :=
  let self1 : Internal := { self with mErrorString := errorStringAfter c self.mErrorString }
  if c.error ≠ kArgNoError then ⟨c.error, rest, self1, m⟩
  else
    match c.result with
    | some v => ⟨c.error, rest, self1, push_back info.mLocation v m⟩
    | none => ⟨c.error, rest, self1, m⟩

/-- The template `Parse(vector<T>* location, const char**& argv, ...)` for
`T` one of `Vec2`, `Vec3`, `Vec4`: the local `T result` is cell 0 onwards of
a scratch frame. -/
def pushVec (libc : Libc) (n : Nat) (info : cArgInfo) (argv : List CStr)
    (self : Internal) (m : Mem) : PResult :=
  let scratch : Mem := fun _ => Value.scalar (Scalar.float 0)
  let r := Parse_vec libc n 0 argv scratch self.mErrorString
  if r.error ≠ kArgNoError then
    ⟨r.error, r.argv, { self with mErrorString := r.errorString }, m⟩
  else
    ⟨r.error, r.argv, { self with mErrorString := r.errorString },
      push_back info.mLocation (Scalar.fvec ((List.range n).map (floatAt r.mem))) m⟩

/-- `cArgSpec::Internal::ParseArrayArgument`. Reading `*argv` when no token is
left is a fault. -/
def ParseArrayArgument (libc : Libc) (self : Internal) (m : Mem) (info : cArgInfo)
    (argv : List CStr) : Run PResult :=
  let type := info.mType &&& kTypeBaseMask
  if type = kTypeVec2 then Run.ret (pushVec libc 2 info argv self m)
  else if type = kTypeVec3 then Run.ret (pushVec libc 3 info argv self m)
  else if type = kTypeVec4 then Run.ret (pushVec libc 4 info argv self m)
  else
    match converterFor libc self.mEnumSpecs type with
    | some convert =>
      match argv with
      | [] => Run.fault
      | arg :: rest => Run.ret (pushConverted (convert arg) info rest self m)
    | none =>
      let msg := Sprintf ("Unknown array argument type ".toList ++ fmtInt type)
      Run.ret ⟨kArgErrorBadSpec, argv, { self with mErrorString := msg }, m⟩

/-- The `do ... while (argv < argvEnd)` loop of the ListArray branch of
`ParseArgument`. -/
def ListArrayLoop (libc : Libc) (info : cArgInfo) :
    Nat → Internal → Mem → List CStr → Run PResult
  | 0, _, _, _ => Run.outOfFuel
  | fuel + 1, self, m, argv =>
    match argv with
    | [] => Run.fault
    | tok :: _ =>
      if IsOption tok then Run.ret ⟨kArgNoError, argv, self, m⟩
      else
        match ParseArrayArgument libc self m info argv with
        | Run.ret r =>
          if r.error ≠ kArgNoError then Run.ret r
          else if r.argv ≠ [] then ListArrayLoop libc info fuel r.self r.mem r.argv
          else Run.ret ⟨kArgNoError, r.argv, r.self, r.mem⟩
        | Run.outOfFuel => Run.outOfFuel
        | Run.fault => Run.fault

/-- The `while (aargv < aargvEnd)` loop of the SplitArray branch of
`ParseArgument`; `aargv` are the pieces not yet consumed. Returns the error
class, the instance and the destinations. -/
def SplitArrayLoop (libc : Libc) (info : cArgInfo) :
    Nat → Internal → Mem → List CStr → Run (tArgError × Internal × Mem)
  | _, self, m, [] => Run.ret (kArgNoError, self, m)
  | 0, _, _, _ :: _ => Run.outOfFuel
  | fuel + 1, self, m, piece :: pieces =>
    match ParseArrayArgument libc self m info (piece :: pieces) with
    | Run.ret r =>
      if r.error ≠ kArgNoError then Run.ret (r.error, r.self, r.mem)
      else SplitArrayLoop libc info fuel r.self r.mem r.argv
    | Run.outOfFuel => Run.outOfFuel
    | Run.fault => Run.fault

/-- `static_cast<vector<int>*>(info.mLocation)->clear()` on the destination
sequence of a slot of type `mType`. The destination of a `bool` slot is a
`vector<bool>`, the bit-packed specialisation, which has another layout than
`vector<int>`: the call made through `vector<int>*` does not empty it, and its
elements stay as they were. A destination sequence of any other element type
is emptied. -/
def clear (mType : Nat) (p : Nat) (m : Mem) : Mem :=
  if mType &&& kTypeBaseMask = kTypeBool then m else m.write p (Value.vector [])

/-- A scalar or enum case of the `switch` of `ParseArgument`: the result of
the converter goes through `info.mLocation`. -/
def storeConverted (c : Converted Scalar) (info : cArgInfo)
    (rest : List CStr) (self : Internal) (m : Mem) : PResult :=
  ⟨c.error, rest, { self with mErrorString := errorStringAfter c self.mErrorString },
    assign info.mLocation c.result m⟩

/-- The vector case of the `switch` of `ParseArgument`,
`AS::Parse(2 + info.mType - kTypeVec2, static_cast<float*>(info.mLocation), ...)`.
With a null `mLocation` the first component is skipped by the converter's own
null test and every later write is a fault. -/
def storeVec (libc : Libc) (n : Nat) (info : cArgInfo) (argv : List CStr)
    (self : Internal) (m : Mem) : Run PResult :=
  match info.mLocation with
  | some v =>
    let r := Parse_vec libc n v argv m self.mErrorString
    Run.ret ⟨r.error, r.argv, { self with mErrorString := r.errorString }, r.mem⟩
  | none =>
    match argv with
    | [] => Run.fault
    | tok :: rest =>
      if IsOption tok then Run.fault
      else
        let c := Parse_float libc tok
        if c.error ≠ kArgNoError then
          Run.ret ⟨c.error, rest,
            { self with mErrorString := errorStringAfter c self.mErrorString }, m⟩
        else Run.fault

/-- `cArgSpec::Internal::ParseArgument`. -/
def ParseArgument (libc : Libc) (fuel : Nat) (self0 : Internal) (m : Mem)
    (info : cArgInfo) (argv : List CStr) : Run PResult :=
  let self : Internal := self0.markFlag info.mFlagToSet
  if info.mType &&& kTypeArrayListFlag ≠ 0 then
    match info.mLocation with
    | none => Run.fault
    | some p => ListArrayLoop libc info fuel self (clear info.mType p m) argv
  else if info.mType &&& kTypeArraySplitFlag ≠ 0 then
    match argv with
    | [] => Run.fault
    | arg :: rest =>
      let arrayArgs := Split arg
      let m1 : Mem := match info.mLocation with
        | some p => clear info.mType p m
        | none => m
      match SplitArrayLoop libc info fuel self m1 arrayArgs with
      | Run.ret r => Run.ret ⟨r.1, rest, r.2.1, r.2.2⟩
      | Run.outOfFuel => Run.outOfFuel
      | Run.fault => Run.fault
  else if info.mType = kTypeVec2 ∨ info.mType = kTypeVec3 ∨ info.mType = kTypeVec4 then
    storeVec libc (2 + info.mType - kTypeVec2) info argv self m
  else
    match converterFor libc self.mEnumSpecs info.mType with
    | some convert =>
      match argv with
      | [] => Run.fault
      | arg :: rest => Run.ret (storeConverted (convert arg) info rest self m)
    | none =>
      let msg := Sprintf ("Unknown arg type ".toList ++ fmtInt info.mType)
      Run.ret ⟨kArgErrorBadSpec, argv, { self with mErrorString := msg }, m⟩

/-- The `do i++; while (i < n && args[i].mIsRequired);` count of the
"not enough arguments" reports: `args` are the slots from index `numHave` on,
the result is `i - numHave`. -/
def numNeeded : List cArgInfo → Nat
  | [] => 0
  | _ :: rest => 1 + (rest.takeWhile (fun a => a.mIsRequired)).length

/-- `cArgSpec::Internal::ParseOptionArgs`; `optArgs` are the slots from
index `i` on. -/
def ParseOptionArgs (libc : Libc) (fuel : Nat) :
    List cArgInfo → Internal → Mem → List CStr → Run PResult
  | [], self, m, argv => Run.ret ⟨kArgNoError, argv, self, m⟩
  | info :: later, self, m, argv =>
    let stop : Bool := match argv with
      | [] => true
      | tok :: _ => IsOption tok
    if stop then
      if info.mIsRequired then
        let msg := Sprintf ("Not enough arguments: expecting at least ".toList
          ++ fmtSize (numNeeded (info :: later)) ++ " more".toList)
        Run.ret ⟨kArgErrorNotEnoughArgs, argv, { self with mErrorString := msg }, m⟩
      else Run.ret ⟨kArgNoError, argv, self, m⟩
    else
      match ParseArgument libc fuel self m info argv with
      | Run.ret r =>
        if r.error ≠ kArgNoError then Run.ret r
        else ParseOptionArgs libc fuel later r.self r.mem r.argv
      | Run.outOfFuel => Run.outOfFuel
      | Run.fault => Run.fault

/-! ## Help text (the plain-text form, `kHelpFull`, which is what `Parse` asks for) -/

/-- `cArgSpec::Internal::NameFromArgType`. -/
def NameFromArgType (self : Internal) (argType : Nat) : CStr :=
  let baseArgType := argType &&& kTypeBaseMask
  let sResult : CStr :=
    if baseArgType = kTypeBool then "bool".toList
    else if baseArgType = kTypeInt then "int".toList
    else if baseArgType = kTypeFloat then "float".toList
    else if baseArgType = kTypeDouble then "double".toList
    else if baseArgType = kTypeCString ∨ baseArgType = kTypeString then "string".toList
    else if baseArgType = kTypeVec2 then "vec2".toList
    else if baseArgType = kTypeVec3 then "vec3".toList
    else if baseArgType = kTypeVec4 then "vec4".toList
    else if baseArgType = kTypeInvalid then "invalid".toList
    else if baseArgType ≥ kTypeEnumBegin ∧ baseArgType < kTypeEnumEnd then
      match self.mEnumSpecs[baseArgType - kTypeEnumBegin]? with
      | some e => e.mName
      | none => "unknown".toList
    else "unknown".toList
  if argType &&& kTypeArraySplitFlag ≠ 0 then sResult ++ "[]".toList else sResult

/-- The `for` loop of `AddArgDocs` for plain text; `first` is `i == 0`.
Returns the string and `numClauses`. -/
def AddArgDocsLoop (self : Internal) : List cArgInfo → Bool → CStr → Nat → CStr × Nat
  | [], _, helpString, numClauses => (helpString, numClauses)
  | ai :: rest, first, helpString, numClauses =>
    let h1 := if first then helpString else helpString ++ " ".toList
    let h2 := if ai.mIsRequired then h1 else h1 ++ [kOpenBracketChar]
    let numClauses1 := if ai.mIsRequired then numClauses else numClauses + 1
    let h3 := h2 ++ "<".toList
    let h4 := if ai.mName.isEmpty then h3 else SprintfAppend h3 (ai.mName ++ ":".toList)
    let h5 := SprintfAppend h4 (NameFromArgType self ai.mType)
    let h6 := h5 ++ ">".toList
    let h7 := if ai.mType &&& kTypeArrayListFlag ≠ 0 then h6 ++ " ".toList ++ kEllipsisToken
      else h6
    AddArgDocsLoop self rest false h7 numClauses1

/-- `cArgSpec::Internal::AddArgDocs` for plain text. -/
def AddArgDocs (self : Internal) (helpString : CStr) (args : List cArgInfo) : CStr :=
  let r := AddArgDocsLoop self args true helpString 0
  r.1 ++ List.replicate r.2 kCloseBracketChar ++ "\n".toList

/-- The lines of a doc string: the pieces between line feeds. -/
def docLines : CStr → CStr → List CStr
  | [], cur => [cur]
  | c :: cs, cur => if c = '\n' then cur :: docLines cs [] else docLines cs (cur ++ [c])

/-- `AddDocString(helpString, leader, docString)`. -/
def AddDocString (helpString : CStr) (leader : CStr) (docString : CStr) : CStr :=
  (docLines docString []).foldl
    (fun h line => SprintfAppend h (leader ++ line ++ "\n".toList)) helpString

/-- `AddEnumDocs(helpString, leader, enumSpecs, helpType)` for plain text. -/
def AddEnumDocs (helpString : CStr) (leader : CStr) (enumSpecs : List cEnumSpec) : CStr :=
  enumSpecs.foldl
    (fun h e =>
      e.mEnumInfo.foldl
        (fun h1 argEnum => SprintfAppend h1 (leader ++ "   ".toList ++ argEnum.mToken ++ "\n".toList))
        (SprintfAppend h ("\n".toList ++ leader ++ e.mName ++ ":\n".toList)))
    helpString

/-- `cArgSpec::Internal::CreateHelpString(commandName, helpString, kHelpFull)`:
the text is appended to `helpString`. -/
def CreateHelpString (self : Internal) (commandName : CStr) (helpString : CStr) : CStr :=
  let h1 := SprintfAppend helpString
    (self.mCommandDescription ++ "\n\nUsage:\n    ".toList ++ commandName ++ " ".toList)
  let h2 := if self.mOptions.isEmpty then h1 else h1 ++ "[options] ".toList
  let h3 := AddArgDocs self h2 self.mMainArgs.mArguments
  let h4 := AddDocString h3 "        ".toList self.mMainArgs.mDescription
  let h5 :=
    if self.mOptions.isEmpty then h4
    else
      self.mOptions.foldl
        (fun h o =>
          AddDocString
            (AddArgDocs self (SprintfAppend h ("    -".toList ++ o.mName ++ " ".toList))
              o.mArguments)
            "        ".toList o.mDescription)
        (SprintfAppend h4 "\nOptions:\n".toList)
  if self.mEnumSpecs.isEmpty then h5
  else AddEnumDocs (SprintfAppend h5 "\nTypes:".toList) "    ".toList self.mEnumSpecs

/-! ## The matcher's entry points -/

/-- The `for` loop of `ParseOption` over `mOptions` (the options from index
`i` on), with what follows it. -/
def ParseOptionLoop (libc : Libc) (fuel : Nat) (optionName : CStr) :
    List cOptionsSpec → Internal → Mem → List CStr → Run PResult
  | [], self, m, argv =>
    if self.mHelpRequested then Run.ret ⟨kArgHelpRequested, argv, self, m⟩
    else
      let msg := Sprintf ("Unknown option '".toList ++ optionName ++ "'".toList)
      Run.ret ⟨kArgErrorUnknownOption, argv, { self with mErrorString := msg }, m⟩
  | opt :: later, self0, m, argv =>
    let self : Internal :=
      if StrEq optionName "h".toList then { self0 with mHelpRequested := true } else self0
    if StrEq opt.mName optionName then
      let self1 : Internal := self.markFlag opt.mFlagToSet
      match ParseOptionArgs libc fuel opt.mArguments self1 m argv with
      | Run.ret r =>
        if r.error ≠ kArgNoError then
          let msg := r.self.mErrorString ++ " in -".toList ++ optionName
          Run.ret ⟨r.error, r.argv, { r.self with mErrorString := msg }, r.mem⟩
        else Run.ret r
      | Run.outOfFuel => Run.outOfFuel
      | Run.fault => Run.fault
    else ParseOptionLoop libc fuel optionName later self m argv

/-- `cArgSpec::Internal::ParseOption`. -/
def ParseOption (libc : Libc) (fuel : Nat) (self : Internal) (m : Mem)
    (argv : List CStr) : Run PResult :=
  match argv with
  | [] => Run.fault
  | arg :: rest =>
    let optionName := arg.drop 1
    if optionName.head? = some kOptionChar then
      if optionName.drop 1 = [] then Run.ret ⟨kArgNoError, rest, self, m⟩
      else ParseOptionLoop libc fuel (optionName.drop 1) self.mOptions self m rest
    else ParseOptionLoop libc fuel optionName self.mOptions self m rest

/-- The `while (argv < argvEnd)` loop of `Parse` and the check after it;
`mainArgs` are the main slots from index `i` on and `n` is their total
number. -/
def ParseLoop (libc : Libc) (commandName : CStr) (n : Nat) :
    Nat → List cArgInfo → Internal → Mem → List CStr → Run PResult
  | _, mainArgs, self, m, [] =>
    match mainArgs with
    | info :: _ =>
      if self.mHelpRequested = false ∧ info.mIsRequired then
        let msg := Sprintf ("Not enough main arguments: expecting at least ".toList
          ++ fmtSize (numNeeded mainArgs) ++ " more".toList)
        Run.ret ⟨kArgErrorNotEnoughArgs, [], { self with mErrorString := msg }, m⟩
      else Run.ret ⟨kArgNoError, [], self, m⟩
    | [] => Run.ret ⟨kArgNoError, [], self, m⟩
  | 0, _, _, _, _ :: _ => Run.outOfFuel
  | fuel + 1, mainArgs, self, m, tok :: rest =>
    let argv := tok :: rest
    if IsOption tok then
      match ParseOption libc fuel self m argv with
      | Run.ret r =>
        if r.error ≠ kArgNoError then
          if r.error = kArgHelpRequested then
            let msg := CreateHelpString r.self commandName r.self.mErrorString
            Run.ret ⟨r.error, r.argv, { r.self with mErrorString := msg }, r.mem⟩
          else Run.ret r
        else ParseLoop libc commandName n fuel mainArgs r.self r.mem r.argv
      | Run.outOfFuel => Run.outOfFuel
      | Run.fault => Run.fault
    else
      match mainArgs with
      | info :: later =>
        match ParseArgument libc fuel self m info argv with
        | Run.ret r =>
          if r.error ≠ kArgNoError then Run.ret r
          else ParseLoop libc commandName n fuel later r.self r.mem r.argv
        | Run.outOfFuel => Run.outOfFuel
        | Run.fault => Run.fault
      | [] =>
        let msg := Sprintf ("Too many main arguments (expecting at most ".toList
          ++ fmtSize n ++ ")\n".toList)
        Run.ret ⟨kArgErrorTooManyArgs, argv, { self with mErrorString := msg }, m⟩

/-- `cArgSpec::Internal::Parse(argc, argv)` with `argv[0] = commandName` and
`args` the `argc - 1` tokens after it. -/
def Parse (libc : Libc) (fuel : Nat) (self : Internal) (m : Mem)
    (commandName : CStr) (args : List CStr) : Run PResult :=
  if args = [] ∧ self.mMainArgs.mArguments ≠ [] then
    Run.ret ⟨kArgHelpRequested, args,
      { self with mErrorString := CreateHelpString self commandName self.mErrorString }, m⟩
  else
    ParseLoop libc commandName self.mMainArgs.mArguments.length fuel
      self.mMainArgs.mArguments { self with mFlags := 0, mErrorString := [] } m args

/-! ## The spec compiler -/

/-- The loop over `mEnumSpecs` that ends `ArgTypeFromName`, with `i` the
index of the first entry of its list. -/
def ArgTypeFromEnums (typeName : CStr) (arrayFlag : Nat) : List cEnumSpec → Nat → Nat
  | [], _ => kTypeInvalid
  | e :: rest, i =>
    if StrEq e.mName typeName then ((kTypeEnumBegin + i) % 65536) ||| arrayFlag
    else ArgTypeFromEnums typeName arrayFlag rest (i + 1)

/-- The test `typeLen > 2 && typeName[typeLen - 2] == '[' &&
typeName[typeLen - 1] == ']'` of `ArgTypeFromName`. -/
def hasArraySuffix (typeName : CStr) : Bool :=
  decide (typeName.length > 2) && typeName[typeName.length - 2]? == some '['
    && typeName[typeName.length - 1]? == some ']'

/-- The comparisons of `ArgTypeFromName` with the built-in type names, in
the order of the source; `none` when none of them matches. -/
def builtinTypeFromName (typeName : CStr) (typeLen : Nat) : Option Nat :=
  if StrEqN typeName "bool".toList typeLen then some kTypeBool
  else if StrEqN typeName "int".toList typeLen then some kTypeInt
  else if StrEqN typeName "float".toList typeLen then some kTypeFloat
  else if StrEqN typeName "double".toList typeLen then some kTypeDouble
  else if StrEqN typeName "string".toList typeLen then some kTypeString
  else if StrEqN typeName "cstr".toList typeLen || StrEqN typeName "cstring".toList typeLen then
    some kTypeCString
  else if typeName.head? = some 'v' ∧ (StrEqN typeName "v2".toList typeLen
      || StrEqN typeName "vec2".toList typeLen || StrEqN typeName "vector2".toList typeLen) then
    some kTypeVec2
  else if typeName.head? = some 'v' ∧ (StrEqN typeName "v3".toList typeLen
      || StrEqN typeName "vec3".toList typeLen || StrEqN typeName "vector3".toList typeLen) then
    some kTypeVec3
  else if typeName.head? = some 'v' ∧ (StrEqN typeName "v4".toList typeLen
      || StrEqN typeName "vec4".toList typeLen || StrEqN typeName "vector4".toList typeLen) then
    some kTypeVec4
  else none

/-- `cArgSpec::Internal::ArgTypeFromName`. -/
def ArgTypeFromName (self : Internal) (typeName : CStr) : Nat :=
  let arrayFlag : Nat := if hasArraySuffix typeName then kTypeArraySplitFlag else 0
  let typeLen : Nat :=
    if hasArraySuffix typeName then typeName.length - 2 else typeName.length
  match builtinTypeFromName typeName typeLen with
  | some type => type ||| arrayFlag
  | none => ArgTypeFromEnums typeName arrayFlag self.mEnumSpecs 0

/-- `cArgSpec::Internal::FindNameAndTypeFromOption`: returns `(*type, *name)`. -/
def FindNameAndTypeFromOption (self : Internal) (str : CStr) : Nat × CStr :=
  if str = [] then (kTypeInvalid, [])
  else if str.length > 1 ∧ str.head? = some kFormatChar then
    match str[1]? with
    | some 'f' => (kTypeFloat, [])
    | some 'g' => (kTypeFloat, [])
    | some 'F' => (kTypeDouble, [])
    | some 'G' => (kTypeDouble, [])
    | some 'd' => (kTypeInt, [])
    | some 'b' => (kTypeBool, [])
    | some 's' => (kTypeCString, [])
    | _ => (kTypeInvalid, [])
  else
    let typeStr : CStr :=
      if str.head? = some kBeginArgChar ∧ str.getLast? = some kEndArgChar then
        (str.dropLast).drop 1
      else str
    if typeStr.contains kArgSepChar then
      (ArgTypeFromName self ((typeStr.dropWhile (fun c => c != kArgSepChar)).drop 1),
        typeStr.takeWhile (fun c => c != kArgSepChar))
    else (ArgTypeFromName self typeStr, [])

/-- One variadic argument of `ConstructSpec`. -/
inductive VaArg
  | cstr (s : CStr)
  | null
  | ptr (p : Nat)
  | int (i : Int)
  | enumInfo (table : List cArgEnumInfo)
  deriving DecidableEq, Repr

/-- `va_arg(args, const char*)`; reading an argument of another kind, or past
the last argument, is a fault. -/
def va_cstr : List VaArg → Run (Option CStr × List VaArg)
  | VaArg.cstr s :: rest => Run.ret (some s, rest)
  | VaArg.null :: rest => Run.ret (none, rest)
  | _ => Run.fault

/-- `va_arg(args, void*)`. -/
def va_ptr : List VaArg → Run (Option Nat × List VaArg)
  | VaArg.ptr p :: rest => Run.ret (some p, rest)
  | VaArg.null :: rest => Run.ret (none, rest)
  | _ => Run.fault

/-- `va_arg(args, int)`. -/
def va_int : List VaArg → Run (Int × List VaArg)
  | VaArg.int i :: rest => Run.ret (i, rest)
  | _ => Run.fault

/-- The loop that reads the token/value pairs of an inline enum. -/
def InlineEnumLoop : List VaArg → List cArgEnumInfo → Run (List cArgEnumInfo × List VaArg)
  | VaArg.null :: rest, store => Run.ret (store, rest)
  | VaArg.cstr enumToken :: VaArg.int enumValue :: rest, store =>
    InlineEnumLoop rest (store ++ [⟨enumToken, enumValue⟩])
  | _, _ => Run.fault

/-- The variables of the token loop of `ConstructSpec`; `args` is
`*argsToAddTo` and `va` the variadic arguments not yet read. -/
structure LineState where
  options : CStr
  nextToken : CStr
  optionLevel : Int
  lastOptionLevel : Int
  args : List cArgInfo
  va : List VaArg
  err : tArgSpecError
  deriving DecidableEq, Repr

/-- How one turn of the token loop ends: with `continue` or at the bottom of
the body (`next`), or with a `return` of the whole function (`returns`). -/
inductive TokenStepResult
  | next (st : LineState)
  | returns (e : tArgSpecError) (st : LineState)
  deriving DecidableEq, Repr

/-- The body of the loop `while (!nextToken.empty())` of `ConstructSpec`.
Reading the last character of a token that is empty once its brackets are
stripped is a fault. -/
def TokenStep (self : Internal) (st : LineState) : Run TokenStepResult :=
  let opens : Bool := st.nextToken.head? == some kOpenBracketChar
  let level1 : Int := if opens then st.optionLevel + 1 else st.optionLevel
  let tok1 : CStr := if opens then st.nextToken.drop 1 else st.nextToken
  let mIsRequired : Bool := level1 == st.lastOptionLevel
  let closes : Nat := (tok1.reverse.takeWhile (fun c => c == kCloseBracketChar)).length
  let level2 : Int := level1 - closes
  let tok2 : CStr := (tok1.reverse.dropWhile (fun c => c == kCloseBracketChar)).reverse
  if StrEq tok2 kEllipsisToken then
    if st.options ≠ [] then
      Run.ret (TokenStepResult.returns kSpecEllipsisError
        { st with optionLevel := level2, nextToken := tok2 })
    else
      match st.args.getLast? with
      | none =>
        Run.ret (TokenStepResult.returns kSpecEllipsisError
          { st with optionLevel := level2, nextToken := tok2 })
      | some back =>
        Run.ret (TokenStepResult.next
          { st with
            optionLevel := level2
            args := st.args.dropLast ++ [{ back with mType := back.mType ||| kTypeArrayListFlag }]
            nextToken := (NextToken st.options).1
            options := (NextToken st.options).2 })
  else
    match va_ptr st.va, tok2.getLast? with
    | Run.ret (mLocation, va1), some last =>
      let tok3 : CStr := if last = kSetFlagChar then tok2.dropLast else tok2
      let flag : Run (Int × List VaArg) :=
        if last = kSetFlagChar then va_int va1 else Run.ret (-1, va1)
      match flag with
      | Run.ret (mFlagToSet, va2) =>
        let nt := FindNameAndTypeFromOption self tok3
        Run.ret (TokenStepResult.next
          { options := (NextToken st.options).2
            nextToken := (NextToken st.options).1
            optionLevel := level2
            lastOptionLevel := level2
            args := st.args ++ [⟨nt.1, nt.2, mLocation, mIsRequired, mFlagToSet⟩]
            va := va2
            err := if nt.1 = kTypeInvalid then kSpecUnknownType else st.err })
      | Run.outOfFuel => Run.outOfFuel
      | Run.fault => Run.fault
    | Run.outOfFuel, _ => Run.outOfFuel
    | _, _ => Run.fault

/-- The loop `while (!nextToken.empty())` of `ConstructSpec`. The first
component of the result is the value of a `return` executed inside the loop. -/
def TokenLoop (self : Internal) : Nat → LineState → Run (Option tArgSpecError × LineState)
  | 0, st => if st.nextToken = [] then Run.ret (none, st) else Run.outOfFuel
  | fuel + 1, st =>
    if st.nextToken = [] then Run.ret (none, st)
    else
      match TokenStep self st with
      | Run.ret (TokenStepResult.next st1) => TokenLoop self fuel st1
      | Run.ret (TokenStepResult.returns e st1) => Run.ret (some e, st1)
      | Run.outOfFuel => Run.outOfFuel
      | Run.fault => Run.fault

/-- What the head of a grammar line settles: whether the line declares an
option, the option's name and flag, and the variables the token loop starts
from. -/
structure LineHead where
  isOption : Bool
  mName : CStr
  mFlagToSet : Int
  start : LineState
  deriving DecidableEq, Repr

/-- The part of the body of the outer loop of `ConstructSpec` from
`nextToken = NextToken(options)` to the token loop. -/
def LineBegin (self : Internal) (optionCStr : CStr) (va : List VaArg)
    (err : tArgSpecError) : Run LineHead :=
  let first := NextToken optionCStr
  let isOption := IsOption first.1
  let setsFlag : Bool := isOption && first.1.getLast? == some kSetFlagChar
  let flag : Run (Int × List VaArg) :=
    if setsFlag then va_int va else Run.ret (-1, va)
  match flag with
  | Run.ret (mFlagToSet, va1) =>
    let optionToken : CStr := if setsFlag then first.1.dropLast else first.1
    if isOption then
      Run.ret ⟨true, optionToken.drop 1, mFlagToSet,
        { options := (NextToken first.2).2, nextToken := (NextToken first.2).1,
          optionLevel := 0, lastOptionLevel := 0, args := [], va := va1, err := err }⟩
    else
      Run.ret ⟨false, [], mFlagToSet,
        { options := first.2, nextToken := first.1,
          optionLevel := 0, lastOptionLevel := 0, args := self.mMainArgs.mArguments,
          va := va1, err := err }⟩
  | Run.outOfFuel => Run.outOfFuel
  | Run.fault => Run.fault

/-- The part of the body of the outer loop of `ConstructSpec` after the token
loop. The first component of the result tells whether the outer loop goes on
(`true`) or the function returns (`false`); then the error so far, the
instance and the variadic arguments left. A null description is a fault. -/
def LineEnd (self : Internal) (head : LineHead) (returned : Option tArgSpecError)
    (st : LineState) : Run (Bool × tArgSpecError × Internal × List VaArg) :=
  let self1 : Internal :=
    if head.isOption then self
    else { self with mMainArgs := { self.mMainArgs with mArguments := st.args } }
  match returned with
  | some e => Run.ret (false, e, self1, st.va)
  | none =>
    if st.optionLevel ≠ 0 then Run.ret (false, kSpecUnbalancedBrackets, self1, st.va)
    else
      match va_cstr st.va with
      | Run.ret (some docString, va2) =>
        if head.isOption then
          let newOption : cOptionsSpec :=
            { mArguments := st.args, mDescription := docString,
              mName := head.mName, mFlagToSet := head.mFlagToSet }
          Run.ret (true, st.err, { self1 with mOptions := self1.mOptions ++ [newOption] }, va2)
        else
          let main : cArgsSpec :=
            { self1.mMainArgs with
              mDescription := self1.mMainArgs.mDescription ++ docString }
          Run.ret (true, st.err, { self1 with mMainArgs := main }, va2)
      | Run.outOfFuel => Run.outOfFuel
      | _ => Run.fault

/-- One grammar line of `ConstructSpec`: a clause that is not an enum
declaration. -/
def ConstructLine (fuel : Nat) (self : Internal) (optionCStr : CStr) (va : List VaArg)
    (err : tArgSpecError) : Run (Bool × tArgSpecError × Internal × List VaArg) :=
  match LineBegin self optionCStr va err with
  | Run.ret head =>
    match TokenLoop self fuel head.start with
    | Run.ret (returned, st) => LineEnd self head returned st
    | Run.outOfFuel => Run.outOfFuel
    | Run.fault => Run.fault
  | Run.outOfFuel => Run.outOfFuel
  | Run.fault => Run.fault

/-- The outer loop `while (true)` of `ConstructSpec`. -/
def ClauseLoop : Nat → Internal → List VaArg → tArgSpecError → Run (tArgSpecError × Internal)
  | 0, _, _, _ => Run.outOfFuel
  | fuel + 1, self, va, err =>
    match va_cstr va with
    | Run.ret (none, _) => Run.ret (err, self)
    | Run.ret (some optionCStr, va1) =>
      if optionCStr.head? = some kEnumSpecChar then
        match va1 with
        | VaArg.enumInfo table :: va2 =>
          ClauseLoop fuel
            { self with mEnumSpecs := self.mEnumSpecs ++ [⟨optionCStr.drop 1, table⟩] } va2 err
        | _ => Run.fault
      else if optionCStr.head? = some kEnumSpecInlineChar then
        match InlineEnumLoop va1 [] with
        | Run.ret (store, va2) =>
          ClauseLoop fuel
            { self with mEnumSpecs := self.mEnumSpecs ++ [⟨optionCStr.drop 1, store⟩] } va2 err
        | Run.outOfFuel => Run.outOfFuel
        | Run.fault => Run.fault
      else
        match ConstructLine fuel self optionCStr va1 err with
        | Run.ret (true, err1, self1, va2) => ClauseLoop fuel self1 va2 err1
        | Run.ret (false, err1, self1, _) => Run.ret (err1, self1)
        | Run.outOfFuel => Run.outOfFuel
        | Run.fault => Run.fault
    | Run.outOfFuel => Run.outOfFuel
    | Run.fault => Run.fault

/-- `cArgSpec::Internal::ConstructSpec(description, args)`; `args` are the
variadic arguments, the terminating null included. -/
def ConstructSpec (fuel : Nat) (self : Internal) (description : CStr) (args : List VaArg) :
    Run (tArgSpecError × Internal) :=
  ClauseLoop fuel
    { self with
      mCommandDescription := description
      mMainArgs := ⟨[], []⟩
      mOptions := []
      mEnumSpecs := []
      mErrorString := [] }
    args kSpecNoError

/-! ## Vocabulary of the statements -/

/-- A slot that is neither a vector slot nor an array slot. -/
def isScalarSlot (info : cArgInfo) : Bool :=
  info.mType &&& kTypeArrayListFlag == 0 && info.mType &&& kTypeArraySplitFlag == 0
    && info.mType != kTypeVec2 && info.mType != kTypeVec3 && info.mType != kTypeVec4

/-- The token converts without error in the slot: the slot's type has a
converter and the converter returns `kArgNoError` on the token. -/
def convertsIn (libc : Libc) (mEnumSpecs : List cEnumSpec) (info : cArgInfo) (tok : CStr) : Bool :=
  match converterFor libc mEnumSpecs info.mType with
  | some convert => (convert tok).error == kArgNoError
  | none => false

/-- A C library to run the examples with: `long` has 64 bits, and `strtof`
reads integers only, the value read standing for the `float`. -/
def exampleLibc : Libc :=
  ⟨64, by decide, fun s => ((strtol 64 s).1.toNat, (strtol 64 s).2)⟩

/-- Destinations before a parse, for the examples. -/
def exampleMem : Mem := fun _ => Value.scalar (Scalar.int 0)

/-- An instance whose main group is two required `int` slots. -/
def twoIntSpec : Internal :=
  { Internal.fresh with
    mMainArgs := ⟨[⟨kTypeInt, "a".toList, some 0, true, -1⟩,
                   ⟨kTypeInt, "b".toList, some 1, true, -1⟩], []⟩ }

/-- The variadic arguments of the `ConstructSpec` call that declares the main
line `<name:string> [<dst:cstr>^]` of `ArgSpecExample.cpp`: the line, the two
destinations, the flag index and the description, then the terminator. -/
def nameDstArgs (name dst : Nat) (flag : Int) (doc : CStr) : List VaArg :=
  [VaArg.cstr "<name:string> [<dst:cstr>^]".toList, VaArg.ptr name, VaArg.ptr dst,
    VaArg.int flag, VaArg.cstr doc, VaArg.null]

/-- The table that `ConstructSpec` compiles from `nameDstArgs`. -/
def nameDstSpec (old : Internal) (description : CStr) (name dst : Nat) (flag : Int)
    (doc : CStr) : Internal :=
  { old with
    mCommandDescription := description
    mMainArgs := ⟨[⟨kTypeString, "name".toList, some name, true, -1⟩,
                   ⟨kTypeCString, "dst".toList, some dst, false, flag⟩], doc⟩
    mOptions := []
    mEnumSpecs := []
    mErrorString := [] }

/-- A decimal digit. -/
def isDecimalDigit (c : Char) : Bool := '0' ≤ c && c ≤ '9'

/-- A decimal numeral without leading zero: a non-empty string of decimal
digits that does not start with `0`. -/
def isDecimalNumeral (d : CStr) : Bool :=
  d.all isDecimalDigit && d.head? != some '0' && !d.isEmpty

/-- The number a string of decimal digits denotes. -/
def decimalValue (d : CStr) : Nat :=
  Nat.ofDigits 10 (d.reverse.map (fun c => c.toNat - '0'.toNat))

/-- The table `colour = {red = 0, green = 1, blue = 2}`. -/
def colourEnum : cEnumSpec :=
  ⟨"colour".toList, [⟨"red".toList, 0⟩, ⟨"green".toList, 1⟩, ⟨"blue".toList, 2⟩]⟩

/-- An instance that declares the enum `colour` only. -/
def colourSpec : Internal := { Internal.fresh with mEnumSpecs := [colourEnum] }

/-- The tokens that the `n`-component vector converter takes from `argv`: the
tokens before the first option marker, and at most `n` of them. -/
def vecTaken (n : Nat) (argv : List CStr) : List CStr :=
  (argv.takeWhile (fun t => !IsOption t)).take n

/-- The memory after `v[0] = xs[0]; v[1] = xs[1]; ...`. -/
def storeFloats (v : Nat) : List CFloat → Mem → Mem
  | [], m => m
  | x :: xs, m => storeFloats (v + 1) xs (m.write v (Value.scalar (Scalar.float x)))

/-- The variadic arguments of a `ConstructSpec` call that declares the option
`-words <w:cstring> ...`, with `words` the address of the destination
sequence and `doc` the option's description. -/
def wordsArgs (words : Nat) (doc : CStr) : List VaArg :=
  [VaArg.cstr "-words <w:cstring> ...".toList, VaArg.ptr words, VaArg.cstr doc, VaArg.null]

/-- The single slot of `-words`: a list array of C strings stored at `words`. -/
def wordsSlot (words : Nat) : cArgInfo :=
  ⟨kTypeCString ||| kTypeArrayListFlag, "w".toList, some words, true, -1⟩

/-- The table that `ConstructSpec` compiles from `wordsArgs`. -/
def wordsSpec (old : Internal) (description : CStr) (words : Nat) (doc : CStr) : Internal :=
  { old with
    mCommandDescription := description
    mMainArgs := ⟨[], []⟩
    mOptions := [{ mArguments := [wordsSlot words], mDescription := doc,
                   mName := "words".toList, mFlagToSet := -1 }]
    mEnumSpecs := []
    mErrorString := [] }

/-- The pieces of a line in the spec's words: cut the line at every space and
tab, and drop the empty pieces. -/
def spacePieces (line : CStr) : List CStr :=
  (line.splitOnP (fun c => c == ' ' || c == '\t')).filter (fun x => !x.isEmpty)

/-- The slot `<counts:int[]>` stored at `p`. -/
def countsSlot (p : Nat) : cArgInfo :=
  ⟨kTypeInt ||| kTypeArraySplitFlag, "counts".toList, some p, true, -1⟩

/-- The slot `<flags:bool[]>` stored at `p`: its destination is a
`vector<bool>`. -/
def flagsSlot (p : Nat) : cArgInfo :=
  ⟨kTypeBool ||| kTypeArraySplitFlag, "flags".toList, some p, true, -1⟩

/-- Destinations before a parse in which the sequence at `p` holds `true`,
`true`. -/
def flagsMem (p : Nat) : Mem :=
  exampleMem.write p (Value.vector [Scalar.bool true, Scalar.bool true])

/-- The error of the first piece that fails conversion. -/
def firstFailure (convert : CStr → Converted Scalar) (pieces : List CStr) : tArgError :=
  match pieces.dropWhile (fun x => (convert x).error == kArgNoError) with
  | [] => kArgNoError
  | x :: _ => (convert x).error

/-- The values of the pieces ahead of the first one that fails conversion. -/
def convertedPrefix (convert : CStr → Converted Scalar) (pieces : List CStr) : List Scalar :=
  (pieces.takeWhile (fun x => (convert x).error == kArgNoError)).filterMap
    (fun x => (convert x).result)

/-- An instance whose main group is the single required slot `info`. -/
def oneSlotSpec (info : cArgInfo) : Internal :=
  { Internal.fresh with mMainArgs := ⟨[info], []⟩ }

/-- The instance once the loop of `ParseOption` has run its body at least
once for `optionName`: the reserved name `h` raises `mHelpRequested`. -/
def helpSeen (optionName : CStr) (self : Internal) : Internal :=
  if StrEq optionName "h".toList then { self with mHelpRequested := true } else self

/-- The instance `s1` is `s` up to the error message. -/
def sameButMessage (s s1 : Internal) : Prop :=
  s1 = { s with mErrorString := s1.mErrorString }

/-- An instance with three flag options, `-q` (flag 0), `-v` (flag 1) and
`-V` (flag 2), and no main slot. -/
def threeFlagsSpec : Internal :=
  { Internal.fresh with
    mOptions := [⟨⟨[], "Quiet".toList⟩, "q".toList, 0⟩, ⟨⟨[], "Verbose".toList⟩, "v".toList, 1⟩,
                 ⟨⟨[], "Very verbose".toList⟩, "V".toList, 2⟩] }

/-- The variadic arguments of a `ConstructSpec` call that declares the single
flag option `--long^` with flag index `flag`. -/
def longArgs (flag : Int) (doc : CStr) : List VaArg :=
  [VaArg.cstr "--long^".toList, VaArg.int flag, VaArg.cstr doc, VaArg.null]

/-- The table that `ConstructSpec` compiles from `longArgs`: the option's name
keeps the second dash. -/
def longSpec (old : Internal) (description : CStr) (flag : Int) (doc : CStr) : Internal :=
  { old with
    mCommandDescription := description
    mMainArgs := ⟨[], []⟩
    mOptions := [{ mArguments := [], mDescription := doc,
                   mName := "-long".toList, mFlagToSet := flag }]
    mEnumSpecs := []
    mErrorString := [] }

/-- The variadic arguments of a `ConstructSpec` call whose only line is the
main line `<pts:vec2[]>`, with `pts` the address of the destination
sequence. -/
def ptsArgs (pts : Nat) (doc : CStr) : List VaArg :=
  [VaArg.cstr "<pts:vec2[]>".toList, VaArg.ptr pts, VaArg.cstr doc, VaArg.null]

/-- The slot of `<pts:vec2[]>`: a split array of `Vec2` stored at `pts`. -/
def ptsSlot (pts : Nat) : cArgInfo :=
  ⟨kTypeVec2 ||| kTypeArraySplitFlag, "pts".toList, some pts, true, -1⟩

/-- The table that `ConstructSpec` compiles from `ptsArgs`. -/
def ptsSpec (old : Internal) (description : CStr) (pts : Nat) (doc : CStr) : Internal :=
  { old with
    mCommandDescription := description
    mMainArgs := ⟨[ptsSlot pts], doc⟩
    mOptions := []
    mEnumSpecs := []
    mErrorString := [] }

/-- The separators of the tokens of a grammar line: space, tab, line feed. -/
def isTokenSep (c : Char) : Bool := c == ' ' || c == '\t' || c == '\n'

/-- The tokens of a grammar line in the spec's words: cut the line at every
separator and drop the empty pieces. -/
def lineTokens (line : CStr) : List CStr :=
  (line.splitOnP isTokenSep).filter (fun x => !x.isEmpty)

/-- Whether a token of a grammar line has a leading `[`. -/
def opensBracket (tok : CStr) : Bool := tok.head? == some kOpenBracketChar

/-- The number of trailing `]` characters of a token. -/
def trailingCloses (tok : CStr) : Nat :=
  (tok.reverse.takeWhile (fun c => c == kCloseBracketChar)).length

/-- The bracket depth of a list of tokens in the spec's words: the number of
tokens with a leading `[` minus the total number of trailing `]` characters. -/
def bracketDepth (toks : List CStr) : Int :=
  ((toks.filter opensBracket).length : Int) - ((toks.map trailingCloses).sum : Nat)

/-- A token without its leading `[` and its trailing `]` characters, as the
token loop of `ConstructSpec` strips it. -/
def tokenCore (tok : CStr) : CStr :=
  let tok1 := if opensBracket tok then tok.drop 1 else tok
  (tok1.reverse.dropWhile (fun c => c == kCloseBracketChar)).reverse

/-- The tokens of the line that the token loop has still to read in state
`st`. -/
def pendingTokens (st : LineState) : List CStr :=
  if st.nextToken = [] then [] else st.nextToken :: lineTokens st.options

/-- The variadic arguments that the token loop reads for an argument token
with core `core`: the location, and the flag index when the core ends in
`^`. -/
def declVa (core : CStr) (loc : Option Nat) (flag : Int) : List VaArg :=
  (match loc with
    | some p => VaArg.ptr p
    | none => VaArg.null)
    :: (if core.getLast? = some kSetFlagChar then [VaArg.int flag] else [])

/-- The slot that the token loop appends for an argument token with core
`core`. -/
def declSlot (self : Internal) (core : CStr) (loc : Option Nat) (flag : Int)
    (required : Bool) : cArgInfo :=
  let tok3 : CStr := if core.getLast? = some kSetFlagChar then core.dropLast else core
  ⟨(FindNameAndTypeFromOption self tok3).1, (FindNameAndTypeFromOption self tok3).2, loc,
    required, if core.getLast? = some kSetFlagChar then flag else -1⟩

/-- The argument tokens of a grammar line: its tokens, without the first one
when that is an option marker (the option's name). -/
def argTokens (line : CStr) : List CStr :=
  match lineTokens line with
  | [] => []
  | t :: ts => if IsOption t then ts else t :: ts

/-- The instance as `ConstructSpec` resets it before its first clause. -/
def resetSpec (old : Internal) (description : CStr) : Internal :=
  { old with
    mCommandDescription := description
    mMainArgs := ⟨[], []⟩
    mOptions := []
    mEnumSpecs := []
    mErrorString := [] }

/-- A plain argument token: not empty, no leading `[`, no trailing `]`, and
not the ellipsis. -/
def isPlainToken (t : CStr) : Bool :=
  !t.isEmpty && t.head? != some kOpenBracketChar && t.getLast? != some kCloseBracketChar
    && !StrEq t kEllipsisToken

/-- A plain token `core` with a leading `[` when `opens` holds and with
`closes` trailing `]` characters. -/
def bracketed (opens : Bool) (core : CStr) (closes : Nat) : CStr :=
  (if opens then [kOpenBracketChar] else []) ++ core ++ List.replicate closes kCloseBracketChar

/-- The tokens `[b1 [b2 .. [bm]]..]`: each `bi` opens its own bracket and all
of them are closed after the last one. -/
def optionalSuffix (bs : List CStr) : List CStr :=
  match bs.getLast? with
  | none => []
  | some b => bs.dropLast.map (fun x => bracketed true x 0) ++ [bracketed true b bs.length]

/-- What a grammar line declares for one argument token: the token without
its brackets, and the location and flag index passed for it. -/
structure ArgDecl where
  core : CStr
  loc : Option Nat
  flag : Int
  deriving DecidableEq, Repr

/-- The variadic arguments that the token loop reads for a list of argument
tokens, in order. -/
def declVas : List ArgDecl → List VaArg
  | [] => []
  | d :: ds => declVa d.core d.loc d.flag ++ declVas ds

/-- The head of the main line `<a:int> [<b:int> [<c:int>]]` with the
locations 0, 1 and 2. -/
def suffixHead : LineHead :=
  ⟨false, [], -1,
    ⟨"[<b:int> [<c:int>]]".toList, "<a:int>".toList, 0, 0, [],
      [VaArg.ptr 0, VaArg.ptr 1, VaArg.ptr 2, VaArg.cstr "Numbers".toList, VaArg.null],
      kSpecNoError⟩⟩

/-- The variadic arguments of a `ConstructSpec` call whose only line is the
main line `[<a:int> <b:int>]`, with `a` and `b` the addresses of the
destinations. -/
def pairArgs (a b : Nat) (doc : CStr) : List VaArg :=
  [VaArg.cstr "[<a:int> <b:int>]".toList, VaArg.ptr a, VaArg.ptr b, VaArg.cstr doc, VaArg.null]

/-- The table that `ConstructSpec` compiles from `pairArgs`. -/
def pairSpec (old : Internal) (description : CStr) (a b : Nat) (doc : CStr) : Internal :=
  { old with
    mCommandDescription := description
    mMainArgs :=
      ⟨[⟨kTypeInt, "a".toList, some a, false, -1⟩, ⟨kTypeInt, "b".toList, some b, true, -1⟩], doc⟩
    mOptions := []
    mEnumSpecs := []
    mErrorString := [] }

/-- The variadic arguments of a `ConstructSpec` call whose only line is the
option `-scale %f [%f %f^]` of `ArgSpecExample.cpp`: the line, the three
destinations, the flag index and the description, then the terminator. -/
def scaleArgs (x y z : Nat) (flag : Int) (doc : CStr) : List VaArg :=
  [VaArg.cstr "-scale %f [%f %f^]".toList, VaArg.ptr x, VaArg.ptr y, VaArg.ptr z,
    VaArg.int flag, VaArg.cstr doc, VaArg.null]

/-- The slots of `-scale %f [%f %f^]`. -/
def scaleSlots (x y z : Nat) (flag : Int) : List cArgInfo :=
  [⟨kTypeFloat, [], some x, true, -1⟩, ⟨kTypeFloat, [], some y, false, -1⟩,
    ⟨kTypeFloat, [], some z, true, flag⟩]

/-- The table that `ConstructSpec` compiles from `scaleArgs`. -/
def scaleSpec (old : Internal) (description : CStr) (x y z : Nat) (flag : Int) (doc : CStr) :
    Internal :=
  { old with
    mCommandDescription := description
    mMainArgs := ⟨[], []⟩
    mOptions := [{ mArguments := scaleSlots x y z flag, mDescription := doc,
                   mName := "scale".toList, mFlagToSet := -1 }]
    mEnumSpecs := []
    mErrorString := [] }

/-- The variadic arguments of a `ConstructSpec` call whose only line is the
main line `<a:int> ... <b:int>`. -/
def midEllipsisArgs (a b : Nat) (doc : CStr) : List VaArg :=
  [VaArg.cstr "<a:int> ... <b:int>".toList, VaArg.ptr a, VaArg.ptr b, VaArg.cstr doc,
    VaArg.null]

/-- An argument token of a grammar line with what the caller passes for it:
the location and, for a token that ends in `^`, the flag index. -/
structure TokenDecl where
  tok : CStr
  loc : Option Nat
  flag : Int
  deriving DecidableEq, Repr

/-- An argument token: not empty once its leading `[` and trailing `]`
characters are stripped, and not the ellipsis. -/
def isArgToken (tok : CStr) : Bool :=
  !(tokenCore tok).isEmpty && !StrEq (tokenCore tok) kEllipsisToken

/-- The variadic arguments that the token loop reads for a list of argument
tokens, in order: one location for each token, followed by the flag index
when the token ends in `^`. -/
def tokenVas : List TokenDecl → List VaArg
  | [] => []
  | d :: ds => declVa (tokenCore d.tok) d.loc d.flag ++ tokenVas ds

/-- The slot that the token loop appends for a declared token. -/
def tokenSlot (self : Internal) (d : TokenDecl) (required : Bool) : cArgInfo :=
  declSlot self (tokenCore d.tok) d.loc d.flag required

/-- Whether the type name of a declared token is unrecognised: the slot
compiled for it has type `kTypeInvalid`. -/
def unknownType (self : Internal) (d : TokenDecl) : Bool :=
  (tokenSlot self d true).mType == kTypeInvalid

/-- The instance after a grammar line that compiled to `slots` with the
description `doc`: an option line adds an option, a main line extends the main
group and its description. -/
def withLine (self : Internal) (head : LineHead) (slots : List cArgInfo) (doc : CStr) :
    Internal :=
  if head.isOption then
    { self with
      mOptions := self.mOptions ++ [{ mArguments := slots, mDescription := doc,
                                      mName := head.mName, mFlagToSet := head.mFlagToSet }] }
  else
    { self with
      mMainArgs := ⟨self.mMainArgs.mArguments ++ slots, self.mMainArgs.mDescription ++ doc⟩ }

/-- The head of the main line `<a:foo> [<b:int>]` with the locations 0 and
1. -/
def fooHead : LineHead :=
  ⟨false, [], -1,
    ⟨"[<b:int>]".toList, "<a:foo>".toList, 0, 0, [],
      [VaArg.ptr 0, VaArg.ptr 1, VaArg.cstr "Two values".toList, VaArg.null], kSpecNoError⟩⟩

/-- The variadic arguments of a `ConstructSpec` call with two main lines:
`<x:foo>`, whose type name is unrecognised, and then `<a:int> [<b:int>`, whose
bracket is not closed. -/
def fooThenOpenArgs : List VaArg :=
  [VaArg.cstr "<x:foo>".toList, VaArg.ptr 0, VaArg.cstr "First".toList,
    VaArg.cstr "<a:int> [<b:int>".toList, VaArg.ptr 1, VaArg.ptr 2,
    VaArg.cstr "Second".toList, VaArg.null]

/-- The instance after the line `<x:foo>` of `fooThenOpenArgs`. -/
def fooSpec : Internal :=
  { resetSpec Internal.fresh "test".toList with
    mMainArgs := ⟨[⟨kTypeInvalid, "x".toList, some 0, true, -1⟩], "First".toList⟩ }

/-- The variadic arguments of a `ConstructSpec` call whose only line is the
main line `<x:int[]> ...`. -/
def bothArgs (x : Nat) (doc : CStr) : List VaArg :=
  [VaArg.cstr "<x:int[]> ...".toList, VaArg.ptr x, VaArg.cstr doc, VaArg.null]

/-- The table that `ConstructSpec` compiles from `bothArgs`. -/
def bothSpec (old : Internal) (description : CStr) (x : Nat) (doc : CStr) : Internal :=
  { resetSpec old description with
    mMainArgs :=
      ⟨[⟨kTypeInt ||| kTypeArraySplitFlag ||| kTypeArrayListFlag, "x".toList, some x, true,
          -1⟩], doc⟩ }

/-- The variadic arguments of a `ConstructSpec` call that declares the enum
`colour` and then the main line `<c:colour[]>`. -/
def colourArrayArgs : List VaArg :=
  [VaArg.cstr ":colour".toList, VaArg.enumInfo colourEnum.mEnumInfo,
    VaArg.cstr "<c:colour[]>".toList, VaArg.ptr 0, VaArg.cstr "Colours".toList, VaArg.null]

/-- Destinations that all hold the `float` with bit pattern 7 before a
parse. -/
def sevenMem : Mem := fun _ => Value.scalar (Scalar.float 7)

/-- What a matcher function consumed of `argv` when it leaves `left`: `argv`
is the tokens taken followed by `left`, and no token taken is an option
marker. -/
def takesValuesOnly (argv left : List CStr) : Prop :=
  ∃ taken, argv = taken ++ left ∧ ∀ t ∈ taken, IsOption t = false

/-- The variadic arguments of a `ConstructSpec` call whose only line is the
option `-v3 <vec3>` of `ArgSpecExample.cpp`, with `v` the address of the three
`float` components. -/
def v3Args (v : Nat) (doc : CStr) : List VaArg :=
  [VaArg.cstr "-v3 <vec3>".toList, VaArg.ptr v, VaArg.cstr doc, VaArg.null]

/-- The table that `ConstructSpec` compiles from `v3Args`. -/
def v3Spec (old : Internal) (description : CStr) (v : Nat) (doc : CStr) : Internal :=
  { old with
    mCommandDescription := description
    mMainArgs := ⟨[], []⟩
    mOptions := [{ mArguments := [⟨kTypeVec3, [], some v, true, -1⟩], mDescription := doc,
                   mName := "v3".toList, mFlagToSet := -1 }]
    mEnumSpecs := []
    mErrorString := [] }

/-- The variadic arguments of a `ConstructSpec` call with the main line
`<name:string>`, the inline enum `helpType` and the option
`-h^ [<helpType>]` of `ArgSpecExample.cpp`, with flag index 3. -/
def helpArgs : List VaArg :=
  [VaArg.cstr "<name:string>".toList, VaArg.ptr 0, VaArg.cstr "Name".toList,
    VaArg.cstr "=helpType".toList, VaArg.cstr "brief".toList, VaArg.int 0,
    VaArg.cstr "full".toList, VaArg.int 1, VaArg.null,
    VaArg.cstr "-h^ [<helpType>]".toList, VaArg.int 3, VaArg.ptr 1,
    VaArg.cstr "Show help".toList, VaArg.null]

/-- The table that `ConstructSpec` compiles from `helpArgs`. -/
def helpSpec : Internal :=
  { Internal.fresh with
    mCommandDescription := "test".toList
    mMainArgs := ⟨[⟨kTypeString, "name".toList, some 0, true, -1⟩], "Name".toList⟩
    mOptions := [{ mArguments := [⟨kTypeEnumBegin, [], some 1, false, -1⟩],
                   mDescription := "Show help".toList, mName := "h".toList, mFlagToSet := 3 }]
    mEnumSpecs := [⟨"helpType".toList, [⟨"brief".toList, 0⟩, ⟨"full".toList, 1⟩]⟩] }

/-- The table that `ConstructSpec` compiles from the single line `--name`
with description `doc`: one option without slots, stored under the name
`-name`. -/
def dashedSpec (old : Internal) (description name doc : CStr) : Internal :=
  { old with
    mCommandDescription := description
    mMainArgs := ⟨[], []⟩
    mOptions := [{ mArguments := [], mDescription := doc,
                   mName := kOptionChar :: name, mFlagToSet := -1 }]
    mEnumSpecs := []
    mErrorString := [] }

/-- The built-in scalar type names with their types, in the order in which
`ArgTypeFromName` compares them. -/
def builtinScalarNames : List (CStr × Nat) :=
  [("bool".toList, kTypeBool), ("int".toList, kTypeInt), ("float".toList, kTypeFloat),
    ("double".toList, kTypeDouble), ("string".toList, kTypeString),
    ("cstr".toList, kTypeCString)]

/-- The type of the first built-in scalar name, in that order, that `q` is a
prefix of. -/
def firstPrefixed (q : CStr) : Option Nat :=
  (builtinScalarNames.find? (fun b => q.isPrefixOf b.1)).map (fun b => b.2)

/-- An octal digit. -/
def isOctalDigit (c : Char) : Bool := '0' ≤ c && c ≤ '7'

/-- A hexadecimal digit. -/
def isHexDigit (c : Char) : Bool :=
  ('0' ≤ c && c ≤ '9') || ('a' ≤ c && c ≤ 'f') || ('A' ≤ c && c ≤ 'F')

/-- The number that a string of digits denotes in base `base`. -/
def baseValue (base : Nat) (d : CStr) : Nat :=
  Nat.ofDigits base (d.reverse.map (fun c => (digitVal c).getD 0))

/-- The variadic arguments of a `ConstructSpec` call whose only line is the
main line `[ <a:int> ]`, with the brackets as tokens of their own. -/
def looseBracketArgs : List VaArg :=
  [VaArg.cstr "[ <a:int> ]".toList, VaArg.ptr 0, VaArg.cstr "One value".toList, VaArg.null]

/-- The variadic arguments of a `ConstructSpec` call whose only line is the
main line `[<a:int> ]`, whose closing bracket is a token of its own; a null
location is passed for the bracket. -/
def looseCloseArgs : List VaArg :=
  [VaArg.cstr "[<a:int> ]".toList, VaArg.ptr 0, VaArg.null, VaArg.cstr "One value".toList,
    VaArg.null]

/-- The first `k` passes of the outer loop `while (true)` of `ConstructSpec`,
each of which goes on to the next clause: the instance, the variadic arguments
and the pending error with which the loop comes to the clause after them.
`none` when one of these passes returns, finds the terminator, faults or has
no fuel. -/
def ClausePrefix :
    Nat → Nat → Internal → List VaArg → tArgSpecError →
      Option (Internal × List VaArg × tArgSpecError)
  | 0, _, self, va, err => some (self, va, err)
  | _ + 1, 0, _, _, _ => none
  | k + 1, fuel + 1, self, va, err =>
    match va_cstr va with
    | Run.ret (some optionCStr, va1) =>
      if optionCStr.head? = some kEnumSpecChar then
        match va1 with
        | VaArg.enumInfo table :: va2 =>
          ClausePrefix k fuel
            { self with mEnumSpecs := self.mEnumSpecs ++ [⟨optionCStr.drop 1, table⟩] } va2 err
        | _ => none
      else if optionCStr.head? = some kEnumSpecInlineChar then
        match InlineEnumLoop va1 [] with
        | Run.ret (store, va2) =>
          ClausePrefix k fuel
            { self with mEnumSpecs := self.mEnumSpecs ++ [⟨optionCStr.drop 1, store⟩] } va2 err
        | _ => none
      else
        match ConstructLine fuel self optionCStr va1 err with
        | Run.ret (true, err1, self1, va2) => ClausePrefix k fuel self1 va2 err1
        | _ => none
    | _ => none

/-- The variadic arguments of a `ConstructSpec` call with three lines:
`<x:foo>`, whose type name is unrecognised, the option line `-o ...`, whose
ellipsis follows no argument, and `<a:int> [<b:int>`, whose bracket is not
closed. -/
def fooEllipsisOpenArgs : List VaArg :=
  [VaArg.cstr "<x:foo>".toList, VaArg.ptr 0, VaArg.cstr "First".toList,
    VaArg.cstr "-o ...".toList, VaArg.cstr "Option".toList,
    VaArg.cstr "<a:int> [<b:int>".toList, VaArg.ptr 1, VaArg.ptr 2,
    VaArg.cstr "Second".toList, VaArg.null]

/-- The variadic arguments of a `ConstructSpec` call with the main line
`<name:string>` and the option line `-h^ <n:int>`, whose value is required. -/
def helpIntArgs : List VaArg :=
  [VaArg.cstr "<name:string>".toList, VaArg.ptr 0, VaArg.cstr "Name".toList,
    VaArg.cstr "-h^ <n:int>".toList, VaArg.int 3, VaArg.ptr 1, VaArg.cstr "Show help".toList,
    VaArg.null]

/-- The table that `ConstructSpec` compiles from `helpIntArgs`. -/
def helpIntSpec : Internal :=
  { Internal.fresh with
    mCommandDescription := "test".toList
    mMainArgs := ⟨[⟨kTypeString, "name".toList, some 0, true, -1⟩], "Name".toList⟩
    mOptions := [{ mArguments := [⟨kTypeInt, "n".toList, some 1, true, -1⟩],
                   mDescription := "Show help".toList, mName := "h".toList, mFlagToSet := 3 }] }

@[simp] theorem markFlag_mEnumSpecs (s : Internal) (flag : Int) :
    (s.markFlag flag).mEnumSpecs = s.mEnumSpecs := by
  unfold Internal.markFlag; split <;> rfl

@[simp] theorem markFlag_mHelpRequested (s : Internal) (flag : Int) :
    (s.markFlag flag).mHelpRequested = s.mHelpRequested := by
  unfold Internal.markFlag; split <;> rfl

@[simp] theorem markFlag_mOptions (s : Internal) (flag : Int) :
    (s.markFlag flag).mOptions = s.mOptions := by
  unfold Internal.markFlag; split <;> rfl

@[simp] theorem markFlag_mMainArgs (s : Internal) (flag : Int) :
    (s.markFlag flag).mMainArgs = s.mMainArgs := by
  unfold Internal.markFlag; split <;> rfl

@[simp] theorem markFlag_mErrorString (s : Internal) (flag : Int) :
    (s.markFlag flag).mErrorString = s.mErrorString := by
  unfold Internal.markFlag; split <;> rfl

theorem ParseArgument_scalar (libc : Libc) (fuel : Nat) (s : Internal) (m : Mem)
    (info : cArgInfo) (t : CStr) (rest : List CStr) (convert : CStr → Converted Scalar)
    (hs : isScalarSlot info = true)
    (hcv : converterFor libc s.mEnumSpecs info.mType = some convert) :
    ParseArgument libc fuel s m info (t :: rest)
      = Run.ret (storeConverted (convert t) info rest (s.markFlag info.mFlagToSet) m) := by
  simp only [isScalarSlot, Bool.and_eq_true, beq_iff_eq, bne_iff_ne, ne_eq] at hs
  obtain ⟨⟨⟨⟨h1, h2⟩, h3⟩, h4⟩, h5⟩ := hs
  unfold ParseArgument
  simp only [h1, h2, h3, h4, h5, ne_eq, not_true_eq_false, if_false, or_self,
    markFlag_mEnumSpecs, hcv]

theorem ParseLoop_scalar_run (libc : Libc) (commandName : CStr) (n : Nat) :
    ∀ (pre : List cArgInfo) (toks : List CStr) (s : Internal) (m : Mem),
      toks.length = pre.length →
      (∀ info ∈ pre, isScalarSlot info = true) →
      (∀ t ∈ toks, IsOption t = false) →
      (∀ p ∈ pre.zip toks, convertsIn libc s.mEnumSpecs p.1 p.2 = true) →
      ∃ s1 m1, s1.mEnumSpecs = s.mEnumSpecs ∧ s1.mHelpRequested = s.mHelpRequested ∧
        ∀ (post : List cArgInfo) (rest : List CStr) (fuel : Nat),
          ParseLoop libc commandName n (pre.length + fuel) (pre ++ post) s m (toks ++ rest)
            = ParseLoop libc commandName n fuel post s1 m1 rest := by
  intro pre
  induction pre with
  | nil =>
    intro toks s m hlen _ _ _
    have : toks = [] := List.length_eq_zero.mp hlen
    subst this
    exact ⟨s, m, rfl, rfl, fun post rest fuel => by simp⟩
  | cons info pre ih =>
    intro toks s m hlen hs hno hc
    cases toks with
    | nil => simp at hlen
    | cons t toks =>
      have hs1 : isScalarSlot info = true := hs info (List.mem_cons_self _ _)
      have hc1 : convertsIn libc s.mEnumSpecs info t = true :=
        hc (info, t) (by simp)
      unfold convertsIn at hc1
      cases hcv : converterFor libc s.mEnumSpecs info.mType with
      | none => simp [hcv] at hc1
      | some convert =>
        simp only [hcv, beq_iff_eq] at hc1
        obtain ⟨s1, m1, h1, h2, h3⟩ := ih toks
          { s.markFlag info.mFlagToSet with
            mErrorString := errorStringAfter (convert t) (s.markFlag info.mFlagToSet).mErrorString }
          (assign info.mLocation (convert t).result m)
          (by simpa using hlen)
          (fun i hi => hs i (List.mem_cons_of_mem _ hi))
          (fun x hx => hno x (List.mem_cons_of_mem _ hx))
          (fun p hp => by
            have := hc p (by simp [List.zip_cons_cons]; right; exact hp)
            simpa using this)
        refine ⟨s1, m1, ?_, ?_, fun post rest fuel => ?_⟩
        · simpa using h1
        · simpa using h2
        · have hopt : IsOption t = false := hno t (List.mem_cons_self _ _)
          have hfuel : (info :: pre).length + fuel = (pre.length + fuel) + 1 := by
            simp; omega
          rw [hfuel]
          simp only [List.cons_append, ParseLoop, hopt, Bool.false_eq_true, if_false]
          rw [ParseArgument_scalar libc _ s m info t _ convert hs1 hcv]
          simp only [storeConverted, hc1, ne_eq, not_true_eq_false, if_false]
          exact h3 post rest fuel
theorem ParseLoop_nil_nil (libc : Libc) (commandName : CStr) (n fuel : Nat)
    (self : Internal) (m : Mem) :
    ParseLoop libc commandName n fuel [] self m [] = Run.ret ⟨kArgNoError, [], self, m⟩ := by
  cases fuel <;> simp [ParseLoop]

theorem ParseOptionArgs_scalar_run (libc : Libc) (fuel : Nat) :
    ∀ (pre : List cArgInfo) (toks : List CStr) (s : Internal) (m : Mem),
      toks.length = pre.length →
      (∀ info ∈ pre, isScalarSlot info = true) →
      (∀ t ∈ toks, IsOption t = false) →
      (∀ p ∈ pre.zip toks, convertsIn libc s.mEnumSpecs p.1 p.2 = true) →
      ∃ s1 m1, s1.mEnumSpecs = s.mEnumSpecs ∧ s1.mHelpRequested = s.mHelpRequested ∧
        ∀ (post : List cArgInfo) (rest : List CStr),
          ParseOptionArgs libc fuel (pre ++ post) s m (toks ++ rest)
            = ParseOptionArgs libc fuel post s1 m1 rest := by
  intro pre
  induction pre with
  | nil =>
    intro toks s m hlen _ _ _
    have : toks = [] := List.length_eq_zero.mp hlen
    subst this
    exact ⟨s, m, rfl, rfl, fun post rest => by simp⟩
  | cons info pre ih =>
    intro toks s m hlen hs hno hc
    cases toks with
    | nil => simp at hlen
    | cons t toks =>
      have hs1 : isScalarSlot info = true := hs info (List.mem_cons_self _ _)
      have hc1 : convertsIn libc s.mEnumSpecs info t = true :=
        hc (info, t) (by simp)
      unfold convertsIn at hc1
      cases hcv : converterFor libc s.mEnumSpecs info.mType with
      | none => simp [hcv] at hc1
      | some convert =>
        simp only [hcv, beq_iff_eq] at hc1
        obtain ⟨s1, m1, h1, h2, h3⟩ := ih toks
          { s.markFlag info.mFlagToSet with
            mErrorString := errorStringAfter (convert t) (s.markFlag info.mFlagToSet).mErrorString }
          (assign info.mLocation (convert t).result m)
          (by simpa using hlen)
          (fun i hi => hs i (List.mem_cons_of_mem _ hi))
          (fun x hx => hno x (List.mem_cons_of_mem _ hx))
          (fun p hp => by
            have := hc p (by simp [List.zip_cons_cons]; right; exact hp)
            simpa using this)
        refine ⟨s1, m1, ?_, ?_, fun post rest => ?_⟩
        · simpa using h1
        · simpa using h2
        · have hopt : IsOption t = false := hno t (List.mem_cons_self _ _)
          simp only [List.cons_append, ParseOptionArgs, hopt, Bool.false_eq_true, if_false]
          rw [ParseArgument_scalar libc _ s m info t _ convert hs1 hcv]
          simp only [storeConverted, hc1, ne_eq, not_true_eq_false, if_false]
          exact h3 post rest

theorem decimalDigits_length (d : Nat) :
    ∀ (fuel n : Nat) (acc : CStr), n < 10 ^ (d + 1) →
      (decimalDigits fuel n acc).length ≤ acc.length + (d + 1) := by
  induction d with
  | zero =>
    intro fuel n acc hn
    cases fuel with
    | zero => simp [decimalDigits]
    | succ fuel =>
      have : n / 10 = 0 := by omega
      simp [decimalDigits, this]
  | succ d ih =>
    intro fuel n acc hn
    cases fuel with
    | zero => simp [decimalDigits]
    | succ fuel =>
      simp only [decimalDigits]
      split
      · simp
      · have h10 : n / 10 < 10 ^ (d + 1) := by
          rw [Nat.div_lt_iff_lt_mul (by norm_num)]
          calc n < 10 ^ (d + 1 + 1) := hn
            _ = 10 ^ (d + 1) * 10 := by ring
        have := ih fuel (n / 10) (Char.ofNat ('0'.toNat + n % 10) :: acc) h10
        simp at this ⊢
        omega

theorem toInt32_bounds (x : Int) : -(2 ^ 31) ≤ toInt32 x ∧ toInt32 x < 2 ^ 31 := by
  unfold toInt32
  have h1 := Int.emod_nonneg (x + 2 ^ 31) (b := 2 ^ 32) (by norm_num)
  have h2 := Int.emod_lt_of_pos (x + 2 ^ 31) (b := 2 ^ 32) (by norm_num)
  constructor <;> omega

theorem fmtInt_length (x : Int) (h : -(2 ^ 31) ≤ x ∧ x < 2 ^ 31) : (fmtInt x).length ≤ 11 := by
  have hn : x.natAbs < 10 ^ (9 + 1) := by
    have : x.natAbs ≤ 2 ^ 31 := by omega
    calc x.natAbs ≤ 2 ^ 31 := this
      _ < 10 ^ (9 + 1) := by norm_num
  have := decimalDigits_length 9 (x.natAbs + 1) x.natAbs [] hn
  unfold fmtInt
  split <;> simp at this ⊢ <;> omega

theorem fmtSize_length (n : Nat) : (fmtSize n).length ≤ 11 :=
  fmtInt_length _ (toInt32_bounds _)

theorem Sprintf_short (s : CStr) (h : s.length ≤ 1023) : Sprintf s = s :=
  List.take_of_length_le h

theorem numNeeded_required (info : cArgInfo) (later : List cArgInfo)
    (h : info.mIsRequired = true) :
    numNeeded (info :: later)
      = ((info :: later).takeWhile (fun a => a.mIsRequired)).length := by
  simp [numNeeded, List.takeWhile_cons, h]; omega

theorem ParseLoop_nil_cons (libc : Libc) (commandName : CStr) (n fuel : Nat)
    (info : cArgInfo) (later : List cArgInfo) (self : Internal) (m : Mem) :
    ParseLoop libc commandName n fuel (info :: later) self m []
      = if self.mHelpRequested = false ∧ info.mIsRequired then
          Run.ret ⟨kArgErrorNotEnoughArgs, [],
            { self with mErrorString :=
                (Sprintf ("Not enough main arguments: expecting at least ".toList
                  ++ fmtSize (numNeeded (info :: later)) ++ " more".toList)) }, m⟩
        else Run.ret ⟨kArgNoError, [], self, m⟩ := by
  cases fuel <;> rfl

theorem ParseOptionArgs_stop (libc : Libc) (fuel : Nat)
    (info : cArgInfo) (later : List cArgInfo) (self : Internal) (m : Mem) (argv : List CStr)
    (hstop : ∀ t ∈ argv.head?, IsOption t = true) :
    ParseOptionArgs libc fuel (info :: later) self m argv
      = if info.mIsRequired then
          Run.ret ⟨kArgErrorNotEnoughArgs, argv,
            { self with mErrorString :=
                (Sprintf ("Not enough arguments: expecting at least ".toList
                  ++ fmtSize (numNeeded (info :: later)) ++ " more".toList)) }, m⟩
        else Run.ret ⟨kArgNoError, argv, self, m⟩ := by
  cases argv with
  | nil => rfl
  | cons t rest =>
    have h : IsOption t = true := hstop t (by simp)
    unfold ParseOptionArgs
    simp only [h, if_true]

theorem zip_take_length {α β : Type} :
    ∀ (l : List α) (l2 : List β), l.zip (l2.take l.length) = l.zip l2
  | [], _ => by simp
  | _ :: _, [] => by simp
  | a :: l, b :: l2 => by simp [zip_take_length l l2]

/-! ## C1: too many main arguments -/

/-- C1. When no slot of the main group is a vector or array slot, the
argument vector holds no option marker and more tokens than the main group
has slots, and each of the first `n` tokens converts without error in its
slot, `Parse` returns `kArgErrorTooManyArgs` (any budget above `n` is enough
for the main loop). -/
theorem parse_too_many_args (libc : Libc) (fuel : Nat) (self : Internal) (m : Mem)
    (commandName : CStr) (args : List CStr)
    (hscalar : ∀ info ∈ self.mMainArgs.mArguments, isScalarSlot info = true)
    (hno : ∀ t ∈ args, IsOption t = false)
    (hmore : self.mMainArgs.mArguments.length < args.length)
    (hconv : ∀ p ∈ self.mMainArgs.mArguments.zip args,
      convertsIn libc self.mEnumSpecs p.1 p.2 = true)
    (hfuel : self.mMainArgs.mArguments.length < fuel) :
    ∃ r, Parse libc fuel self m commandName args = Run.ret r
      ∧ r.error = kArgErrorTooManyArgs := by
  obtain ⟨s1, m1, -, -, hrun⟩ := ParseLoop_scalar_run libc commandName
    self.mMainArgs.mArguments.length self.mMainArgs.mArguments
    (args.take self.mMainArgs.mArguments.length)
    { self with mFlags := 0, mErrorString := [] } m
    (by simp; omega) hscalar
    (fun t ht => hno t (List.mem_of_mem_take ht))
    (fun p hp => by
      apply hconv p
      rw [zip_take_length] at hp
      exact hp)
  have hargs : args ≠ [] := by
    intro h; simp [h] at hmore
  obtain ⟨k, hk⟩ : ∃ k, fuel = self.mMainArgs.mArguments.length + (k + 1) :=
    ⟨fuel - self.mMainArgs.mArguments.length - 1, by omega⟩
  have hsplit := hrun [] (args.drop self.mMainArgs.mArguments.length) (k + 1)
  rw [List.take_append_drop, List.append_nil, ← hk] at hsplit
  cases hd : args.drop self.mMainArgs.mArguments.length with
  | nil =>
    have := congrArg List.length hd
    simp at this; omega
  | cons t rest =>
    have hopt : IsOption t = false := by
      apply hno
      have : t ∈ args.drop self.mMainArgs.mArguments.length := by simp [hd]
      exact List.mem_of_mem_drop this
    rw [hd] at hsplit
    have hP : Parse libc fuel self m commandName args
        = Run.ret ⟨kArgErrorTooManyArgs, t :: rest,
            { s1 with mErrorString :=
                Sprintf ("Too many main arguments (expecting at most ".toList
                  ++ fmtSize self.mMainArgs.mArguments.length ++ ")\n".toList) }, m1⟩ := by
      simp only [Parse, hargs, false_and, if_false]
      rw [hsplit]
      simp only [ParseLoop, hopt, Bool.false_eq_true, if_false]
    exact ⟨_, hP, rfl⟩

theorem parse_too_many_args_witness :
    ∃ r, Parse exampleLibc 3 twoIntSpec exampleMem "cmd".toList
        ["1".toList, "2".toList, "3".toList] = Run.ret r
      ∧ r.error = kArgErrorTooManyArgs :=
  parse_too_many_args exampleLibc 3 twoIntSpec exampleMem "cmd".toList
    ["1".toList, "2".toList, "3".toList]
    (by decide) (by decide) (by decide) (by decide) (by decide)

theorem notEnough_message_short (pre : CStr) (n : Nat) (h : pre.length ≤ 1000) :
    Sprintf (pre ++ fmtSize n ++ " more".toList) = pre ++ fmtSize n ++ " more".toList := by
  apply Sprintf_short
  have := fmtSize_length n
  simp only [List.length_append]
  have h5 : " more".toList.length = 5 := by decide
  omega

/-! ## C2: not enough arguments -/

theorem take_length_zip {α β : Type} :
    ∀ (l : List α) (l2 : List β), (l.take l2.length).zip l2 = l.zip l2
  | [], _ => by simp
  | _ :: _, [] => by simp
  | a :: l, b :: l2 => by simp [take_length_zip l l2]

/-- C2. On an instance with no help request pending whose main group holds
scalar slots only, parsing `m` non-option tokens that all convert, with
`1 <= m < n` and slot `m` required, `Parse` returns `kArgErrorNotEnoughArgs`
and the message is "Not enough main arguments: expecting at least K more"
where `K`, printed by `%d`, is the length of the run of consecutive required
slots that starts at slot `m`. `ParseOptionArgs` does the same on its own
group, with a message that says "arguments" for "main arguments", when the
tokens are followed by the end of the input or by an option marker. -/
theorem parse_not_enough_args (libc : Libc) (fuel : Nat) (self : Internal) (m : Mem)
    (commandName : CStr) (args rest : List CStr) (info : cArgInfo)
    (hfresh : self.mHelpRequested = false)
    (hscalar : ∀ i ∈ self.mMainArgs.mArguments, isScalarSlot i = true)
    (hno : ∀ t ∈ args, IsOption t = false)
    (hone : 1 ≤ args.length)
    (hconv : ∀ p ∈ self.mMainArgs.mArguments.zip args,
      convertsIn libc self.mEnumSpecs p.1 p.2 = true)
    (hslot : self.mMainArgs.mArguments[args.length]? = some info)
    (hreq : info.mIsRequired = true)
    (hrest : ∀ t ∈ rest.head?, IsOption t = true)
    (hfuel : args.length ≤ fuel) :
    (∃ r, Parse libc fuel self m commandName args = Run.ret r
      ∧ r.error = kArgErrorNotEnoughArgs
      ∧ r.self.mErrorString = "Not enough main arguments: expecting at least ".toList
          ++ fmtSize (((self.mMainArgs.mArguments.drop args.length).takeWhile
              (fun a => a.mIsRequired)).length) ++ " more".toList)
    ∧ (∃ r, ParseOptionArgs libc fuel self.mMainArgs.mArguments self m (args ++ rest) = Run.ret r
      ∧ r.error = kArgErrorNotEnoughArgs ∧ r.argv = rest
      ∧ r.self.mErrorString = "Not enough arguments: expecting at least ".toList
          ++ fmtSize (((self.mMainArgs.mArguments.drop args.length).takeWhile
              (fun a => a.mIsRequired)).length) ++ " more".toList) := by
  obtain ⟨hlt, hget⟩ := List.getElem?_eq_some.mp hslot
  have hdrop : self.mMainArgs.mArguments.drop args.length
      = info :: self.mMainArgs.mArguments.drop (args.length + 1) := by
    rw [List.drop_eq_getElem_cons hlt, hget]
  have hpre : (self.mMainArgs.mArguments.take args.length).length = args.length := by
    simp; omega
  have hsplit : self.mMainArgs.mArguments.take args.length
      ++ info :: self.mMainArgs.mArguments.drop (args.length + 1) = self.mMainArgs.mArguments := by
    rw [← hdrop, List.take_append_drop]
  have hnum : numNeeded (info :: self.mMainArgs.mArguments.drop (args.length + 1))
      = ((self.mMainArgs.mArguments.drop args.length).takeWhile
          (fun a => a.mIsRequired)).length := by
    rw [hdrop]; exact numNeeded_required _ _ hreq
  have hsc : ∀ i ∈ self.mMainArgs.mArguments.take args.length, isScalarSlot i = true :=
    fun i hi => hscalar i (List.mem_of_mem_take hi)
  constructor
  · obtain ⟨s1, m1, -, hhelp, hrun⟩ := ParseLoop_scalar_run libc commandName
      self.mMainArgs.mArguments.length (self.mMainArgs.mArguments.take args.length) args
      { self with mFlags := 0, mErrorString := [] } m hpre.symm hsc hno
      (fun p hp => by rw [take_length_zip] at hp; exact hconv p hp)
    have hargs : args ≠ [] := by
      intro h; simp [h] at hone
    have h1 := hrun (info :: self.mMainArgs.mArguments.drop (args.length + 1)) []
      (fuel - args.length)
    rw [hsplit, List.append_nil, hpre, Nat.add_sub_cancel' hfuel] at h1
    have hh : s1.mHelpRequested = false := by rw [hhelp]; exact hfresh
    have hP : Parse libc fuel self m commandName args
        = Run.ret ⟨kArgErrorNotEnoughArgs, [],
            { s1 with mErrorString :=
                Sprintf ("Not enough main arguments: expecting at least ".toList
                  ++ fmtSize (numNeeded (info :: self.mMainArgs.mArguments.drop (args.length + 1)))
                  ++ " more".toList) }, m1⟩ := by
      simp only [Parse, hargs, false_and, if_false]
      rw [h1]
      rw [ParseLoop_nil_cons, if_pos ⟨hh, hreq⟩]
    refine ⟨_, hP, rfl, ?_⟩
    show Sprintf _ = _
    rw [notEnough_message_short _ _ (by decide), hnum]
  · obtain ⟨s1, m1, -, -, hrun⟩ := ParseOptionArgs_scalar_run libc fuel
      (self.mMainArgs.mArguments.take args.length) args self m hpre.symm hsc hno
      (fun p hp => by rw [take_length_zip] at hp; exact hconv p hp)
    have h1 := hrun (info :: self.mMainArgs.mArguments.drop (args.length + 1)) rest
    rw [hsplit] at h1
    have hP : ParseOptionArgs libc fuel self.mMainArgs.mArguments self m (args ++ rest)
        = Run.ret ⟨kArgErrorNotEnoughArgs, rest,
            { s1 with mErrorString :=
                Sprintf ("Not enough arguments: expecting at least ".toList
                  ++ fmtSize (numNeeded (info :: self.mMainArgs.mArguments.drop (args.length + 1)))
                  ++ " more".toList) }, m1⟩ := by
      rw [h1, ParseOptionArgs_stop libc fuel _ _ _ _ _ hrest, if_pos hreq]
    refine ⟨_, hP, rfl, rfl, ?_⟩
    show Sprintf _ = _
    rw [notEnough_message_short _ _ (by decide), hnum]

theorem parse_not_enough_args_witness :
    (∃ r, Parse exampleLibc 1 twoIntSpec exampleMem "cmd".toList ["7".toList] = Run.ret r
      ∧ r.error = kArgErrorNotEnoughArgs
      ∧ r.self.mErrorString = "Not enough main arguments: expecting at least 1 more".toList)
    ∧ (∃ r, ParseOptionArgs exampleLibc 1 twoIntSpec.mMainArgs.mArguments twoIntSpec exampleMem
          ["7".toList, "-v".toList] = Run.ret r
      ∧ r.error = kArgErrorNotEnoughArgs ∧ r.argv = ["-v".toList]
      ∧ r.self.mErrorString = "Not enough arguments: expecting at least 1 more".toList) :=
  parse_not_enough_args exampleLibc 1 twoIntSpec exampleMem "cmd".toList ["7".toList]
    ["-v".toList] ⟨kTypeInt, "b".toList, some 1, true, -1⟩
    (by decide) (by decide) (by decide) (by decide) (by decide) (by decide) (by decide)
    (by decide) (by decide)

/-! ## C4: the argument vector holds the program name only -/

/-- C4. With `argc = 1`, `Parse` returns `kArgHelpRequested` when the main
group has at least one slot (so never `kArgErrorNotEnoughArgs`), and
`kArgNoError` with the flag mask 0 when the main group has no slot; no loop
budget is needed. -/
theorem parse_program_name_only (libc : Libc) (fuel : Nat) (self : Internal) (m : Mem)
    (commandName : CStr) :
    ∃ r, Parse libc fuel self m commandName [] = Run.ret r ∧
      ((self.mMainArgs.mArguments ≠ [] ∧ r.error = kArgHelpRequested) ∨
       (self.mMainArgs.mArguments = [] ∧ r.error = kArgNoError ∧ r.self.mFlags = 0)) := by
  by_cases h : self.mMainArgs.mArguments = []
  · refine ⟨⟨kArgNoError, [], { self with mFlags := 0, mErrorString := [] }, m⟩, ?_,
      Or.inr ⟨h, rfl, rfl⟩⟩
    simp [Parse, h, ParseLoop_nil_nil]
  · refine ⟨⟨kArgHelpRequested, [],
      { self with mErrorString := CreateHelpString self commandName self.mErrorString }, m⟩,
      ?_, Or.inl ⟨h, rfl⟩⟩
    simp [Parse, h]

/-! ## C3: a required slot followed by an optional one -/

theorem ArgTypeFromName_builtin (self : Internal) (typeName : CStr)
    (h : ArgTypeFromName Internal.fresh typeName ≠ kTypeInvalid) :
    ArgTypeFromName self typeName = ArgTypeFromName Internal.fresh typeName := by
  unfold ArgTypeFromName at h ⊢
  simp only [] at h ⊢
  cases hb : builtinTypeFromName typeName
      (if hasArraySuffix typeName then typeName.length - 2 else typeName.length) with
  | none =>
    rw [hb] at h
    exact absurd rfl h
  | some t => rfl

theorem FindNameAndTypeFromOption_builtin (self : Internal) (str : CStr)
    (h : (FindNameAndTypeFromOption Internal.fresh str).1 ≠ kTypeInvalid) :
    FindNameAndTypeFromOption self str = FindNameAndTypeFromOption Internal.fresh str := by
  unfold FindNameAndTypeFromOption at h ⊢
  simp only [] at h ⊢
  split_ifs at h ⊢ <;> first
    | rfl
    | (simp only [] at h ⊢; rw [ArgTypeFromName_builtin self _ h])

theorem TokenLoop_done (self : Internal) (fuel : Nat) (st : LineState)
    (h : st.nextToken = []) : TokenLoop self fuel st = Run.ret (none, st) := by
  cases fuel <;> simp [TokenLoop, h]

theorem TokenLoop_next (self : Internal) (fuel : Nat) (st st1 : LineState)
    (h : st.nextToken ≠ []) (hstep : TokenStep self st = Run.ret (TokenStepResult.next st1)) :
    TokenLoop self (fuel + 1) st = TokenLoop self fuel st1 := by
  rw [TokenLoop, if_neg h, hstep]

theorem ConstructLine_eq (fuel : Nat) (self : Internal) (optionCStr : CStr) (va : List VaArg)
    (err : tArgSpecError) (head : LineHead) (returned : Option tArgSpecError) (st : LineState)
    (h1 : LineBegin self optionCStr va err = Run.ret head)
    (h2 : TokenLoop self fuel head.start = Run.ret (returned, st)) :
    ConstructLine fuel self optionCStr va err = LineEnd self head returned st := by
  rw [ConstructLine, h1]
  simp only [h2]

theorem ClauseLoop_line (fuel : Nat) (self self1 : Internal) (optionCStr : CStr)
    (va va2 : List VaArg) (err err1 : tArgSpecError)
    (h1 : optionCStr.head? ≠ some kEnumSpecChar) (h2 : optionCStr.head? ≠ some kEnumSpecInlineChar)
    (h : ConstructLine fuel self optionCStr va err = Run.ret (true, err1, self1, va2)) :
    ClauseLoop (fuel + 1) self (VaArg.cstr optionCStr :: va) err = ClauseLoop fuel self1 va2 err1 := by
  rw [ClauseLoop]
  simp only [va_cstr, if_neg h1, if_neg h2, h]

theorem ClauseLoop_null (fuel : Nat) (self : Internal) (va : List VaArg) (err : tArgSpecError) :
    ClauseLoop (fuel + 1) self (VaArg.null :: va) err = Run.ret (err, self) := by
  rw [ClauseLoop]
  simp only [va_cstr]

theorem construct_nameDst (k : Nat) (old : Internal) (description : CStr) (name dst : Nat)
    (flag : Int) (doc : CStr) :
    ConstructSpec (k + 3) old description (nameDstArgs name dst flag doc)
      = Run.ret (kSpecNoError, nameDstSpec old description name dst flag doc) := by
  have hb : LineBegin
      { old with mCommandDescription := description, mMainArgs := ⟨[], []⟩, mOptions := [],
                 mEnumSpecs := [], mErrorString := [] }
      "<name:string> [<dst:cstr>^]".toList
      [VaArg.ptr name, VaArg.ptr dst, VaArg.int flag, VaArg.cstr doc, VaArg.null] kSpecNoError
      = Run.ret ⟨false, [], -1,
          ⟨"[<dst:cstr>^]".toList, "<name:string>".toList, 0, 0, [],
            [VaArg.ptr name, VaArg.ptr dst, VaArg.int flag, VaArg.cstr doc, VaArg.null],
            kSpecNoError⟩⟩ := by
    simp only [LineBegin]
    simp +decide
  have hs1 : TokenStep
      { old with mCommandDescription := description, mMainArgs := ⟨[], []⟩, mOptions := [],
                 mEnumSpecs := [], mErrorString := [] }
      ⟨"[<dst:cstr>^]".toList, "<name:string>".toList, 0, 0, [],
        [VaArg.ptr name, VaArg.ptr dst, VaArg.int flag, VaArg.cstr doc, VaArg.null],
        kSpecNoError⟩
      = Run.ret (TokenStepResult.next
          ⟨[], "[<dst:cstr>^]".toList, 0, 0,
            [⟨kTypeString, "name".toList, some name, true, -1⟩],
            [VaArg.ptr dst, VaArg.int flag, VaArg.cstr doc, VaArg.null], kSpecNoError⟩) := by
    simp only [TokenStep]
    simp +decide [va_ptr, va_int]
    rw [FindNameAndTypeFromOption_builtin _ _ (by decide)]
    decide
  have hs2 : TokenStep
      { old with mCommandDescription := description, mMainArgs := ⟨[], []⟩, mOptions := [],
                 mEnumSpecs := [], mErrorString := [] }
      ⟨[], "[<dst:cstr>^]".toList, 0, 0,
        [⟨kTypeString, "name".toList, some name, true, -1⟩],
        [VaArg.ptr dst, VaArg.int flag, VaArg.cstr doc, VaArg.null], kSpecNoError⟩
      = Run.ret (TokenStepResult.next
          ⟨[], [], 0, 0,
            [⟨kTypeString, "name".toList, some name, true, -1⟩,
             ⟨kTypeCString, "dst".toList, some dst, false, flag⟩],
            [VaArg.cstr doc, VaArg.null], kSpecNoError⟩) := by
    simp only [TokenStep]
    simp +decide [va_ptr, va_int]
    rw [FindNameAndTypeFromOption_builtin _ _ (by decide)]
    decide
  have hline := ConstructLine_eq (k + 2) _ _ _ _ _ none _ hb
    (by rw [TokenLoop_next _ _ _ _ (by simp) hs1, TokenLoop_next _ _ _ _ (by simp) hs2,
          TokenLoop_done _ _ _ rfl])
  unfold ConstructSpec nameDstArgs
  rw [ClauseLoop_line (k + 2) _ _ _ _ _ _ _ (by decide) (by decide) (hline.trans rfl),
    ClauseLoop_null]
  rfl

theorem ParseLoop_scalar_step (libc : Libc) (commandName : CStr) (n fuel : Nat)
    (info : cArgInfo) (later : List cArgInfo) (s : Internal) (m : Mem) (t : CStr)
    (rest : List CStr) (convert : CStr → Converted Scalar)
    (hs : isScalarSlot info = true)
    (hcv : converterFor libc s.mEnumSpecs info.mType = some convert)
    (hopt : IsOption t = false) (hok : (convert t).error = kArgNoError) :
    ParseLoop libc commandName n (fuel + 1) (info :: later) s m (t :: rest)
      = ParseLoop libc commandName n fuel later
          { s.markFlag info.mFlagToSet with
            mErrorString := errorStringAfter (convert t) (s.markFlag info.mFlagToSet).mErrorString }
          (assign info.mLocation (convert t).result m) rest := by
  simp only [ParseLoop, hopt, Bool.false_eq_true, if_false]
  rw [ParseArgument_scalar libc _ s m info t _ convert hs hcv]
  simp only [storeConverted, hok, ne_eq, not_true_eq_false, if_false]

theorem Flag_setFlagBit_zero (F : Nat) (hF : F < 32) (s : Internal) :
    ({ s with mFlags := setFlagBit 0 (F : Int) } : Internal).Flag F = true := by
  simp only [Internal.Flag, setFlagBit, Int.toNat_ofNat]
  interval_cases F <;> decide

theorem isScalarSlot_of_mType (info : cArgInfo) (t : Nat) (h : info.mType = t)
    (ht : isScalarSlot ⟨t, [], none, false, 0⟩ = true) : isScalarSlot info = true := by
  simp only [isScalarSlot] at ht ⊢
  rw [h]; exact ht

/-- C3. For the main line `<name:string> [<dst:cstr>^]` with flag index
`F < 32`, distinct destinations and non-option tokens `a`, `b`: `ConstructSpec`
compiles the line without error, `Parse([cmd, a])` returns `kArgNoError` with
`name = a`, `dst` as it was and flag `F` unset, and `Parse([cmd, a, b])`
returns `kArgNoError` with `name = a`, `dst = b` and flag `F` set. -/
theorem name_then_optional_dst (libc : Libc) (k fuel : Nat) (old : Internal)
    (description doc commandName a b : CStr) (name dst F : Nat) (m : Mem)
    (hF : F < 32) (hnd : name ≠ dst)
    (ha : IsOption a = false) (hb : IsOption b = false) (hfuel : 2 ≤ fuel) :
    ∃ spec, ConstructSpec (k + 3) old description (nameDstArgs name dst F doc)
        = Run.ret (kSpecNoError, spec)
      ∧ (∃ r, Parse libc fuel spec m commandName [a] = Run.ret r
          ∧ r.error = kArgNoError
          ∧ r.mem name = Value.scalar (Scalar.str a)
          ∧ r.mem dst = m dst
          ∧ r.self.Flag F = false)
      ∧ (∃ r, Parse libc fuel spec m commandName [a, b] = Run.ret r
          ∧ r.error = kArgNoError
          ∧ r.mem name = Value.scalar (Scalar.str a)
          ∧ r.mem dst = Value.scalar (Scalar.cstr b)
          ∧ r.self.Flag F = true) := by
  refine ⟨_, construct_nameDst k old description name dst F doc, ?_, ?_⟩
  · obtain ⟨f, rfl⟩ : ∃ f, fuel = f + 1 := ⟨fuel - 1, by omega⟩
    have hP : Parse libc (f + 1) (nameDstSpec old description name dst F doc) m commandName [a]
        = Run.ret ⟨kArgNoError, [],
            { nameDstSpec old description name dst F doc with mFlags := 0, mErrorString := [] },
            m.write name (Value.scalar (Scalar.str a))⟩ := by
      simp only [Parse, nameDstSpec, List.length_cons, List.length_nil]
      rw [if_neg (by simp)]
      rw [ParseLoop_scalar_step libc commandName _ f
        ⟨kTypeString, "name".toList, some name, true, -1⟩ _ _ m a []
        (fun arg => (Parse_string arg).map Scalar.str)
        (isScalarSlot_of_mType _ kTypeString rfl (by decide)) rfl ha rfl]
      rw [ParseLoop_nil_cons, if_neg (by simp)]
      simp [Internal.markFlag, assign, Parse_string, Converted.map, errorStringAfter]
    refine ⟨_, hP, rfl, ?_, ?_, ?_⟩
    · simp [Mem.write]
    · simp [Mem.write, hnd.symm]
    · simp [Internal.Flag]
  · obtain ⟨f, rfl⟩ : ∃ f, fuel = f + 2 := ⟨fuel - 2, by omega⟩
    have hP : Parse libc (f + 2) (nameDstSpec old description name dst F doc) m commandName [a, b]
        = Run.ret ⟨kArgNoError, [],
            { nameDstSpec old description name dst F doc with
              mFlags := setFlagBit 0 (F : Int), mErrorString := [] },
            (m.write name (Value.scalar (Scalar.str a))).write dst
              (Value.scalar (Scalar.cstr b))⟩ := by
      simp only [Parse, nameDstSpec, List.length_cons, List.length_nil]
      rw [if_neg (by simp)]
      rw [ParseLoop_scalar_step libc commandName _ (f + 1)
        ⟨kTypeString, "name".toList, some name, true, -1⟩ _ _ m a [b]
        (fun arg => (Parse_string arg).map Scalar.str)
        (isScalarSlot_of_mType _ kTypeString rfl (by decide)) rfl ha rfl]
      rw [ParseLoop_scalar_step libc commandName _ f
        ⟨kTypeCString, "dst".toList, some dst, false, F⟩ _ _ _ b []
        (fun arg => (Parse_string arg).map Scalar.cstr)
        (isScalarSlot_of_mType _ kTypeCString rfl (by decide)) rfl hb rfl]
      rw [ParseLoop_nil_nil]
      simp [Internal.markFlag, assign, Parse_string, Converted.map, errorStringAfter]
    refine ⟨_, hP, rfl, ?_, ?_, ?_⟩
    · simp [Mem.write, hnd]
    · simp [Mem.write]
    · exact Flag_setFlagBit_zero F hF _

theorem name_then_optional_dst_witness :
    ∃ spec, ConstructSpec 3 Internal.fresh "Provides an example of ArgSpec usage".toList
        (nameDstArgs 0 1 1 "Specify name and optionally destination for display".toList)
        = Run.ret (kSpecNoError, spec)
      ∧ (∃ r, Parse exampleLibc 2 spec exampleMem "cmd".toList ["alice".toList] = Run.ret r
          ∧ r.error = kArgNoError
          ∧ r.mem 0 = Value.scalar (Scalar.str "alice".toList)
          ∧ r.mem 1 = exampleMem 1
          ∧ r.self.Flag 1 = false)
      ∧ (∃ r, Parse exampleLibc 2 spec exampleMem "cmd".toList
            ["alice".toList, "/tmp/out".toList] = Run.ret r
          ∧ r.error = kArgNoError
          ∧ r.mem 0 = Value.scalar (Scalar.str "alice".toList)
          ∧ r.mem 1 = Value.scalar (Scalar.cstr "/tmp/out".toList)
          ∧ r.self.Flag 1 = true) :=
  name_then_optional_dst exampleLibc 0 2 Internal.fresh _ _ "cmd".toList "alice".toList
    "/tmp/out".toList 0 1 1 exampleMem (by decide) (by decide) (by decide) (by decide)
    (by decide)

/-! ## C5: the `int` converter -/

theorem digit_facts (c : Char) (h : isDecimalDigit c = true) :
    isspace c = false ∧ c ≠ '-' ∧ c ≠ '+' ∧ digitIn 10 c = some (c.toNat - '0'.toNat) := by
  simp only [isDecimalDigit, Bool.and_eq_true, decide_eq_true_eq] at h
  obtain ⟨h0, h9⟩ := h
  have h0n : 48 ≤ c.toNat := h0
  have h9n : c.toNat ≤ 57 := h9
  refine ⟨?_, ?_, ?_, ?_⟩
  · simp only [isspace, Bool.or_eq_false_iff, beq_eq_false_iff_ne, ne_eq]
    refine ⟨⟨⟨⟨⟨?_, ?_⟩, ?_⟩, ?_⟩, ?_⟩, ?_⟩ <;> (intro hc; subst hc; revert h0n; decide)
  · intro hc; subst hc; revert h0n; decide
  · intro hc; subst hc; revert h0n; decide
  · have hd : digitVal c = some (c.toNat - '0'.toNat) := by
      simp only [digitVal, h0, h9, and_self, if_true]
    simp only [digitIn, hd]
    have h10 : c.toNat - '0'.toNat < 10 := by
      have : '0'.toNat = 48 := rfl
      omega
    rw [if_pos h10]

theorem alpha_not_digit (c : Char) (h : isalpha c = true) : digitIn 10 c = none := by
  simp only [isalpha, Bool.or_eq_true, Bool.and_eq_true, decide_eq_true_eq] at h
  have key : ∀ x y : Char, x ≤ y ↔ x.toNat ≤ y.toNat := fun x y => Iff.rfl
  simp only [digitIn, digitVal]
  rcases h with ⟨h1, h2⟩ | ⟨h1, h2⟩
  · have a1 : 97 ≤ c.toNat := h1
    have a2 : c.toNat ≤ 122 := h2
    have n9 : ¬ (c ≤ '9') := by
      intro h9; have : c.toNat ≤ 57 := h9; omega
    simp only [n9, and_false, if_false, h1, h2, and_self, if_true]
    have : ¬ (c.toNat - 'a'.toNat + 10 < 10) := by omega
    simp [this]
  · have a1 : 65 ≤ c.toNat := h1
    have a2 : c.toNat ≤ 90 := h2
    have n9 : ¬ (c ≤ '9') := by
      intro h9; have : c.toNat ≤ 57 := h9; omega
    have nz : ¬ ('a' ≤ c) := by
      intro ha; have : 97 ≤ c.toNat := ha; omega
    simp only [n9, and_false, if_false, nz, false_and, h1, h2, and_self, if_true]
    have : ¬ (c.toNat - 'A'.toNat + 10 < 10) := by omega
    simp [this]


theorem strtolDigits_digits :
    ∀ (d rest : CStr) (acc : Nat) (any : Bool), d.all isDecimalDigit = true →
      (∀ c ∈ rest.head?, digitIn 10 c = none) →
      strtolDigits 10 (d ++ rest) acc any
        = (acc * 10 ^ d.length + decimalValue d, any || !d.isEmpty, rest) := by
  intro d
  induction d with
  | nil =>
    intro rest acc any _ hrest
    cases rest with
    | nil => simp [strtolDigits, decimalValue]
    | cons c cs =>
      have := hrest c (by simp)
      simp [strtolDigits, decimalValue, this]
  | cons c cs ih =>
    intro rest acc any hd hrest
    simp only [List.all_cons, Bool.and_eq_true] at hd
    have hc := (digit_facts c hd.1).2.2.2
    have e : strtolDigits 10 (c :: (cs ++ rest)) acc any
        = strtolDigits 10 (cs ++ rest) (acc * 10 + (c.toNat - '0'.toNat)) true := by
      simp only [strtolDigits, hc]
    rw [List.cons_append, e, ih rest _ true hd.2 hrest]
    simp only [decimalValue, List.reverse_cons, List.map_append, List.map_cons, List.map_nil,
      Nat.ofDigits_append, Nat.ofDigits_singleton, List.length_map, List.length_reverse,
      List.length_cons, List.isEmpty_cons, Bool.not_false, Bool.or_true, Bool.true_or]
    congr 1
    ring

theorem strtol_numeral (longBits : Nat) (d rest : CStr) (hd : isDecimalNumeral d = true)
    (hrest : ∀ c ∈ rest.head?, digitIn 10 c = none) :
    strtol longBits (d ++ rest) = (clampLong longBits (decimalValue d), rest) := by
  simp only [isDecimalNumeral, Bool.and_eq_true, bne_iff_ne, ne_eq, Bool.not_eq_true',
    List.isEmpty_eq_false] at hd
  obtain ⟨⟨hall, hnz⟩, hne⟩ := hd
  cases d with
  | nil => exact absurd rfl hne
  | cons c cs =>
    have hc : isDecimalDigit c = true := by
      simp only [List.all_cons, Bool.and_eq_true] at hall; exact hall.1
    obtain ⟨hsp, hminus, hplus, -⟩ := digit_facts c hc
    have hzero : c ≠ '0' := by
      intro h; apply hnz; simp [h]
    have hdigits := strtolDigits_digits (c :: cs) rest 0 false hall hrest
    have h1 : (c :: cs ++ rest).dropWhile isspace = c :: (cs ++ rest) := by
      simp [List.dropWhile_cons, hsp]
    have h2 : strtolSign (c :: (cs ++ rest)) = (false, c :: (cs ++ rest)) := by
      simp [strtolSign, hminus, hplus]
    have h3 : strtolBase (c :: (cs ++ rest)) = (10, c :: (cs ++ rest)) := by
      simp [strtolBase, hzero]
    simp only [strtol, h1, h2, h3]
    rw [← List.cons_append, hdigits]
    simp

theorem toInt32_small (x : Nat) (h : x < 2 ^ 31) : toInt32 (x : Int) = x := by
  unfold toInt32
  have h1 : ((x : Int) + 2 ^ 31) % 2 ^ 32 = (x : Int) + 2 ^ 31 := by
    apply Int.emod_eq_of_lt <;> omega
  omega

theorem clampLong_small (longBits : Nat) (hw : 32 ≤ longBits) (x : Nat) (h : x < 2 ^ 31) :
    clampLong longBits (x : Int) = x := by
  have hp : (2 : Int) ^ 31 ≤ 2 ^ (longBits - 1) :=
    pow_le_pow_right₀ (by norm_num) (by omega)
  unfold clampLong
  have hx : (x : Int) < 2 ^ 31 := by exact_mod_cast h
  rw [if_neg (by omega), if_neg (by omega)]

theorem ParseArgument_int (libc : Libc) (fuel : Nat) (self : Internal) (m : Mem)
    (info : cArgInfo) (t : CStr) (rest : List CStr) (hInt : info.mType = kTypeInt) :
    ParseArgument libc fuel self m info (t :: rest)
      = Run.ret (storeConverted ((Parse_int libc t).map Scalar.int) info rest
          (self.markFlag info.mFlagToSet) m) := by
  apply ParseArgument_scalar libc fuel self m info t rest
    (fun arg => (Parse_int libc arg).map Scalar.int)
    (isScalarSlot_of_mType info kTypeInt hInt (by decide))
  rw [hInt]; rfl

theorem Parse_int_garbage (libc : Libc) (t : CStr) (h : (strtol libc.longBits t).2 ≠ []) :
    Parse_int libc t = ⟨kArgErrorGarbage, none,
      some (Sprintf ("Garbage at end of number: '".toList ++ t ++ "' ".toList))⟩ := by
  simp only [Parse_int, h, ne_eq, not_false_eq_true, if_true]

theorem Parse_int_ok (libc : Libc) (t : CStr) (h : (strtol libc.longBits t).2 = []) :
    Parse_int libc t = ⟨kArgNoError, some (toInt32 (strtol libc.longBits t).1), none⟩ := by
  simp only [Parse_int, h, ne_eq, not_true_eq_false, if_false]

theorem take_message (pre t post : CStr) (k : Nat) :
    (pre ++ t ++ post).take (pre.length + k)
      = pre ++ t.take k ++ post.take (k - t.length) := by
  rw [List.append_assoc, List.take_append, List.take_append_eq_append_take, List.append_assoc]

theorem garbage_message_contains (t : CStr) :
    t.take 996 <:+: Sprintf ("Garbage at end of number: '".toList ++ t ++ "' ".toList) :=
  ⟨"Garbage at end of number: '".toList, ("' ".toList).take (996 - t.length),
    (take_message "Garbage at end of number: '".toList t "' ".toList 996).symm⟩

/-- C5, amended. For an `int` slot and a token `t`: the converter returns
`kArgErrorGarbage`, leaves the destination as it was and sets the message to
the first 1023 characters of "Garbage at end of number: 't' " (so the message
holds the first 996 characters of `t`, that is all of `t` unless `t` is
longer) exactly when the base-0 `strtol` parse leaves a character of `t`
unread; otherwise it returns `kArgNoError` and stores the parsed value reduced
to `int`. A decimal numeral `d` without leading zero, of any size,
followed by a non-empty alphabetic suffix fails; `d` alone yields the value of
`d` when that value is below `2^31`. -/
theorem int_converter (libc : Libc) (fuel : Nat) (self : Internal) (m : Mem)
    (info : cArgInfo) (t d sfx : CStr) (rest : List CStr)
    (hInt : info.mType = kTypeInt)
    (hd : isDecimalNumeral d = true)
    (hsfx : sfx ≠ []) (halpha : ∀ c ∈ sfx, isalpha c = true) :
    (∃ r, ParseArgument libc fuel self m info (t :: rest) = Run.ret r ∧ r.argv = rest
      ∧ (((strtol libc.longBits t).2 ≠ [] ∧ r.error = kArgErrorGarbage ∧ r.mem = m
            ∧ r.self.mErrorString
                = Sprintf ("Garbage at end of number: '".toList ++ t ++ "' ".toList)
            ∧ t.take 996 <:+: r.self.mErrorString)
          ∨ ((strtol libc.longBits t).2 = [] ∧ r.error = kArgNoError
            ∧ r.mem = assign info.mLocation
                (some (Scalar.int (toInt32 (strtol libc.longBits t).1))) m)))
    ∧ (∃ r, ParseArgument libc fuel self m info ((d ++ sfx) :: rest) = Run.ret r
      ∧ r.error = kArgErrorGarbage ∧ r.mem = m)
    ∧ (decimalValue d < 2 ^ 31 →
        ∃ r, ParseArgument libc fuel self m info (d :: rest) = Run.ret r
          ∧ r.error = kArgNoError
          ∧ r.mem = assign info.mLocation (some (Scalar.int (decimalValue d))) m) := by
  refine ⟨?_, ?_, ?_⟩
  · refine ⟨_, ParseArgument_int libc fuel self m info t rest hInt, rfl, ?_⟩
    by_cases h : (strtol libc.longBits t).2 = []
    · right
      refine ⟨h, ?_, ?_⟩ <;> simp [storeConverted, Parse_int_ok libc t h, Converted.map]
    · left
      refine ⟨h, ?_, ?_, ?_, ?_⟩
      · simp [storeConverted, Parse_int_garbage libc t h, Converted.map]
      · simp [storeConverted, Parse_int_garbage libc t h, Converted.map, assign]
      · simp [storeConverted, Parse_int_garbage libc t h, Converted.map, errorStringAfter]
      · simp only [storeConverted, Parse_int_garbage libc t h, Converted.map, errorStringAfter,
          Option.getD_some]
        exact garbage_message_contains t
  · have hs : strtol libc.longBits (d ++ sfx)
        = (clampLong libc.longBits (decimalValue d), sfx) := by
      apply strtol_numeral libc.longBits d sfx hd
      intro c hc
      cases sfx with
      | nil => exact absurd rfl hsfx
      | cons x xs =>
        simp only [List.head?_cons, Option.mem_def, Option.some.injEq] at hc
        subst hc
        exact alpha_not_digit _ (halpha _ (List.mem_cons_self _ _))
    have hg : (strtol libc.longBits (d ++ sfx)).2 ≠ [] := by rw [hs]; exact hsfx
    refine ⟨_, ParseArgument_int libc fuel self m info (d ++ sfx) rest hInt, ?_, ?_⟩
    · simp [storeConverted, Parse_int_garbage libc _ hg, Converted.map]
    · simp [storeConverted, Parse_int_garbage libc _ hg, Converted.map, assign]
  · intro hv
    have hs : strtol libc.longBits d = (clampLong libc.longBits (decimalValue d), []) := by
      have := strtol_numeral libc.longBits d [] hd (by simp)
      simpa using this
    have hok : (strtol libc.longBits d).2 = [] := by rw [hs]
    refine ⟨_, ParseArgument_int libc fuel self m info d rest hInt, ?_, ?_⟩
    · simp [storeConverted, Parse_int_ok libc _ hok, Converted.map]
    · simp only [storeConverted, Parse_int_ok libc _ hok, Converted.map, Option.map_some', hs,
        clampLong_small libc.longBits libc.longBits_ge _ hv, toInt32_small _ hv]

theorem int_converter_witness :
    (∃ r, ParseArgument exampleLibc 0 Internal.fresh exampleMem
        ⟨kTypeInt, [], some 0, true, -1⟩ ["0x10".toList] = Run.ret r ∧ r.argv = []
      ∧ (((strtol exampleLibc.longBits "0x10".toList).2 ≠ [] ∧ r.error = kArgErrorGarbage
            ∧ r.mem = exampleMem
            ∧ r.self.mErrorString
                = Sprintf ("Garbage at end of number: '".toList ++ "0x10".toList ++ "' ".toList)
            ∧ "0x10".toList.take 996 <:+: r.self.mErrorString)
          ∨ ((strtol exampleLibc.longBits "0x10".toList).2 = [] ∧ r.error = kArgNoError
            ∧ r.mem = assign (some 0)
                (some (Scalar.int (toInt32 (strtol exampleLibc.longBits "0x10".toList).1)))
                exampleMem)))
    ∧ (∃ r, ParseArgument exampleLibc 0 Internal.fresh exampleMem
        ⟨kTypeInt, [], some 0, true, -1⟩ [("12".toList ++ "abc".toList)] = Run.ret r
      ∧ r.error = kArgErrorGarbage ∧ r.mem = exampleMem)
    ∧ (∃ r, ParseArgument exampleLibc 0 Internal.fresh exampleMem
        ⟨kTypeInt, [], some 0, true, -1⟩ ["12".toList] = Run.ret r
      ∧ r.error = kArgNoError
      ∧ r.mem = assign (some 0) (some (Scalar.int (decimalValue "12".toList))) exampleMem) :=
  have h := int_converter exampleLibc 0 Internal.fresh exampleMem
    ⟨kTypeInt, [], some 0, true, -1⟩ "0x10".toList "12".toList "abc".toList [] rfl
    (by decide) (by decide) (by decide)
  ⟨h.1, h.2.1, h.2.2 (by decide)⟩

theorem strtol_no_number (longBits : Nat) (c : Char) (l : CStr)
    (hsp : isspace c = false) (hminus : c ≠ '-') (hplus : c ≠ '+') (hzero : c ≠ '0')
    (hdig : digitIn 10 c = none) :
    strtol longBits (c :: l) = (0, c :: l) := by
  have h1 : (c :: l).dropWhile isspace = c :: l := by
    simp [List.dropWhile_cons, hsp]
  have h2 : strtolSign (c :: l) = (false, c :: l) := by
    simp [strtolSign, hminus, hplus]
  have h3 : strtolBase (c :: l) = (10, c :: l) := by
    simp [strtolBase, hzero]
  simp only [strtol, h1, h2, h3, strtolDigits, hdig]
  simp

theorem Sprintf_length (s : CStr) : (Sprintf s).length ≤ 1023 := by
  simp [Sprintf, List.length_take]

theorem not_contained_of_longer (t msg : CStr) (h : msg.length < t.length) :
    ¬ t <:+: msg := by
  rintro ⟨a, b, hab⟩
  have := congrArg List.length hab
  simp only [List.length_append] at this
  omega

theorem int_garbage_long (libc : Libc) (info : cArgInfo) (self : Internal) (m : Mem)
    (t : CStr) (hInt : info.mType = kTypeInt)
    (hs : (strtol libc.longBits t).2 ≠ []) (hlen : 1023 < t.length) :
    ∃ r, ParseArgument libc 0 self m info [t] = Run.ret r
      ∧ r.error = kArgErrorGarbage ∧ ¬ t <:+: r.self.mErrorString := by
  refine ⟨_, ParseArgument_int libc 0 self m info t [] hInt, ?_, ?_⟩
  · simp [storeConverted, Parse_int_garbage _ _ hs, Converted.map]
  · simp only [storeConverted, Parse_int_garbage _ _ hs, Converted.map, errorStringAfter,
      Option.getD_some]
    apply not_contained_of_longer
    have := Sprintf_length ("Garbage at end of number: '".toList ++ t ++ "' ".toList)
    omega

/-- C5 as stated fails twice: on a garbage token of 1100 characters the
message does not contain the token, and the numeral `2147483648` yields
`-2147483648` where `long` has 64 bits. -/
theorem int_converter_counterexample :
    (∃ r, ParseArgument exampleLibc 0 Internal.fresh exampleMem
        ⟨kTypeInt, [], some 0, true, -1⟩ [List.replicate 1100 'x'] = Run.ret r
      ∧ r.error = kArgErrorGarbage
      ∧ ¬ List.replicate 1100 'x' <:+: r.self.mErrorString)
    ∧ (isDecimalNumeral "2147483648".toList = true
      ∧ decimalValue "2147483648".toList = 2147483648
      ∧ ∃ r, ParseArgument exampleLibc 0 Internal.fresh exampleMem
          ⟨kTypeInt, [], some 0, true, -1⟩ ["2147483648".toList] = Run.ret r
        ∧ r.error = kArgNoError
        ∧ r.mem 0 = Value.scalar (Scalar.int (-2147483648))) := by
  refine ⟨?_, by decide, by decide, ?_⟩
  · apply int_garbage_long exampleLibc _ _ _ _ rfl
    · rw [show (1100 : Nat) = 1099 + 1 from rfl, List.replicate_succ,
        strtol_no_number _ 'x' _ (by decide) (by decide) (by decide) (by decide) (by decide)]
      exact List.cons_ne_nil _ _
    · rw [List.length_replicate]; decide
  · refine ⟨_, ParseArgument_int _ _ _ _ _ _ _ rfl, ?_, ?_⟩ <;> decide

/-! ## C10: the `bool` converter -/

theorem ParseArgument_bool (libc : Libc) (fuel : Nat) (self : Internal) (m : Mem)
    (info : cArgInfo) (t : CStr) (rest : List CStr) (hBool : info.mType = kTypeBool) :
    ParseArgument libc fuel self m info (t :: rest)
      = Run.ret (storeConverted ((Parse_bool libc t).map Scalar.bool) info rest
          (self.markFlag info.mFlagToSet) m) := by
  apply ParseArgument_scalar libc fuel self m info t rest
    (fun arg => (Parse_bool libc arg).map Scalar.bool)
    (isScalarSlot_of_mType info kTypeBool hBool (by decide))
  rw [hBool]; rfl

theorem StrEq_exclusive (t a b : CStr) (ha : StrEq t a = true) (hab : StrEq a b = false) :
    StrEq t b = false := by
  simp only [StrEq, beq_iff_eq, beq_eq_false_iff_ne, ne_eq] at *
  rw [ha]; exact hab

theorem Parse_bool_cases (libc : Libc) (t : CStr) :
    Parse_bool libc t =
      if StrEq t "true".toList ∨ StrEq t "on".toList then ⟨kArgNoError, some true, none⟩
      else if StrEq t "false".toList ∨ StrEq t "off".toList then ⟨kArgNoError, some false, none⟩
      else ⟨(Parse_int libc t).error, (Parse_int libc t).result.map (fun i => i != 0),
        (Parse_int libc t).errorString⟩ := by
  unfold Parse_bool
  by_cases h1 : StrEq t "true".toList = true
  · rw [if_pos h1, if_pos (Or.inl h1)]
  · by_cases h3 : StrEq t "on".toList = true
    · have h2 : StrEq t "false".toList = false := StrEq_exclusive t _ _ h3 (by decide)
      rw [if_neg h1, if_neg (by rw [h2]; exact Bool.false_ne_true), if_pos h3,
        if_pos (Or.inr h3)]
    · have hA : ¬ (StrEq t "true".toList = true ∨ StrEq t "on".toList = true) :=
        fun h => h.elim h1 h3
      rw [if_neg hA, if_neg h1]
      by_cases h2 : StrEq t "false".toList = true
      · rw [if_pos h2, if_pos (Or.inl h2)]
      · by_cases h4 : StrEq t "off".toList = true
        · rw [if_neg h2, if_neg h3, if_pos h4, if_pos (Or.inr h4)]
        · have hB : ¬ (StrEq t "false".toList = true ∨ StrEq t "off".toList = true) :=
            fun h => h.elim h2 h4
          rw [if_neg h2, if_neg h3, if_neg h4, if_neg hB]
          by_cases hg : (strtol libc.longBits t).2 = []
          · rw [Parse_int_ok libc t hg]; rfl
          · rw [Parse_int_garbage libc t hg]; rfl

/-- C10. For a `bool` slot and a token `t`: when `t` equals "true" or "on"
ignoring case the converter returns `kArgNoError` and stores `true`; when it
equals "false" or "off" it stores `false`; for every other token it returns
what the `int` converter returns on `t`, stores `true` iff the integer parsed
is not 0, and leaves the message of the `int` converter. In every case the
result is `kArgNoError`, or `kArgErrorGarbage` with the destination as it
was. -/
theorem bool_converter (libc : Libc) (fuel : Nat) (self : Internal) (m : Mem)
    (info : cArgInfo) (t : CStr) (rest : List CStr) (hBool : info.mType = kTypeBool) :
    ∃ r, ParseArgument libc fuel self m info (t :: rest) = Run.ret r ∧ r.argv = rest
      ∧ (if StrEq t "true".toList ∨ StrEq t "on".toList then
          r.error = kArgNoError
            ∧ r.mem = assign info.mLocation (some (Scalar.bool true)) m
        else if StrEq t "false".toList ∨ StrEq t "off".toList then
          r.error = kArgNoError
            ∧ r.mem = assign info.mLocation (some (Scalar.bool false)) m
        else
          r.error = (Parse_int libc t).error
            ∧ r.mem = assign info.mLocation
                ((Parse_int libc t).result.map (fun i => Scalar.bool (i != 0))) m
            ∧ r.self.mErrorString
                = errorStringAfter (Parse_int libc t) self.mErrorString)
      ∧ (r.error = kArgNoError ∨ (r.error = kArgErrorGarbage ∧ r.mem = m)) := by
  refine ⟨_, ParseArgument_bool libc fuel self m info t rest hBool, rfl, ?_, ?_⟩
  · simp only [storeConverted, Parse_bool_cases libc t, Converted.map]
    split_ifs <;> simp [errorStringAfter, Function.comp_def]
  · simp only [storeConverted, Parse_bool_cases libc t, Converted.map]
    split_ifs
    · left; rfl
    · left; rfl
    · by_cases hg : (strtol libc.longBits t).2 = []
      · left; simp [Parse_int_ok libc t hg]
      · right; simp [Parse_int_garbage libc t hg, assign]

theorem bool_converter_witness :
    ∃ r, ParseArgument exampleLibc 0 Internal.fresh exampleMem
        ⟨kTypeBool, [], some 0, true, -1⟩ ["ON".toList] = Run.ret r ∧ r.argv = []
      ∧ (if StrEq "ON".toList "true".toList ∨ StrEq "ON".toList "on".toList then
          r.error = kArgNoError
            ∧ r.mem = assign (some 0) (some (Scalar.bool true)) exampleMem
        else if StrEq "ON".toList "false".toList ∨ StrEq "ON".toList "off".toList then
          r.error = kArgNoError
            ∧ r.mem = assign (some 0) (some (Scalar.bool false)) exampleMem
        else
          r.error = (Parse_int exampleLibc "ON".toList).error
            ∧ r.mem = assign (some 0)
                ((Parse_int exampleLibc "ON".toList).result.map (fun i => Scalar.bool (i != 0)))
                exampleMem
            ∧ r.self.mErrorString
                = errorStringAfter (Parse_int exampleLibc "ON".toList)
                    Internal.fresh.mErrorString)
      ∧ (r.error = kArgNoError ∨ (r.error = kArgErrorGarbage ∧ r.mem = exampleMem)) :=
  bool_converter exampleLibc 0 Internal.fresh exampleMem ⟨kTypeBool, [], some 0, true, -1⟩
    "ON".toList [] rfl

/-! ## C7: the enum converter -/

theorem land_flag_of_lt (x k : Nat) (h : x < 2 ^ k) : x &&& 2 ^ k = 0 := by
  apply Nat.eq_of_testBit_eq
  intro i
  simp only [Nat.testBit_and, Nat.zero_testBit, Nat.testBit_two_pow]
  by_cases hik : k = i
  · subst hik
    simp [Nat.testBit_lt_two_pow h]
  · simp [hik]

theorem isScalarSlot_enum (info : cArgInfo) (idx : Nat) (h : info.mType = kTypeEnumBegin + idx)
    (hidx : idx < 1024) : isScalarSlot info = true := by
  have hx : kTypeEnumBegin + idx < 2 ^ 14 := by
    simp only [kTypeEnumBegin]; omega
  have h1 : (kTypeEnumBegin + idx) &&& kTypeArrayListFlag = 0 :=
    land_flag_of_lt _ 15 (by omega)
  have h2 : (kTypeEnumBegin + idx) &&& kTypeArraySplitFlag = 0 :=
    land_flag_of_lt _ 14 hx
  have n2 : kTypeEnumBegin + idx ≠ kTypeVec2 := by
    simp only [kTypeEnumBegin, kTypeVec2]; omega
  have n3 : kTypeEnumBegin + idx ≠ kTypeVec3 := by
    simp only [kTypeEnumBegin, kTypeVec3]; omega
  have n4 : kTypeEnumBegin + idx ≠ kTypeVec4 := by
    simp only [kTypeEnumBegin, kTypeVec4]; omega
  simp only [isScalarSlot, h, h1, h2, beq_self_eq_true, Bool.true_and, Bool.and_eq_true,
    bne_iff_ne, ne_eq]
  exact ⟨⟨n2, n3⟩, n4⟩

theorem converterFor_enum (libc : Libc) (mEnumSpecs : List cEnumSpec) (idx : Nat)
    (enumSpec : cEnumSpec) (h : mEnumSpecs[idx]? = some enumSpec) :
    converterFor libc mEnumSpecs (kTypeEnumBegin + idx)
      = some (fun arg => (Parse_enum enumSpec arg).map Scalar.int) := by
  have hlt : idx < mEnumSpecs.length := (List.getElem?_eq_some.mp h).1
  unfold converterFor
  simp only [kTypeEnumBegin, kTypeBool, kTypeInt, kTypeFloat, kTypeDouble, kTypeCString,
    kTypeString]
  rw [if_neg (by omega), if_neg (by omega), if_neg (by omega), if_neg (by omega),
    if_neg (by omega), if_neg (by omega), if_pos ⟨by omega, by omega⟩]
  simp only [Nat.add_sub_cancel_left, h]

theorem Parse_enum_loop_find (arg : CStr) (table : List cArgEnumInfo) :
    Parse_enum_loop arg table
      = (table.find? (fun e => StrEq arg e.mToken)).map (fun e => e.mValue) := by
  induction table with
  | nil => rfl
  | cons e rest ih =>
    simp only [Parse_enum_loop, List.find?_cons]
    by_cases h : StrEq arg e.mToken = true
    · simp [h]
    · simp [h, ih]


theorem ParseArgument_enum (libc : Libc) (fuel : Nat) (self : Internal) (m : Mem)
    (info : cArgInfo) (t : CStr) (rest : List CStr) (idx : Nat) (enumSpec : cEnumSpec)
    (hty : info.mType = kTypeEnumBegin + idx) (hidx : idx < 1024)
    (hspec : self.mEnumSpecs[idx]? = some enumSpec) :
    ParseArgument libc fuel self m info (t :: rest)
      = Run.ret (storeConverted ((Parse_enum enumSpec t).map Scalar.int) info rest
          (self.markFlag info.mFlagToSet) m) := by
  apply ParseArgument_scalar libc fuel self m info t rest
    (fun arg => (Parse_enum enumSpec arg).map Scalar.int)
    (isScalarSlot_enum info idx hty hidx)
  rw [hty]; exact converterFor_enum libc _ idx enumSpec hspec

theorem assign_none (location : Option Nat) (m : Mem) : assign location none m = m := by
  cases location <;> rfl

theorem enum_message (t name : CStr) :
    Sprintf ("Unknown enum '".toList ++ t ++ "' of type ".toList ++ name)
      = "Unknown enum '".toList ++ t.take 1009
          ++ ("' of type ".toList.take (1009 - t.length) ++ name.take (999 - t.length)) := by
  have h : List.take 1023 ("Unknown enum '".toList ++ t ++ ("' of type ".toList ++ name))
      = "Unknown enum '".toList ++ t.take 1009
          ++ List.take (1009 - t.length) ("' of type ".toList ++ name) :=
    take_message "Unknown enum '".toList t ("' of type ".toList ++ name) 1009
  have hk : 1009 - t.length - "' of type ".toList.length = 999 - t.length := by
    have : "' of type ".toList.length = 10 := by decide
    omega
  have h2 : List.take (1009 - t.length) ("' of type ".toList ++ name)
      = "' of type ".toList.take (1009 - t.length) ++ name.take (999 - t.length) := by
    rw [List.take_append_eq_append_take, hk]
  unfold Sprintf
  rw [List.append_assoc ("Unknown enum '".toList ++ t), h, h2]

/-- C7, amended. For an enum slot whose type is the enum at index `idx` (below
1024) and a token `t`: the converter stores the value of the first entry of
the table whose token equals `t` ignoring case and returns `kArgNoError`; when
no entry matches it returns `kArgErrorBadEnum`, leaves the destination as it
was and sets the message to the first 1023 characters of
"Unknown enum 't' of type NAME", which holds the first 1009 characters of `t`
and the first `999 - |t|` characters of the enum's name (so both in full when
`|t| + |NAME| <= 999`). -/
theorem enum_converter (libc : Libc) (fuel : Nat) (self : Internal) (m : Mem)
    (info : cArgInfo) (t : CStr) (rest : List CStr) (idx : Nat) (enumSpec : cEnumSpec)
    (hty : info.mType = kTypeEnumBegin + idx) (hidx : idx < 1024)
    (hspec : self.mEnumSpecs[idx]? = some enumSpec) :
    ∃ r, ParseArgument libc fuel self m info (t :: rest) = Run.ret r ∧ r.argv = rest
      ∧ ((∃ e, enumSpec.mEnumInfo.find? (fun e => StrEq t e.mToken) = some e
            ∧ r.error = kArgNoError
            ∧ r.mem = assign info.mLocation (some (Scalar.int e.mValue)) m)
        ∨ (enumSpec.mEnumInfo.find? (fun e => StrEq t e.mToken) = none
            ∧ r.error = kArgErrorBadEnum ∧ r.mem = m
            ∧ r.self.mErrorString
                = Sprintf ("Unknown enum '".toList ++ t ++ "' of type ".toList ++ enumSpec.mName)
            ∧ t.take 1009 <:+: r.self.mErrorString
            ∧ enumSpec.mName.take (999 - t.length) <:+: r.self.mErrorString)) := by
  refine ⟨_, ParseArgument_enum libc fuel self m info t rest idx enumSpec hty hidx hspec,
    rfl, ?_⟩
  cases hf : enumSpec.mEnumInfo.find? (fun e => StrEq t e.mToken) with
  | some e =>
    left
    have hl : Parse_enum_loop t enumSpec.mEnumInfo = some e.mValue := by
      rw [Parse_enum_loop_find, hf]; rfl
    refine ⟨e, rfl, ?_, ?_⟩ <;> simp [storeConverted, Parse_enum, hl, Converted.map]
  | none =>
    right
    have hl : Parse_enum_loop t enumSpec.mEnumInfo = none := by
      rw [Parse_enum_loop_find, hf]; rfl
    have hmsg : (storeConverted ((Parse_enum enumSpec t).map Scalar.int) info rest
        (self.markFlag info.mFlagToSet) m).self.mErrorString
        = Sprintf ("Unknown enum '".toList ++ t ++ "' of type ".toList ++ enumSpec.mName) := by
      simp only [storeConverted, Parse_enum, hl, Converted.map, errorStringAfter,
        Option.getD_some]
    refine ⟨rfl, ?_, ?_, hmsg, ?_, ?_⟩
    · simp only [storeConverted, Parse_enum, hl, Converted.map]
    · simp only [storeConverted, Parse_enum, hl, Converted.map, Option.map_none', assign_none]
    · rw [hmsg, enum_message]
      exact ⟨"Unknown enum '".toList, _, by rw [List.append_assoc]⟩
    · rw [hmsg, enum_message]
      exact ⟨"Unknown enum '".toList ++ t.take 1009
          ++ "' of type ".toList.take (1009 - t.length), [], by simp⟩


theorem enum_converter_witness :
    (∃ r, ParseArgument exampleLibc 0 colourSpec exampleMem
        ⟨kTypeEnumBegin + 0, [], some 0, true, -1⟩ ["GREEN".toList] = Run.ret r ∧ r.argv = []
      ∧ ((∃ e, colourEnum.mEnumInfo.find? (fun e => StrEq "GREEN".toList e.mToken) = some e
            ∧ r.error = kArgNoError
            ∧ r.mem = assign (some 0) (some (Scalar.int e.mValue)) exampleMem)
        ∨ (colourEnum.mEnumInfo.find? (fun e => StrEq "GREEN".toList e.mToken) = none
            ∧ r.error = kArgErrorBadEnum ∧ r.mem = exampleMem
            ∧ r.self.mErrorString
                = Sprintf ("Unknown enum '".toList ++ "GREEN".toList ++ "' of type ".toList
                    ++ colourEnum.mName)
            ∧ "GREEN".toList.take 1009 <:+: r.self.mErrorString
            ∧ colourEnum.mName.take (999 - "GREEN".toList.length) <:+: r.self.mErrorString)))
    ∧ colourEnum.mEnumInfo.find? (fun e => StrEq "GREEN".toList e.mToken)
        = some ⟨"green".toList, 1⟩
    ∧ colourEnum.mEnumInfo.find? (fun e => StrEq "purple".toList e.mToken) = none :=
  ⟨enum_converter exampleLibc 0 colourSpec exampleMem ⟨kTypeEnumBegin + 0, [], some 0, true, -1⟩
    "GREEN".toList [] 0 colourEnum rfl (by decide) rfl, by decide, by decide⟩

theorem enum_bad_long (libc : Libc) (self : Internal) (m : Mem) (info : cArgInfo) (t : CStr)
    (idx : Nat) (enumSpec : cEnumSpec)
    (hty : info.mType = kTypeEnumBegin + idx) (hidx : idx < 1024)
    (hspec : self.mEnumSpecs[idx]? = some enumSpec)
    (hf : enumSpec.mEnumInfo.find? (fun e => StrEq t e.mToken) = none)
    (hlen : 1023 < t.length) :
    ∃ r, ParseArgument libc 0 self m info [t] = Run.ret r
      ∧ r.error = kArgErrorBadEnum ∧ ¬ t <:+: r.self.mErrorString := by
  have hl : Parse_enum_loop t enumSpec.mEnumInfo = none := by
    rw [Parse_enum_loop_find, hf]; rfl
  have hmsg : (storeConverted ((Parse_enum enumSpec t).map Scalar.int) info []
      (self.markFlag info.mFlagToSet) m).self.mErrorString
      = Sprintf ("Unknown enum '".toList ++ t ++ "' of type ".toList ++ enumSpec.mName) := by
    simp only [storeConverted, Parse_enum, hl, Converted.map, errorStringAfter,
      Option.getD_some]
  refine ⟨_, ParseArgument_enum libc 0 self m info t [] idx enumSpec hty hidx hspec, ?_, ?_⟩
  · simp only [storeConverted, Parse_enum, hl, Converted.map]
  · rw [hmsg]
    apply not_contained_of_longer
    have := Sprintf_length ("Unknown enum '".toList ++ t ++ "' of type ".toList
      ++ enumSpec.mName)
    omega

theorem StrEq_length (a b : CStr) (h : StrEq a b = true) : a.length = b.length := by
  simp only [StrEq, beq_iff_eq] at h
  have := congrArg List.length h
  simpa using this

/-- C7 as stated fails on a token of 1100 characters: the message, cut at 1023
characters, does not contain the token. -/
theorem enum_converter_counterexample :
    ∃ r, ParseArgument exampleLibc 0 colourSpec exampleMem
        ⟨kTypeEnumBegin + 0, [], some 0, true, -1⟩ [List.replicate 1100 'z'] = Run.ret r
      ∧ r.error = kArgErrorBadEnum
      ∧ ¬ List.replicate 1100 'z' <:+: r.self.mErrorString := by
  apply enum_bad_long exampleLibc colourSpec exampleMem _ _ 0 colourEnum rfl (by decide) rfl
  · rw [List.find?_eq_none]
    intro e he hs
    have hl := StrEq_length _ _ hs
    rw [List.length_replicate] at hl
    have : e.mToken.length ≤ 5 := by
      simp only [colourEnum, List.mem_cons, List.mem_singleton, List.not_mem_nil, or_false] at he
      rcases he with rfl | rfl | rfl <;> decide
    omega
  · rw [List.length_replicate]; decide

/-! ## C6: the vector converter -/

theorem storeFloats_append (xs ys : List CFloat) :
    ∀ (v : Nat) (m : Mem),
      storeFloats v (xs ++ ys) m = storeFloats (v + xs.length) ys (storeFloats v xs m) := by
  induction xs with
  | nil => intro v m; rfl
  | cons x xs ih =>
    intro v m
    show storeFloats (v + 1) (xs ++ ys) (m.write v (Value.scalar (Scalar.float x)))
      = storeFloats (v + (xs.length + 1)) ys
          (storeFloats (v + 1) xs (m.write v (Value.scalar (Scalar.float x))))
    rw [ih, show v + 1 + xs.length = v + (xs.length + 1) by omega]

theorem storeFloats_outside (xs : List CFloat) :
    ∀ (v : Nat) (m : Mem) (a : Nat), (a < v ∨ v + xs.length ≤ a) →
      storeFloats v xs m a = m a := by
  induction xs with
  | nil => intro v m a _; rfl
  | cons x xs ih =>
    intro v m a ha
    simp only [storeFloats, List.length_cons] at ha ⊢
    rw [ih (v + 1) _ a (by omega)]
    simp only [Mem.write]
    rw [if_neg (by omega)]

theorem storeFloats_get (xs : List CFloat) :
    ∀ (v : Nat) (m : Mem) (j : Nat) (x : CFloat), xs[j]? = some x →
      storeFloats v xs m (v + j) = Value.scalar (Scalar.float x) := by
  induction xs with
  | nil => intro v m j x h; simp at h
  | cons y ys ih =>
    intro v m j x h
    cases j with
    | zero =>
      simp only [List.getElem?_cons_zero, Option.some.injEq] at h
      subst h
      simp only [storeFloats, Nat.add_zero]
      rw [storeFloats_outside ys (v + 1) _ v (by omega)]
      simp [Mem.write]
    | succ j =>
      simp only [List.getElem?_cons_succ] at h
      simp only [storeFloats]
      have := ih (v + 1) (m.write v (Value.scalar (Scalar.float y))) j x h
      rw [show v + (j + 1) = v + 1 + j by omega]
      exact this

theorem fill_loop_eq (v : Nat) (x : CFloat) :
    ∀ (count j : Nat) (m : Mem),
      fill_loop v x count j m = storeFloats (v + j) (List.replicate count x) m := by
  intro count
  induction count with
  | zero => intro j m; rfl
  | succ count ih =>
    intro j m
    simp only [fill_loop, List.replicate_succ, storeFloats, ih]
    rfl

theorem Parse_float_ok (libc : Libc) (t : CStr) (h : (libc.strtof t).2 = []) :
    Parse_float libc t = ⟨kArgNoError, some (libc.strtof t).1, none⟩ := by
  simp only [Parse_float, h, ne_eq, not_true_eq_false, if_false]

theorem Parse_float_garbage (libc : Libc) (t : CStr) (h : (libc.strtof t).2 ≠ []) :
    Parse_float libc t = ⟨kArgErrorGarbage, none,
      some (Sprintf ("Garbage at end of number: '".toList ++ t ++ "' ".toList))⟩ := by
  simp only [Parse_float, h, ne_eq, not_false_eq_true, if_true]

theorem vecTaken_cons (n : Nat) (tok : CStr) (rest : List CStr) :
    vecTaken n (tok :: rest)
      = if 0 < n ∧ IsOption tok = false then tok :: vecTaken (n - 1) rest else [] := by
  unfold vecTaken
  by_cases h : IsOption tok = false
  · cases n with
    | zero => simp
    | succ n => simp [List.takeWhile_cons, h]
  · have h1 : IsOption tok = true := by simpa using h
    simp [List.takeWhile_cons, h1]

theorem Parse_vec_loop_ok (libc : Libc) (n v : Nat) :
    ∀ (argv : List CStr) (i : Nat) (m : Mem) (es : CStr),
      (∀ t ∈ vecTaken (n - i) argv, (libc.strtof t).2 = []) →
      Parse_vec_loop libc n v argv i m es
        = (i + (vecTaken (n - i) argv).length,
            ⟨kArgNoError, argv.drop (vecTaken (n - i) argv).length, es,
              storeFloats (v + i) ((vecTaken (n - i) argv).map (fun t => (libc.strtof t).1)) m⟩) := by
  intro argv
  induction argv with
  | nil => intro i m es _; simp [Parse_vec_loop, vecTaken, storeFloats]
  | cons tok rest ih =>
    intro i m es hok
    rw [vecTaken_cons] at hok ⊢
    by_cases hc : i < n ∧ IsOption tok = false
    · have hc2 : 0 < n - i ∧ IsOption tok = false := ⟨by omega, hc.2⟩
      rw [if_pos hc2] at hok ⊢
      have htok : (libc.strtof tok).2 = [] := hok tok (List.mem_cons_self _ _)
      have hrest : ∀ t ∈ vecTaken (n - (i + 1)) rest, (libc.strtof t).2 = [] := by
        intro t ht
        apply hok t
        rw [show n - i - 1 = n - (i + 1) by omega]
        exact List.mem_cons_of_mem _ ht
      simp only [Parse_vec_loop, hc, and_self, if_true, Parse_float_ok libc tok htok, ne_eq,
        not_true_eq_false, if_false, Option.map_some', Option.getD_none, assign]
      rw [ih (i + 1) _ es hrest, show n - i - 1 = n - (i + 1) by omega]
      simp only [List.length_cons, List.map_cons, storeFloats, List.drop_succ_cons]
      congr 1
      omega
    · have hc2 : ¬ (0 < n - i ∧ IsOption tok = false) := by
        intro h; exact hc ⟨by omega, h.2⟩
      rw [if_neg hc2]
      simp [Parse_vec_loop, hc, storeFloats]

theorem Parse_vec_loop_garbage (libc : Libc) (n v : Nat) :
    ∀ (argv : List CStr) (i : Nat) (m : Mem) (es : CStr),
      (∃ t ∈ vecTaken (n - i) argv, (libc.strtof t).2 ≠ []) →
      (Parse_vec_loop libc n v argv i m es).2.error = kArgErrorGarbage := by
  intro argv
  induction argv with
  | nil => intro i m es h; simp [vecTaken] at h
  | cons tok rest ih =>
    intro i m es h
    rw [vecTaken_cons] at h
    by_cases hc : i < n ∧ IsOption tok = false
    · have hc2 : 0 < n - i ∧ IsOption tok = false := ⟨by omega, hc.2⟩
      rw [if_pos hc2] at h
      by_cases htok : (libc.strtof tok).2 = []
      · obtain ⟨t, ht, hbad⟩ := h
        have ht2 : t ∈ vecTaken (n - (i + 1)) rest := by
          rcases List.mem_cons.mp ht with rfl | ht
          · exact absurd htok hbad
          · rw [show n - (i + 1) = n - i - 1 by omega]; exact ht
        simp only [Parse_vec_loop, hc, and_self, if_true, Parse_float_ok libc tok htok, ne_eq,
          not_true_eq_false, if_false]
        exact ih (i + 1) _ _ ⟨t, ht2, hbad⟩
      · simp only [Parse_vec_loop, hc, and_self, if_true, Parse_float_garbage libc tok htok,
          ne_eq, not_false_eq_true]
        rfl
    · have hc2 : ¬ (0 < n - i ∧ IsOption tok = false) := by
        intro h; exact hc ⟨by omega, h.2⟩
      rw [if_neg hc2] at h
      simp at h

theorem vecTaken_length_le (n : Nat) (argv : List CStr) : (vecTaken n argv).length ≤ n := by
  simp [vecTaken, List.length_take]

/-- C6. The `N`-component vector converter, `N` in {2, 3, 4}, takes the
tokens of `argv` before the first option marker, at most `N` of them
(`vecTaken`). It returns `kArgNoError` exactly when each of them is read by
`strtof` to its end, and `kArgErrorGarbage` otherwise. When it returns
`kArgNoError` the tokens left are those after the ones taken, and component
`j` holds the value of the single token when exactly one was taken, else the
value of token `j` when `j` tokens or more were taken and 0 when fewer were;
so one token is broadcast, `N` tokens fill the components in order, and no
token gives zeros. Memory outside `v[0 .. N-1]` is as it was. -/
theorem vec_converter (libc : Libc) (N v : Nat) (argv : List CStr) (m : Mem) (es : CStr)
    (hN : N = 2 ∨ N = 3 ∨ N = 4) :
    ((Parse_vec libc N v argv m es).error = kArgNoError
        ↔ ∀ t ∈ vecTaken N argv, (libc.strtof t).2 = [])
    ∧ ((Parse_vec libc N v argv m es).error = kArgNoError
        ∨ (Parse_vec libc N v argv m es).error = kArgErrorGarbage)
    ∧ ((∀ t ∈ vecTaken N argv, (libc.strtof t).2 = []) →
        (Parse_vec libc N v argv m es).argv = argv.drop (vecTaken N argv).length
        ∧ (∀ j, j < N → (Parse_vec libc N v argv m es).mem (v + j)
            = Value.scalar (Scalar.float
                (if (vecTaken N argv).length = 1 then
                  ((vecTaken N argv).map (fun t => (libc.strtof t).1)).headD 0
                else ((vecTaken N argv).map (fun t => (libc.strtof t).1)).getD j 0)))
        ∧ (∀ a, (a < v ∨ v + N ≤ a) → (Parse_vec libc N v argv m es).mem a = m a)) := by
  have hval : (∀ t ∈ vecTaken N argv, (libc.strtof t).2 = []) →
      (Parse_vec libc N v argv m es).error = kArgNoError
      ∧ (Parse_vec libc N v argv m es).argv = argv.drop (vecTaken N argv).length
      ∧ (Parse_vec libc N v argv m es).mem
          = storeFloats v
              (if (vecTaken N argv).length = 1 then
                List.replicate N (((vecTaken N argv).map (fun t => (libc.strtof t).1)).headD 0)
              else (vecTaken N argv).map (fun t => (libc.strtof t).1)
                ++ List.replicate (N - (vecTaken N argv).length) 0) m := by
    intro hok
    have hloop := Parse_vec_loop_ok libc N v argv 0 m es (by simpa using hok)
    simp only [Nat.sub_zero, Nat.zero_add, Nat.add_zero] at hloop
    unfold Parse_vec
    simp only [hloop, ne_eq, not_true_eq_false, if_false]
    by_cases h1 : (vecTaken N argv).length = 1
    · simp only [h1, if_true, true_and]
      obtain ⟨t0, ht0⟩ := List.length_eq_one.mp h1
      have hat : floatAt (storeFloats v [(libc.strtof t0).1] m) v = (libc.strtof t0).1 := by
        simp [floatAt, storeFloats, Mem.write]
      simp only [ht0, List.map_cons, List.map_nil, List.headD_cons, fill_loop_eq, hat,
        List.drop_one, true_and]
      obtain ⟨k, rfl⟩ : ∃ k, N = k + 1 := ⟨N - 1, by omega⟩
      simp only [Nat.add_sub_cancel, List.replicate_succ, storeFloats]
    · simp only [h1, if_false, true_and, fill_loop_eq]
      rw [storeFloats_append, List.length_map]
  have hlen := vecTaken_length_le N argv
  refine ⟨⟨fun herr => ?_, fun hok => (hval hok).1⟩, ?_, fun hok => ⟨(hval hok).2.1, ?_, ?_⟩⟩
  · by_contra hbad
    push_neg at hbad
    have hg := Parse_vec_loop_garbage libc N v argv 0 m es (by simpa using hbad)
    unfold Parse_vec at herr
    simp only [hg, ne_eq] at herr
    rw [if_pos (by decide)] at herr
    rw [hg] at herr
    cases herr
  · by_cases hok : ∀ t ∈ vecTaken N argv, (libc.strtof t).2 = []
    · left; exact (hval hok).1
    · right
      push_neg at hok
      have hg := Parse_vec_loop_garbage libc N v argv 0 m es (by simpa using hok)
      unfold Parse_vec
      simp only [hg, ne_eq]
      rw [if_pos (by decide)]
      exact hg
  · intro j hj
    rw [(hval hok).2.2]
    by_cases h1 : (vecTaken N argv).length = 1
    · simp only [h1, if_true]
      apply storeFloats_get
      simp [List.getElem?_replicate, hj]
    · simp only [h1, if_false]
      apply storeFloats_get
      rw [List.getD_eq_getElem?_getD]
      by_cases hjk : j < (vecTaken N argv).length
      · rw [List.getElem?_append_left (by simpa using hjk)]
        simp [List.getElem?_eq_getElem, hjk]
      · rw [List.getElem?_append_right (by simpa using hjk)]
        have : ((vecTaken N argv).map (fun t => (libc.strtof t).1))[j]? = none := by
          simp; omega
        simp only [this, Option.getD_none, List.length_map, List.getElem?_replicate]
        rw [if_pos (by omega)]
  · intro a ha
    rw [(hval hok).2.2]
    apply storeFloats_outside
    by_cases h1 : (vecTaken N argv).length = 1
    · simp only [h1, if_true, List.length_replicate]; exact ha
    · simp only [h1, if_false, List.length_append, List.length_map, List.length_replicate]
      rcases ha with ha | ha
      · left; exact ha
      · right; omega

theorem vec_converter_witness :
    (((Parse_vec exampleLibc 3 10 ["2".toList, "-v".toList] exampleMem []).error = kArgNoError
        ↔ ∀ t ∈ vecTaken 3 ["2".toList, "-v".toList], (exampleLibc.strtof t).2 = [])
    ∧ ((Parse_vec exampleLibc 3 10 ["2".toList, "-v".toList] exampleMem []).error = kArgNoError
        ∨ (Parse_vec exampleLibc 3 10 ["2".toList, "-v".toList] exampleMem []).error
            = kArgErrorGarbage)
    ∧ ((∀ t ∈ vecTaken 3 ["2".toList, "-v".toList], (exampleLibc.strtof t).2 = []) →
        (Parse_vec exampleLibc 3 10 ["2".toList, "-v".toList] exampleMem []).argv
            = ["2".toList, "-v".toList].drop (vecTaken 3 ["2".toList, "-v".toList]).length
        ∧ (∀ j, j < 3 →
            (Parse_vec exampleLibc 3 10 ["2".toList, "-v".toList] exampleMem []).mem (10 + j)
            = Value.scalar (Scalar.float
                (if (vecTaken 3 ["2".toList, "-v".toList]).length = 1 then
                  ((vecTaken 3 ["2".toList, "-v".toList]).map
                    (fun t => (exampleLibc.strtof t).1)).headD 0
                else ((vecTaken 3 ["2".toList, "-v".toList]).map
                    (fun t => (exampleLibc.strtof t).1)).getD j 0)))
        ∧ (∀ a, (a < 10 ∨ 10 + 3 ≤ a) →
            (Parse_vec exampleLibc 3 10 ["2".toList, "-v".toList] exampleMem []).mem a
              = exampleMem a)))
    ∧ (Parse_vec exampleLibc 3 10 ["2".toList, "-v".toList] exampleMem []).mem 10
        = Value.scalar (Scalar.float 2)
    ∧ (Parse_vec exampleLibc 3 10 ["2".toList, "-v".toList] exampleMem []).mem 12
        = Value.scalar (Scalar.float 2)
    ∧ (Parse_vec exampleLibc 3 10 ["1".toList, "2".toList, "3".toList] exampleMem []).mem 12
        = Value.scalar (Scalar.float 3)
    ∧ (Parse_vec exampleLibc 3 10 ["-v".toList] exampleMem []).mem 12
        = Value.scalar (Scalar.float 0) :=
  ⟨vec_converter exampleLibc 3 10 ["2".toList, "-v".toList] exampleMem [] (by decide),
    by decide, by decide, by decide, by decide⟩

theorem ParseArgument_vec (libc : Libc) (fuel N v : Nat) (self : Internal) (m : Mem)
    (info : cArgInfo) (argv : List CStr) (hN : N = 2 ∨ N = 3 ∨ N = 4)
    (hty : info.mType = kTypeVec2 + (N - 2)) (hloc : info.mLocation = some v) :
    ParseArgument libc fuel self m info argv
      = Run.ret ⟨(Parse_vec libc N v argv m self.mErrorString).error,
          (Parse_vec libc N v argv m self.mErrorString).argv,
          { self.markFlag info.mFlagToSet with
            mErrorString := (Parse_vec libc N v argv m self.mErrorString).errorString },
          (Parse_vec libc N v argv m self.mErrorString).mem⟩ := by
  unfold ParseArgument
  rcases hN with rfl | rfl | rfl
  · have h : info.mType = 7 := hty
    simp only [h, kTypeArrayListFlag, kTypeArraySplitFlag, kTypeVec2, kTypeVec3, kTypeVec4,
      storeVec, hloc, markFlag_mErrorString]
    rfl
  · have h : info.mType = 8 := hty
    simp only [h, kTypeArrayListFlag, kTypeArraySplitFlag, kTypeVec2, kTypeVec3, kTypeVec4,
      storeVec, hloc, markFlag_mErrorString]
    rfl
  · have h : info.mType = 9 := hty
    simp only [h, kTypeArrayListFlag, kTypeArraySplitFlag, kTypeVec2, kTypeVec3, kTypeVec4,
      storeVec, hloc, markFlag_mErrorString]
    rfl

/-! ## C8: list arrays (`-words <w:cstring> ...`) -/

theorem Mem.write_write (m : Mem) (p : Nat) (x y : Value) :
    (m.write p x).write p y = m.write p y := by
  funext a
  simp only [Mem.write]
  split <;> rfl

theorem ParseArrayArgument_cstr (libc : Libc) (self : Internal) (m : Mem) (info : cArgInfo)
    (t : CStr) (rest : List CStr) (p : Nat) (l : List Scalar)
    (hty : info.mType &&& kTypeBaseMask = kTypeCString) (hloc : info.mLocation = some p)
    (hm : m p = Value.vector l) :
    ParseArrayArgument libc self m info (t :: rest)
      = Run.ret ⟨kArgNoError, rest, self, m.write p (Value.vector (l ++ [Scalar.cstr t]))⟩ := by
  unfold ParseArrayArgument
  simp only [hty, kTypeCString, kTypeVec2, kTypeVec3, kTypeVec4]
  simp only [show ¬ (5 = 7) by decide, show ¬ (5 = 8) by decide, show ¬ (5 = 9) by decide,
    if_false]
  have hc : converterFor libc self.mEnumSpecs 5
      = some (fun arg => (Parse_string arg).map Scalar.cstr) := rfl
  simp only [hc, pushConverted, Parse_string, Converted.map, errorStringAfter, Option.map_some',
    Option.getD_none, ne_eq, not_true_eq_false, if_false, push_back, hloc, hm]

theorem ListArrayLoop_cstr (libc : Libc) (info : cArgInfo) (p : Nat)
    (hty : info.mType &&& kTypeBaseMask = kTypeCString) (hloc : info.mLocation = some p)
    (rest : List CStr) (hrest : ∀ t ∈ rest.head?, IsOption t = true) :
    ∀ (ts : List CStr) (t : CStr) (self : Internal) (m : Mem) (l : List Scalar) (fuel : Nat),
      (∀ x ∈ t :: ts, IsOption x = false) → m p = Value.vector l →
      (t :: ts).length < fuel →
      ListArrayLoop libc info fuel self m (t :: ts ++ rest)
        = Run.ret ⟨kArgNoError, rest, self,
            m.write p (Value.vector (l ++ (t :: ts).map Scalar.cstr))⟩ := by
  intro ts
  induction ts with
  | nil =>
    intro t self m l fuel hno hm hfuel
    obtain ⟨f, rfl⟩ : ∃ f, fuel = f + 2 := ⟨fuel - 2, by simp at hfuel; omega⟩
    have ht : IsOption t = false := hno t (List.mem_cons_self _ _)
    simp only [List.cons_append, List.nil_append, ListArrayLoop, ht, Bool.false_eq_true,
      if_false, ParseArrayArgument_cstr libc self m info t rest p l hty hloc hm, ne_eq,
      not_true_eq_false, List.map_cons, List.map_nil]
    cases rest with
    | nil => simp
    | cons o os =>
      have ho : IsOption o = true := hrest o (by simp)
      simp [ListArrayLoop, ho]
  | cons t2 ts ih =>
    intro t self m l fuel hno hm hfuel
    obtain ⟨f, rfl⟩ : ∃ f, fuel = f + 1 := ⟨fuel - 1, by simp at hfuel; omega⟩
    have ht : IsOption t = false := hno t (List.mem_cons_self _ _)
    have hm1 : (m.write p (Value.vector (l ++ [Scalar.cstr t]))) p
        = Value.vector (l ++ [Scalar.cstr t]) := by simp [Mem.write]
    have hrec := ih t2 self (m.write p (Value.vector (l ++ [Scalar.cstr t])))
      (l ++ [Scalar.cstr t]) f (fun x hx => hno x (List.mem_cons_of_mem _ hx)) hm1
      (by simp at hfuel ⊢; omega)
    simp only [List.cons_append] at hrec ⊢
    simp only [ListArrayLoop, ht, Bool.false_eq_true, if_false,
      ParseArrayArgument_cstr libc self m info t _ p l hty hloc hm, ne_eq,
      not_true_eq_false, not_false_eq_true, if_true, reduceCtorEq]
    rw [hrec, Mem.write_write]
    simp

theorem construct_words (k : Nat) (old : Internal) (description : CStr) (words : Nat)
    (doc : CStr) :
    ConstructSpec (k + 3) old description (wordsArgs words doc)
      = Run.ret (kSpecNoError, wordsSpec old description words doc) := by
  have hb : LineBegin
      { old with mCommandDescription := description, mMainArgs := ⟨[], []⟩, mOptions := [],
                 mEnumSpecs := [], mErrorString := [] }
      "-words <w:cstring> ...".toList
      [VaArg.ptr words, VaArg.cstr doc, VaArg.null] kSpecNoError
      = Run.ret ⟨true, "words".toList, -1,
          ⟨"...".toList, "<w:cstring>".toList, 0, 0, [],
            [VaArg.ptr words, VaArg.cstr doc, VaArg.null], kSpecNoError⟩⟩ := by
    simp only [LineBegin]
    simp +decide
  have hs1 : TokenStep
      { old with mCommandDescription := description, mMainArgs := ⟨[], []⟩, mOptions := [],
                 mEnumSpecs := [], mErrorString := [] }
      ⟨"...".toList, "<w:cstring>".toList, 0, 0, [],
        [VaArg.ptr words, VaArg.cstr doc, VaArg.null], kSpecNoError⟩
      = Run.ret (TokenStepResult.next
          ⟨[], "...".toList, 0, 0,
            [⟨kTypeCString, "w".toList, some words, true, -1⟩],
            [VaArg.cstr doc, VaArg.null], kSpecNoError⟩) := by
    simp only [TokenStep]
    simp +decide [va_ptr, va_int]
    rw [FindNameAndTypeFromOption_builtin _ _ (by decide)]
    decide
  have hs2 : TokenStep
      { old with mCommandDescription := description, mMainArgs := ⟨[], []⟩, mOptions := [],
                 mEnumSpecs := [], mErrorString := [] }
      ⟨[], "...".toList, 0, 0,
        [⟨kTypeCString, "w".toList, some words, true, -1⟩],
        [VaArg.cstr doc, VaArg.null], kSpecNoError⟩
      = Run.ret (TokenStepResult.next
          ⟨[], [], 0, 0, [wordsSlot words],
            [VaArg.cstr doc, VaArg.null], kSpecNoError⟩) := by
    simp only [TokenStep]
    simp +decide [wordsSlot]
  have hline := ConstructLine_eq (k + 2) _ _ _ _ _ none _ hb
    (by rw [TokenLoop_next _ _ _ _ (by simp) hs1, TokenLoop_next _ _ _ _ (by simp) hs2,
          TokenLoop_done _ _ _ rfl])
  unfold ConstructSpec wordsArgs
  rw [ClauseLoop_line (k + 2) _ _ _ _ _ _ _ (by decide) (by decide) (hline.trans rfl),
    ClauseLoop_null]
  rfl

theorem markFlag_neg_one (self : Internal) : self.markFlag (-1) = self := by
  simp [Internal.markFlag]

theorem clear_of_ne (mType p : Nat) (m : Mem) (h : mType &&& kTypeBaseMask ≠ kTypeBool) :
    clear mType p m = m.write p (Value.vector []) := if_neg h

theorem clear_bool (mType p : Nat) (m : Mem) (h : mType &&& kTypeBaseMask = kTypeBool) :
    clear mType p m = m := if_pos h

theorem clear_other (mType p : Nat) (m : Mem) (a : Nat) (ha : a ≠ p) :
    clear mType p m a = m a := by
  unfold clear
  split
  · rfl
  · simp [Mem.write, ha]

theorem ParseArgument_words (libc : Libc) (fuel : Nat) (self : Internal) (m : Mem) (p : Nat)
    (t : CStr) (ts rest : List CStr)
    (hno : ∀ x ∈ t :: ts, IsOption x = false)
    (hrest : ∀ x ∈ rest.head?, IsOption x = true) (hfuel : (t :: ts).length < fuel) :
    ParseArgument libc fuel self m (wordsSlot p) (t :: ts ++ rest)
      = Run.ret ⟨kArgNoError, rest, self,
          m.write p (Value.vector ((t :: ts).map Scalar.cstr))⟩ := by
  unfold ParseArgument
  have h1 : (wordsSlot p).mType &&& kTypeArrayListFlag ≠ 0 := by
    show (kTypeCString ||| kTypeArrayListFlag) &&& kTypeArrayListFlag ≠ 0
    decide
  simp only [h1, ne_eq, not_false_eq_true, if_true]
  have h2 : (wordsSlot p).mLocation = some p := rfl
  have h3 : (wordsSlot p).mFlagToSet = -1 := rfl
  simp only [h2, h3, markFlag_neg_one]
  have h4 : (wordsSlot p).mType &&& kTypeBaseMask = kTypeCString := by
    show (kTypeCString ||| kTypeArrayListFlag) &&& kTypeBaseMask = kTypeCString
    decide
  have h5 : clear (wordsSlot p).mType p m = m.write p (Value.vector []) :=
    clear_of_ne _ p m (by rw [h4]; decide)
  rw [h5, ListArrayLoop_cstr libc (wordsSlot p) p h4 rfl rest hrest ts t self
    (m.write p (Value.vector [])) [] fuel hno (by simp [Mem.write]) hfuel]
  simp [Mem.write_write]

theorem ParseOption_single (libc : Libc) (fuel : Nat) (self : Internal) (m : Mem)
    (name : CStr) (rest : List CStr) (hname : name.head? ≠ some kOptionChar) :
    ParseOption libc fuel self m ((kOptionChar :: name) :: rest)
      = ParseOptionLoop libc fuel name self.mOptions self m rest := by
  simp only [ParseOption, List.drop_succ_cons, List.drop_zero, hname, if_false]

theorem ParseOptionLoop_match (libc : Libc) (fuel : Nat) (optionName : CStr)
    (opt : cOptionsSpec) (later : List cOptionsSpec) (self : Internal) (m : Mem)
    (argv : List CStr) (r : PResult)
    (hh : StrEq optionName "h".toList = false) (hm : StrEq opt.mName optionName = true)
    (hargs : ParseOptionArgs libc fuel opt.mArguments (self.markFlag opt.mFlagToSet) m argv
      = Run.ret r)
    (hok : r.error = kArgNoError) :
    ParseOptionLoop libc fuel optionName (opt :: later) self m argv = Run.ret r := by
  simp only [ParseOptionLoop, hh, Bool.false_eq_true, if_false, hm, if_true, hargs, hok, ne_eq,
    not_true_eq_false]

theorem ParseOptionArgs_words (libc : Libc) (fuel : Nat) (self : Internal)
    (m : Mem) (p : Nat) (t : CStr) (ts rest : List CStr)
    (hno : ∀ x ∈ t :: ts, IsOption x = false)
    (hrest : ∀ x ∈ rest.head?, IsOption x = true) (hfuel : (t :: ts).length < fuel) :
    ParseOptionArgs libc fuel [wordsSlot p] self m (t :: ts ++ rest)
      = Run.ret ⟨kArgNoError, rest, self,
          m.write p (Value.vector ((t :: ts).map Scalar.cstr))⟩ := by
  have ht : IsOption t = false := hno t (List.mem_cons_self _ _)
  have h := ParseArgument_words libc fuel self m p t ts rest hno hrest hfuel
  rw [List.cons_append] at h ⊢
  rw [ParseOptionArgs]
  simp only [ht, Bool.false_eq_true, if_false, h, ne_eq, not_true_eq_false]
  rw [ParseOptionArgs]

theorem ParseOption_words (libc : Libc) (fuel : Nat) (old : Internal) (description doc : CStr)
    (m : Mem) (p : Nat) (t : CStr) (ts rest : List CStr)
    (hno : ∀ x ∈ t :: ts, IsOption x = false)
    (hrest : ∀ x ∈ rest.head?, IsOption x = true) (hfuel : (t :: ts).length < fuel) :
    ParseOption libc fuel (wordsSpec old description p doc) m
        ("-words".toList :: (t :: ts ++ rest))
      = Run.ret ⟨kArgNoError, rest, wordsSpec old description p doc,
          m.write p (Value.vector ((t :: ts).map Scalar.cstr))⟩ := by
  have hw : "-words".toList = kOptionChar :: "words".toList := by decide
  have hm : StrEq "words".toList "words".toList = true := by decide
  rw [hw, ParseOption_single libc fuel _ m _ _ (by decide)]
  exact ParseOptionLoop_match libc fuel _
    { mArguments := [wordsSlot p], mDescription := doc, mName := "words".toList,
      mFlagToSet := -1 } [] _ m _ _ (by decide) hm
    (by rw [markFlag_neg_one]
        exact ParseOptionArgs_words libc fuel _ m p t ts rest hno hrest hfuel) rfl

theorem ParseLoop_option_step (libc : Libc) (commandName : CStr) (n fuel : Nat)
    (mainArgs : List cArgInfo) (self : Internal) (m : Mem) (tok : CStr) (rest : List CStr)
    (r : PResult) (htok : IsOption tok = true)
    (hopt : ParseOption libc fuel self m (tok :: rest) = Run.ret r)
    (hok : r.error = kArgNoError) :
    ParseLoop libc commandName n (fuel + 1) mainArgs self m (tok :: rest)
      = ParseLoop libc commandName n fuel mainArgs r.self r.mem r.argv := by
  simp only [ParseLoop, htok, if_true, hopt, hok, ne_eq, not_true_eq_false, if_false]

/-- C8. The option declared as `-words <w:cstring> ...` compiles to a single
list-array slot, and for every memory `m` (so whatever the destination cell
`p` held before): given `-words t ts...` where no token of `t :: ts` is an
option marker, followed either by a token that is one (`ParseOption` with
`rest`) or by the end of input (`Parse`), the result is `NoError`, the
destination equals exactly `t :: ts` in order, every other cell is unchanged,
and the tokens from the option marker on are left unconsumed. -/
theorem words_list (libc : Libc) (k fuel : Nat) (old : Internal)
    (description doc commandName : CStr) (p : Nat) (m : Mem) (t : CStr) (ts rest : List CStr)
    (hno : ∀ x ∈ t :: ts, IsOption x = false)
    (hrest : ∀ x ∈ rest.head?, IsOption x = true)
    (hfuel : (t :: ts).length + 1 < fuel) :
    ∃ spec, ConstructSpec (k + 3) old description (wordsArgs p doc)
        = Run.ret (kSpecNoError, spec)
      ∧ (∃ r, ParseOption libc fuel spec m ("-words".toList :: (t :: ts ++ rest)) = Run.ret r
          ∧ r.error = kArgNoError ∧ r.argv = rest
          ∧ r.mem p = Value.vector ((t :: ts).map Scalar.cstr)
          ∧ ∀ a, a ≠ p → r.mem a = m a)
      ∧ (∃ r, Parse libc fuel spec m commandName ("-words".toList :: (t :: ts)) = Run.ret r
          ∧ r.error = kArgNoError
          ∧ r.mem p = Value.vector ((t :: ts).map Scalar.cstr)
          ∧ ∀ a, a ≠ p → r.mem a = m a) := by
  refine ⟨_, construct_words k old description p doc, ?_, ?_⟩
  · refine ⟨_, ParseOption_words libc fuel old description doc m p t ts rest hno hrest
      (by omega), rfl, rfl, ?_, ?_⟩
    · simp [Mem.write]
    · intro a ha; simp [Mem.write, ha]
  · obtain ⟨f, rfl⟩ : ∃ f, fuel = f + 1 := ⟨fuel - 1, by omega⟩
    have hopt := ParseOption_words libc f { old with mFlags := 0 } description doc m p t ts []
      hno (by simp) (by omega)
    rw [List.append_nil] at hopt
    have hP : Parse libc (f + 1) (wordsSpec old description p doc) m commandName
        ("-words".toList :: (t :: ts))
        = Run.ret ⟨kArgNoError, [], wordsSpec { old with mFlags := 0 } description p doc,
            m.write p (Value.vector ((t :: ts).map Scalar.cstr))⟩ := by
      rw [Parse, if_neg (by simp)]
      have hs : ({ wordsSpec old description p doc with mFlags := 0, mErrorString := [] }
          : Internal) = wordsSpec { old with mFlags := 0 } description p doc := rfl
      rw [hs, ParseLoop_option_step libc commandName _ f _ _ m _ _ _ (by decide) hopt rfl]
      exact ParseLoop_nil_nil libc commandName _ f _ _
    refine ⟨_, hP, rfl, ?_, ?_⟩
    · simp [Mem.write]
    · intro a ha; simp [Mem.write, ha]

theorem words_list_witness :
    ∃ spec, ConstructSpec 3 Internal.fresh "test".toList (wordsArgs 7 "Specify words".toList)
        = Run.ret (kSpecNoError, spec)
      ∧ (∃ r, ParseOption exampleLibc 5 spec exampleMem
            ("-words".toList :: ("a".toList :: ["b".toList, "c".toList] ++ ["-v".toList]))
            = Run.ret r
          ∧ r.error = kArgNoError ∧ r.argv = ["-v".toList]
          ∧ r.mem 7 = Value.vector (("a".toList :: ["b".toList, "c".toList]).map Scalar.cstr)
          ∧ ∀ a, a ≠ 7 → r.mem a = exampleMem a)
      ∧ (∃ r, Parse exampleLibc 5 spec exampleMem "cmd".toList
            ("-words".toList :: ("a".toList :: ["b".toList, "c".toList])) = Run.ret r
          ∧ r.error = kArgNoError
          ∧ r.mem 7 = Value.vector (("a".toList :: ["b".toList, "c".toList]).map Scalar.cstr)
          ∧ ∀ a, a ≠ 7 → r.mem a = exampleMem a) :=
  words_list exampleLibc 0 5 Internal.fresh "test".toList "Specify words".toList "cmd".toList
    7 exampleMem "a".toList ["b".toList, "c".toList] ["-v".toList]
    (by decide) (by decide) (by decide)

/-! ## C9: split arrays (`<counts:int[]>`) -/

theorem SplitLoop_eq (l : CStr) : ∀ cur : CStr,
    SplitLoop [' ', '\t'] l cur
      = (List.splitOnP.go (fun c => c == ' ' || c == '\t') l cur.reverse).filter
          (fun x => !x.isEmpty) := by
  induction l with
  | nil =>
    intro cur
    cases cur <;> simp [SplitLoop, List.splitOnP.go]
  | cons c cs ih =>
    intro cur
    have hc : ([' ', '\t'].contains c) = (c == ' ' || c == '\t') := by
      simp only [List.contains, List.elem]
      cases (c == ' ') <;> cases (c == '\t') <;> rfl
    rw [SplitLoop, hc, List.splitOnP.go]
    by_cases h : (c == ' ' || c == '\t') = true
    · rw [if_pos h, if_pos h, ih []]
      cases cur <;> simp
    · rw [if_neg h, if_neg h, ih (cur ++ [c])]
      simp

theorem Split_eq_spacePieces (line : CStr) : Split line = spacePieces line := by
  rw [Split, SplitLoop_eq]; rfl

theorem converterFor_not_vec (libc : Libc) (E : List cEnumSpec) (type : Nat)
    (convert : CStr → Converted Scalar) (hcv : converterFor libc E type = some convert) :
    type ≠ kTypeVec2 ∧ type ≠ kTypeVec3 ∧ type ≠ kTypeVec4 := by
  have e2 : converterFor libc E kTypeVec2 = none := rfl
  have e3 : converterFor libc E kTypeVec3 = none := rfl
  have e4 : converterFor libc E kTypeVec4 = none := rfl
  refine ⟨?_, ?_, ?_⟩ <;> intro h <;> rw [h] at hcv
  · rw [e2] at hcv; exact Option.noConfusion hcv
  · rw [e3] at hcv; exact Option.noConfusion hcv
  · rw [e4] at hcv; exact Option.noConfusion hcv

theorem ParseArrayArgument_scalar (libc : Libc) (self : Internal) (m : Mem) (info : cArgInfo)
    (t : CStr) (rest : List CStr) (convert : CStr → Converted Scalar)
    (hcv : converterFor libc self.mEnumSpecs (info.mType &&& kTypeBaseMask) = some convert) :
    ParseArrayArgument libc self m info (t :: rest)
      = Run.ret (pushConverted (convert t) info rest self m) := by
  obtain ⟨h2, h3, h4⟩ := converterFor_not_vec libc _ _ convert hcv
  unfold ParseArrayArgument
  simp only [if_neg h2, if_neg h3, if_neg h4, hcv]

theorem SplitArrayLoop_scalar (libc : Libc) (info : cArgInfo) (p : Nat)
    (E : List cEnumSpec) (convert : CStr → Converted Scalar)
    (hcv : converterFor libc E (info.mType &&& kTypeBaseMask) = some convert)
    (hloc : info.mLocation = some p) :
    ∀ (pieces : List CStr) (fuel : Nat) (self : Internal) (m : Mem) (l : List Scalar),
      self.mEnumSpecs = E → m p = Value.vector l → pieces.length ≤ fuel →
      ∃ s1 m1, SplitArrayLoop libc info fuel self m pieces
          = Run.ret (firstFailure convert pieces, s1, m1)
        ∧ m1 p = Value.vector (l ++ convertedPrefix convert pieces)
        ∧ ∀ a, a ≠ p → m1 a = m a := by
  intro pieces
  induction pieces with
  | nil =>
    intro fuel self m l _ hm _
    refine ⟨self, m, ?_, ?_, fun _ _ => rfl⟩
    · cases fuel <;> rfl
    · rw [hm]; simp [convertedPrefix]
  | cons x xs ih =>
    intro fuel self m l hE hm hfuel
    obtain ⟨f, rfl⟩ : ∃ f, fuel = f + 1 := ⟨fuel - 1, by simp at hfuel; omega⟩
    have hpa := ParseArrayArgument_scalar libc self m info x xs convert (hE ▸ hcv)
    rw [SplitArrayLoop, hpa]
    by_cases hx : (convert x).error = kArgNoError
    · have hfx : firstFailure convert (x :: xs) = firstFailure convert xs := by
        simp [firstFailure, List.dropWhile_cons, hx]
      cases hr : (convert x).result with
      | none =>
        have hpx : convertedPrefix convert (x :: xs) = convertedPrefix convert xs := by
          simp [convertedPrefix, List.takeWhile_cons, hx, hr]
        obtain ⟨s1, m1, h1, h2, h3⟩ := ih f
          { self with mErrorString := errorStringAfter (convert x) self.mErrorString } m l
          hE hm (by simp at hfuel; omega)
        refine ⟨s1, m1, ?_, ?_, h3⟩
        · simp only [pushConverted, hx, hr, ne_eq, not_true_eq_false, if_false]
          rw [hfx]; exact h1
        · rw [hpx]; exact h2
      | some v =>
        have hpx : convertedPrefix convert (x :: xs) = v :: convertedPrefix convert xs := by
          simp [convertedPrefix, List.takeWhile_cons, hx, hr]
        obtain ⟨s1, m1, h1, h2, h3⟩ := ih f
          { self with mErrorString := errorStringAfter (convert x) self.mErrorString }
          (m.write p (Value.vector (l ++ [v]))) (l ++ [v])
          hE (by simp [Mem.write]) (by simp at hfuel; omega)
        refine ⟨s1, m1, ?_, ?_, ?_⟩
        · simp only [pushConverted, hx, hr, ne_eq, not_true_eq_false, if_false, push_back,
            hloc, hm]
          rw [hfx]; exact h1
        · rw [hpx, h2]; simp
        · intro a ha; rw [h3 a ha]; simp [Mem.write, ha]
    · have hfx : firstFailure convert (x :: xs) = (convert x).error := by
        simp [firstFailure, List.dropWhile_cons, hx]
      have hpx : convertedPrefix convert (x :: xs) = [] := by
        simp [convertedPrefix, List.takeWhile_cons, hx]
      refine ⟨{ self with mErrorString := errorStringAfter (convert x) self.mErrorString }, m,
        ?_, ?_, fun _ _ => rfl⟩
      · simp only [pushConverted, hx, ne_eq, not_false_eq_true, if_true]
        rw [hfx]
      · rw [hpx, hm]; simp

theorem Parse_int_result (libc : Libc) (a : CStr)
    (ha : (Parse_int libc a).error = kArgNoError) : ∃ v, (Parse_int libc a).result = some v := by
  unfold Parse_int at ha ⊢
  by_cases h : (strtol libc.longBits a).2 ≠ []
  · rw [if_pos h] at ha; cases ha
  · rw [if_neg h]; exact ⟨_, rfl⟩

theorem Parse_float_result (libc : Libc) (a : CStr)
    (ha : (Parse_float libc a).error = kArgNoError) :
    ∃ v, (Parse_float libc a).result = some v := by
  unfold Parse_float at ha ⊢
  by_cases h : (libc.strtof a).2 ≠ []
  · rw [if_pos h] at ha; cases ha
  · rw [if_neg h]; exact ⟨_, rfl⟩

theorem Parse_bool_result (libc : Libc) (a : CStr)
    (ha : (Parse_bool libc a).error = kArgNoError) : ∃ v, (Parse_bool libc a).result = some v := by
  unfold Parse_bool at ha ⊢
  by_cases a1 : StrEq a "true".toList = true
  · rw [if_pos a1]; exact ⟨_, rfl⟩
  rw [if_neg a1] at ha ⊢
  by_cases a2 : StrEq a "false".toList = true
  · rw [if_pos a2]; exact ⟨_, rfl⟩
  rw [if_neg a2] at ha ⊢
  by_cases a3 : StrEq a "on".toList = true
  · rw [if_pos a3]; exact ⟨_, rfl⟩
  rw [if_neg a3] at ha ⊢
  by_cases a4 : StrEq a "off".toList = true
  · rw [if_pos a4]; exact ⟨_, rfl⟩
  rw [if_neg a4] at ha ⊢
  by_cases a5 : (Parse_int libc a).error ≠ kArgNoError
  · rw [if_pos a5] at ha; exact absurd ha a5
  · obtain ⟨v, hv⟩ := Parse_int_result libc a (not_not.mp a5)
    refine ⟨v != 0, ?_⟩
    rw [if_neg a5, hv]; rfl

theorem map_result {α : Type} (f : α → Scalar) (c : Converted α)
    (h : (c.map f).error = kArgNoError → ∃ v, c.result = some v)
    (hx : (c.map f).error = kArgNoError) : ∃ v, (c.map f).result = some v := by
  obtain ⟨v, hv⟩ := h hx
  exact ⟨f v, by simp only [Converted.map, hv, Option.map_some']⟩

theorem converterFor_result (libc : Libc) (E : List cEnumSpec) (type : Nat)
    (convert : CStr → Converted Scalar) (hcv : converterFor libc E type = some convert)
    (x : CStr) (hx : (convert x).error = kArgNoError) : ∃ v, (convert x).result = some v := by
  unfold converterFor at hcv
  split_ifs at hcv with h1 h2 h3 h4 h5 h6 h7
  · cases hcv; exact map_result _ _ (Parse_bool_result libc x) hx
  · cases hcv; exact map_result _ _ (Parse_int_result libc x) hx
  · cases hcv; exact map_result _ _ (Parse_float_result libc x) hx
  · cases hcv; exact map_result _ _ (Parse_float_result libc x) hx
  · cases hcv; exact ⟨_, rfl⟩
  · cases hcv; exact ⟨_, rfl⟩
  · cases he : E[type - kTypeEnumBegin]? with
    | none => rw [he] at hcv; exact Option.noConfusion hcv
    | some enumSpec =>
      rw [he] at hcv
      cases hcv
      refine map_result _ _ (fun hx1 => ?_) hx
      simp only [Converted.map, Parse_enum] at hx1 ⊢
      cases hl : Parse_enum_loop x enumSpec.mEnumInfo with
      | none => rw [hl] at hx1; cases hx1
      | some v => exact ⟨_, rfl⟩

theorem convertedPrefix_all (convert : CStr → Converted Scalar)
    (htotal : ∀ x, (convert x).error = kArgNoError → ∃ v, (convert x).result = some v) :
    ∀ pieces : List CStr, firstFailure convert pieces = kArgNoError →
      pieces.map (fun x => (convert x).result) = (convertedPrefix convert pieces).map some := by
  intro pieces
  induction pieces with
  | nil => intro _; rfl
  | cons x xs ih =>
    intro h
    by_cases hx : (convert x).error = kArgNoError
    · obtain ⟨v, hv⟩ := htotal x hx
      have hfx : firstFailure convert (x :: xs) = firstFailure convert xs := by
        simp [firstFailure, List.dropWhile_cons, hx]
      have hpx : convertedPrefix convert (x :: xs) = v :: convertedPrefix convert xs := by
        simp [convertedPrefix, List.takeWhile_cons, hx, hv]
      rw [hpx, List.map_cons, List.map_cons, hv, ih (hfx ▸ h)]
    · have hfx : firstFailure convert (x :: xs) = (convert x).error := by
        simp [firstFailure, List.dropWhile_cons, hx]
      exact absurd (hfx ▸ h) hx

theorem ParseArgument_split (libc : Libc) (fuel : Nat) (self : Internal) (m : Mem)
    (info : cArgInfo) (p : Nat) (t : CStr) (rest : List CStr)
    (convert : CStr → Converted Scalar) (l : List Scalar)
    (hlist : info.mType &&& kTypeArrayListFlag = 0)
    (hsplit : info.mType &&& kTypeArraySplitFlag ≠ 0)
    (hcv : converterFor libc self.mEnumSpecs (info.mType &&& kTypeBaseMask) = some convert)
    (hloc : info.mLocation = some p)
    (hfuel : (Split t).length ≤ fuel)
    (hl : clear info.mType p m p = Value.vector l) :
    ∃ r, ParseArgument libc fuel self m info (t :: rest) = Run.ret r
      ∧ r.argv = rest
      ∧ r.error = firstFailure convert (Split t)
      ∧ r.mem p = Value.vector (l ++ convertedPrefix convert (Split t))
      ∧ (∀ a, a ≠ p → r.mem a = m a)
      ∧ (r.error = kArgNoError →
          (Split t).map (fun x => (convert x).result)
            = (convertedPrefix convert (Split t)).map some) := by
  obtain ⟨s1, m1, h1, h2, h3⟩ := SplitArrayLoop_scalar libc info p self.mEnumSpecs convert hcv
    hloc (Split t) fuel (self.markFlag info.mFlagToSet) (clear info.mType p m) l
    (markFlag_mEnumSpecs self info.mFlagToSet) hl hfuel
  have hP : ParseArgument libc fuel self m info (t :: rest)
      = Run.ret ⟨firstFailure convert (Split t), rest, s1, m1⟩ := by
    unfold ParseArgument
    simp only [hlist, ne_eq, not_true_eq_false, if_false, hsplit, not_false_eq_true, if_true,
      hloc, h1]
  refine ⟨_, hP, rfl, rfl, h2, ?_, ?_⟩
  · intro a ha
    show m1 a = m a
    rw [h3 a ha, clear_other _ _ _ _ ha]
  · intro he
    exact convertedPrefix_all convert (converterFor_result libc _ _ convert hcv) _ he

/-- C9. For a split-array slot (not a list array) whose base type has a
scalar or enum converter `convert` and whose destination sequence is at `p`,
with fuel for one step per piece; `Split t` is the list of the non-empty
pieces of `t` cut at spaces and tabs. For a base type other than `bool`,
`ParseArgument` on `t :: rest` returns with `rest` left, so it consumed
exactly the token `t`; the error is that of the first piece that fails
conversion, or `NoError` when none does; the destination, whatever it held, is
the sequence of the values of the pieces ahead of the first failing one, in
order; no other cell changes; and on `NoError` every piece has a value. For
the base type `bool` the same holds except that the destination is not
cleared: a destination that held `l` ends as `l` followed by the converted
values. So the slot `<flags:bool[]>` with a destination holding `true`, `true`
and the token `0 1` ends with `true`, `true`, `false`, `true`. -/
theorem split_array (libc : Libc) (fuel : Nat) (self : Internal) (m : Mem) (info : cArgInfo)
    (p : Nat) (t : CStr) (rest : List CStr) (convert : CStr → Converted Scalar)
    (hlist : info.mType &&& kTypeArrayListFlag = 0)
    (hsplit : info.mType &&& kTypeArraySplitFlag ≠ 0)
    (hcv : converterFor libc self.mEnumSpecs (info.mType &&& kTypeBaseMask) = some convert)
    (hloc : info.mLocation = some p)
    (hfuel : (Split t).length ≤ fuel) :
    Split t = spacePieces t
      ∧ (info.mType &&& kTypeBaseMask ≠ kTypeBool →
          ∃ r, ParseArgument libc fuel self m info (t :: rest) = Run.ret r
            ∧ r.argv = rest
            ∧ r.error = firstFailure convert (Split t)
            ∧ r.mem p = Value.vector (convertedPrefix convert (Split t))
            ∧ (∀ a, a ≠ p → r.mem a = m a)
            ∧ (r.error = kArgNoError →
                (Split t).map (fun x => (convert x).result)
                  = (convertedPrefix convert (Split t)).map some))
      ∧ (info.mType &&& kTypeBaseMask = kTypeBool → ∀ l : List Scalar, m p = Value.vector l →
          ∃ r, ParseArgument libc fuel self m info (t :: rest) = Run.ret r
            ∧ r.argv = rest
            ∧ r.error = firstFailure convert (Split t)
            ∧ r.mem p = Value.vector (l ++ convertedPrefix convert (Split t))
            ∧ (∀ a, a ≠ p → r.mem a = m a)
            ∧ (r.error = kArgNoError →
                (Split t).map (fun x => (convert x).result)
                  = (convertedPrefix convert (Split t)).map some))
      ∧ ∃ r, ParseArgument exampleLibc 2 Internal.fresh (flagsMem 7) (flagsSlot 7)
            ["0 1".toList] = Run.ret r
          ∧ r.error = kArgNoError
          ∧ r.mem 7 = Value.vector
              [Scalar.bool true, Scalar.bool true, Scalar.bool false, Scalar.bool true] := by
  refine ⟨Split_eq_spacePieces t, ?_, ?_, ?_⟩
  · intro hb
    have h := ParseArgument_split libc fuel self m info p t rest convert [] hlist hsplit hcv
      hloc hfuel (by rw [clear_of_ne _ p m hb]; simp [Mem.write])
    simpa using h
  · intro hb l hl
    exact ParseArgument_split libc fuel self m info p t rest convert l hlist hsplit hcv
      hloc hfuel (by rw [clear_bool _ p m hb]; exact hl)
  · obtain ⟨r, h1, -, h3, h4, -, -⟩ := ParseArgument_split exampleLibc 2 Internal.fresh
      (flagsMem 7) (flagsSlot 7) 7 "0 1".toList []
      (fun arg => (Parse_bool exampleLibc arg).map Scalar.bool)
      [Scalar.bool true, Scalar.bool true] (by decide) (by decide) rfl rfl (by decide)
      (by rw [clear_bool _ _ _ (by decide)]; simp [flagsMem, Mem.write])
    refine ⟨r, h1, ?_, ?_⟩
    · rw [h3]; decide
    · rw [h4]; decide

theorem split_array_witness :
    Split "10 20\t30".toList = spacePieces "10 20\t30".toList
      ∧ (∃ r, ParseArgument exampleLibc 3 Internal.fresh exampleMem (countsSlot 7)
            ("10 20\t30".toList :: ["next".toList]) = Run.ret r
        ∧ r.argv = ["next".toList]
        ∧ r.error = kArgNoError
        ∧ r.mem 7 = Value.vector [Scalar.int 10, Scalar.int 20, Scalar.int 30]
        ∧ (∀ a, a ≠ 7 → r.mem a = exampleMem a))
      ∧ ∃ r, ParseArgument exampleLibc 2 Internal.fresh (flagsMem 7) (flagsSlot 7)
            ["0 1".toList] = Run.ret r
          ∧ r.error = kArgNoError
          ∧ r.mem 7 = Value.vector
              [Scalar.bool true, Scalar.bool true, Scalar.bool false, Scalar.bool true] :=
  have h := split_array exampleLibc 3 Internal.fresh exampleMem (countsSlot 7) 7
    "10 20\t30".toList ["next".toList] (fun arg => (Parse_int exampleLibc arg).map Scalar.int)
    (by decide) (by decide) rfl rfl (by decide)
  have hint := h.2.1 (by decide)
  ⟨h.1, hint.imp (fun r hr => ⟨hr.1, hr.2.1, hr.2.2.1.trans (by decide),
    hr.2.2.2.1.trans (by decide), hr.2.2.2.2.1⟩), h.2.2.2⟩

/-! ## C12: option markers -/

theorem IsOption_iff (s : CStr) :
    IsOption s = true ↔ ∃ c rest, s = '-' :: c :: rest
      ∧ ((('a' ≤ c ∧ c ≤ 'z') ∨ ('A' ≤ c ∧ c ≤ 'Z')) ∨ c = '-') := by
  cases s with
  | nil => simp [IsOption]
  | cons c0 s =>
    cases s with
    | nil => simp [IsOption]
    | cons c1 s =>
      simp only [IsOption, kOptionChar, isalpha, Bool.and_eq_true, beq_iff_eq, Bool.or_eq_true,
        decide_eq_true_eq, List.cons.injEq]
      constructor
      · rintro ⟨rfl, h⟩
        exact ⟨c1, s, ⟨rfl, rfl, rfl⟩, h⟩
      · rintro ⟨c, rest, ⟨rfl, rfl, rfl⟩, h⟩
        exact ⟨rfl, h⟩

theorem strtol_minus_ten (longBits : Nat) (hw : 32 ≤ longBits) :
    strtol longBits "-10".toList = (-10, []) := by
  have hp : (2 : Int) ^ 31 ≤ 2 ^ (longBits - 1) :=
    pow_le_pow_right₀ (by norm_num) (by omega)
  have h : strtol longBits "-10".toList = (clampLong longBits (-10), []) := by
    rfl
  rw [h]
  unfold clampLong
  rw [if_neg (by omega), if_neg (by omega)]

theorem Parse_one_scalar (libc : Libc) (fuel : Nat) (self : Internal) (m : Mem)
    (commandName : CStr) (info : cArgInfo) (t : CStr) (convert : CStr → Converted Scalar)
    (hmain : self.mMainArgs.mArguments = [info])
    (hs : isScalarSlot info = true)
    (hcv : converterFor libc self.mEnumSpecs info.mType = some convert)
    (hopt : IsOption t = false) (hok : (convert t).error = kArgNoError) :
    Parse libc (fuel + 1) self m commandName [t]
      = Run.ret ⟨kArgNoError, [],
          { ({ self with mFlags := 0, mErrorString := [] } : Internal).markFlag
              info.mFlagToSet with
            mErrorString := errorStringAfter (convert t)
              (({ self with mFlags := 0, mErrorString := [] } : Internal).markFlag
                info.mFlagToSet).mErrorString },
          assign info.mLocation (convert t).result m⟩ := by
  rw [Parse, if_neg (by simp), hmain,
    ParseLoop_scalar_step libc commandName _ fuel info []
      { self with mFlags := 0, mErrorString := [] } m t [] convert hs hcv hopt hok,
    ParseLoop_nil_nil]

/-- C12. A token is an option marker exactly when its first character is
`-` and its second one is an ASCII letter or `-`; so `-10`, `-.5` and `-` are
not option markers. Such tokens go to the main slots: a main group of one
`int` slot given `-10` stores -10 and `Parse` returns `kArgNoError`, and a
main group of one `string` slot stores any token that is not an option marker
(`-.5` and `-` among them). -/
theorem option_marker (libc : Libc) (fuel : Nat) (self : Internal) (m : Mem)
    (commandName : CStr) (info : cArgInfo) (p : Nat)
    (hmain : self.mMainArgs.mArguments = [info])
    (hty : info.mType = kTypeInt) (hloc : info.mLocation = some p) :
    (∀ s, IsOption s = true ↔ ∃ c rest, s = '-' :: c :: rest
        ∧ ((('a' ≤ c ∧ c ≤ 'z') ∨ ('A' ≤ c ∧ c ≤ 'Z')) ∨ c = '-'))
      ∧ IsOption "-10".toList = false ∧ IsOption "-.5".toList = false
      ∧ IsOption "-".toList = false
      ∧ (∃ r, Parse libc (fuel + 1) self m commandName ["-10".toList] = Run.ret r
          ∧ r.error = kArgNoError ∧ r.mem p = Value.scalar (Scalar.int (-10)))
      ∧ (∀ (other : Internal) (slot : cArgInfo) (q : Nat) (t : CStr),
          other.mMainArgs.mArguments = [slot] → slot.mType = kTypeString →
          slot.mLocation = some q → IsOption t = false →
          ∃ r, Parse libc (fuel + 1) other m commandName [t] = Run.ret r
            ∧ r.error = kArgNoError ∧ r.mem q = Value.scalar (Scalar.str t)) := by
  refine ⟨IsOption_iff, by decide, by decide, by decide, ?_, ?_⟩
  swap
  · intro other slot q t hm ht hl hno
    have h1 := Parse_one_scalar libc fuel other m commandName slot t
      (fun arg => (Parse_string arg).map Scalar.str) hm
      (isScalarSlot_of_mType slot kTypeString ht (by decide))
      (by rw [ht]; rfl) hno rfl
    refine ⟨_, h1, rfl, ?_⟩
    show assign slot.mLocation ((Parse_string t).map Scalar.str).result m q = _
    rw [hl]
    simp [Converted.map, Parse_string, assign, Mem.write]
  have hconv : (Parse_int libc "-10".toList) = ⟨kArgNoError, some (-10), none⟩ := by
    unfold Parse_int
    rw [strtol_minus_ten libc.longBits libc.longBits_ge]
    rfl
  have h1 := Parse_one_scalar libc fuel self m commandName info "-10".toList
    (fun arg => (Parse_int libc arg).map Scalar.int) hmain
    (isScalarSlot_of_mType info kTypeInt hty (by decide))
    (by rw [hty]; rfl) (by decide)
    (by show ((Parse_int libc "-10".toList).map Scalar.int).error = _; rw [hconv]; rfl)
  refine ⟨_, h1, rfl, ?_⟩
  show assign info.mLocation ((Parse_int libc "-10".toList).map Scalar.int).result m p = _
  rw [hconv, hloc]
  simp [Converted.map, assign, Mem.write]

theorem option_marker_witness :
    (∀ s, IsOption s = true ↔ ∃ c rest, s = '-' :: c :: rest
        ∧ ((('a' ≤ c ∧ c ≤ 'z') ∨ ('A' ≤ c ∧ c ≤ 'Z')) ∨ c = '-'))
      ∧ IsOption "-10".toList = false ∧ IsOption "-.5".toList = false
      ∧ IsOption "-".toList = false
      ∧ (∃ r, Parse exampleLibc (0 + 1)
            (oneSlotSpec ⟨kTypeInt, "n".toList, some 4, true, -1⟩) exampleMem "cmd".toList
            ["-10".toList] = Run.ret r
          ∧ r.error = kArgNoError ∧ r.mem 4 = Value.scalar (Scalar.int (-10)))
      ∧ (∀ (other : Internal) (slot : cArgInfo) (q : Nat) (t : CStr),
          other.mMainArgs.mArguments = [slot] → slot.mType = kTypeString →
          slot.mLocation = some q → IsOption t = false →
          ∃ r, Parse exampleLibc (0 + 1) other exampleMem "cmd".toList [t] = Run.ret r
            ∧ r.error = kArgNoError ∧ r.mem q = Value.scalar (Scalar.str t)) :=
  option_marker exampleLibc 0 (oneSlotSpec ⟨kTypeInt, "n".toList, some 4, true, -1⟩)
    exampleMem "cmd".toList ⟨kTypeInt, "n".toList, some 4, true, -1⟩ 4 rfl rfl rfl

/-! ## Flags and the help marker through the matcher -/

theorem Flag_testBit (s : Internal) (F : Nat) : s.Flag F = s.mFlags.testBit F := by
  unfold Internal.Flag
  rw [Nat.one_shiftLeft, Nat.and_two_pow]
  cases h : s.mFlags.testBit F <;> simp

theorem testBit_setFlagBit (x : Nat) (f : Int) (F : Nat) :
    (setFlagBit x f).testBit F = (decide (F < 32) && (x.testBit F || decide (f.toNat = F))) := by
  unfold setFlagBit
  rw [Nat.testBit_mod_two_pow, Nat.testBit_or, Nat.one_shiftLeft, Nat.testBit_two_pow]

theorem Flag_markFlag_self (s : Internal) (F : Nat) (hF : F < 32) :
    (s.markFlag (F : Int)).Flag F = true := by
  rw [Flag_testBit]
  unfold Internal.markFlag
  rw [if_pos (by omega)]
  show (setFlagBit s.mFlags (F : Int)).testBit F = true
  rw [testBit_setFlagBit]
  simp [hF]

theorem sameButMessage_refl (s : Internal) : sameButMessage s s := rfl

theorem sameButMessage_set (s : Internal) (msg : CStr) :
    sameButMessage s { s with mErrorString := msg } := rfl

theorem sameButMessage_trans {a b c : Internal} (h1 : sameButMessage a b)
    (h2 : sameButMessage b c) : sameButMessage a c := by
  unfold sameButMessage at *
  rw [h2, h1]

theorem pushConverted_self (c : Converted Scalar) (info : cArgInfo) (rest : List CStr)
    (self : Internal) (m : Mem) : sameButMessage self (pushConverted c info rest self m).self := by
  unfold pushConverted
  split_ifs
  · exact sameButMessage_set _ _
  · split <;> exact sameButMessage_set _ _

theorem pushVec_self (libc : Libc) (n : Nat) (info : cArgInfo) (argv : List CStr)
    (self : Internal) (m : Mem) : sameButMessage self (pushVec libc n info argv self m).self := by
  unfold pushVec
  simp only
  split_ifs <;> exact sameButMessage_set _ _

theorem ParseArrayArgument_self (libc : Libc) (self : Internal) (m : Mem) (info : cArgInfo)
    (argv : List CStr) (r : PResult) (h : ParseArrayArgument libc self m info argv = Run.ret r) :
    sameButMessage self r.self := by
  unfold ParseArrayArgument at h
  simp only at h
  split_ifs at h
  · cases h; exact pushVec_self _ _ _ _ _ _
  · cases h; exact pushVec_self _ _ _ _ _ _
  · cases h; exact pushVec_self _ _ _ _ _ _
  · split at h
    · split at h
      · cases h
      · cases h; exact pushConverted_self _ _ _ _ _
    · cases h; exact sameButMessage_set _ _

theorem ListArrayLoop_self (libc : Libc) (info : cArgInfo) :
    ∀ (fuel : Nat) (self : Internal) (m : Mem) (argv : List CStr) (r : PResult),
      ListArrayLoop libc info fuel self m argv = Run.ret r → sameButMessage self r.self := by
  intro fuel
  induction fuel with
  | zero => intro self m argv r h; cases h
  | succ fuel ih =>
    intro self m argv r h
    cases argv with
    | nil => simp only [ListArrayLoop] at h; cases h
    | cons tok rest =>
      simp only [ListArrayLoop] at h
      split_ifs at h with hopt
      · cases h; exact sameButMessage_refl _
      · cases hp : ParseArrayArgument libc self m info (tok :: rest) with
        | outOfFuel => rw [hp] at h; cases h
        | fault => rw [hp] at h; cases h
        | ret r1 =>
          rw [hp] at h
          have h1 := ParseArrayArgument_self libc self m info _ r1 hp
          simp only at h
          split_ifs at h
          · cases h; exact h1
          · exact sameButMessage_trans h1 (ih _ _ _ _ h)
          · cases h; exact h1

theorem SplitArrayLoop_self (libc : Libc) (info : cArgInfo) :
    ∀ (fuel : Nat) (self : Internal) (m : Mem) (pieces : List CStr)
      (r : tArgError × Internal × Mem),
      SplitArrayLoop libc info fuel self m pieces = Run.ret r → sameButMessage self r.2.1 := by
  intro fuel
  induction fuel with
  | zero =>
    intro self m pieces r h
    cases pieces with
    | nil => cases h; exact sameButMessage_refl _
    | cons p ps => cases h
  | succ fuel ih =>
    intro self m pieces r h
    cases pieces with
    | nil => cases h; exact sameButMessage_refl _
    | cons p ps =>
      rw [SplitArrayLoop] at h
      cases hp : ParseArrayArgument libc self m info (p :: ps) with
      | outOfFuel => rw [hp] at h; cases h
      | fault => rw [hp] at h; cases h
      | ret r1 =>
        rw [hp] at h
        have h1 := ParseArrayArgument_self libc self m info _ r1 hp
        simp only at h
        split_ifs at h
        · cases h; exact h1
        · exact sameButMessage_trans h1 (ih _ _ _ _ h)

theorem storeVec_self (libc : Libc) (n : Nat) (info : cArgInfo) (argv : List CStr)
    (self : Internal) (m : Mem) (r : PResult) (h : storeVec libc n info argv self m = Run.ret r) :
    sameButMessage self r.self := by
  unfold storeVec at h
  split at h
  · cases h; exact sameButMessage_set _ _
  · split at h
    · cases h
    · dsimp only at h
      split_ifs at h
      · cases h; exact sameButMessage_set _ _

theorem ParseArgument_self (libc : Libc) (fuel : Nat) (self : Internal) (m : Mem)
    (info : cArgInfo) (argv : List CStr) (r : PResult)
    (h : ParseArgument libc fuel self m info argv = Run.ret r) :
    sameButMessage (self.markFlag info.mFlagToSet) r.self := by
  unfold ParseArgument at h
  simp only at h
  split_ifs at h
  · split at h
    · cases h
    · exact ListArrayLoop_self libc info _ _ _ _ _ h
  · split at h
    · cases h
    · split at h
      · rename_i r1 hr1
        cases h
        exact SplitArrayLoop_self libc info _ _ _ _ _ hr1
      · cases h
      · cases h
  · exact storeVec_self _ _ _ _ _ _ _ h
  · split at h
    · split at h
      · cases h
      · cases h; exact sameButMessage_set _ _
    · cases h; exact sameButMessage_set _ _

theorem helpSeen_idem (name : CStr) (s : Internal) :
    helpSeen name (helpSeen name s) = helpSeen name s := by
  unfold helpSeen
  split_ifs <;> rfl

theorem ParseOptionLoop_cons_ne (libc : Libc) (fuel : Nat) (name : CStr) (opt : cOptionsSpec)
    (later : List cOptionsSpec) (self : Internal) (m : Mem) (argv : List CStr)
    (h : StrEq opt.mName name = false) :
    ParseOptionLoop libc fuel name (opt :: later) self m argv
      = ParseOptionLoop libc fuel name later (helpSeen name self) m argv := by
  rw [ParseOptionLoop]
  simp only [h, Bool.false_eq_true, if_false]
  rfl

theorem ParseOptionLoop_skip (libc : Libc) (fuel : Nat) (name : CStr)
    (later : List cOptionsSpec) (m : Mem) (argv : List CStr) :
    ∀ (pre : List cOptionsSpec) (self : Internal),
      (∀ o ∈ pre, StrEq o.mName name = false) →
      ParseOptionLoop libc fuel name (pre ++ later) self m argv
        = ParseOptionLoop libc fuel name later (if pre = [] then self else helpSeen name self)
            m argv := by
  intro pre
  induction pre with
  | nil => intro self _; rfl
  | cons o pre ih =>
    intro self h
    rw [List.cons_append, ParseOptionLoop_cons_ne _ _ _ _ _ _ _ _ (h o (List.mem_cons_self _ _)),
      ih _ (fun x hx => h x (List.mem_cons_of_mem _ hx)), if_neg (List.cons_ne_nil _ _)]
    split_ifs
    · rfl
    · rw [helpSeen_idem]

theorem ParseOptionLoop_nil (libc : Libc) (fuel : Nat) (name : CStr) (self : Internal)
    (m : Mem) (argv : List CStr) :
    ParseOptionLoop libc fuel name [] self m argv
      = if self.mHelpRequested then Run.ret ⟨kArgHelpRequested, argv, self, m⟩
        else Run.ret ⟨kArgErrorUnknownOption, argv,
          { self with mErrorString :=
              (Sprintf ("Unknown option '".toList ++ name ++ "'".toList)) }, m⟩ := by
  rw [ParseOptionLoop]

theorem ParseOptionLoop_match_eq (libc : Libc) (fuel : Nat) (name : CStr) (opt : cOptionsSpec)
    (later : List cOptionsSpec) (self : Internal) (m : Mem) (argv : List CStr)
    (h : StrEq opt.mName name = true) :
    ParseOptionLoop libc fuel name (opt :: later) self m argv
      = match ParseOptionArgs libc fuel opt.mArguments
            ((helpSeen name self).markFlag opt.mFlagToSet) m argv with
        | Run.ret r =>
          Run.ret ⟨r.error, r.argv,
            { r.self with mErrorString :=
                if r.error ≠ kArgNoError then r.self.mErrorString ++ " in -".toList ++ name
                else r.self.mErrorString }, r.mem⟩
        | Run.outOfFuel => Run.outOfFuel
        | Run.fault => Run.fault := by
  rw [ParseOptionLoop]
  simp only [h, if_true]
  unfold helpSeen
  cases ParseOptionArgs libc fuel opt.mArguments
      ((if StrEq name "h".toList = true then { self with mHelpRequested := true }
        else self).markFlag opt.mFlagToSet) m argv with
  | outOfFuel => rfl
  | fault => rfl
  | ret r =>
    dsimp only
    split_ifs <;> rfl

/-! ## C11: option dispatch -/

theorem ParseOptionLoop_nomatch (libc : Libc) (fuel : Nat) (name : CStr) (m : Mem)
    (argv : List CStr) (opts : List cOptionsSpec) (self : Internal)
    (hh : StrEq name "h".toList = false) (hfresh : self.mHelpRequested = false)
    (hnone : ∀ o ∈ opts, StrEq o.mName name = false) :
    ParseOptionLoop libc fuel name opts self m argv
      = Run.ret ⟨kArgErrorUnknownOption, argv,
          { self with mErrorString :=
              (Sprintf ("Unknown option '".toList ++ name ++ "'".toList)) }, m⟩ := by
  have hs : helpSeen name self = self := by
    unfold helpSeen; rw [hh]; rfl
  have h := ParseOptionLoop_skip libc fuel name [] m argv opts self hnone
  rw [List.append_nil] at h
  rw [h, hs, ite_self, ParseOptionLoop_nil, hfresh]
  rfl

theorem ParseOption_name (libc : Libc) (fuel : Nat) (self : Internal) (m : Mem)
    (t name : CStr) (rest : List CStr)
    (hname : name = if (t.drop 1).head? = some kOptionChar then t.drop 2 else t.drop 1)
    (hne : name ≠ []) :
    ParseOption libc fuel self m (t :: rest)
      = ParseOptionLoop libc fuel name self.mOptions self m rest := by
  unfold ParseOption
  dsimp only
  by_cases h : (t.drop 1).head? = some kOptionChar
  · rw [if_pos h] at hname
    have hd : List.drop 1 (List.drop 1 t) = name := by rw [hname, List.drop_drop]
    rw [if_pos h, hd, if_neg hne]
  · rw [if_neg h] at hname
    rw [if_neg h, hname]

theorem construct_long (k : Nat) (old : Internal) (description : CStr) (flag : Int)
    (doc : CStr) :
    ConstructSpec (k + 2) old description (longArgs flag doc)
      = Run.ret (kSpecNoError, longSpec old description flag doc) := by
  have hb : LineBegin
      { old with mCommandDescription := description, mMainArgs := ⟨[], []⟩, mOptions := [],
                 mEnumSpecs := [], mErrorString := [] }
      "--long^".toList [VaArg.int flag, VaArg.cstr doc, VaArg.null] kSpecNoError
      = Run.ret ⟨true, "-long".toList, flag,
          ⟨[], [], 0, 0, [], [VaArg.cstr doc, VaArg.null], kSpecNoError⟩⟩ := by
    simp only [LineBegin]
    simp +decide [va_int]
  have hline := ConstructLine_eq (k + 1) _ _ _ _ _ none _ hb (TokenLoop_done _ _ _ rfl)
  unfold ConstructSpec longArgs
  rw [ClauseLoop_line (k + 1) _ _ _ _ _ _ _ (by decide) (by decide) (hline.trans rfl),
    ClauseLoop_null]
  rfl

theorem ParseOption_dashdash (libc : Libc) (fuel : Nat) (self : Internal) (m : Mem)
    (rest : List CStr) :
    ParseOption libc fuel self m ("--".toList :: rest) = Run.ret ⟨kArgNoError, rest, self, m⟩ := by
  rfl

theorem ListArrayLoop_stop (libc : Libc) (info : cArgInfo) (fuel : Nat) (self : Internal)
    (m : Mem) (tok : CStr) (rest : List CStr) (h : IsOption tok = true) :
    ListArrayLoop libc info (fuel + 1) self m (tok :: rest)
      = Run.ret ⟨kArgNoError, tok :: rest, self, m⟩ := by
  simp only [ListArrayLoop, h, if_true]

theorem ParseLoop_dashdash (libc : Libc) (commandName : CStr) (n fuel : Nat)
    (mainArgs : List cArgInfo) (self : Internal) (m : Mem) (rest : List CStr) :
    ParseLoop libc commandName n (fuel + 1) mainArgs self m ("--".toList :: rest)
      = ParseLoop libc commandName n fuel mainArgs self m rest :=
  ParseLoop_option_step libc commandName n fuel mainArgs self m "--".toList rest
    ⟨kArgNoError, rest, self, m⟩ (by decide) (ParseOption_dashdash libc fuel self m rest) rfl

theorem ParseOption_double (libc : Libc) (fuel : Nat) (self : Internal) (m : Mem)
    (name : CStr) (rest : List CStr) (hne : name ≠ [])
    (hname : name.head? ≠ some kOptionChar) :
    ParseOption libc fuel self m ((kOptionChar :: kOptionChar :: name) :: rest)
      = ParseOption libc fuel self m ((kOptionChar :: name) :: rest) := by
  rw [ParseOption_single libc fuel self m name rest hname]
  simp only [ParseOption, List.drop_succ_cons, List.drop_zero, List.head?_cons, if_true, hne,
    if_false]

/-- C13, amended. A bare `--` is consumed and skipped: `ParseOption` returns
`kArgNoError` with the instance (flags, help marker, message) and the
destinations as they were, and the main loop goes on with the token after it.
A list array stops in front of `--` without consuming it; so after
`-words t ts... -- x` the destination of `-words` holds `t :: ts` and `x`
goes to the next main slot. For a name that begins with a letter, `--name` and
`-name` are both option markers and are dispatched alike, by `ParseOption`
and by the main loop. -/
theorem double_dash (libc : Libc) (commandName : CStr) (n fuel : Nat)
    (mainArgs later : List cArgInfo) (self old : Internal) (m : Mem) (rest : List CStr)
    (slot info : cArgInfo) (description doc t x : CStr) (ts : List CStr) (p : Nat)
    (convert : CStr → Converted Scalar) (c : Char) (cs : CStr)
    (hno : ∀ y ∈ t :: ts, IsOption y = false) (hlen : (t :: ts).length < fuel + 2)
    (hs : isScalarSlot info = true)
    (hcv : converterFor libc [] info.mType = some convert)
    (hx : IsOption x = false) (hok : (convert x).error = kArgNoError)
    (hc : isalpha c = true) :
    ParseOption libc fuel self m ("--".toList :: rest) = Run.ret ⟨kArgNoError, rest, self, m⟩
      ∧ ParseLoop libc commandName n (fuel + 1) mainArgs self m ("--".toList :: rest)
          = ParseLoop libc commandName n fuel mainArgs self m rest
      ∧ ListArrayLoop libc slot (fuel + 1) self m ("--".toList :: rest)
          = Run.ret ⟨kArgNoError, "--".toList :: rest, self, m⟩
      ∧ ParseLoop libc commandName n (fuel + 3) (info :: later)
            (wordsSpec old description p doc) m
            ("-words".toList :: (t :: ts ++ "--".toList :: x :: rest))
          = ParseLoop libc commandName n fuel later
              { (wordsSpec old description p doc).markFlag info.mFlagToSet with
                mErrorString := errorStringAfter (convert x)
                  ((wordsSpec old description p doc).markFlag info.mFlagToSet).mErrorString }
              (assign info.mLocation (convert x).result
                (m.write p (Value.vector ((t :: ts).map Scalar.cstr)))) rest
      ∧ IsOption (kOptionChar :: kOptionChar :: c :: cs) = true
      ∧ IsOption (kOptionChar :: c :: cs) = true
      ∧ ParseOption libc fuel self m ((kOptionChar :: kOptionChar :: c :: cs) :: rest)
          = ParseOption libc fuel self m ((kOptionChar :: c :: cs) :: rest)
      ∧ ParseLoop libc commandName n (fuel + 1) mainArgs self m
            ((kOptionChar :: kOptionChar :: c :: cs) :: rest)
          = ParseLoop libc commandName n (fuel + 1) mainArgs self m
              ((kOptionChar :: c :: cs) :: rest) := by
  have hcd : c ≠ kOptionChar := by
    intro h; rw [h] at hc; exact absurd hc (by decide)
  have hdouble := ParseOption_double libc fuel self m (c :: cs) rest (List.cons_ne_nil _ _)
    (by simp [hcd])
  have ho1 : IsOption (kOptionChar :: kOptionChar :: c :: cs) = true := by
    simp [IsOption]
  have ho2 : IsOption (kOptionChar :: c :: cs) = true := by
    simp [IsOption, hc]
  refine ⟨ParseOption_dashdash libc fuel self m rest,
    ParseLoop_dashdash libc commandName n fuel mainArgs self m rest,
    ListArrayLoop_stop libc slot fuel self m _ rest (by decide), ?_, ho1, ho2, hdouble, ?_⟩
  · have hw := ParseOption_words libc (fuel + 2) old description doc m p t ts
      ("--".toList :: x :: rest) hno (by simp; decide) hlen
    rw [ParseLoop_option_step libc commandName n (fuel + 2) _ _ m _ _ _ (by decide) hw rfl,
      ParseLoop_dashdash,
      ParseLoop_scalar_step libc commandName n fuel info later _ _ x rest convert hs hcv hx hok]
  · simp only [ParseLoop, ho1, ho2, if_true, hdouble]

theorem double_dash_witness :
    ParseOption exampleLibc 2 Internal.fresh exampleMem ("--".toList :: ["f".toList])
        = Run.ret ⟨kArgNoError, ["f".toList], Internal.fresh, exampleMem⟩
      ∧ ParseLoop exampleLibc "cmd".toList 0 (2 + 1) [] Internal.fresh exampleMem
            ("--".toList :: ["f".toList])
          = ParseLoop exampleLibc "cmd".toList 0 2 [] Internal.fresh exampleMem ["f".toList]
      ∧ ListArrayLoop exampleLibc (wordsSlot 7) (2 + 1) Internal.fresh exampleMem
            ("--".toList :: ["f".toList])
          = Run.ret ⟨kArgNoError, "--".toList :: ["f".toList], Internal.fresh, exampleMem⟩
      ∧ ParseLoop exampleLibc "cmd".toList 0 (2 + 3)
            (⟨kTypeCString, "file".toList, some 3, true, -1⟩ :: [])
            (wordsSpec Internal.fresh "test".toList 7 "Words".toList) exampleMem
            ("-words".toList :: ("a".toList :: ["b".toList] ++ "--".toList :: "f".toList ::
              ["f".toList]))
          = ParseLoop exampleLibc "cmd".toList 0 2 []
              { (wordsSpec Internal.fresh "test".toList 7 "Words".toList).markFlag
                  (⟨kTypeCString, "file".toList, some 3, true, -1⟩ : cArgInfo).mFlagToSet with
                mErrorString := errorStringAfter
                  ((fun arg => (Parse_string arg).map Scalar.cstr) "f".toList)
                  ((wordsSpec Internal.fresh "test".toList 7 "Words".toList).markFlag
                    (⟨kTypeCString, "file".toList, some 3, true, -1⟩
                      : cArgInfo).mFlagToSet).mErrorString }
              (assign (⟨kTypeCString, "file".toList, some 3, true, -1⟩ : cArgInfo).mLocation
                ((fun arg => (Parse_string arg).map Scalar.cstr) "f".toList).result
                (exampleMem.write 7
                  (Value.vector (("a".toList :: ["b".toList]).map Scalar.cstr))))
              ["f".toList]
      ∧ IsOption (kOptionChar :: kOptionChar :: 'v' :: []) = true
      ∧ IsOption (kOptionChar :: 'v' :: []) = true
      ∧ ParseOption exampleLibc 2 Internal.fresh exampleMem
            ((kOptionChar :: kOptionChar :: 'v' :: []) :: ["f".toList])
          = ParseOption exampleLibc 2 Internal.fresh exampleMem
              ((kOptionChar :: 'v' :: []) :: ["f".toList])
      ∧ ParseLoop exampleLibc "cmd".toList 0 (2 + 1) [] Internal.fresh exampleMem
            ((kOptionChar :: kOptionChar :: 'v' :: []) :: ["f".toList])
          = ParseLoop exampleLibc "cmd".toList 0 (2 + 1) [] Internal.fresh exampleMem
              ((kOptionChar :: 'v' :: []) :: ["f".toList]) :=
  double_dash exampleLibc "cmd".toList 0 2 [] [] Internal.fresh Internal.fresh exampleMem
    ["f".toList] (wordsSlot 7) ⟨kTypeCString, "file".toList, some 3, true, -1⟩
    "test".toList "Words".toList "a".toList "f".toList ["b".toList] 7
    (fun arg => (Parse_string arg).map Scalar.cstr) 'v' []
    (by decide) (by decide) (by decide) rfl (by decide) rfl (by decide)

/-- C13 as stated fails for a declared option name that begins with a dash:
the line `--long^` declares the name `-long`; the token `---long` (two dashes
before the name) sets the flag, the token `--long` (one dash before the name)
is an unknown option. -/
theorem double_dash_counterexample :
    ∃ spec, ConstructSpec 2 Internal.fresh "test".toList (longArgs 1 "Long".toList)
        = Run.ret (kSpecNoError, spec)
      ∧ spec.mOptions.map (fun o => o.mName) = ["-long".toList]
      ∧ (∃ r, Parse exampleLibc 1 spec exampleMem "cmd".toList
            [kOptionChar :: kOptionChar :: "-long".toList] = Run.ret r
          ∧ r.error = kArgNoError ∧ r.self.Flag 1 = true)
      ∧ (∃ r, Parse exampleLibc 1 spec exampleMem "cmd".toList
            [kOptionChar :: "-long".toList] = Run.ret r
          ∧ r.error = kArgErrorUnknownOption) := by
  refine ⟨_, construct_long 0 Internal.fresh "test".toList 1 "Long".toList, rfl, ?_, ?_⟩
  · refine ⟨⟨kArgNoError, [],
      { longSpec Internal.fresh "test".toList 1 "Long".toList with
        mFlags := 2, mErrorString := [] }, exampleMem⟩, ?_, rfl, by decide⟩
    rfl
  · refine ⟨⟨kArgErrorUnknownOption, [],
      { longSpec Internal.fresh "test".toList 1 "Long".toList with
        mFlags := 0, mErrorString := "Unknown option 'long'".toList }, exampleMem⟩, ?_, rfl⟩
    rfl

/-! ## C14: the reserved name `h` -/

/-- C14. On an instance with no option declared and no help request pending,
the token `-h` does not raise the help marker: `Parse` returns
`kArgErrorUnknownOption` with the message "Unknown option 'h'" and
`mHelpRequested` stays false, because the test for `h` sits inside the loop
over the declared options. With at least one option declared, none of them
named `h`, `Parse` raises the marker and returns `kArgHelpRequested`. -/
theorem help_without_options (libc : Libc) (fuel : Nat) (self : Internal) (m : Mem)
    (commandName : CStr) (rest : List CStr)
    (hnone : self.mOptions = []) (hfresh : self.mHelpRequested = false) :
    (∃ r, Parse libc (fuel + 1) self m commandName ("-h".toList :: rest) = Run.ret r
        ∧ r.error = kArgErrorUnknownOption ∧ r.self.mHelpRequested = false
        ∧ r.self.mErrorString = "Unknown option 'h'".toList)
      ∧ (∀ other : Internal, other.mOptions ≠ [] →
          (∀ o ∈ other.mOptions, StrEq o.mName "h".toList = false) →
          ∃ r, Parse libc (fuel + 1) other m commandName ("-h".toList :: rest) = Run.ret r
            ∧ r.error = kArgHelpRequested ∧ r.self.mHelpRequested = true) := by
  constructor
  · have hP : Parse libc (fuel + 1) self m commandName ("-h".toList :: rest)
        = Run.ret ⟨kArgErrorUnknownOption, rest,
            { self with mFlags := 0, mErrorString := "Unknown option 'h'".toList }, m⟩ := by
      obtain ⟨a, b, c, opts, e, f, g, msg⟩ := self
      simp only at hnone hfresh
      subst hnone hfresh
      rfl
    exact ⟨_, hP, rfl, hfresh, rfl⟩
  · intro other hne hno
    have hs : ∀ s : Internal, (helpSeen "h".toList s).mHelpRequested = true := fun _ => rfl
    have hO : ParseOption libc fuel { other with mFlags := 0, mErrorString := [] } m
        ("-h".toList :: rest)
        = Run.ret ⟨kArgHelpRequested, rest,
            helpSeen "h".toList { other with mFlags := 0, mErrorString := [] }, m⟩ := by
      rw [ParseOption_name libc fuel _ m "-h".toList "h".toList rest (by decide) (by decide)]
      have hk := ParseOptionLoop_skip libc fuel "h".toList [] m rest other.mOptions
        { other with mFlags := 0, mErrorString := [] } hno
      rw [List.append_nil, if_neg hne] at hk
      show ParseOptionLoop libc fuel "h".toList other.mOptions _ m rest = _
      rw [hk, ParseOptionLoop_nil, hs, if_pos rfl]
    have hi : IsOption "-h".toList = true := by decide
    have hP : Parse libc (fuel + 1) other m commandName ("-h".toList :: rest)
        = Run.ret ⟨kArgHelpRequested, rest,
            { helpSeen "h".toList { other with mFlags := 0, mErrorString := [] } with
              mErrorString := CreateHelpString
                (helpSeen "h".toList { other with mFlags := 0, mErrorString := [] }) commandName
                (helpSeen "h".toList
                  { other with mFlags := 0, mErrorString := [] }).mErrorString }, m⟩ := by
      rw [Parse, if_neg (by simp)]
      simp only [ParseLoop, hi, if_true, hO]
      rfl
    exact ⟨_, hP, rfl, rfl⟩

theorem help_without_options_witness :
    (∃ r, Parse exampleLibc (0 + 1) twoIntSpec exampleMem "cmd".toList ("-h".toList :: [])
          = Run.ret r
        ∧ r.error = kArgErrorUnknownOption ∧ r.self.mHelpRequested = false
        ∧ r.self.mErrorString = "Unknown option 'h'".toList)
      ∧ (∀ other : Internal, other.mOptions ≠ [] →
          (∀ o ∈ other.mOptions, StrEq o.mName "h".toList = false) →
          ∃ r, Parse exampleLibc (0 + 1) other exampleMem "cmd".toList ("-h".toList :: [])
              = Run.ret r
            ∧ r.error = kArgHelpRequested ∧ r.self.mHelpRequested = true) :=
  help_without_options exampleLibc 0 twoIntSpec exampleMem "cmd".toList [] rfl rfl

/-! ## C15: the flag of a slot is set before conversion -/

/-- C15. `ParseArgument` sets the flag of its slot before it converts: every
result of `ParseArgument` on a slot with flag `F < 32`, of any type and with
any error, has flag `F` set. For a scalar slot with flag `F` and a token on
which its converter fails, `ParseArgument` returns the converter's error with
flag `F` set; and when that slot is a main slot reached after the main slots
before it were filled, `Parse` returns the converter's error and flag `F` is
set afterwards. -/
theorem flag_set_before_conversion (libc : Libc) (fuel : Nat) (self : Internal) (m : Mem)
    (commandName : CStr) (pre post : List cArgInfo) (info : cArgInfo) (toks rest : List CStr)
    (t : CStr) (F : Nat) (convert : CStr → Converted Scalar)
    (hmain : self.mMainArgs.mArguments = pre ++ info :: post)
    (hlen : toks.length = pre.length)
    (hpre : ∀ i ∈ pre, isScalarSlot i = true)
    (hno : ∀ x ∈ toks, IsOption x = false)
    (hconv : ∀ p ∈ pre.zip toks, convertsIn libc self.mEnumSpecs p.1 p.2 = true)
    (hs : isScalarSlot info = true)
    (hF : info.mFlagToSet = (F : Int)) (hF32 : F < 32)
    (hcv : converterFor libc self.mEnumSpecs info.mType = some convert)
    (ht : IsOption t = false) (hbad : (convert t).error ≠ kArgNoError) :
    (∀ (slot : cArgInfo) (s : Internal) (mem : Mem) (argv : List CStr) (r : PResult),
        slot.mFlagToSet = (F : Int) →
        ParseArgument libc fuel s mem slot argv = Run.ret r → r.self.Flag F = true)
      ∧ (∃ r, ParseArgument libc fuel self m info (t :: rest) = Run.ret r
          ∧ r.error = (convert t).error ∧ r.self.Flag F = true)
      ∧ ∃ r, Parse libc (pre.length + (fuel + 1)) self m commandName (toks ++ t :: rest)
            = Run.ret r
          ∧ r.error = (convert t).error ∧ r.self.Flag F = true := by
  have hgen : ∀ (slot : cArgInfo) (s : Internal) (mem : Mem) (argv : List CStr) (r : PResult),
      slot.mFlagToSet = (F : Int) →
      ParseArgument libc fuel s mem slot argv = Run.ret r → r.self.Flag F = true := by
    intro slot s mem argv r hslot hr
    have h := ParseArgument_self libc fuel s mem slot argv r hr
    unfold sameButMessage at h
    rw [h, hslot]
    exact Flag_markFlag_self s F hF32
  refine ⟨hgen, ?_, ?_⟩
  · have hr := ParseArgument_scalar libc fuel self m info t rest convert hs hcv
    exact ⟨_, hr, rfl, hgen info self m _ _ hF hr⟩
  · obtain ⟨s1, m1, hE, -, hrun⟩ := ParseLoop_scalar_run libc commandName
      (pre ++ info :: post).length pre toks
      { self with mFlags := 0, mErrorString := [] } m hlen hpre hno hconv
    have hcv1 : converterFor libc s1.mEnumSpecs info.mType = some convert := by
      rw [hE]; exact hcv
    have hr := ParseArgument_scalar libc fuel s1 m1 info t rest convert hs hcv1
    have hP : Parse libc (pre.length + (fuel + 1)) self m commandName (toks ++ t :: rest)
        = Run.ret (storeConverted (convert t) info rest (s1.markFlag info.mFlagToSet) m1) := by
      rw [Parse, if_neg (by simp), hmain, hrun (info :: post) (t :: rest) (fuel + 1)]
      simp only [ParseLoop, ht, Bool.false_eq_true, if_false, hr]
      rw [if_pos (by simpa [storeConverted] using hbad)]
    exact ⟨_, hP, rfl, hgen info s1 m1 _ _ hF hr⟩

theorem flag_set_before_conversion_witness :
    (∀ (slot : cArgInfo) (s : Internal) (mem : Mem) (argv : List CStr) (r : PResult),
        slot.mFlagToSet = ((3 : Nat) : Int) →
        ParseArgument exampleLibc 0 s mem slot argv = Run.ret r → r.self.Flag 3 = true)
      ∧ (∃ r, ParseArgument exampleLibc 0
            (oneSlotSpec ⟨kTypeInt, "n".toList, some 4, true, 3⟩) exampleMem
            ⟨kTypeInt, "n".toList, some 4, true, 3⟩ ("12abc".toList :: []) = Run.ret r
          ∧ r.error = ((fun arg => (Parse_int exampleLibc arg).map Scalar.int)
              "12abc".toList).error
          ∧ r.self.Flag 3 = true)
      ∧ ∃ r, Parse exampleLibc (([] : List cArgInfo).length + (0 + 1))
            (oneSlotSpec ⟨kTypeInt, "n".toList, some 4, true, 3⟩) exampleMem "cmd".toList
            ([] ++ "12abc".toList :: []) = Run.ret r
          ∧ r.error = ((fun arg => (Parse_int exampleLibc arg).map Scalar.int)
              "12abc".toList).error
          ∧ r.self.Flag 3 = true :=
  flag_set_before_conversion exampleLibc 0
    (oneSlotSpec ⟨kTypeInt, "n".toList, some 4, true, 3⟩) exampleMem "cmd".toList [] []
    ⟨kTypeInt, "n".toList, some 4, true, 3⟩ [] [] "12abc".toList 3
    (fun arg => (Parse_int exampleLibc arg).map Scalar.int)
    rfl rfl (by simp) (by simp) (by simp) (by decide) rfl (by decide) rfl (by decide)
    (by decide)

/-! ## C16 and C17: what a `Parse` call inherits from the calls before it -/

/-- C16. At the early return of `Parse` for `argc = 1` with a main group that
is not empty, the statement `mFlags = 0` has not been reached: `Parse` returns
`kArgHelpRequested` with `mFlags` as it was, so a flag `f` set before the call
(by `SetFlag` or by an earlier `Parse`) is still set after it although the
call set no flag. On every other path `Parse` starts from `mFlags = 0`: its
result does not depend on the value `mFlags` had before. -/
theorem flags_not_cleared_on_help (libc : Libc) (fuel : Nat) (self : Internal) (m : Mem)
    (commandName : CStr) (f : Nat)
    (hmain : self.mMainArgs.mArguments ≠ []) (hset : self.Flag f = true) :
    (∃ r, Parse libc fuel self m commandName [] = Run.ret r
        ∧ r.error = kArgHelpRequested ∧ r.self.mFlags = self.mFlags ∧ r.self.Flag f = true)
      ∧ ∀ (other : Internal) (args : List CStr) (x : Nat),
          (args ≠ [] ∨ other.mMainArgs.mArguments = []) →
          Parse libc fuel { other with mFlags := x } m commandName args
            = Parse libc fuel other m commandName args := by
  constructor
  · refine ⟨⟨kArgHelpRequested, [],
      { self with mErrorString := CreateHelpString self commandName self.mErrorString }, m⟩,
      ?_, rfl, rfl, hset⟩
    rw [Parse, if_pos ⟨rfl, hmain⟩]
  · intro other args x h
    have hn : ¬ (args = [] ∧ other.mMainArgs.mArguments ≠ []) := by
      rintro ⟨h1, h2⟩
      rcases h with h | h
      · exact h h1
      · exact h2 h
    rw [Parse, Parse, if_neg hn, if_neg hn]

theorem flags_not_cleared_on_help_witness :
    (∃ r, Parse exampleLibc 0 (twoIntSpec.SetFlag 3) exampleMem "cmd".toList [] = Run.ret r
        ∧ r.error = kArgHelpRequested ∧ r.self.mFlags = (twoIntSpec.SetFlag 3).mFlags
        ∧ r.self.Flag 3 = true)
      ∧ ∀ (other : Internal) (args : List CStr) (x : Nat),
          (args ≠ [] ∨ other.mMainArgs.mArguments = []) →
          Parse exampleLibc 0 { other with mFlags := x } exampleMem "cmd".toList args
            = Parse exampleLibc 0 other exampleMem "cmd".toList args :=
  flags_not_cleared_on_help exampleLibc 0 (twoIntSpec.SetFlag 3) exampleMem "cmd".toList 3
    (by decide) (by decide)

theorem ParseOptionLoop_nomatch_help (libc : Libc) (fuel : Nat) (name : CStr) (m : Mem)
    (argv : List CStr) (opts : List cOptionsSpec) (self : Internal)
    (hreq : self.mHelpRequested = true)
    (hnone : ∀ o ∈ opts, StrEq o.mName name = false) :
    ParseOptionLoop libc fuel name opts self m argv
      = Run.ret ⟨kArgHelpRequested, argv, self, m⟩ := by
  have hs : helpSeen name self = self := by
    unfold helpSeen
    split_ifs
    · obtain ⟨a, b, c, d, e, f, g, h⟩ := self
      simp only at hreq
      rw [hreq]
    · rfl
  have h := ParseOptionLoop_skip libc fuel name [] m argv opts self hnone
  rw [List.append_nil] at h
  rw [h, hs, ite_self, ParseOptionLoop_nil, if_pos hreq]

theorem Parse_unknown_after_help (libc : Libc) (fuel : Nat) (self : Internal) (m : Mem)
    (commandName t name : CStr) (hreq : self.mHelpRequested = true)
    (ht : IsOption t = true)
    (hname : name = if (t.drop 1).head? = some kOptionChar then t.drop 2 else t.drop 1)
    (hne : name ≠ [])
    (hnone : ∀ o ∈ self.mOptions, StrEq o.mName name = false) :
    ∃ r, Parse libc (fuel + 1) self m commandName [t] = Run.ret r
      ∧ r.error = kArgHelpRequested := by
  refine ⟨⟨kArgHelpRequested, [],
    { self with
      mFlags := 0
      mErrorString := CreateHelpString { self with mFlags := 0, mErrorString := [] }
        commandName [] }, m⟩, ?_, rfl⟩
  rw [Parse, if_neg (by simp)]
  simp only [ParseLoop, ht, if_true]
  have hL := ParseOptionLoop_nomatch_help libc fuel name m []
    ({ self with mFlags := 0, mErrorString := [] } : Internal).mOptions
    { self with mFlags := 0, mErrorString := [] } hreq hnone
  rw [ParseOption_name libc fuel _ m t name [] hname hne, hL]
  rfl

/-- C17. Let an instance have no help request pending and at least one option,
none of them named `h`, and let `t` be an option-marker token whose name
equals no declared name and is not `h`. On that instance `Parse([cmd, t])`
returns `kArgErrorUnknownOption`. `Parse([cmd, -h])` returns
`kArgHelpRequested` and leaves `mHelpRequested` set, which no later `Parse`
clears: `Parse([cmd, t])` on the instance it leaves returns
`kArgHelpRequested`. -/
theorem reuse_after_help (libc : Libc) (fuel : Nat) (self : Internal) (m : Mem)
    (commandName t name : CStr)
    (hfresh : self.mHelpRequested = false)
    (hopts : self.mOptions ≠ [])
    (hnoh : ∀ o ∈ self.mOptions, StrEq o.mName "h".toList = false)
    (ht : IsOption t = true)
    (hname : name = if (t.drop 1).head? = some kOptionChar then t.drop 2 else t.drop 1)
    (hne : name ≠ [])
    (hh : StrEq name "h".toList = false)
    (hnone : ∀ o ∈ self.mOptions, StrEq o.mName name = false) :
    ∃ rA rB rF,
      Parse libc (fuel + 1) self m commandName ["-h".toList] = Run.ret rA
        ∧ rA.error = kArgHelpRequested
        ∧ Parse libc (fuel + 1) rA.self rA.mem commandName [t] = Run.ret rB
        ∧ rB.error = kArgHelpRequested
        ∧ Parse libc (fuel + 1) self m commandName [t] = Run.ret rF
        ∧ rF.error = kArgErrorUnknownOption := by
  have hi : IsOption "-h".toList = true := by decide
  have hOA : ParseOption libc fuel { self with mFlags := 0, mErrorString := [] } m
      ["-h".toList]
      = Run.ret ⟨kArgHelpRequested, [],
          helpSeen "h".toList { self with mFlags := 0, mErrorString := [] }, m⟩ := by
    rw [ParseOption_name libc fuel _ m "-h".toList "h".toList [] (by decide) (by decide)]
    have hk := ParseOptionLoop_skip libc fuel "h".toList [] m [] self.mOptions
      { self with mFlags := 0, mErrorString := [] } hnoh
    rw [List.append_nil, if_neg hopts] at hk
    have hs : ∀ s : Internal, (helpSeen "h".toList s).mHelpRequested = true := fun _ => rfl
    show ParseOptionLoop libc fuel "h".toList self.mOptions _ m [] = _
    rw [hk, ParseOptionLoop_nil, hs, if_pos rfl]
  have hA : Parse libc (fuel + 1) self m commandName ["-h".toList]
      = Run.ret ⟨kArgHelpRequested, [],
          { helpSeen "h".toList { self with mFlags := 0, mErrorString := [] } with
            mErrorString := CreateHelpString
              (helpSeen "h".toList { self with mFlags := 0, mErrorString := [] }) commandName
              (helpSeen "h".toList
                { self with mFlags := 0, mErrorString := [] }).mErrorString }, m⟩ := by
    rw [Parse, if_neg (by simp)]
    simp only [ParseLoop, hi, if_true, hOA]
    rfl
  have hF : Parse libc (fuel + 1) self m commandName [t]
      = Run.ret ⟨kArgErrorUnknownOption, [],
          { self with mFlags := 0,
                      mErrorString :=
                        (Sprintf ("Unknown option '".toList ++ name ++ "'".toList)) }, m⟩ := by
    rw [Parse, if_neg (by simp)]
    simp only [ParseLoop, ht, if_true]
    have hL := ParseOptionLoop_nomatch libc fuel name m []
      ({ self with mFlags := 0, mErrorString := [] } : Internal).mOptions
      { self with mFlags := 0, mErrorString := [] } hh hfresh hnone
    rw [ParseOption_name libc fuel _ m t name [] hname hne, hL]
    rfl
  obtain ⟨rB, hB, hBe⟩ := Parse_unknown_after_help libc fuel
    { helpSeen "h".toList { self with mFlags := 0, mErrorString := [] } with
      mErrorString := CreateHelpString
        (helpSeen "h".toList { self with mFlags := 0, mErrorString := [] }) commandName
        (helpSeen "h".toList
          { self with mFlags := 0, mErrorString := [] }).mErrorString }
    m commandName t name rfl ht hname hne hnone
  exact ⟨_, rB, _, hA, rfl, hB, hBe, hF, rfl⟩

theorem reuse_after_help_witness :
    ∃ rA rB rF,
      Parse exampleLibc (0 + 1) threeFlagsSpec exampleMem "cmd".toList ["-h".toList]
          = Run.ret rA
        ∧ rA.error = kArgHelpRequested
        ∧ Parse exampleLibc (0 + 1) rA.self rA.mem "cmd".toList ["-x".toList] = Run.ret rB
        ∧ rB.error = kArgHelpRequested
        ∧ Parse exampleLibc (0 + 1) threeFlagsSpec exampleMem "cmd".toList ["-x".toList]
            = Run.ret rF
        ∧ rF.error = kArgErrorUnknownOption :=
  reuse_after_help exampleLibc 0 threeFlagsSpec exampleMem "cmd".toList "-x".toList "x".toList
    rfl (by decide) (by decide) (by decide) (by decide) (by decide) (by decide) (by decide)

/-! ## C18: termination of the matcher loops -/

theorem construct_pts (k : Nat) (old : Internal) (description : CStr) (pts : Nat)
    (doc : CStr) :
    ConstructSpec (k + 2) old description (ptsArgs pts doc)
      = Run.ret (kSpecNoError, ptsSpec old description pts doc) := by
  have hb : LineBegin
      { old with mCommandDescription := description, mMainArgs := ⟨[], []⟩, mOptions := [],
                 mEnumSpecs := [], mErrorString := [] }
      "<pts:vec2[]>".toList [VaArg.ptr pts, VaArg.cstr doc, VaArg.null] kSpecNoError
      = Run.ret ⟨false, [], -1,
          ⟨[], "<pts:vec2[]>".toList, 0, 0, [],
            [VaArg.ptr pts, VaArg.cstr doc, VaArg.null], kSpecNoError⟩⟩ := by
    simp only [LineBegin]
    simp +decide
  have hs1 : TokenStep
      { old with mCommandDescription := description, mMainArgs := ⟨[], []⟩, mOptions := [],
                 mEnumSpecs := [], mErrorString := [] }
      ⟨[], "<pts:vec2[]>".toList, 0, 0, [],
        [VaArg.ptr pts, VaArg.cstr doc, VaArg.null], kSpecNoError⟩
      = Run.ret (TokenStepResult.next
          ⟨[], [], 0, 0, [ptsSlot pts], [VaArg.cstr doc, VaArg.null], kSpecNoError⟩) := by
    simp only [TokenStep]
    simp +decide [va_ptr, va_int]
    rw [FindNameAndTypeFromOption_builtin _ _ (by decide)]
    refine ⟨?_, by decide⟩
    unfold ptsSlot
    congr 1
  have hline := ConstructLine_eq (k + 1) _ _ _ _ _ none _ hb
    (by rw [TokenLoop_next _ _ _ _ (by simp) hs1, TokenLoop_done _ _ _ rfl])
  unfold ConstructSpec ptsArgs
  rw [ClauseLoop_line (k + 1) _ _ _ _ _ _ _ (by decide) (by decide) (hline.trans rfl),
    ClauseLoop_null]
  rfl

theorem Parse_vec_option_first (libc : Libc) (n v : Nat) (tok : CStr) (rest : List CStr)
    (m : Mem) (es : CStr) (h : IsOption tok = true) :
    (Parse_vec libc n v (tok :: rest) m es).error = kArgNoError
      ∧ (Parse_vec libc n v (tok :: rest) m es).argv = tok :: rest := by
  have hl : Parse_vec_loop libc n v (tok :: rest) 0 m es
      = (0, ⟨kArgNoError, tok :: rest, es, m⟩) := by
    rw [Parse_vec_loop, if_neg (by simp [h])]
  unfold Parse_vec
  simp only [hl]
  constructor <;> rfl

theorem SplitArrayLoop_vec_option (libc : Libc) (info : cArgInfo) (piece : CStr)
    (pieces : List CStr) (n : Nat) (hn : n = 2 ∨ n = 3 ∨ n = 4)
    (hty : info.mType &&& kTypeBaseMask = kTypeVec2 + (n - 2))
    (hopt : IsOption piece = true) :
    ∀ (fuel : Nat) (self : Internal) (m : Mem),
      SplitArrayLoop libc info fuel self m (piece :: pieces) = Run.outOfFuel := by
  intro fuel
  induction fuel with
  | zero => intro self m; rfl
  | succ fuel ih =>
    intro self m
    have hp : ∃ r, ParseArrayArgument libc self m info (piece :: pieces) = Run.ret r
        ∧ r.error = kArgNoError ∧ r.argv = piece :: pieces := by
      obtain ⟨he, ha⟩ := Parse_vec_option_first libc n 0 piece pieces
        (fun _ => Value.scalar (Scalar.float 0)) self.mErrorString hopt
      refine ⟨pushVec libc n info (piece :: pieces) self m, ?_, ?_, ?_⟩
      · unfold ParseArrayArgument
        rcases hn with rfl | rfl | rfl <;> simp [hty, kTypeVec2, kTypeVec3, kTypeVec4]
      · unfold pushVec
        simp only [he, ne_eq, not_true_eq_false, if_false]
      · unfold pushVec
        simp only [he, ne_eq, not_true_eq_false, if_false, ha]
    obtain ⟨r, hr, he, ha⟩ := hp
    rw [SplitArrayLoop, hr]
    simp only [he, ne_eq, not_true_eq_false, if_false, ha]
    exact ih _ _

theorem ParseLoop_split_diverges (libc : Libc) (commandName : CStr) (n : Nat)
    (info : cArgInfo) (later : List cArgInfo) (tok : CStr) (pieces rest : List CStr)
    (hlist : info.mType &&& kTypeArrayListFlag = 0)
    (hsplit : info.mType &&& kTypeArraySplitFlag ≠ 0)
    (htok : IsOption tok = false) (hpieces : Split tok = pieces)
    (hloop : ∀ (fuel : Nat) (self : Internal) (m : Mem),
      SplitArrayLoop libc info fuel self m pieces = Run.outOfFuel) :
    ∀ (fuel : Nat) (self : Internal) (m : Mem),
      ParseLoop libc commandName n fuel (info :: later) self m (tok :: rest)
        = Run.outOfFuel := by
  intro fuel self m
  cases fuel with
  | zero => rfl
  | succ fuel =>
    have hA : ParseArgument libc fuel self m info (tok :: rest) = Run.outOfFuel := by
      unfold ParseArgument
      simp only [hlist, ne_eq, not_true_eq_false, if_false, hsplit, not_false_eq_true, if_true,
        hpieces, hloop]
    simp only [ParseLoop, htok, Bool.false_eq_true, if_false, hA]

theorem SplitArrayLoop_pts_example (pts : Nat) :
    ∀ (fuel : Nat) (self : Internal) (m : Mem),
      SplitArrayLoop exampleLibc (ptsSlot pts) fuel self m
        ["1".toList, "2".toList, "-x".toList] = Run.outOfFuel := by
  intro fuel self m
  cases fuel with
  | zero => rfl
  | succ fuel =>
    have h3 : (ptsSlot pts).mType &&& kTypeBaseMask = kTypeVec2 + (2 - 2) := by
      show (kTypeVec2 ||| kTypeArraySplitFlag) &&& kTypeBaseMask = kTypeVec2 + (2 - 2)
      decide
    have he : (Parse_vec exampleLibc 2 0 ["1".toList, "2".toList, "-x".toList]
        (fun _ => Value.scalar (Scalar.float 0)) self.mErrorString).error = kArgNoError := rfl
    have ha : (Parse_vec exampleLibc 2 0 ["1".toList, "2".toList, "-x".toList]
        (fun _ => Value.scalar (Scalar.float 0)) self.mErrorString).argv = ["-x".toList] := rfl
    have hr : ParseArrayArgument exampleLibc self m (ptsSlot pts)
        ["1".toList, "2".toList, "-x".toList]
        = Run.ret (pushVec exampleLibc 2 (ptsSlot pts)
            ["1".toList, "2".toList, "-x".toList] self m) := by
      unfold ParseArrayArgument
      simp [h3, kTypeVec2]
    have hpe : (pushVec exampleLibc 2 (ptsSlot pts)
        ["1".toList, "2".toList, "-x".toList] self m).error = kArgNoError := by
      unfold pushVec
      simp only [he, ne_eq, not_true_eq_false, if_false]
    have hpa : (pushVec exampleLibc 2 (ptsSlot pts)
        ["1".toList, "2".toList, "-x".toList] self m).argv = ["-x".toList] := by
      unfold pushVec
      simp only [he, ne_eq, not_true_eq_false, if_false, ha]
    rw [SplitArrayLoop, hr]
    simp only [hpe, ne_eq, not_true_eq_false, if_false, hpa]
    exact SplitArrayLoop_vec_option exampleLibc (ptsSlot pts) "-x".toList [] 2 (Or.inl rfl) h3
      (by decide) fuel _ _

/-- C18. The main line `<pts:vec2[]>` compiles to a split array of `Vec2`. On
the argument `" -x"` (not an option marker, since it begins with a space; its
only piece is `-x`) and, with the example C library, on the argument
`"1 2 -x"` (pieces `1`, `2`, `-x`), `Parse` returns for no budget at all: the
result is `Run.outOfFuel` for every `fuel`. The split-array loop hands the
piece `-x` to the vector converter, which stops in front of an option marker
without consuming it and returns `kArgNoError`, so the loop
`while (aargv < aargvEnd)` makes no progress. -/
theorem split_vec_array_never_returns (libc : Libc) (k fuel : Nat) (old : Internal)
    (description doc commandName : CStr) (pts : Nat) (m : Mem) :
    ∃ spec, ConstructSpec (k + 2) old description (ptsArgs pts doc)
        = Run.ret (kSpecNoError, spec)
      ∧ IsOption " -x".toList = false
      ∧ Split " -x".toList = ["-x".toList]
      ∧ Parse libc fuel spec m commandName [" -x".toList] = Run.outOfFuel
      ∧ IsOption "1 2 -x".toList = false
      ∧ Split "1 2 -x".toList = ["1".toList, "2".toList, "-x".toList]
      ∧ Parse exampleLibc fuel spec m commandName ["1 2 -x".toList] = Run.outOfFuel := by
  have h1 : (ptsSlot pts).mType &&& kTypeArrayListFlag = 0 := by
    show (kTypeVec2 ||| kTypeArraySplitFlag) &&& kTypeArrayListFlag = 0
    decide
  have h2 : (ptsSlot pts).mType &&& kTypeArraySplitFlag ≠ 0 := by
    show (kTypeVec2 ||| kTypeArraySplitFlag) &&& kTypeArraySplitFlag ≠ 0
    decide
  have h3 : (ptsSlot pts).mType &&& kTypeBaseMask = kTypeVec2 + (2 - 2) := by
    show (kTypeVec2 ||| kTypeArraySplitFlag) &&& kTypeBaseMask = kTypeVec2 + (2 - 2)
    decide
  have ho1 : IsOption " -x".toList = false := by decide
  have hs1 : Split " -x".toList = ["-x".toList] := by decide
  have ho2 : IsOption "1 2 -x".toList = false := by decide
  have hs2 : Split "1 2 -x".toList = ["1".toList, "2".toList, "-x".toList] := by decide
  refine ⟨_, construct_pts k old description pts doc, ho1, hs1, ?_, ho2, hs2, ?_⟩
  · rw [Parse, if_neg (by simp)]
    exact ParseLoop_split_diverges libc commandName _ (ptsSlot pts) [] _ _ [] h1 h2 ho1 hs1
      (SplitArrayLoop_vec_option libc (ptsSlot pts) "-x".toList [] 2 (Or.inl rfl) h3
        (by decide)) fuel _ m
  · rw [Parse, if_neg (by simp)]
    exact ParseLoop_split_diverges exampleLibc commandName _ (ptsSlot pts) [] _ _ [] h1 h2 ho2
      hs2 (SplitArrayLoop_pts_example pts) fuel _ m

/-! ## The tokens of a grammar line and their bracket depth -/

theorem contains_sep (c : Char) : ([' ', '\t', '\n'].contains c) = isTokenSep c := by
  simp only [List.contains, List.elem, isTokenSep]
  cases (c == ' ') <;> cases (c == '\t') <;> cases (c == '\n') <;> rfl

theorem NextToken_eq (str : CStr) :
    NextToken str
      = (((str.dropWhile isTokenSep).takeWhile (fun c => !isTokenSep c)),
          ((str.dropWhile isTokenSep).dropWhile (fun c => !isTokenSep c)).drop 1) := by
  unfold NextToken
  simp only [contains_sep]

theorem lineTokens_nil : lineTokens [] = [] := rfl

theorem lineTokens_sep (c : Char) (s : CStr) (h : isTokenSep c = true) :
    lineTokens (c :: s) = lineTokens s := by
  unfold lineTokens
  rw [List.splitOnP_cons, if_pos h]
  rfl

theorem lineTokens_dropWhile (s : CStr) :
    lineTokens (s.dropWhile isTokenSep) = lineTokens s := by
  induction s with
  | nil => rfl
  | cons c s ih =>
    by_cases h : isTokenSep c = true
    · rw [List.dropWhile_cons_of_pos h, ih, lineTokens_sep c s h]
    · rw [List.dropWhile_cons_of_neg h]

theorem lineTokens_first (t rest : CStr) (ht : t ≠ []) (hns : ∀ c ∈ t, ¬ isTokenSep c = true)
    (hrest : ∀ c ∈ rest.head?, isTokenSep c = true) :
    lineTokens (t ++ rest) = t :: lineTokens (rest.drop 1) := by
  have hne : (!t.isEmpty) = true := by
    cases t with
    | nil => exact absurd rfl ht
    | cons _ _ => rfl
  cases rest with
  | nil =>
    unfold lineTokens
    rw [List.append_nil, List.splitOnP_eq_single _ _ hns]
    simp [hne]
  | cons c r =>
    have hc : isTokenSep c = true := hrest c (by simp)
    unfold lineTokens
    rw [List.splitOnP_first _ _ hns c hc]
    simp only [List.filter_cons, hne, if_true, List.drop_succ_cons, List.drop_zero]

theorem NextToken_lineTokens (str : CStr) :
    ((NextToken str).1 = [] → lineTokens str = [])
      ∧ ((NextToken str).1 ≠ [] →
          lineTokens str = (NextToken str).1 :: lineTokens (NextToken str).2) := by
  rw [NextToken_eq]
  simp only
  have hsplit : str.dropWhile isTokenSep
      = (str.dropWhile isTokenSep).takeWhile (fun c => !isTokenSep c)
        ++ (str.dropWhile isTokenSep).dropWhile (fun c => !isTokenSep c) :=
    (List.takeWhile_append_dropWhile _ _).symm
  have hns : ∀ c ∈ (str.dropWhile isTokenSep).takeWhile (fun c => !isTokenSep c),
      ¬ isTokenSep c = true := by
    intro c hc
    have := List.mem_takeWhile_imp hc
    simpa using this
  have hrest : ∀ c ∈ ((str.dropWhile isTokenSep).dropWhile (fun c => !isTokenSep c)).head?,
      isTokenSep c = true := by
    intro c hc
    cases hd : (str.dropWhile isTokenSep).dropWhile (fun c => !isTokenSep c) with
    | nil => rw [hd] at hc; simp at hc
    | cons x xs =>
      rw [hd] at hc
      simp only [List.head?_cons, Option.mem_def, Option.some.injEq] at hc
      subst hc
      have := List.head_dropWhile_not (fun c => !isTokenSep c) (str.dropWhile isTokenSep)
        (by rw [hd]; exact List.cons_ne_nil _ _)
      simp only [hd, List.head_cons] at this
      simpa using this
  constructor
  · intro h
    rw [← lineTokens_dropWhile]
    cases hb : str.dropWhile isTokenSep with
    | nil => rfl
    | cons c cs =>
      exfalso
      rw [hb] at h
      have hc : ¬ isTokenSep c = true := by
        have := List.head_dropWhile_not isTokenSep str (by rw [hb]; exact List.cons_ne_nil _ _)
        simp only [hb, List.head_cons] at this
        simpa using this
      rw [List.takeWhile_cons_of_pos (by simpa using hc)] at h
      exact List.cons_ne_nil _ _ h
  · intro h
    rw [← lineTokens_dropWhile str]
    conv_lhs => rw [hsplit]
    exact lineTokens_first _ _ h hns hrest

theorem takeWhile_append_stop (p : Char → Bool) (l : CStr) (x : Char) (hx : p x = false) :
    (l ++ [x]).takeWhile p = l.takeWhile p := by
  induction l with
  | nil => simp [List.takeWhile_cons, hx]
  | cons c cs ih =>
    by_cases hc : p c = true
    · rw [List.cons_append, List.takeWhile_cons_of_pos hc, List.takeWhile_cons_of_pos hc, ih]
    · rw [List.cons_append, List.takeWhile_cons_of_neg hc, List.takeWhile_cons_of_neg hc]

theorem closes_eq_trailingCloses (tok : CStr) :
    (((if opensBracket tok then tok.drop 1 else tok).reverse.takeWhile
        (fun c => c == kCloseBracketChar)).length) = trailingCloses tok := by
  unfold trailingCloses
  by_cases h : opensBracket tok = true
  · rw [if_pos h]
    cases tok with
    | nil => rfl
    | cons c cs =>
      have hc : c = kOpenBracketChar := by
        simpa [opensBracket] using h
      subst hc
      rw [List.drop_succ_cons, List.drop_zero, List.reverse_cons,
        takeWhile_append_stop _ _ _ (by decide)]
  · rw [if_neg h]

theorem bracketDepth_nil : bracketDepth [] = 0 := rfl

theorem bracketDepth_cons (tok : CStr) (toks : List CStr) :
    bracketDepth (tok :: toks)
      = (if opensBracket tok then 1 else 0) - (trailingCloses tok : Int) + bracketDepth toks := by
  unfold bracketDepth
  by_cases h : opensBracket tok = true
  · rw [List.filter_cons_of_pos h, if_pos h]
    simp only [List.length_cons, List.map_cons, List.sum_cons]
    push_cast
    ring
  · rw [List.filter_cons_of_neg h, if_neg h]
    simp only [List.map_cons, List.sum_cons]
    push_cast
    ring

theorem bracketDepth_append (xs ys : List CStr) :
    bracketDepth (xs ++ ys) = bracketDepth xs + bracketDepth ys := by
  induction xs with
  | nil => simp [bracketDepth_nil]
  | cons x xs ih => rw [List.cons_append, bracketDepth_cons, bracketDepth_cons, ih]; ring

theorem TokenStep_arg (self : Internal) (st : LineState) (loc : Option Nat) (flag : Int)
    (vaRest : List VaArg)
    (hcore : tokenCore st.nextToken ≠ [])
    (hell : StrEq (tokenCore st.nextToken) kEllipsisToken = false)
    (hva : st.va = declVa (tokenCore st.nextToken) loc flag ++ vaRest) :
    TokenStep self st
      = Run.ret (TokenStepResult.next
          { options := (NextToken st.options).2
            nextToken := (NextToken st.options).1
            optionLevel := (if opensBracket st.nextToken then st.optionLevel + 1
              else st.optionLevel) - (trailingCloses st.nextToken : Int)
            lastOptionLevel := (if opensBracket st.nextToken then st.optionLevel + 1
              else st.optionLevel) - (trailingCloses st.nextToken : Int)
            args := st.args ++ [declSlot self (tokenCore st.nextToken) loc flag
              ((if opensBracket st.nextToken then st.optionLevel + 1 else st.optionLevel)
                == st.lastOptionLevel)]
            va := vaRest
            err := if (declSlot self (tokenCore st.nextToken) loc flag true).mType
                = kTypeInvalid then kSpecUnknownType else st.err }) := by
  obtain ⟨last, hlast⟩ : ∃ last, (tokenCore st.nextToken).getLast? = some last := by
    cases h : (tokenCore st.nextToken).getLast? with
    | none => exact absurd (List.getLast?_eq_none_iff.mp h) hcore
    | some last => exact ⟨last, rfl⟩
  have e1 : (List.dropWhile (fun c => c == kCloseBracketChar)
      (List.reverse (if opensBracket st.nextToken = true
        then List.drop 1 st.nextToken else st.nextToken))).reverse
      = tokenCore st.nextToken := rfl
  have e2 : (List.takeWhile (fun c => c == kCloseBracketChar)
      (List.reverse (if opensBracket st.nextToken = true
        then List.drop 1 st.nextToken else st.nextToken))).length
      = trailingCloses st.nextToken := closes_eq_trailingCloses st.nextToken
  have e3 : (List.head? st.nextToken == some kOpenBracketChar) = opensBracket st.nextToken :=
    rfl
  unfold TokenStep
  dsimp only
  simp only [e3]
  simp only [e1, e2]
  generalize tokenCore st.nextToken = core at *
  rw [hell]
  simp only [Bool.false_eq_true, if_false, hva, hlast]
  unfold declVa declSlot
  cases loc with
  | none =>
    by_cases hf : last = kSetFlagChar
    · subst hf; simp [va_ptr, va_int, hlast]
    · have hf2 : ¬ some last = some kSetFlagChar := by simpa using hf
      simp [va_ptr, hf, hf2, hlast]
  | some p =>
    by_cases hf : last = kSetFlagChar
    · subst hf; simp [va_ptr, va_int, hlast]
    · have hf2 : ¬ some last = some kSetFlagChar := by simpa using hf
      simp [va_ptr, hf, hf2, hlast]

theorem TokenStep_next (self : Internal) (st st1 : LineState)
    (h : TokenStep self st = Run.ret (TokenStepResult.next st1)) :
    st1.optionLevel = (if opensBracket st.nextToken then st.optionLevel + 1
        else st.optionLevel) - (trailingCloses st.nextToken : Int)
      ∧ st1.nextToken = (NextToken st.options).1
      ∧ st1.options = (NextToken st.options).2 := by
  have e1 : (List.dropWhile (fun c => c == kCloseBracketChar)
      (List.reverse (if opensBracket st.nextToken = true
        then List.drop 1 st.nextToken else st.nextToken))).reverse
      = tokenCore st.nextToken := rfl
  have e2 : (List.takeWhile (fun c => c == kCloseBracketChar)
      (List.reverse (if opensBracket st.nextToken = true
        then List.drop 1 st.nextToken else st.nextToken))).length
      = trailingCloses st.nextToken := closes_eq_trailingCloses st.nextToken
  have e3 : (List.head? st.nextToken == some kOpenBracketChar) = opensBracket st.nextToken :=
    rfl
  unfold TokenStep at h
  dsimp only at h
  simp only [e3] at h
  simp only [e1, e2] at h
  generalize tokenCore st.nextToken = core at *
  generalize (if opensBracket st.nextToken = true then st.optionLevel + 1
    else st.optionLevel) = L1 at h ⊢
  by_cases h1 : StrEq core kEllipsisToken = true
  · rw [if_pos h1] at h
    by_cases h2 : st.options ≠ []
    · rw [if_pos h2] at h; cases h
    · rw [if_neg h2] at h
      split at h
      · cases h
      · cases h; exact ⟨rfl, rfl, rfl⟩
  · rw [if_neg h1] at h
    split at h
    · split at h
      · cases h; exact ⟨rfl, rfl, rfl⟩
      · cases h
      · cases h
    · cases h
    · cases h

theorem pendingTokens_next (st st1 : LineState) (hne : st.nextToken ≠ [])
    (h1 : st1.nextToken = (NextToken st.options).1)
    (h2 : st1.options = (NextToken st.options).2) :
    pendingTokens st = st.nextToken :: pendingTokens st1 := by
  unfold pendingTokens
  rw [if_neg hne, h1, h2]
  obtain ⟨ha, hb⟩ := NextToken_lineTokens st.options
  by_cases hn : (NextToken st.options).1 = []
  · rw [if_pos hn, ha hn]
  · rw [if_neg hn, hb hn]

theorem TokenLoop_level (self : Internal) :
    ∀ (fuel : Nat) (st st1 : LineState),
      TokenLoop self fuel st = Run.ret (none, st1) →
      st1.optionLevel = st.optionLevel + bracketDepth (pendingTokens st) := by
  intro fuel
  induction fuel with
  | zero =>
    intro st st1 h
    unfold TokenLoop at h
    split_ifs at h with hn
    cases h
    simp [pendingTokens, hn, bracketDepth_nil]
  | succ fuel ih =>
    intro st st1 h
    unfold TokenLoop at h
    split_ifs at h with hn
    · cases h
      simp [pendingTokens, hn, bracketDepth_nil]
    · cases hs : TokenStep self st with
      | outOfFuel => rw [hs] at h; cases h
      | fault => rw [hs] at h; cases h
      | ret res =>
        rw [hs] at h
        cases res with
        | returns e st2 => cases h
        | next st2 =>
          obtain ⟨hl, hn1, hn2⟩ := TokenStep_next self st st2 hs
          have := ih st2 st1 h
          rw [this, hl, pendingTokens_next st st2 hn hn1 hn2, bracketDepth_cons]
          split_ifs <;> ring

/-! ## C19: unbalanced brackets -/

theorem pendingTokens_lineTokens (nextToken options : CStr) (err : tArgSpecError)
    (level last : Int) (args : List cArgInfo) (va : List VaArg) (s : CStr)
    (h1 : nextToken = (NextToken s).1) (h2 : options = (NextToken s).2) :
    pendingTokens ⟨options, nextToken, level, last, args, va, err⟩ = lineTokens s := by
  unfold pendingTokens
  obtain ⟨ha, hb⟩ := NextToken_lineTokens s
  subst h1 h2
  by_cases hn : (NextToken s).1 = []
  · rw [if_pos hn, ha hn]
  · rw [if_neg hn, hb hn]

theorem LineBegin_pending (self : Internal) (line : CStr) (va : List VaArg)
    (err : tArgSpecError) (head : LineHead) (hb : LineBegin self line va err = Run.ret head) :
    pendingTokens head.start = argTokens line
      ∧ head.start.optionLevel = 0 ∧ head.start.lastOptionLevel = 0 := by
  obtain ⟨ha, hc⟩ := NextToken_lineTokens line
  unfold LineBegin at hb
  dsimp only at hb
  split at hb
  · rename_i mFlagToSet va1 hflag
    by_cases hopt : IsOption (NextToken line).1 = true
    · rw [if_pos hopt] at hb
      cases hb
      have hne : (NextToken line).1 ≠ [] := by
        intro h; rw [h] at hopt; exact absurd hopt (by decide)
      refine ⟨?_, rfl, rfl⟩
      rw [pendingTokens_lineTokens _ _ _ _ _ _ _ (NextToken line).2 rfl rfl]
      unfold argTokens
      rw [hc hne]
      simp only [hopt, if_true]
    · rw [if_neg hopt] at hb
      cases hb
      refine ⟨?_, rfl, rfl⟩
      rw [pendingTokens_lineTokens _ _ _ _ _ _ _ line rfl rfl]
      unfold argTokens
      by_cases hn : (NextToken line).1 = []
      · rw [ha hn]
      · rw [hc hn]
        simp only [hopt, Bool.false_eq_true, if_false]
  · cases hb
  · cases hb

/-- C19. Let a grammar line that is not an enum declaration reach the end of
its token loop (no ellipsis error, no fault). The bracket level there is the
depth of the line's argument tokens: the number of tokens with a leading `[`
minus the total number of trailing `]` characters. When that depth is not 0,
the clause loop returns `kSpecUnbalancedBrackets` at this line, whatever
clauses follow it: the options of the result are those compiled before the
line (no option is added for it), the enum tables are unchanged, and the slots
of a main line stay in the main group. When the line is the first clause, this
is the result of `ConstructSpec`. -/
theorem unbalanced_brackets (fuel : Nat) (self : Internal) (line : CStr) (va : List VaArg)
    (err : tArgSpecError) (head : LineHead) (st : LineState)
    (h1 : line.head? ≠ some kEnumSpecChar) (h2 : line.head? ≠ some kEnumSpecInlineChar)
    (hb : LineBegin self line va err = Run.ret head)
    (hloop : TokenLoop self fuel head.start = Run.ret (none, st))
    (hdepth : bracketDepth (argTokens line) ≠ 0) :
    st.optionLevel = bracketDepth (argTokens line)
      ∧ ∃ self1, ClauseLoop (fuel + 1) self (VaArg.cstr line :: va) err
            = Run.ret (kSpecUnbalancedBrackets, self1)
          ∧ self1.mOptions = self.mOptions
          ∧ self1.mEnumSpecs = self.mEnumSpecs
          ∧ self1.mMainArgs.mArguments
              = (if head.isOption then self.mMainArgs.mArguments else st.args)
          ∧ ∀ (old : Internal) (description : CStr),
              self = resetSpec old description → err = kSpecNoError →
              ConstructSpec (fuel + 1) old description (VaArg.cstr line :: va)
                = Run.ret (kSpecUnbalancedBrackets, self1) := by
  obtain ⟨hp, h0, -⟩ := LineBegin_pending self line va err head hb
  have hlevel : st.optionLevel = bracketDepth (argTokens line) := by
    rw [TokenLoop_level self fuel head.start st hloop, h0, hp, zero_add]
  have hne : st.optionLevel ≠ 0 := by rw [hlevel]; exact hdepth
  have hline : ConstructLine fuel self line va err
      = Run.ret (false, kSpecUnbalancedBrackets,
          (if head.isOption then self
            else { self with mMainArgs := { self.mMainArgs with mArguments := st.args } }),
          st.va) := by
    rw [ConstructLine_eq fuel self line va err head none st hb hloop]
    unfold LineEnd
    simp only [hne, ne_eq, not_false_eq_true, if_true]
  have hclause : ClauseLoop (fuel + 1) self (VaArg.cstr line :: va) err
      = Run.ret (kSpecUnbalancedBrackets,
          (if head.isOption then self
            else { self with mMainArgs := { self.mMainArgs with mArguments := st.args } })) := by
    rw [ClauseLoop]
    simp only [va_cstr, if_neg h1, if_neg h2, hline]
  refine ⟨hlevel, _, hclause, ?_, ?_, ?_, ?_⟩
  · split_ifs <;> rfl
  · split_ifs <;> rfl
  · split_ifs <;> rfl
  · intro old description hs he
    subst hs he
    exact hclause

theorem unbalanced_begin (a b : Nat) (doc : CStr) :
    LineBegin (resetSpec Internal.fresh "test".toList) "<a:int> [<b:int>".toList
        [VaArg.ptr a, VaArg.ptr b, VaArg.cstr doc, VaArg.null] kSpecNoError
      = Run.ret ⟨false, [], -1,
          ⟨"[<b:int>".toList, "<a:int>".toList, 0, 0, [],
            [VaArg.ptr a, VaArg.ptr b, VaArg.cstr doc, VaArg.null], kSpecNoError⟩⟩ := by
  simp only [LineBegin]
  simp +decide [resetSpec]

theorem unbalanced_loop (a b : Nat) (doc : CStr) :
    TokenLoop (resetSpec Internal.fresh "test".toList) 2
        ⟨"[<b:int>".toList, "<a:int>".toList, 0, 0, [],
          [VaArg.ptr a, VaArg.ptr b, VaArg.cstr doc, VaArg.null], kSpecNoError⟩
      = Run.ret (none,
          ⟨[], [], 1, 1,
            [⟨kTypeInt, "a".toList, some a, true, -1⟩, ⟨kTypeInt, "b".toList, some b, false, -1⟩],
            [VaArg.cstr doc, VaArg.null], kSpecNoError⟩) := by
  have hs1 : TokenStep (resetSpec Internal.fresh "test".toList)
      ⟨"[<b:int>".toList, "<a:int>".toList, 0, 0, [],
        [VaArg.ptr a, VaArg.ptr b, VaArg.cstr doc, VaArg.null], kSpecNoError⟩
      = Run.ret (TokenStepResult.next
          ⟨[], "[<b:int>".toList, 0, 0, [⟨kTypeInt, "a".toList, some a, true, -1⟩],
            [VaArg.ptr b, VaArg.cstr doc, VaArg.null], kSpecNoError⟩) := by
    simp only [TokenStep]
    simp +decide [va_ptr, va_int]
  have hs2 : TokenStep (resetSpec Internal.fresh "test".toList)
      ⟨[], "[<b:int>".toList, 0, 0, [⟨kTypeInt, "a".toList, some a, true, -1⟩],
        [VaArg.ptr b, VaArg.cstr doc, VaArg.null], kSpecNoError⟩
      = Run.ret (TokenStepResult.next
          ⟨[], [], 1, 1,
            [⟨kTypeInt, "a".toList, some a, true, -1⟩,
              ⟨kTypeInt, "b".toList, some b, false, -1⟩],
            [VaArg.cstr doc, VaArg.null], kSpecNoError⟩) := by
    simp only [TokenStep]
    simp +decide [va_ptr, va_int]
  rw [TokenLoop_next _ 1 _
      ⟨[], "[<b:int>".toList, 0, 0, [⟨kTypeInt, "a".toList, some a, true, -1⟩],
        [VaArg.ptr b, VaArg.cstr doc, VaArg.null], kSpecNoError⟩
      (by show "<a:int>".toList ≠ []; decide) hs1,
    TokenLoop_next _ 0 _
      ⟨[], [], 1, 1,
        [⟨kTypeInt, "a".toList, some a, true, -1⟩, ⟨kTypeInt, "b".toList, some b, false, -1⟩],
        [VaArg.cstr doc, VaArg.null], kSpecNoError⟩
      (by show "[<b:int>".toList ≠ []; decide) hs2,
    TokenLoop_done _ _ _ rfl]

theorem unbalanced_brackets_witness :
    (⟨[], [], 1, 1,
        [⟨kTypeInt, "a".toList, some 0, true, -1⟩, ⟨kTypeInt, "b".toList, some 1, false, -1⟩],
        [VaArg.cstr "Two numbers".toList, VaArg.null], kSpecNoError⟩ : LineState).optionLevel
        = bracketDepth (argTokens "<a:int> [<b:int>".toList)
      ∧ ∃ self1, ClauseLoop (2 + 1) (resetSpec Internal.fresh "test".toList)
            (VaArg.cstr "<a:int> [<b:int>".toList
              :: [VaArg.ptr 0, VaArg.ptr 1, VaArg.cstr "Two numbers".toList, VaArg.null])
            kSpecNoError
            = Run.ret (kSpecUnbalancedBrackets, self1)
          ∧ self1.mOptions = (resetSpec Internal.fresh "test".toList).mOptions
          ∧ self1.mEnumSpecs = (resetSpec Internal.fresh "test".toList).mEnumSpecs
          ∧ self1.mMainArgs.mArguments
              = (if (⟨false, [], -1,
                    ⟨"[<b:int>".toList, "<a:int>".toList, 0, 0, [],
                      [VaArg.ptr 0, VaArg.ptr 1, VaArg.cstr "Two numbers".toList, VaArg.null],
                      kSpecNoError⟩⟩ : LineHead).isOption
                then (resetSpec Internal.fresh "test".toList).mMainArgs.mArguments
                else (⟨[], [], 1, 1,
                    [⟨kTypeInt, "a".toList, some 0, true, -1⟩,
                      ⟨kTypeInt, "b".toList, some 1, false, -1⟩],
                    [VaArg.cstr "Two numbers".toList, VaArg.null], kSpecNoError⟩
                    : LineState).args)
          ∧ ∀ (old : Internal) (description : CStr),
              resetSpec Internal.fresh "test".toList = resetSpec old description →
              kSpecNoError = kSpecNoError →
              ConstructSpec (2 + 1) old description
                  (VaArg.cstr "<a:int> [<b:int>".toList
                    :: [VaArg.ptr 0, VaArg.ptr 1, VaArg.cstr "Two numbers".toList, VaArg.null])
                = Run.ret (kSpecUnbalancedBrackets, self1) :=
  unbalanced_brackets 2 (resetSpec Internal.fresh "test".toList) "<a:int> [<b:int>".toList
    [VaArg.ptr 0, VaArg.ptr 1, VaArg.cstr "Two numbers".toList, VaArg.null] kSpecNoError
    ⟨false, [], -1,
      ⟨"[<b:int>".toList, "<a:int>".toList, 0, 0, [],
        [VaArg.ptr 0, VaArg.ptr 1, VaArg.cstr "Two numbers".toList, VaArg.null], kSpecNoError⟩⟩
    ⟨[], [], 1, 1,
      [⟨kTypeInt, "a".toList, some 0, true, -1⟩, ⟨kTypeInt, "b".toList, some 1, false, -1⟩],
      [VaArg.cstr "Two numbers".toList, VaArg.null], kSpecNoError⟩
    (by decide) (by decide) (unbalanced_begin 0 1 "Two numbers".toList)
    (unbalanced_loop 0 1 "Two numbers".toList) (by decide)

/-! ## C20: trailing optional arguments -/

theorem isPlainToken_facts (t : CStr) (h : isPlainToken t = true) :
    t ≠ [] ∧ t.head? ≠ some kOpenBracketChar ∧ t.getLast? ≠ some kCloseBracketChar
      ∧ StrEq t kEllipsisToken = false := by
  simp only [isPlainToken, Bool.and_eq_true, Bool.not_eq_true', bne_iff_ne, ne_eq,
    List.isEmpty_eq_false] at h
  obtain ⟨⟨⟨h1, h2⟩, h3⟩, h4⟩ := h
  exact ⟨by simpa using h1, h2, h3, h4⟩

theorem reverse_head_ne (t : CStr) (hne : t ≠ []) (h : t.getLast? ≠ some kCloseBracketChar) :
    ∃ c cs, t.reverse = c :: cs ∧ (c == kCloseBracketChar) = false := by
  cases hr : t.reverse with
  | nil => exact absurd (List.reverse_eq_nil_iff.mp hr) hne
  | cons c cs =>
    refine ⟨c, cs, rfl, ?_⟩
    have : t.getLast? = some c := by
      rw [← List.head?_reverse, hr]; rfl
    rw [this] at h
    simpa using h

theorem opensBracket_bracketed (opens : Bool) (core : CStr) (closes : Nat)
    (h : isPlainToken core = true) : opensBracket (bracketed opens core closes) = opens := by
  obtain ⟨hne, hh, -, -⟩ := isPlainToken_facts core h
  cases opens with
  | true => rfl
  | false =>
    cases core with
    | nil => exact absurd rfl hne
    | cons c cs =>
      simp only [opensBracket, bracketed, Bool.false_eq_true, if_false, List.nil_append,
        List.cons_append, List.head?_cons, beq_eq_false_iff_ne, ne_eq]
      simpa using hh

theorem strip_bracketed (core : CStr) (closes : Nat) (h : isPlainToken core = true) :
    ((core ++ List.replicate closes kCloseBracketChar).reverse.takeWhile
        (fun c => c == kCloseBracketChar)).length = closes
      ∧ ((core ++ List.replicate closes kCloseBracketChar).reverse.dropWhile
        (fun c => c == kCloseBracketChar)).reverse = core := by
  obtain ⟨hne, -, hl, -⟩ := isPlainToken_facts core h
  obtain ⟨c, cs, hr, hc⟩ := reverse_head_ne core hne hl
  rw [List.reverse_append, List.reverse_replicate, hr]
  constructor
  · induction closes with
    | zero => simp [List.takeWhile_cons, hc]
    | succ n ih =>
      rw [List.replicate_succ, List.cons_append, List.takeWhile_cons_of_pos (by decide),
        List.length_cons, ih]
  · induction closes with
    | zero =>
      simp only [List.replicate_zero, List.nil_append]
      rw [List.dropWhile_cons_of_neg (by simp [hc]), ← hr, List.reverse_reverse]
    | succ n ih =>
      rw [List.replicate_succ, List.cons_append, List.dropWhile_cons_of_pos (by decide), ih]

theorem bracketed_facts (opens : Bool) (core : CStr) (closes : Nat)
    (h : isPlainToken core = true) :
    bracketed opens core closes ≠ []
      ∧ opensBracket (bracketed opens core closes) = opens
      ∧ trailingCloses (bracketed opens core closes) = closes
      ∧ tokenCore (bracketed opens core closes) = core := by
  obtain ⟨hne, -, -, -⟩ := isPlainToken_facts core h
  have ho := opensBracket_bracketed opens core closes h
  obtain ⟨h1, h2⟩ := strip_bracketed core closes h
  have hd : (if opensBracket (bracketed opens core closes) = true
      then (bracketed opens core closes).drop 1 else bracketed opens core closes)
      = core ++ List.replicate closes kCloseBracketChar := by
    rw [ho]
    cases opens <;> simp [bracketed]
  refine ⟨?_, ho, ?_, ?_⟩
  · cases opens <;> simp [bracketed, hne]
  · rw [← closes_eq_trailingCloses, hd, h1]
  · unfold tokenCore
    simp only [hd, h2]

theorem declVas_append (xs ys : List ArgDecl) :
    declVas (xs ++ ys) = declVas xs ++ declVas ys := by
  induction xs with
  | nil => rfl
  | cons x xs ih =>
    show declVa x.core x.loc x.flag ++ declVas (xs ++ ys) = _
    rw [ih, declVas, List.append_assoc]

theorem pendingTokens_cons (st : LineState) (t : CStr) (rest : List CStr)
    (h : pendingTokens st = t :: rest) : st.nextToken = t ∧ st.nextToken ≠ [] := by
  unfold pendingTokens at h
  by_cases hn : st.nextToken = []
  · rw [if_pos hn] at h; cases h
  · rw [if_neg hn] at h
    exact ⟨(List.cons.inj h).1, hn⟩

theorem pendingTokens_nil (st : LineState) (h : pendingTokens st = []) : st.nextToken = [] := by
  unfold pendingTokens at h
  by_cases hn : st.nextToken = []
  · exact hn
  · rw [if_neg hn] at h; cases h

theorem TokenStep_bracketed (self : Internal) (st : LineState) (opens : Bool) (d : ArgDecl)
    (closes : Nat) (vaRest : List VaArg)
    (hplain : isPlainToken d.core = true)
    (htok : st.nextToken = bracketed opens d.core closes)
    (hva : st.va = declVa d.core d.loc d.flag ++ vaRest) :
    TokenStep self st
      = Run.ret (TokenStepResult.next
          { options := (NextToken st.options).2
            nextToken := (NextToken st.options).1
            optionLevel := (if opens then st.optionLevel + 1 else st.optionLevel) - (closes : Int)
            lastOptionLevel :=
              (if opens then st.optionLevel + 1 else st.optionLevel) - (closes : Int)
            args := st.args ++ [declSlot self d.core d.loc d.flag
              ((if opens then st.optionLevel + 1 else st.optionLevel) == st.lastOptionLevel)]
            va := vaRest
            err := if (declSlot self d.core d.loc d.flag true).mType = kTypeInvalid
              then kSpecUnknownType else st.err }) := by
  obtain ⟨-, h2, h3, h4⟩ := bracketed_facts opens d.core closes hplain
  obtain ⟨hne, -, -, hell⟩ := isPlainToken_facts d.core hplain
  rw [← htok] at h2 h3 h4
  have h := TokenStep_arg self st d.loc d.flag vaRest (by rw [h4]; exact hne)
    (by rw [h4]; exact hell) (by rw [h4]; exact hva)
  rw [h2, h3, h4] at h
  exact h

theorem TokenLoop_run (self : Internal) :
    ∀ (ds : List (Bool × ArgDecl)) (st : LineState) (more : List CStr) (vaMore : List VaArg),
      (∀ d ∈ ds, isPlainToken d.2.core = true) →
      st.lastOptionLevel = st.optionLevel →
      pendingTokens st = ds.map (fun d => bracketed d.1 d.2.core 0) ++ more →
      st.va = declVas (ds.map (fun d => d.2)) ++ vaMore →
      ∃ st1, (∀ f, TokenLoop self (ds.length + f) st = TokenLoop self f st1)
        ∧ st1.optionLevel = st.optionLevel + ((ds.filter (fun d => d.1)).length : Int)
        ∧ st1.lastOptionLevel = st1.optionLevel
        ∧ st1.args = st.args
            ++ ds.map (fun d => declSlot self d.2.core d.2.loc d.2.flag (!d.1))
        ∧ st1.va = vaMore
        ∧ pendingTokens st1 = more
        ∧ (st1.err = st.err ∨ st1.err = kSpecUnknownType) := by
  intro ds
  induction ds with
  | nil =>
    intro st more vaMore _ hl hp hva
    refine ⟨st, fun f => by simp, by simp, hl, by simp, ?_, ?_, Or.inl rfl⟩
    · simpa [declVas] using hva
    · simpa using hp
  | cons d ds ih =>
    intro st more vaMore hplain hl hp hva
    have hd : isPlainToken d.2.core = true := hplain d (List.mem_cons_self _ _)
    rw [List.map_cons, List.cons_append] at hp
    obtain ⟨htok, hne⟩ := pendingTokens_cons st _ _ hp
    have hva1 : st.va = declVa d.2.core d.2.loc d.2.flag
        ++ (declVas (ds.map (fun d => d.2)) ++ vaMore) := by
      rw [hva, List.map_cons, declVas, List.append_assoc]
    have hstep := TokenStep_bracketed self st d.1 d.2 0 _ hd htok hva1
    have hreq : ((if d.1 = true then st.optionLevel + 1 else st.optionLevel)
        == st.lastOptionLevel) = !d.1 := by
      rw [hl]
      cases d.1 with
      | true => simp
      | false => simp
    rw [hreq] at hstep
    obtain ⟨stn, hs, e1, e2, e3, e4, e5, e6, e7⟩ : ∃ stn,
        TokenStep self st = Run.ret (TokenStepResult.next stn)
          ∧ stn.nextToken = (NextToken st.options).1
          ∧ stn.options = (NextToken st.options).2
          ∧ stn.optionLevel = (if d.1 = true then st.optionLevel + 1 else st.optionLevel)
              - ((0 : Nat) : Int)
          ∧ stn.lastOptionLevel = stn.optionLevel
          ∧ stn.args = st.args ++ [declSlot self d.2.core d.2.loc d.2.flag (!d.1)]
          ∧ stn.va = declVas (ds.map (fun d => d.2)) ++ vaMore
          ∧ (stn.err = st.err ∨ stn.err = kSpecUnknownType) := by
      refine ⟨_, hstep, rfl, rfl, rfl, rfl, rfl, rfl, ?_⟩
      dsimp only
      split_ifs
      · exact Or.inr rfl
      · exact Or.inl rfl
    have hpn := pendingTokens_next st stn hne e1 e2
    rw [hp] at hpn
    obtain ⟨st1, h1, h2, h3, h4, h5, h6, h7⟩ := ih stn more vaMore
      (fun x hx => hplain x (List.mem_cons_of_mem _ hx)) e4
      (List.cons.inj hpn).2.symm e6
    refine ⟨st1, fun f => ?_, ?_, h3, ?_, h5, h6, ?_⟩
    · have hf : (d :: ds).length + f = (ds.length + f) + 1 := by
        simp only [List.length_cons]; omega
      rw [hf, TokenLoop_next self _ st stn hne hs]
      exact h1 f
    · rw [h2, e3]
      simp only [Nat.cast_zero, sub_zero]
      cases hd1 : d.1 with
      | true =>
        rw [List.filter_cons_of_pos hd1]
        simp only [if_true, List.length_cons]
        push_cast; ring
      | false =>
        rw [List.filter_cons_of_neg (by simp [hd1])]
        simp
    · rw [h4, e5]
      simp only [List.map_cons, List.append_assoc, List.singleton_append]
    · rcases h7 with h7 | h7
      · rcases e7 with e7 | e7
        · exact Or.inl (h7.trans e7)
        · exact Or.inr (h7.trans e7)
      · exact Or.inr h7

theorem bracketed_false_zero (core : CStr) : bracketed false core 0 = core := by
  simp [bracketed]

theorem optionalSuffix_nil : optionalSuffix [] = [] := rfl

theorem optionalSuffix_concat (xs : List CStr) (x : CStr) :
    optionalSuffix (xs ++ [x])
      = xs.map (fun y => bracketed true y 0) ++ [bracketed true x (xs.length + 1)] := by
  unfold optionalSuffix
  simp

theorem TokenLoop_suffix (self : Internal) (fuel : Nat) (st0 : LineState)
    (as bs : List ArgDecl) (vaRest : List VaArg)
    (hlevel : st0.optionLevel = 0) (hlast : st0.lastOptionLevel = 0)
    (hpend : pendingTokens st0
      = as.map (fun d => d.core) ++ optionalSuffix (bs.map (fun d => d.core)))
    (hplainA : ∀ d ∈ as, isPlainToken d.core = true)
    (hplainB : ∀ d ∈ bs, isPlainToken d.core = true)
    (hva : st0.va = declVas (as ++ bs) ++ vaRest)
    (hfuel : as.length + bs.length ≤ fuel) :
    ∃ st, TokenLoop self fuel st0 = Run.ret (none, st)
      ∧ st.optionLevel = 0
      ∧ st.args = st0.args ++ as.map (fun d => declSlot self d.core d.loc d.flag true)
          ++ bs.map (fun d => declSlot self d.core d.loc d.flag false)
      ∧ st.va = vaRest
      ∧ (st.err = st0.err ∨ st.err = kSpecUnknownType) := by
  rcases List.eq_nil_or_concat bs with hbs | ⟨L, b, hbs⟩
  · subst hbs
    obtain ⟨st1, h1, h2, -, h4, h5, h6, h7⟩ := TokenLoop_run self
      (as.map (fun d => (false, d))) st0 [] vaRest
      (by intro d hd
          obtain ⟨x, hx, rfl⟩ := List.mem_map.mp hd
          exact hplainA x hx)
      (by rw [hlast, hlevel])
      (by rw [hpend]
          simp [Function.comp_def, bracketed_false_zero, optionalSuffix_nil])
      (by rw [hva, List.map_map]; simp [Function.comp_def])
    refine ⟨st1, ?_, ?_, ?_, h5, h7⟩
    · obtain ⟨f, hf⟩ : ∃ f, fuel = (as.map (fun d => (false, d))).length + f :=
        ⟨fuel - as.length, by simp at hfuel ⊢; omega⟩
      rw [hf, h1 f, TokenLoop_done self f st1 (pendingTokens_nil st1 h6)]
    · rw [h2, hlevel]
      simp [List.filter_map, Function.comp_def]
    · rw [h4, List.map_map]
      simp [Function.comp_def]
  · rw [List.concat_eq_append] at hbs
    subst hbs
    have hBL : ∀ d ∈ L, isPlainToken d.core = true :=
      fun d hd => hplainB d (List.mem_append_left _ hd)
    have hBb : isPlainToken b.core = true := hplainB b (by simp)
    obtain ⟨st1, h1, h2, h3, h4, h5, h6, h7⟩ := TokenLoop_run self
      (as.map (fun d => (false, d)) ++ L.map (fun d => (true, d))) st0
      [bracketed true b.core (L.length + 1)] (declVa b.core b.loc b.flag ++ vaRest)
      (by intro d hd
          rcases List.mem_append.mp hd with hd | hd
          · obtain ⟨x, hx, rfl⟩ := List.mem_map.mp hd
            exact hplainA x hx
          · obtain ⟨x, hx, rfl⟩ := List.mem_map.mp hd
            exact hBL x hx)
      (by rw [hlast, hlevel])
      (by rw [hpend, List.map_append, List.map_singleton, optionalSuffix_concat]
          simp [Function.comp_def, bracketed_false_zero])
      (by rw [hva]
          simp [Function.comp_def, declVas_append, declVas])
    have hlv : st1.optionLevel = (L.length : Int) := by
      rw [h2, hlevel]
      simp [List.filter_append, List.filter_map, Function.comp_def]
    obtain ⟨htok, hne⟩ := pendingTokens_cons st1 _ _ h6
    have hstep := TokenStep_bracketed self st1 true b (L.length + 1) vaRest hBb htok h5
    obtain ⟨stn, hs, e1, e2, e3, e5, e6, e7⟩ : ∃ stn,
        TokenStep self st1 = Run.ret (TokenStepResult.next stn)
          ∧ stn.nextToken = (NextToken st1.options).1
          ∧ stn.options = (NextToken st1.options).2
          ∧ stn.optionLevel = (if true = true then st1.optionLevel + 1 else st1.optionLevel)
              - ((L.length + 1 : Nat) : Int)
          ∧ stn.args = st1.args ++ [declSlot self b.core b.loc b.flag
              ((if true = true then st1.optionLevel + 1 else st1.optionLevel)
                == st1.lastOptionLevel)]
          ∧ stn.va = vaRest
          ∧ (stn.err = st1.err ∨ stn.err = kSpecUnknownType) := by
      refine ⟨_, hstep, rfl, rfl, rfl, rfl, rfl, ?_⟩
      dsimp only
      split_ifs
      · exact Or.inr rfl
      · exact Or.inl rfl
    have hpn := pendingTokens_next st1 stn hne e1 e2
    rw [h6] at hpn
    have hend : stn.nextToken = [] := pendingTokens_nil stn (List.cons.inj hpn).2.symm
    refine ⟨stn, ?_, ?_, ?_, e6, ?_⟩
    · obtain ⟨f, hf⟩ : ∃ f, fuel
          = (as.map (fun d => (false, d)) ++ L.map (fun d => (true, d))).length + (f + 1) :=
        ⟨fuel - (as.length + L.length + 1), by simp at hfuel ⊢; omega⟩
      rw [hf, h1 (f + 1), TokenLoop_next self f st1 stn hne hs, TokenLoop_done self f stn hend]
    · rw [e3, hlv]
      simp
    · rw [e5, h4, h3]
      have hreq : ((if true = true then st1.optionLevel + 1 else st1.optionLevel)
          == st1.optionLevel) = false := by
        simp
      rw [hreq]
      simp [Function.comp_def]
    · rcases e7 with e7 | e7
      · rcases h7 with h7 | h7
        · exact Or.inl (e7.trans h7)
        · exact Or.inr (e7.trans h7)
      · exact Or.inr e7

theorem TokenStep_next_arg (self : Internal) (st st1 : LineState)
    (h : TokenStep self st = Run.ret (TokenStepResult.next st1))
    (hell : StrEq (tokenCore st.nextToken) kEllipsisToken = false) :
    ∃ slot, st1.args = st.args ++ [slot]
      ∧ slot.mIsRequired = ((if opensBracket st.nextToken then st.optionLevel + 1
          else st.optionLevel) == st.lastOptionLevel)
      ∧ st1.lastOptionLevel = (if opensBracket st.nextToken then st.optionLevel + 1
          else st.optionLevel) - (trailingCloses st.nextToken : Int)
      ∧ st1.optionLevel = st1.lastOptionLevel := by
  have e1 : (List.dropWhile (fun c => c == kCloseBracketChar)
      (List.reverse (if opensBracket st.nextToken = true
        then List.drop 1 st.nextToken else st.nextToken))).reverse
      = tokenCore st.nextToken := rfl
  have e2 : (List.takeWhile (fun c => c == kCloseBracketChar)
      (List.reverse (if opensBracket st.nextToken = true
        then List.drop 1 st.nextToken else st.nextToken))).length
      = trailingCloses st.nextToken := closes_eq_trailingCloses st.nextToken
  have e3 : (List.head? st.nextToken == some kOpenBracketChar) = opensBracket st.nextToken :=
    rfl
  unfold TokenStep at h
  dsimp only at h
  simp only [e3] at h
  simp only [e1, e2] at h
  generalize tokenCore st.nextToken = core at *
  generalize (if opensBracket st.nextToken = true then st.optionLevel + 1
    else st.optionLevel) = L1 at h ⊢
  rw [hell] at h
  simp only [Bool.false_eq_true, if_false] at h
  split at h
  · split at h
    · cases h; exact ⟨_, rfl, rfl, rfl, rfl⟩
    · cases h
    · cases h
  · cases h
  · cases h

theorem LineBegin_err (self : Internal) (line : CStr) (va : List VaArg)
    (err : tArgSpecError) (head : LineHead) (hb : LineBegin self line va err = Run.ret head) :
    head.start.err = err
      ∧ head.start.args = (if head.isOption then [] else self.mMainArgs.mArguments) := by
  unfold LineBegin at hb
  dsimp only at hb
  split at hb
  · by_cases hopt : IsOption (NextToken line).1 = true
    · rw [if_pos hopt] at hb; cases hb; exact ⟨rfl, rfl⟩
    · rw [if_neg hopt] at hb; cases hb; exact ⟨rfl, rfl⟩
  · cases hb
  · cases hb

/-- C20. Let the argument tokens of a grammar line be `k` plain tokens
followed by `m` tokens that each open a bracket, all closed after the last
one (`a1 .. ak [b1 [b2 .. [bm]]..]`), and let the variadic arguments supply a
location (and a flag index for a token that ends in `^`) for each token, then
the line's description. With a budget of `k + m` turns the token loop ends at
bracket level 0 having appended `k + m` slots in the order of the tokens, the
first `k` required and the last `m` not required, and the line is compiled
without a bracket error: the outer loop goes on, with the new slots in the
main group or in a new option. The token loop starts at level 0 with last
level 0, and every turn of it for an argument token sets the slot's required
bit to (level after the token's leading `[` = level left by the previous
argument token) and leaves the level after the token's trailing `]`s as the
new last level. -/
theorem trailing_optional_suffix (fuel : Nat) (self : Internal) (line : CStr)
    (va va2 : List VaArg) (err : tArgSpecError) (head : LineHead) (as bs : List ArgDecl)
    (doc : CStr)
    (hb : LineBegin self line va err = Run.ret head)
    (htoks : argTokens line
      = as.map (fun d => d.core) ++ optionalSuffix (bs.map (fun d => d.core)))
    (hplainA : ∀ d ∈ as, isPlainToken d.core = true)
    (hplainB : ∀ d ∈ bs, isPlainToken d.core = true)
    (hva : head.start.va = declVas (as ++ bs) ++ VaArg.cstr doc :: va2)
    (hfuel : as.length + bs.length ≤ fuel) :
    (∃ st self1, TokenLoop self fuel head.start = Run.ret (none, st)
        ∧ st.optionLevel = 0
        ∧ st.args = (if head.isOption then [] else self.mMainArgs.mArguments)
            ++ as.map (fun d => declSlot self d.core d.loc d.flag true)
            ++ bs.map (fun d => declSlot self d.core d.loc d.flag false)
        ∧ (st.err = err ∨ st.err = kSpecUnknownType)
        ∧ ConstructLine fuel self line va err = Run.ret (true, st.err, self1, va2)
        ∧ (if head.isOption then
            ∃ opt, self1.mOptions = self.mOptions ++ [opt] ∧ opt.mArguments = st.args
          else self1.mMainArgs.mArguments = st.args))
      ∧ (∀ (d : ArgDecl) (r : Bool), (declSlot self d.core d.loc d.flag r).mIsRequired = r
          ∧ (declSlot self d.core d.loc d.flag r).mLocation = d.loc)
      ∧ head.start.optionLevel = 0 ∧ head.start.lastOptionLevel = 0
      ∧ ∀ (st st1 : LineState), TokenStep self st = Run.ret (TokenStepResult.next st1) →
          StrEq (tokenCore st.nextToken) kEllipsisToken = false →
          ∃ slot, st1.args = st.args ++ [slot]
            ∧ slot.mIsRequired = ((if opensBracket st.nextToken then st.optionLevel + 1
                else st.optionLevel) == st.lastOptionLevel)
            ∧ st1.lastOptionLevel = (if opensBracket st.nextToken then st.optionLevel + 1
                else st.optionLevel) - (trailingCloses st.nextToken : Int)
            ∧ st1.optionLevel = st1.lastOptionLevel := by
  obtain ⟨hp, h0, hl0⟩ := LineBegin_pending self line va err head hb
  obtain ⟨he, ha⟩ := LineBegin_err self line va err head hb
  refine ⟨?_, fun d r => ⟨rfl, rfl⟩, h0, hl0, TokenStep_next_arg self⟩
  obtain ⟨st, h1, h2, h3, h4, h5⟩ := TokenLoop_suffix self fuel head.start as bs
    (VaArg.cstr doc :: va2) h0 hl0 (hp.trans htoks) hplainA hplainB hva hfuel
  rw [he] at h5
  rw [ha] at h3
  have hline := ConstructLine_eq fuel self line va err head none st hb h1
  unfold LineEnd at hline
  simp only [h2, ne_eq, not_true_eq_false, if_false, h4, va_cstr] at hline
  by_cases hopt : head.isOption = true
  · rw [if_pos hopt] at hline
    simp only [hopt, if_true] at hline h3 ⊢
    exact ⟨st, _, h1, h2, h3, h5, hline, _, rfl, rfl⟩
  · rw [if_neg hopt] at hline
    simp only [hopt, Bool.false_eq_true, if_false] at hline h3 ⊢
    exact ⟨st, _, h1, h2, h3, h5, hline, rfl⟩

theorem suffix_begin :
    LineBegin (resetSpec Internal.fresh "test".toList) "<a:int> [<b:int> [<c:int>]]".toList
        [VaArg.ptr 0, VaArg.ptr 1, VaArg.ptr 2, VaArg.cstr "Numbers".toList, VaArg.null]
        kSpecNoError
      = Run.ret suffixHead := by
  simp only [LineBegin]
  simp +decide [resetSpec, suffixHead]

theorem trailing_optional_suffix_witness :
    (∃ st self1, TokenLoop (resetSpec Internal.fresh "test".toList) 3 suffixHead.start
          = Run.ret (none, st)
        ∧ st.optionLevel = 0
        ∧ st.args = (if suffixHead.isOption then []
              else (resetSpec Internal.fresh "test".toList).mMainArgs.mArguments)
            ++ [(⟨"<a:int>".toList, some 0, 0⟩ : ArgDecl)].map
                (fun d => declSlot (resetSpec Internal.fresh "test".toList) d.core d.loc d.flag
                  true)
            ++ [(⟨"<b:int>".toList, some 1, 0⟩ : ArgDecl), ⟨"<c:int>".toList, some 2, 0⟩].map
                (fun d => declSlot (resetSpec Internal.fresh "test".toList) d.core d.loc d.flag
                  false)
        ∧ (st.err = kSpecNoError ∨ st.err = kSpecUnknownType)
        ∧ ConstructLine 3 (resetSpec Internal.fresh "test".toList)
            "<a:int> [<b:int> [<c:int>]]".toList
            [VaArg.ptr 0, VaArg.ptr 1, VaArg.ptr 2, VaArg.cstr "Numbers".toList, VaArg.null]
            kSpecNoError
            = Run.ret (true, st.err, self1, [VaArg.null])
        ∧ (if suffixHead.isOption then
            ∃ opt, self1.mOptions = (resetSpec Internal.fresh "test".toList).mOptions ++ [opt]
              ∧ opt.mArguments = st.args
          else self1.mMainArgs.mArguments = st.args))
      ∧ (∀ (d : ArgDecl) (r : Bool),
          (declSlot (resetSpec Internal.fresh "test".toList) d.core d.loc d.flag r).mIsRequired
            = r
          ∧ (declSlot (resetSpec Internal.fresh "test".toList) d.core d.loc d.flag r).mLocation
            = d.loc)
      ∧ suffixHead.start.optionLevel = 0 ∧ suffixHead.start.lastOptionLevel = 0
      ∧ ∀ (st st1 : LineState),
          TokenStep (resetSpec Internal.fresh "test".toList) st
            = Run.ret (TokenStepResult.next st1) →
          StrEq (tokenCore st.nextToken) kEllipsisToken = false →
          ∃ slot, st1.args = st.args ++ [slot]
            ∧ slot.mIsRequired = ((if opensBracket st.nextToken then st.optionLevel + 1
                else st.optionLevel) == st.lastOptionLevel)
            ∧ st1.lastOptionLevel = (if opensBracket st.nextToken then st.optionLevel + 1
                else st.optionLevel) - (trailingCloses st.nextToken : Int)
            ∧ st1.optionLevel = st1.lastOptionLevel :=
  trailing_optional_suffix 3 (resetSpec Internal.fresh "test".toList)
    "<a:int> [<b:int> [<c:int>]]".toList
    [VaArg.ptr 0, VaArg.ptr 1, VaArg.ptr 2, VaArg.cstr "Numbers".toList, VaArg.null]
    [VaArg.null] kSpecNoError suffixHead
    [⟨"<a:int>".toList, some 0, 0⟩] [⟨"<b:int>".toList, some 1, 0⟩, ⟨"<c:int>".toList, some 2, 0⟩]
    "Numbers".toList suffix_begin (by decide) (by decide) (by decide) (by decide) (by decide)

/-! ## C21: tokens inside an optional group -/

theorem pair_first (self : Internal) (a b : Nat) (doc : CStr) :
    TokenStep self
      ⟨"<b:int>]".toList, "[<a:int>".toList, 0, 0, [],
        [VaArg.ptr a, VaArg.ptr b, VaArg.cstr doc, VaArg.null], kSpecNoError⟩
      = Run.ret (TokenStepResult.next
          ⟨[], "<b:int>]".toList, 1, 1, [⟨kTypeInt, "a".toList, some a, false, -1⟩],
            [VaArg.ptr b, VaArg.cstr doc, VaArg.null], kSpecNoError⟩) := by
  simp only [TokenStep]
  simp +decide [va_ptr, va_int]
  rw [FindNameAndTypeFromOption_builtin _ _ (by decide)]
  exact ⟨by decide, by decide⟩

theorem pair_second (self : Internal) (a b : Nat) (doc : CStr) :
    TokenStep self
      ⟨[], "<b:int>]".toList, 1, 1, [⟨kTypeInt, "a".toList, some a, false, -1⟩],
        [VaArg.ptr b, VaArg.cstr doc, VaArg.null], kSpecNoError⟩
      = Run.ret (TokenStepResult.next
          ⟨[], [], 0, 0,
            [⟨kTypeInt, "a".toList, some a, false, -1⟩, ⟨kTypeInt, "b".toList, some b, true, -1⟩],
            [VaArg.cstr doc, VaArg.null], kSpecNoError⟩) := by
  simp only [TokenStep]
  simp +decide [va_ptr, va_int]
  rw [FindNameAndTypeFromOption_builtin _ _ (by decide)]
  exact ⟨by decide, by decide⟩

theorem construct_pair (k : Nat) (old : Internal) (description : CStr) (a b : Nat)
    (doc : CStr) :
    ConstructSpec (k + 3) old description (pairArgs a b doc)
      = Run.ret (kSpecNoError, pairSpec old description a b doc) := by
  have hb : LineBegin (resetSpec old description)
      "[<a:int> <b:int>]".toList [VaArg.ptr a, VaArg.ptr b, VaArg.cstr doc, VaArg.null]
      kSpecNoError
      = Run.ret ⟨false, [], -1,
          ⟨"<b:int>]".toList, "[<a:int>".toList, 0, 0, [],
            [VaArg.ptr a, VaArg.ptr b, VaArg.cstr doc, VaArg.null], kSpecNoError⟩⟩ := by
    simp only [LineBegin]
    simp +decide [resetSpec]
  have hloop : TokenLoop (resetSpec old description) (k + 2)
      ⟨"<b:int>]".toList, "[<a:int>".toList, 0, 0, [],
        [VaArg.ptr a, VaArg.ptr b, VaArg.cstr doc, VaArg.null], kSpecNoError⟩
      = Run.ret (none, ⟨[], [], 0, 0,
            [⟨kTypeInt, "a".toList, some a, false, -1⟩, ⟨kTypeInt, "b".toList, some b, true, -1⟩],
            [VaArg.cstr doc, VaArg.null], kSpecNoError⟩) := by
    rw [TokenLoop_next _ (k + 1) _ _ (by show "[<a:int>".toList ≠ []; decide)
        (pair_first _ a b doc),
      TokenLoop_next _ k _ _ (by show "<b:int>]".toList ≠ []; decide) (pair_second _ a b doc),
      TokenLoop_done _ _ _ rfl]
  have hline := ConstructLine_eq (k + 2) _ _ _ _ _ none _ hb hloop
  show ClauseLoop (k + 2 + 1) (resetSpec old description)
    (VaArg.cstr "[<a:int> <b:int>]".toList
      :: [VaArg.ptr a, VaArg.ptr b, VaArg.cstr doc, VaArg.null]) kSpecNoError = _
  rw [ClauseLoop_line (k + 2) _ _ _ _ _ _ _ (by decide) (by decide) (hline.trans rfl),
    ClauseLoop_null]
  rfl

/-- C21 (amended). Let the token loop of `ConstructSpec` compile an argument
token (not the ellipsis) that comes first on its line or follows another
argument token, so that the level recorded for the previous argument is the
current bracket level. The slot it appends is required exactly when the token
has no leading `[` of its own: a token that opens a bracket is optional, and a
later token inside the same bracket, without a bracket of its own, is
required (present iff the previous argument is). The property carries over to
the next token. For the line `[<a:int> <b:int>]` the compiled table has slot
`a` not required and slot `b` required. -/
theorem group_members_required (self : Internal) (st st1 : LineState)
    (hstep : TokenStep self st = Run.ret (TokenStepResult.next st1))
    (hell : StrEq (tokenCore st.nextToken) kEllipsisToken = false)
    (hprev : st.lastOptionLevel = st.optionLevel) :
    (∃ slot, st1.args = st.args ++ [slot]
        ∧ slot.mIsRequired = !opensBracket st.nextToken)
      ∧ st1.lastOptionLevel = st1.optionLevel
      ∧ ∀ (k : Nat) (old : Internal) (description : CStr) (a b : Nat) (doc : CStr),
          ConstructSpec (k + 3) old description (pairArgs a b doc)
              = Run.ret (kSpecNoError, pairSpec old description a b doc)
            ∧ (pairSpec old description a b doc).mMainArgs.mArguments.map
                (fun i => (i.mName, i.mIsRequired))
              = [("a".toList, false), ("b".toList, true)] := by
  obtain ⟨slot, h1, h2, -, h4⟩ := TokenStep_next_arg self st st1 hstep hell
  refine ⟨⟨slot, h1, ?_⟩, h4.symm, fun k old description a b doc =>
    ⟨construct_pair k old description a b doc, rfl⟩⟩
  rw [h2, hprev]
  cases opensBracket st.nextToken
  · simp
  · simp

theorem group_members_required_witness :
    (∃ slot, ([⟨kTypeInt, "a".toList, some 0, false, -1⟩, ⟨kTypeInt, "b".toList, some 1, true, -1⟩]
          : List cArgInfo)
          = [⟨kTypeInt, "a".toList, some 0, false, -1⟩] ++ [slot]
        ∧ slot.mIsRequired = !opensBracket "<b:int>]".toList)
      ∧ (0 : Int) = 0
      ∧ ∀ (k : Nat) (old : Internal) (description : CStr) (a b : Nat) (doc : CStr),
          ConstructSpec (k + 3) old description (pairArgs a b doc)
              = Run.ret (kSpecNoError, pairSpec old description a b doc)
            ∧ (pairSpec old description a b doc).mMainArgs.mArguments.map
                (fun i => (i.mName, i.mIsRequired))
              = [("a".toList, false), ("b".toList, true)] :=
  group_members_required Internal.fresh
    ⟨[], "<b:int>]".toList, 1, 1, [⟨kTypeInt, "a".toList, some 0, false, -1⟩],
      [VaArg.ptr 1, VaArg.cstr "Two numbers".toList, VaArg.null], kSpecNoError⟩
    ⟨[], [], 0, 0,
      [⟨kTypeInt, "a".toList, some 0, false, -1⟩, ⟨kTypeInt, "b".toList, some 1, true, -1⟩],
      [VaArg.cstr "Two numbers".toList, VaArg.null], kSpecNoError⟩
    (pair_second Internal.fresh 0 1 "Two numbers".toList) (by decide) rfl

/-- The line `[<a:int> <b:int>]` compiles, and its second slot, which lies
inside the bracket that the first token opens, is required. -/
theorem group_members_required_counterexample :
    ∃ s, ConstructSpec 3 Internal.fresh "test".toList (pairArgs 0 1 "Two numbers".toList)
          = Run.ret (kSpecNoError, s)
      ∧ s.mMainArgs.mArguments.map (fun i => i.mIsRequired) = [false, true] :=
  ⟨_, construct_pair 0 Internal.fresh "test".toList 0 1 "Two numbers".toList, rfl⟩

/-! ## C22: the option `-scale %f [%f %f^]` -/

theorem construct_scale (k : Nat) (old : Internal) (description : CStr) (x y z : Nat)
    (flag : Int) (doc : CStr) :
    ConstructSpec (k + 4) old description (scaleArgs x y z flag doc)
      = Run.ret (kSpecNoError, scaleSpec old description x y z flag doc) := by
  have hb : LineBegin (resetSpec old description) "-scale %f [%f %f^]".toList
      [VaArg.ptr x, VaArg.ptr y, VaArg.ptr z, VaArg.int flag, VaArg.cstr doc, VaArg.null]
      kSpecNoError
      = Run.ret ⟨true, "scale".toList, -1,
          ⟨"[%f %f^]".toList, "%f".toList, 0, 0, [],
            [VaArg.ptr x, VaArg.ptr y, VaArg.ptr z, VaArg.int flag, VaArg.cstr doc, VaArg.null],
            kSpecNoError⟩⟩ := by
    simp only [LineBegin]
    simp +decide [resetSpec, va_int]
  have hf : FindNameAndTypeFromOption (resetSpec old description) "%f".toList
      = (kTypeFloat, []) := by
    rw [FindNameAndTypeFromOption_builtin _ _ (by decide)]
    decide
  have hs1 : TokenStep (resetSpec old description)
      ⟨"[%f %f^]".toList, "%f".toList, 0, 0, [],
        [VaArg.ptr x, VaArg.ptr y, VaArg.ptr z, VaArg.int flag, VaArg.cstr doc, VaArg.null],
        kSpecNoError⟩
      = Run.ret (TokenStepResult.next
          ⟨"%f^]".toList, "[%f".toList, 0, 0, [⟨kTypeFloat, [], some x, true, -1⟩],
            [VaArg.ptr y, VaArg.ptr z, VaArg.int flag, VaArg.cstr doc, VaArg.null],
            kSpecNoError⟩) := by
    simp only [TokenStep]
    simp +decide [va_ptr, va_int]
    rw [show ['%', 'f'] = "%f".toList from rfl, hf]
    exact ⟨⟨rfl, rfl⟩, by decide⟩
  have hs2 : TokenStep (resetSpec old description)
      ⟨"%f^]".toList, "[%f".toList, 0, 0, [⟨kTypeFloat, [], some x, true, -1⟩],
        [VaArg.ptr y, VaArg.ptr z, VaArg.int flag, VaArg.cstr doc, VaArg.null], kSpecNoError⟩
      = Run.ret (TokenStepResult.next
          ⟨[], "%f^]".toList, 1, 1,
            [⟨kTypeFloat, [], some x, true, -1⟩, ⟨kTypeFloat, [], some y, false, -1⟩],
            [VaArg.ptr z, VaArg.int flag, VaArg.cstr doc, VaArg.null], kSpecNoError⟩) := by
    simp only [TokenStep]
    simp +decide [va_ptr, va_int]
    rw [show ['%', 'f'] = "%f".toList from rfl, hf]
    exact ⟨⟨rfl, rfl⟩, by decide⟩
  have hs3 : TokenStep (resetSpec old description)
      ⟨[], "%f^]".toList, 1, 1,
        [⟨kTypeFloat, [], some x, true, -1⟩, ⟨kTypeFloat, [], some y, false, -1⟩],
        [VaArg.ptr z, VaArg.int flag, VaArg.cstr doc, VaArg.null], kSpecNoError⟩
      = Run.ret (TokenStepResult.next
          ⟨[], [], 0, 0, scaleSlots x y z flag, [VaArg.cstr doc, VaArg.null], kSpecNoError⟩) := by
    simp only [TokenStep]
    simp +decide [va_ptr, va_int, scaleSlots]
    rw [show ['%', 'f'] = "%f".toList from rfl, hf]
    exact ⟨⟨rfl, rfl⟩, by decide⟩
  have hloop : TokenLoop (resetSpec old description) (k + 3)
      ⟨"[%f %f^]".toList, "%f".toList, 0, 0, [],
        [VaArg.ptr x, VaArg.ptr y, VaArg.ptr z, VaArg.int flag, VaArg.cstr doc, VaArg.null],
        kSpecNoError⟩
      = Run.ret (none,
          ⟨[], [], 0, 0, scaleSlots x y z flag, [VaArg.cstr doc, VaArg.null], kSpecNoError⟩) := by
    rw [TokenLoop_next _ (k + 2) _ _ (by show "%f".toList ≠ []; decide) hs1,
      TokenLoop_next _ (k + 1) _ _ (by show "[%f".toList ≠ []; decide) hs2,
      TokenLoop_next _ k _ _ (by show "%f^]".toList ≠ []; decide) hs3,
      TokenLoop_done _ _ _ rfl]
  have hline := ConstructLine_eq (k + 3) _ _ _ _ _ none _ hb hloop
  show ClauseLoop (k + 3 + 1) (resetSpec old description)
    (VaArg.cstr "-scale %f [%f %f^]".toList
      :: [VaArg.ptr x, VaArg.ptr y, VaArg.ptr z, VaArg.int flag, VaArg.cstr doc, VaArg.null])
    kSpecNoError = _
  rw [ClauseLoop_line (k + 3) _ _ _ _ _ _ _ (by decide) (by decide) (hline.trans rfl),
    ClauseLoop_null]
  rfl

theorem ParseOptionArgs_float_step (libc : Libc) (fuel : Nat) (name : CStr) (p : Nat)
    (req : Bool) (flag : Int) (later : List cArgInfo) (s : Internal) (m : Mem) (t : CStr)
    (rest : List CStr) (hopt : IsOption t = false) (hok : (libc.strtof t).2 = []) :
    ParseOptionArgs libc fuel (⟨kTypeFloat, name, some p, req, flag⟩ :: later) s m (t :: rest)
      = ParseOptionArgs libc fuel later (s.markFlag flag)
          (m.write p (Value.scalar (Scalar.float (libc.strtof t).1))) rest := by
  simp only [ParseOptionArgs, hopt, Bool.false_eq_true, if_false]
  rw [ParseArgument_scalar libc _ s m ⟨kTypeFloat, name, some p, req, flag⟩ t _
    (fun arg => (Parse_float libc arg).map Scalar.float)
    (isScalarSlot_of_mType _ kTypeFloat rfl (by decide)) rfl]
  simp only [storeConverted, Parse_float_ok libc t hok]
  rfl

theorem Parse_option_ok (libc : Libc) (f : Nat) (self : Internal) (m : Mem)
    (commandName tok : CStr) (toks : List CStr) (r : PResult) (htok : IsOption tok = true)
    (hopt : ParseOption libc f { self with mFlags := 0, mErrorString := [] } m (tok :: toks)
      = Run.ret r)
    (hok : r.error = kArgNoError) (hrest : r.argv = [])
    (hmain : self.mMainArgs.mArguments = []) :
    Parse libc (f + 1) self m commandName (tok :: toks)
      = Run.ret ⟨kArgNoError, [], r.self, r.mem⟩ := by
  rw [Parse, if_neg (by simp), hmain,
    ParseLoop_option_step libc commandName _ f _ _ m _ _ _ htok hopt hok, hrest]
  exact ParseLoop_nil_nil libc commandName _ f _ _

theorem Parse_option_err (libc : Libc) (f : Nat) (self : Internal) (m : Mem)
    (commandName tok : CStr) (toks : List CStr) (r : PResult) (htok : IsOption tok = true)
    (hopt : ParseOption libc f { self with mFlags := 0, mErrorString := [] } m (tok :: toks)
      = Run.ret r)
    (herr : r.error ≠ kArgNoError) (hhelp : r.error ≠ kArgHelpRequested) :
    Parse libc (f + 1) self m commandName (tok :: toks) = Run.ret r := by
  rw [Parse, if_neg (by simp)]
  simp only [ParseLoop, htok, if_true, hopt, herr, hhelp, ne_eq, not_false_eq_true, if_false]

theorem ParseOption_only (libc : Libc) (fuel : Nat) (self : Internal) (m : Mem)
    (name : CStr) (opt : cOptionsSpec) (later : List cOptionsSpec) (toks : List CStr)
    (r : PResult)
    (hname : name.head? ≠ some kOptionChar) (hh : StrEq name "h".toList = false)
    (hopts : self.mOptions = opt :: later) (hm : StrEq opt.mName name = true)
    (hargs : ParseOptionArgs libc fuel opt.mArguments (self.markFlag opt.mFlagToSet) m toks
      = Run.ret r) :
    ParseOption libc fuel self m ((kOptionChar :: name) :: toks)
      = Run.ret ⟨r.error, r.argv,
          { r.self with mErrorString :=
              if r.error ≠ kArgNoError then r.self.mErrorString ++ " in -".toList ++ name
              else r.self.mErrorString }, r.mem⟩ := by
  rw [ParseOption_single libc fuel self m name toks hname, hopts,
    ParseOptionLoop_match_eq libc fuel name opt later self m toks hm]
  have hs : helpSeen name self = self := by
    unfold helpSeen
    rw [hh]
    rfl
  rw [hs, hargs]

theorem notEnough_one (info : cArgInfo) :
    Sprintf ("Not enough arguments: expecting at least ".toList
        ++ fmtSize (numNeeded [info]) ++ " more".toList)
      = "Not enough arguments: expecting at least 1 more".toList := by
  have h1 : numNeeded [info] = 1 := rfl
  rw [h1, Sprintf_short _ (by decide)]
  decide

/-- C22. The option declared as `-scale %f [%f %f^]` with flag index `F < 32`
compiles to three `float` slots, the first and the third required and the
second not, the third carrying the flag. For tokens `tx`, `ty`, `tz` that are
no option markers and that `strtof` reads to their end: `Parse` of `-scale tx`
returns `kArgNoError`, writes the first destination only and leaves flag `F`
unset; `Parse` of `-scale tx ty tz` returns `kArgNoError`, writes the three
destinations and sets flag `F`; `Parse` of `-scale tx ty` returns
`kArgErrorNotEnoughArgs` with the message `Not enough arguments: expecting at
least 1 more in -scale`, and flag `F` is unset. -/
theorem scale_option (libc : Libc) (k f : Nat) (old : Internal)
    (description doc commandName : CStr) (x y z F : Nat) (m : Mem) (tx ty tz : CStr)
    (hF : F < 32)
    (hox : IsOption tx = false) (hoy : IsOption ty = false) (hoz : IsOption tz = false)
    (hx : (libc.strtof tx).2 = []) (hy : (libc.strtof ty).2 = [])
    (hz : (libc.strtof tz).2 = []) :
    ∃ spec, ConstructSpec (k + 4) old description (scaleArgs x y z F doc)
        = Run.ret (kSpecNoError, spec)
      ∧ spec.mOptions.map (fun o => o.mArguments.map (fun i => (i.mIsRequired, i.mFlagToSet)))
          = [[(true, -1), (false, -1), (true, (F : Int))]]
      ∧ (∃ r, Parse libc (f + 1) spec m commandName ["-scale".toList, tx] = Run.ret r
          ∧ r.error = kArgNoError
          ∧ r.mem = m.write x (Value.scalar (Scalar.float (libc.strtof tx).1))
          ∧ r.self.Flag F = false)
      ∧ (∃ r, Parse libc (f + 1) spec m commandName ["-scale".toList, tx, ty, tz] = Run.ret r
          ∧ r.error = kArgNoError
          ∧ r.mem = ((m.write x (Value.scalar (Scalar.float (libc.strtof tx).1))).write y
              (Value.scalar (Scalar.float (libc.strtof ty).1))).write z
              (Value.scalar (Scalar.float (libc.strtof tz).1))
          ∧ r.self.Flag F = true)
      ∧ (∃ r, Parse libc (f + 1) spec m commandName ["-scale".toList, tx, ty] = Run.ret r
          ∧ r.error = kArgErrorNotEnoughArgs
          ∧ r.self.mErrorString
              = "Not enough arguments: expecting at least 1 more in -scale".toList
          ∧ r.self.Flag F = false) := by
  refine ⟨_, construct_scale k old description x y z F doc, rfl, ?_, ?_, ?_⟩
  · have hargs : ParseOptionArgs libc f (scaleSlots x y z F)
        (({ scaleSpec old description x y z F doc with mFlags := 0, mErrorString := [] }
          : Internal).markFlag (-1)) m [tx]
        = Run.ret ⟨kArgNoError, [],
            { scaleSpec old description x y z F doc with mFlags := 0, mErrorString := [] },
            m.write x (Value.scalar (Scalar.float (libc.strtof tx).1))⟩ := by
      unfold scaleSlots
      rw [ParseOptionArgs_float_step libc f _ _ _ _ _ _ _ _ _ hox hx,
        ParseOptionArgs_stop libc f _ _ _ _ [] (by simp)]
      simp only [markFlag_neg_one]
      rfl
    have hopt := ParseOption_only libc f
      { scaleSpec old description x y z F doc with mFlags := 0, mErrorString := [] } m
      "scale".toList _ [] [tx] _ (by decide) (by decide) rfl
      (show StrEq "scale".toList "scale".toList = true by decide) hargs
    refine ⟨_, Parse_option_ok libc f _ m commandName "-scale".toList [tx] _ (by decide)
      hopt rfl rfl rfl, rfl, rfl, ?_⟩
    simp [Internal.Flag]
  · have hargs : ParseOptionArgs libc f (scaleSlots x y z F)
        (({ scaleSpec old description x y z F doc with mFlags := 0, mErrorString := [] }
          : Internal).markFlag (-1)) m [tx, ty, tz]
        = Run.ret ⟨kArgNoError, [],
            ({ scaleSpec old description x y z F doc with mFlags := 0, mErrorString := [] }
              : Internal).markFlag (F : Int),
            ((m.write x (Value.scalar (Scalar.float (libc.strtof tx).1))).write y
              (Value.scalar (Scalar.float (libc.strtof ty).1))).write z
              (Value.scalar (Scalar.float (libc.strtof tz).1))⟩ := by
      unfold scaleSlots
      rw [ParseOptionArgs_float_step libc f _ _ _ _ _ _ _ _ _ hox hx,
        ParseOptionArgs_float_step libc f _ _ _ _ _ _ _ _ _ hoy hy,
        ParseOptionArgs_float_step libc f _ _ _ _ _ _ _ _ _ hoz hz]
      simp only [markFlag_neg_one]
      rfl
    have hopt := ParseOption_only libc f
      { scaleSpec old description x y z F doc with mFlags := 0, mErrorString := [] } m
      "scale".toList _ [] [tx, ty, tz] _ (by decide) (by decide) rfl
      (show StrEq "scale".toList "scale".toList = true by decide) hargs
    refine ⟨_, Parse_option_ok libc f _ m commandName "-scale".toList [tx, ty, tz] _
      (by decide) hopt rfl rfl rfl, rfl, rfl, ?_⟩
    exact Flag_markFlag_self _ F hF
  · have hargs : ParseOptionArgs libc f (scaleSlots x y z F)
        (({ scaleSpec old description x y z F doc with mFlags := 0, mErrorString := [] }
          : Internal).markFlag (-1)) m [tx, ty]
        = Run.ret ⟨kArgErrorNotEnoughArgs, [],
            { scaleSpec old description x y z F doc with
              mFlags := 0,
              mErrorString := "Not enough arguments: expecting at least 1 more".toList },
            (m.write x (Value.scalar (Scalar.float (libc.strtof tx).1))).write y
              (Value.scalar (Scalar.float (libc.strtof ty).1))⟩ := by
      unfold scaleSlots
      rw [ParseOptionArgs_float_step libc f _ _ _ _ _ _ _ _ _ hox hx,
        ParseOptionArgs_float_step libc f _ _ _ _ _ _ _ _ _ hoy hy,
        ParseOptionArgs_stop libc f _ _ _ _ [] (by simp)]
      simp only [markFlag_neg_one, notEnough_one]
      rfl
    have hopt := ParseOption_only libc f
      { scaleSpec old description x y z F doc with mFlags := 0, mErrorString := [] } m
      "scale".toList _ [] [tx, ty] _ (by decide) (by decide) rfl
      (show StrEq "scale".toList "scale".toList = true by decide) hargs
    refine ⟨_, Parse_option_err libc f _ m commandName "-scale".toList [tx, ty] _ (by decide)
      hopt (by simp) (by simp), rfl, ?_, ?_⟩
    · show "Not enough arguments: expecting at least 1 more".toList ++ " in -".toList
          ++ "scale".toList = _
      decide
    · simp [Internal.Flag]

theorem scale_option_witness :
    ∃ spec, ConstructSpec (0 + 4) Internal.fresh "test".toList
          (scaleArgs 0 1 2 5 "Set uniform or xyz scale".toList)
        = Run.ret (kSpecNoError, spec)
      ∧ spec.mOptions.map (fun o => o.mArguments.map (fun i => (i.mIsRequired, i.mFlagToSet)))
          = [[(true, -1), (false, -1), (true, ((5 : Nat) : Int))]]
      ∧ (∃ r, Parse exampleLibc (1 + 1) spec exampleMem "cmd".toList
              ["-scale".toList, "2".toList] = Run.ret r
          ∧ r.error = kArgNoError
          ∧ r.mem = exampleMem.write 0
              (Value.scalar (Scalar.float (exampleLibc.strtof "2".toList).1))
          ∧ r.self.Flag 5 = false)
      ∧ (∃ r, Parse exampleLibc (1 + 1) spec exampleMem "cmd".toList
              ["-scale".toList, "2".toList, "3".toList, "4".toList] = Run.ret r
          ∧ r.error = kArgNoError
          ∧ r.mem = ((exampleMem.write 0
                (Value.scalar (Scalar.float (exampleLibc.strtof "2".toList).1))).write 1
              (Value.scalar (Scalar.float (exampleLibc.strtof "3".toList).1))).write 2
              (Value.scalar (Scalar.float (exampleLibc.strtof "4".toList).1))
          ∧ r.self.Flag 5 = true)
      ∧ (∃ r, Parse exampleLibc (1 + 1) spec exampleMem "cmd".toList
              ["-scale".toList, "2".toList, "3".toList] = Run.ret r
          ∧ r.error = kArgErrorNotEnoughArgs
          ∧ r.self.mErrorString
              = "Not enough arguments: expecting at least 1 more in -scale".toList
          ∧ r.self.Flag 5 = false) :=
  scale_option exampleLibc 0 1 Internal.fresh "test".toList "Set uniform or xyz scale".toList
    "cmd".toList 0 1 2 5 exampleMem "2".toList "3".toList "4".toList (by decide) (by decide)
    (by decide) (by decide) (by decide) (by decide) (by decide)

/-! ## C23: the ellipsis -/

theorem TokenStep_ellipsis (self : Internal) (st : LineState)
    (hell : StrEq (tokenCore st.nextToken) kEllipsisToken = true) :
    TokenStep self st
      = if st.options ≠ [] then
          Run.ret (TokenStepResult.returns kSpecEllipsisError
            { st with
              optionLevel := (if opensBracket st.nextToken then st.optionLevel + 1
                else st.optionLevel) - (trailingCloses st.nextToken : Int)
              nextToken := tokenCore st.nextToken })
        else
          match st.args.getLast? with
          | none =>
            Run.ret (TokenStepResult.returns kSpecEllipsisError
              { st with
                optionLevel := (if opensBracket st.nextToken then st.optionLevel + 1
                  else st.optionLevel) - (trailingCloses st.nextToken : Int)
                nextToken := tokenCore st.nextToken })
          | some back =>
            Run.ret (TokenStepResult.next
              { st with
                optionLevel := (if opensBracket st.nextToken then st.optionLevel + 1
                  else st.optionLevel) - (trailingCloses st.nextToken : Int)
                args := st.args.dropLast
                  ++ [{ back with mType := back.mType ||| kTypeArrayListFlag }]
                nextToken := (NextToken st.options).1
                options := (NextToken st.options).2 }) := by
  have e1 : (List.dropWhile (fun c => c == kCloseBracketChar)
      (List.reverse (if opensBracket st.nextToken = true
        then List.drop 1 st.nextToken else st.nextToken))).reverse
      = tokenCore st.nextToken := rfl
  have e2 : (List.takeWhile (fun c => c == kCloseBracketChar)
      (List.reverse (if opensBracket st.nextToken = true
        then List.drop 1 st.nextToken else st.nextToken))).length
      = trailingCloses st.nextToken := closes_eq_trailingCloses st.nextToken
  have e3 : (List.head? st.nextToken == some kOpenBracketChar) = opensBracket st.nextToken :=
    rfl
  unfold TokenStep
  dsimp only
  simp only [e3]
  simp only [e1, e2]
  rw [if_pos hell]

theorem TokenLoop_returns (self : Internal) (fuel : Nat) (st st1 : LineState)
    (e : tArgSpecError) (h : st.nextToken ≠ [])
    (hstep : TokenStep self st = Run.ret (TokenStepResult.returns e st1)) :
    TokenLoop self (fuel + 1) st = Run.ret (some e, st1) := by
  rw [TokenLoop, if_neg h, hstep]

theorem tokenCore_ne_nil (tok : CStr) (h : tokenCore tok ≠ []) : tok ≠ [] := by
  intro h1
  subst h1
  exact h rfl

theorem ClauseLoop_returns (fuel : Nat) (self : Internal) (line : CStr) (va : List VaArg)
    (err e : tArgSpecError) (head : LineHead) (st : LineState)
    (h1 : line.head? ≠ some kEnumSpecChar) (h2 : line.head? ≠ some kEnumSpecInlineChar)
    (hb : LineBegin self line va err = Run.ret head)
    (hloop : TokenLoop self fuel head.start = Run.ret (some e, st)) :
    ClauseLoop (fuel + 1) self (VaArg.cstr line :: va) err
      = Run.ret (e,
          if head.isOption then self
          else { self with mMainArgs := { self.mMainArgs with mArguments := st.args } }) := by
  have hline : ConstructLine fuel self line va err
      = Run.ret (false, e,
          (if head.isOption then self
            else { self with mMainArgs := { self.mMainArgs with mArguments := st.args } }),
          st.va) := by
    rw [ConstructLine_eq fuel self line va err head (some e) st hb hloop]
    rfl
  rw [ClauseLoop]
  simp only [va_cstr, if_neg h1, if_neg h2, hline]

theorem or_listFlag (t : Nat) :
    (t ||| kTypeArrayListFlag) &&& kTypeArrayListFlag ≠ 0
      ∧ (t ||| kTypeArrayListFlag) &&& kTypeBaseMask = t &&& kTypeBaseMask
      ∧ (t ||| kTypeArrayListFlag) &&& kTypeArraySplitFlag = t &&& kTypeArraySplitFlag := by
  refine ⟨?_, ?_, ?_⟩
  · rw [Nat.and_comm, Nat.and_or_distrib_left, Nat.and_self]
    intro h
    have h2 := congrArg (fun x => x.testBit 15) h
    simp only [Nat.testBit_or, Nat.testBit_and, Nat.zero_testBit] at h2
    have h3 : kTypeArrayListFlag.testBit 15 = true := by decide
    rw [h3] at h2
    simp at h2
  · rw [Nat.and_comm, Nat.and_or_distrib_left]
    have : kTypeBaseMask &&& kTypeArrayListFlag = 0 := by decide
    rw [this, Nat.or_zero, Nat.and_comm]
  · rw [Nat.and_comm, Nat.and_or_distrib_left]
    have : kTypeArraySplitFlag &&& kTypeArrayListFlag = 0 := by decide
    rw [this, Nat.or_zero, Nat.and_comm]

theorem construct_midEllipsis (k : Nat) (old : Internal) (description : CStr) (a b : Nat)
    (doc : CStr) :
    ConstructSpec (k + 3) old description (midEllipsisArgs a b doc)
      = Run.ret (kSpecEllipsisError,
          { resetSpec old description with
            mMainArgs := ⟨[⟨kTypeInt, "a".toList, some a, true, -1⟩], []⟩ }) := by
  have hb : LineBegin (resetSpec old description)
      "<a:int> ... <b:int>".toList [VaArg.ptr a, VaArg.ptr b, VaArg.cstr doc, VaArg.null]
      kSpecNoError
      = Run.ret ⟨false, [], -1,
          ⟨"... <b:int>".toList, "<a:int>".toList, 0, 0, [],
            [VaArg.ptr a, VaArg.ptr b, VaArg.cstr doc, VaArg.null], kSpecNoError⟩⟩ := by
    simp only [LineBegin]
    simp +decide [resetSpec]
  have hs1 : TokenStep (resetSpec old description)
      ⟨"... <b:int>".toList, "<a:int>".toList, 0, 0, [],
        [VaArg.ptr a, VaArg.ptr b, VaArg.cstr doc, VaArg.null], kSpecNoError⟩
      = Run.ret (TokenStepResult.next
          ⟨"<b:int>".toList, "...".toList, 0, 0, [⟨kTypeInt, "a".toList, some a, true, -1⟩],
            [VaArg.ptr b, VaArg.cstr doc, VaArg.null], kSpecNoError⟩) := by
    simp only [TokenStep]
    simp +decide [va_ptr, va_int]
    rw [FindNameAndTypeFromOption_builtin _ _ (by decide)]
    exact ⟨by decide, by decide⟩
  have hs2 : TokenStep (resetSpec old description)
      ⟨"<b:int>".toList, "...".toList, 0, 0, [⟨kTypeInt, "a".toList, some a, true, -1⟩],
        [VaArg.ptr b, VaArg.cstr doc, VaArg.null], kSpecNoError⟩
      = Run.ret (TokenStepResult.returns kSpecEllipsisError
          ⟨"<b:int>".toList, "...".toList, 0, 0, [⟨kTypeInt, "a".toList, some a, true, -1⟩],
            [VaArg.ptr b, VaArg.cstr doc, VaArg.null], kSpecNoError⟩) := by
    rw [TokenStep_ellipsis _ _
        (show StrEq (tokenCore "...".toList) kEllipsisToken = true by decide),
      if_pos (show "<b:int>".toList ≠ [] by decide)]
    rfl
  have hloop : TokenLoop (resetSpec old description) (k + 2)
      ⟨"... <b:int>".toList, "<a:int>".toList, 0, 0, [],
        [VaArg.ptr a, VaArg.ptr b, VaArg.cstr doc, VaArg.null], kSpecNoError⟩
      = Run.ret (some kSpecEllipsisError,
          ⟨"<b:int>".toList, "...".toList, 0, 0, [⟨kTypeInt, "a".toList, some a, true, -1⟩],
            [VaArg.ptr b, VaArg.cstr doc, VaArg.null], kSpecNoError⟩) := by
    rw [TokenLoop_next _ (k + 1) _ _ (by show "<a:int>".toList ≠ []; decide) hs1,
      TokenLoop_returns _ k _ _ _ (by show "...".toList ≠ []; decide) hs2]
  show ClauseLoop (k + 2 + 1) (resetSpec old description)
    (VaArg.cstr "<a:int> ... <b:int>".toList
      :: [VaArg.ptr a, VaArg.ptr b, VaArg.cstr doc, VaArg.null]) kSpecNoError = _
  rw [ClauseLoop_returns (k + 2) _ _ _ _ _ _ _ (by decide) (by decide) hb hloop]
  rfl

/-- C23 (amended). Let the token loop of `ConstructSpec` read a token that,
without its brackets, is the ellipsis `...`. When nothing is left of the line
after it and the group has a slot already, no slot is appended and no variadic
argument is read: the last slot of the group gets the list-array marker, its
base type (and its split-array marker), name, location, required bit and flag
stay as they were, the pending error is kept, and the line's token loop ends.
When the group has no slot yet, or when more text follows the ellipsis on the
line, the loop returns `kSpecEllipsisError` with the slots and the variadic
arguments untouched. A value returned from inside the token loop is returned
by the clause loop at once, whatever clauses follow, and no option is added
for the line. -/
theorem ellipsis_token (self : Internal) (fuel : Nat) (st : LineState)
    (hell : StrEq (tokenCore st.nextToken) kEllipsisToken = true) :
    (∀ (pre : List cArgInfo) (back : cArgInfo), st.options = [] → st.args = pre ++ [back] →
        ∃ st1, TokenLoop self (fuel + 1) st = Run.ret (none, st1)
          ∧ st1.args = pre ++ [{ back with mType := back.mType ||| kTypeArrayListFlag }]
          ∧ st1.va = st.va ∧ st1.err = st.err
          ∧ (back.mType ||| kTypeArrayListFlag) &&& kTypeArrayListFlag ≠ 0
          ∧ (back.mType ||| kTypeArrayListFlag) &&& kTypeBaseMask
              = back.mType &&& kTypeBaseMask
          ∧ (back.mType ||| kTypeArrayListFlag) &&& kTypeArraySplitFlag
              = back.mType &&& kTypeArraySplitFlag)
      ∧ (st.options ≠ [] ∨ st.args = [] →
          ∃ st1, TokenLoop self (fuel + 1) st = Run.ret (some kSpecEllipsisError, st1)
            ∧ st1.args = st.args ∧ st1.va = st.va)
      ∧ ∀ (line : CStr) (va : List VaArg) (err e : tArgSpecError) (head : LineHead)
          (st1 : LineState),
          line.head? ≠ some kEnumSpecChar → line.head? ≠ some kEnumSpecInlineChar →
          LineBegin self line va err = Run.ret head →
          TokenLoop self fuel head.start = Run.ret (some e, st1) →
          ∃ self1, ClauseLoop (fuel + 1) self (VaArg.cstr line :: va) err = Run.ret (e, self1)
            ∧ self1.mOptions = self.mOptions := by
  have hne : st.nextToken ≠ [] := by
    apply tokenCore_ne_nil
    intro h
    rw [h] at hell
    exact absurd hell (by decide)
  have hstep := TokenStep_ellipsis self st hell
  refine ⟨?_, ?_, ?_⟩
  · intro pre back hopt hargs
    rw [if_neg (by simp [hopt]), hargs, List.getLast?_concat] at hstep
    simp only [List.dropLast_concat] at hstep
    have hl := TokenLoop_next self fuel st _ hne hstep
    obtain ⟨b1, b2, b3⟩ := or_listFlag back.mType
    refine ⟨_, hl.trans (TokenLoop_done self fuel _ ?_), rfl, rfl, rfl, b1, b2, b3⟩
    show (NextToken st.options).1 = []
    rw [hopt]
    rfl
  · intro h
    have hstep2 : TokenStep self st
        = Run.ret (TokenStepResult.returns kSpecEllipsisError
            { st with
              optionLevel := (if opensBracket st.nextToken then st.optionLevel + 1
                else st.optionLevel) - (trailingCloses st.nextToken : Int)
              nextToken := tokenCore st.nextToken }) := by
      rw [hstep]
      by_cases ho : st.options ≠ []
      · rw [if_pos ho]
      · rw [if_neg ho]
        have ha : st.args = [] := h.resolve_left ho
        rw [ha]
        rfl
    exact ⟨_, TokenLoop_returns self fuel st _ _ hne hstep2, rfl, rfl⟩
  · intro line va err e head st1 h1 h2 hb hloop
    refine ⟨_, ClauseLoop_returns fuel self line va err e head st1 h1 h2 hb hloop, ?_⟩
    split_ifs <;> rfl

theorem ellipsis_token_witness :
    (∀ (pre : List cArgInfo) (back : cArgInfo),
        (⟨[], "...".toList, 0, 0, [⟨kTypeInt, "a".toList, some 0, true, -1⟩],
          [VaArg.cstr "Numbers".toList, VaArg.null], kSpecNoError⟩ : LineState).options = [] →
        (⟨[], "...".toList, 0, 0, [⟨kTypeInt, "a".toList, some 0, true, -1⟩],
          [VaArg.cstr "Numbers".toList, VaArg.null], kSpecNoError⟩ : LineState).args
          = pre ++ [back] →
        ∃ st1, TokenLoop Internal.fresh (0 + 1)
              ⟨[], "...".toList, 0, 0, [⟨kTypeInt, "a".toList, some 0, true, -1⟩],
                [VaArg.cstr "Numbers".toList, VaArg.null], kSpecNoError⟩
            = Run.ret (none, st1)
          ∧ st1.args = pre ++ [{ back with mType := back.mType ||| kTypeArrayListFlag }]
          ∧ st1.va = [VaArg.cstr "Numbers".toList, VaArg.null] ∧ st1.err = kSpecNoError
          ∧ (back.mType ||| kTypeArrayListFlag) &&& kTypeArrayListFlag ≠ 0
          ∧ (back.mType ||| kTypeArrayListFlag) &&& kTypeBaseMask
              = back.mType &&& kTypeBaseMask
          ∧ (back.mType ||| kTypeArrayListFlag) &&& kTypeArraySplitFlag
              = back.mType &&& kTypeArraySplitFlag)
      ∧ ((⟨[], "...".toList, 0, 0, [⟨kTypeInt, "a".toList, some 0, true, -1⟩],
            [VaArg.cstr "Numbers".toList, VaArg.null], kSpecNoError⟩ : LineState).options ≠ []
          ∨ (⟨[], "...".toList, 0, 0, [⟨kTypeInt, "a".toList, some 0, true, -1⟩],
            [VaArg.cstr "Numbers".toList, VaArg.null], kSpecNoError⟩ : LineState).args = [] →
          ∃ st1, TokenLoop Internal.fresh (0 + 1)
                ⟨[], "...".toList, 0, 0, [⟨kTypeInt, "a".toList, some 0, true, -1⟩],
                  [VaArg.cstr "Numbers".toList, VaArg.null], kSpecNoError⟩
              = Run.ret (some kSpecEllipsisError, st1)
            ∧ st1.args = [⟨kTypeInt, "a".toList, some 0, true, -1⟩]
            ∧ st1.va = [VaArg.cstr "Numbers".toList, VaArg.null])
      ∧ ∀ (line : CStr) (va : List VaArg) (err e : tArgSpecError) (head : LineHead)
          (st1 : LineState),
          line.head? ≠ some kEnumSpecChar → line.head? ≠ some kEnumSpecInlineChar →
          LineBegin Internal.fresh line va err = Run.ret head →
          TokenLoop Internal.fresh 0 head.start = Run.ret (some e, st1) →
          ∃ self1, ClauseLoop (0 + 1) Internal.fresh (VaArg.cstr line :: va) err
              = Run.ret (e, self1)
            ∧ self1.mOptions = Internal.fresh.mOptions :=
  ellipsis_token Internal.fresh 0
    ⟨[], "...".toList, 0, 0, [⟨kTypeInt, "a".toList, some 0, true, -1⟩],
      [VaArg.cstr "Numbers".toList, VaArg.null], kSpecNoError⟩ (by decide)

/-- The line `<a:int> ... <b:int>` has a slot before its ellipsis, and yet
`ConstructSpec` returns `kSpecEllipsisError` and leaves that slot a plain
`int`, since a token follows the ellipsis. -/
theorem ellipsis_token_counterexample :
    ∃ s, ConstructSpec 3 Internal.fresh "test".toList (midEllipsisArgs 0 1 "Numbers".toList)
          = Run.ret (kSpecEllipsisError, s)
      ∧ s.mMainArgs.mArguments = [⟨kTypeInt, "a".toList, some 0, true, -1⟩] :=
  ⟨_, construct_midEllipsis 0 Internal.fresh "test".toList 0 1 "Numbers".toList, rfl⟩

/-! ## C24: an unrecognised type name -/

theorem isArgToken_facts (tok : CStr) (h : isArgToken tok = true) :
    tokenCore tok ≠ [] ∧ StrEq (tokenCore tok) kEllipsisToken = false := by
  simp only [isArgToken, Bool.and_eq_true, Bool.not_eq_true', List.isEmpty_eq_false] at h
  exact ⟨by simpa using h.1, h.2⟩

theorem TokenLoop_tokens (self : Internal) :
    ∀ (ds : List TokenDecl) (st : LineState) (more : List CStr) (vaMore : List VaArg),
      (∀ d ∈ ds, isArgToken d.tok = true) →
      pendingTokens st = ds.map (fun d => d.tok) ++ more →
      st.va = tokenVas ds ++ vaMore →
      ∃ (st1 : LineState) (reqs : List Bool),
        (∀ f, TokenLoop self (ds.length + f) st = TokenLoop self f st1)
        ∧ reqs.length = ds.length
        ∧ st1.args = st.args ++ List.zipWith (fun d r => tokenSlot self d r) ds reqs
        ∧ st1.va = vaMore
        ∧ pendingTokens st1 = more
        ∧ st1.optionLevel = st.optionLevel + bracketDepth (ds.map (fun d => d.tok))
        ∧ st1.err = (if ds.any (unknownType self) then kSpecUnknownType else st.err) := by
  intro ds
  induction ds with
  | nil =>
    intro st more vaMore _ hp hva
    refine ⟨st, [], fun f => by simp, rfl, by simp, ?_, ?_, by simp [bracketDepth_nil], by simp⟩
    · simpa [tokenVas] using hva
    · simpa using hp
  | cons d ds ih =>
    intro st more vaMore harg hp hva
    obtain ⟨hcore, hell⟩ := isArgToken_facts d.tok (harg d (List.mem_cons_self _ _))
    rw [List.map_cons, List.cons_append] at hp
    obtain ⟨htok, hne⟩ := pendingTokens_cons st _ _ hp
    have hva1 : st.va = declVa (tokenCore st.nextToken) d.loc d.flag
        ++ (tokenVas ds ++ vaMore) := by
      rw [hva, tokenVas, List.append_assoc, htok]
    have hstep := TokenStep_arg self st d.loc d.flag _ (by rw [htok]; exact hcore)
      (by rw [htok]; exact hell) hva1
    obtain ⟨stn, hs, e1, e2, e3, e4, e5, e6⟩ : ∃ stn, TokenStep self st
        = Run.ret (TokenStepResult.next stn)
        ∧ stn.nextToken = (NextToken st.options).1 ∧ stn.options = (NextToken st.options).2
        ∧ stn.optionLevel = (if opensBracket st.nextToken then st.optionLevel + 1
            else st.optionLevel) - (trailingCloses st.nextToken : Int)
        ∧ stn.args = st.args ++ [declSlot self (tokenCore st.nextToken) d.loc d.flag
            ((if opensBracket st.nextToken then st.optionLevel + 1 else st.optionLevel)
              == st.lastOptionLevel)]
        ∧ stn.va = tokenVas ds ++ vaMore
        ∧ stn.err = (if (declSlot self (tokenCore st.nextToken) d.loc d.flag true).mType
            = kTypeInvalid then kSpecUnknownType else st.err) :=
      ⟨_, hstep, rfl, rfl, rfl, rfl, rfl, rfl⟩
    have hpn := pendingTokens_next st stn hne e1 e2
    rw [hp] at hpn
    have hp1 : pendingTokens stn = ds.map (fun d => d.tok) ++ more := (List.cons.inj hpn).2.symm
    obtain ⟨st1, reqs, g1, g2, g3, g4, g5, g6, g7⟩ := ih stn more vaMore
      (fun x hx => harg x (List.mem_cons_of_mem _ hx)) hp1 e5
    refine ⟨st1, ((if opensBracket st.nextToken then st.optionLevel + 1 else st.optionLevel)
      == st.lastOptionLevel) :: reqs, ?_, by simp [g2], ?_, g4, g5, ?_, ?_⟩
    · intro f
      have hf : (d :: ds).length + f = (ds.length + f) + 1 := by simp; omega
      rw [hf, TokenLoop_next self _ st stn hne hs]
      exact g1 f
    · rw [g3, e4, List.append_assoc, htok]
      rfl
    · rw [g6, e3, List.map_cons, bracketDepth_cons, htok]
      split_ifs <;> ring
    · rw [g7, e6, List.any_cons, htok]
      unfold unknownType tokenSlot
      by_cases hu : (declSlot self (tokenCore d.tok) d.loc d.flag true).mType = kTypeInvalid
      · simp [hu]
      · simp [hu]

theorem TokenStep_next_err (self : Internal) (st st1 : LineState)
    (h : TokenStep self st = Run.ret (TokenStepResult.next st1)) :
    st1.err = st.err ∨ st1.err = kSpecUnknownType := by
  have e1 : (List.dropWhile (fun c => c == kCloseBracketChar)
      (List.reverse (if opensBracket st.nextToken = true
        then List.drop 1 st.nextToken else st.nextToken))).reverse
      = tokenCore st.nextToken := rfl
  have e2 : (List.takeWhile (fun c => c == kCloseBracketChar)
      (List.reverse (if opensBracket st.nextToken = true
        then List.drop 1 st.nextToken else st.nextToken))).length
      = trailingCloses st.nextToken := closes_eq_trailingCloses st.nextToken
  have e3 : (List.head? st.nextToken == some kOpenBracketChar) = opensBracket st.nextToken :=
    rfl
  unfold TokenStep at h
  dsimp only at h
  simp only [e3] at h
  simp only [e1, e2] at h
  generalize tokenCore st.nextToken = core at *
  generalize (if opensBracket st.nextToken = true then st.optionLevel + 1
    else st.optionLevel) = L1 at h ⊢
  by_cases h1 : StrEq core kEllipsisToken = true
  · rw [if_pos h1] at h
    by_cases h2 : st.options ≠ []
    · rw [if_pos h2] at h; cases h
    · rw [if_neg h2] at h
      split at h
      · cases h
      · cases h; exact Or.inl rfl
  · rw [if_neg h1] at h
    split at h
    · split at h
      · cases h
        dsimp only
        split_ifs <;> first | exact Or.inr rfl | exact Or.inl rfl
      · cases h
      · cases h
    · cases h
    · cases h

theorem TokenStep_returns_err (self : Internal) (st st1 : LineState) (e : tArgSpecError)
    (h : TokenStep self st = Run.ret (TokenStepResult.returns e st1)) :
    e = kSpecEllipsisError ∧ st1.err = st.err := by
  have e1 : (List.dropWhile (fun c => c == kCloseBracketChar)
      (List.reverse (if opensBracket st.nextToken = true
        then List.drop 1 st.nextToken else st.nextToken))).reverse
      = tokenCore st.nextToken := rfl
  have e2 : (List.takeWhile (fun c => c == kCloseBracketChar)
      (List.reverse (if opensBracket st.nextToken = true
        then List.drop 1 st.nextToken else st.nextToken))).length
      = trailingCloses st.nextToken := closes_eq_trailingCloses st.nextToken
  have e3 : (List.head? st.nextToken == some kOpenBracketChar) = opensBracket st.nextToken :=
    rfl
  unfold TokenStep at h
  dsimp only at h
  simp only [e3] at h
  simp only [e1, e2] at h
  generalize tokenCore st.nextToken = core at *
  generalize (if opensBracket st.nextToken = true then st.optionLevel + 1
    else st.optionLevel) = L1 at h ⊢
  by_cases h1 : StrEq core kEllipsisToken = true
  · rw [if_pos h1] at h
    by_cases h2 : st.options ≠ []
    · rw [if_pos h2] at h; cases h; exact ⟨rfl, rfl⟩
    · rw [if_neg h2] at h
      split at h
      · cases h; exact ⟨rfl, rfl⟩
      · cases h
  · rw [if_neg h1] at h
    split at h
    · split at h
      · cases h
      · cases h
      · cases h
    · cases h
    · cases h

theorem TokenLoop_err (self : Internal) :
    ∀ (fuel : Nat) (st st1 : LineState) (returned : Option tArgSpecError),
      TokenLoop self fuel st = Run.ret (returned, st1) →
      (st1.err = st.err ∨ st1.err = kSpecUnknownType)
        ∧ ∀ e, returned = some e → e = kSpecEllipsisError := by
  intro fuel
  induction fuel with
  | zero =>
    intro st st1 returned h
    unfold TokenLoop at h
    split_ifs at h with hn
    cases h
    exact ⟨Or.inl rfl, fun e he => by cases he⟩
  | succ fuel ih =>
    intro st st1 returned h
    unfold TokenLoop at h
    split_ifs at h with hn
    · cases h
      exact ⟨Or.inl rfl, fun e he => by cases he⟩
    · cases hs : TokenStep self st with
      | outOfFuel => rw [hs] at h; cases h
      | fault => rw [hs] at h; cases h
      | ret res =>
        rw [hs] at h
        cases res with
        | returns e st2 =>
          have hres := TokenStep_returns_err self st st2 e hs
          cases h
          exact ⟨Or.inl hres.2, fun e he => by cases he; exact hres.1⟩
        | next st2 =>
          have hres := TokenStep_next_err self st st2 hs
          obtain ⟨g1, g2⟩ := ih st2 st1 returned h
          refine ⟨?_, g2⟩
          rcases g1 with g1 | g1
          · rw [g1]; exact hres
          · exact Or.inr g1

theorem LineEnd_err (self : Internal) (head : LineHead) (returned : Option tArgSpecError)
    (st : LineState) (goesOn : Bool) (e1 : tArgSpecError) (self1 : Internal)
    (va1 : List VaArg)
    (h : LineEnd self head returned st = Run.ret (goesOn, e1, self1, va1)) :
    e1 = st.err ∨ e1 = kSpecUnbalancedBrackets ∨ returned = some e1 := by
  unfold LineEnd at h
  cases returned with
  | some e =>
    dsimp only at h
    cases h
    exact Or.inr (Or.inr rfl)
  | none =>
    dsimp only at h
    by_cases hlev : st.optionLevel ≠ 0
    · rw [if_pos hlev] at h
      cases h
      exact Or.inr (Or.inl rfl)
    · rw [if_neg hlev] at h
      split at h
      · by_cases ho : head.isOption = true
        · rw [if_pos ho] at h
          cases h
          exact Or.inl rfl
        · rw [if_neg ho] at h
          cases h
          exact Or.inl rfl
      · cases h
      · cases h

theorem ConstructLine_err (fuel : Nat) (self : Internal) (line : CStr) (va : List VaArg)
    (err e1 : tArgSpecError) (goesOn : Bool) (self1 : Internal) (va1 : List VaArg)
    (h : ConstructLine fuel self line va err = Run.ret (goesOn, e1, self1, va1)) :
    e1 = err ∨ e1 = kSpecUnknownType ∨ e1 = kSpecUnbalancedBrackets
      ∨ e1 = kSpecEllipsisError := by
  unfold ConstructLine at h
  cases hb : LineBegin self line va err with
  | outOfFuel => rw [hb] at h; cases h
  | fault => rw [hb] at h; cases h
  | ret head =>
    rw [hb] at h
    dsimp only at h
    obtain ⟨herr, -⟩ := LineBegin_err self line va err head hb
    cases hl : TokenLoop self fuel head.start with
    | outOfFuel => rw [hl] at h; cases h
    | fault => rw [hl] at h; cases h
    | ret res =>
      obtain ⟨returned, st⟩ := res
      rw [hl] at h
      dsimp only at h
      obtain ⟨g1, g2⟩ := TokenLoop_err self fuel head.start st returned hl
      rw [herr] at g1
      rcases LineEnd_err self head returned st goesOn e1 self1 va1 h with h3 | h3 | h3
      · rw [h3]
        rcases g1 with g1 | g1
        · exact Or.inl g1
        · exact Or.inr (Or.inl g1)
      · exact Or.inr (Or.inr (Or.inl h3))
      · exact Or.inr (Or.inr (Or.inr (g2 e1 h3)))

theorem ClauseLoop_err :
    ∀ (fuel : Nat) (self : Internal) (va : List VaArg) (err e : tArgSpecError) (s : Internal),
      ClauseLoop fuel self va err = Run.ret (e, s) →
      e = err ∨ e = kSpecUnknownType ∨ e = kSpecUnbalancedBrackets
        ∨ e = kSpecEllipsisError := by
  intro fuel
  induction fuel with
  | zero =>
    intro self va err e s h
    cases h
  | succ fuel ih =>
    intro self va err e s h
    unfold ClauseLoop at h
    split at h
    · cases h; exact Or.inl rfl
    · rename_i optionCStr va1 hva
      split_ifs at h with c1 c2
      · split at h
        · exact ih _ _ _ _ _ h
        · cases h
      · split at h
        · exact ih _ _ _ _ _ h
        · cases h
        · cases h
      · split at h
        · rename_i err1 self1 va2 hline
          have h1 := ConstructLine_err fuel self optionCStr va1 err err1 true self1 va2 hline
          have h2 := ih _ _ _ _ _ h
          rcases h2 with h2 | h2
          · rw [h2]; exact h1
          · exact Or.inr h2
        · rename_i err1 self1 va2 hline
          cases h
          exact ConstructLine_err fuel self optionCStr va1 err e false s va2 hline
        · cases h
        · cases h
    · cases h
    · cases h

theorem ConstructLine_tokens (self : Internal) (f : Nat) (line : CStr) (va : List VaArg)
    (err : tArgSpecError) (head : LineHead) (ds : List TokenDecl) (doc : CStr)
    (vaRest : List VaArg)
    (hb : LineBegin self line va err = Run.ret head)
    (htoks : argTokens line = ds.map (fun d => d.tok))
    (harg : ∀ d ∈ ds, isArgToken d.tok = true)
    (hbal : bracketDepth (argTokens line) = 0)
    (hva : head.start.va = tokenVas ds ++ VaArg.cstr doc :: vaRest) :
    ∃ reqs : List Bool, reqs.length = ds.length
      ∧ ConstructLine (ds.length + f) self line va err
        = Run.ret (true, (if ds.any (unknownType self) then kSpecUnknownType else err),
            withLine self head (List.zipWith (fun d r => tokenSlot self d r) ds reqs) doc,
            vaRest) := by
  obtain ⟨hp, h0, -⟩ := LineBegin_pending self line va err head hb
  obtain ⟨herr, hargs⟩ := LineBegin_err self line va err head hb
  obtain ⟨st1, reqs, g1, g2, g3, g4, g5, g6, g7⟩ := TokenLoop_tokens self ds head.start []
    (VaArg.cstr doc :: vaRest) harg (by rw [hp, htoks, List.append_nil]) hva
  have hloop : TokenLoop self (ds.length + f) head.start = Run.ret (none, st1) := by
    rw [g1 f]
    exact TokenLoop_done self f st1 (pendingTokens_nil st1 g5)
  have hlev : st1.optionLevel = 0 := by
    rw [g6, h0, ← htoks, hbal]
    rfl
  refine ⟨reqs, g2, ?_⟩
  rw [ConstructLine_eq _ self line va err head none st1 hb hloop]
  unfold LineEnd withLine
  simp only [hlev, ne_eq, not_true_eq_false, if_false, g4, va_cstr, g7, herr, g3, hargs]
  by_cases ho : head.isOption = true
  · simp only [ho, if_true, List.nil_append]
  · simp only [ho, if_false]
    rfl

/-- C24. Let a grammar line that is not an enum declaration consist of
argument tokens (each non-empty between its brackets, none the ellipsis) with
bracket depth 0, and let the caller pass one location for each token, a flag
index after the location of a token that ends in `^`, and then the
description. The line appends exactly one slot for each token, in order; the
slot of a token holds the location passed for that token, and has type
`kTypeInvalid` when the token's type name is unrecognised. The clause loop
goes on with the clauses after the description, with the pending error
`kSpecUnknownType` when some token of the line had an unrecognised type name
and the earlier pending error otherwise. When the line is the last clause the
result is that pending error, and whatever clauses follow a line with an
unrecognised type name, a result of the clause loop is `kSpecUnknownType`
unless it is a bracket or an ellipsis error. -/
theorem unknown_type_alignment (self : Internal) (f : Nat) (line : CStr) (va : List VaArg)
    (err : tArgSpecError) (head : LineHead) (ds : List TokenDecl) (doc : CStr)
    (vaRest : List VaArg)
    (h1 : line.head? ≠ some kEnumSpecChar) (h2 : line.head? ≠ some kEnumSpecInlineChar)
    (hb : LineBegin self line va err = Run.ret head)
    (htoks : argTokens line = ds.map (fun d => d.tok))
    (harg : ∀ d ∈ ds, isArgToken d.tok = true)
    (hbal : bracketDepth (argTokens line) = 0)
    (hva : head.start.va = tokenVas ds ++ VaArg.cstr doc :: vaRest) :
    ∃ (slots : List cArgInfo) (reqs : List Bool),
      slots = List.zipWith (fun d r => tokenSlot self d r) ds reqs
      ∧ slots.length = (argTokens line).length
      ∧ slots.map (fun i => i.mLocation) = ds.map (fun d => d.loc)
      ∧ (∀ p ∈ slots.zip ds, unknownType self p.2 = true → p.1.mType = kTypeInvalid)
      ∧ ClauseLoop (ds.length + f + 2) self (VaArg.cstr line :: va) err
          = ClauseLoop (ds.length + f + 1) (withLine self head slots doc) vaRest
              (if ds.any (unknownType self) then kSpecUnknownType else err)
      ∧ (vaRest.head? = some VaArg.null →
          ClauseLoop (ds.length + f + 2) self (VaArg.cstr line :: va) err
            = Run.ret ((if ds.any (unknownType self) then kSpecUnknownType else err),
                withLine self head slots doc))
      ∧ ∀ (e : tArgSpecError) (s : Internal), ds.any (unknownType self) = true →
          ClauseLoop (ds.length + f + 2) self (VaArg.cstr line :: va) err = Run.ret (e, s) →
          e ≠ kSpecUnbalancedBrackets → e ≠ kSpecEllipsisError → e = kSpecUnknownType := by
  obtain ⟨reqs, hlen, hline⟩ := ConstructLine_tokens self (f + 1) line va err head ds doc
    vaRest hb htoks harg hbal hva
  have hstep := ClauseLoop_line (ds.length + (f + 1)) self _ line va vaRest err _ h1 h2 hline
  have hzip : ∀ (xs : List TokenDecl) (rs : List Bool), rs.length = xs.length →
      (List.zipWith (fun d r => tokenSlot self d r) xs rs).map (fun i => i.mLocation)
          = xs.map (fun d => d.loc)
        ∧ ∀ p ∈ (List.zipWith (fun d r => tokenSlot self d r) xs rs).zip xs,
            unknownType self p.2 = true → p.1.mType = kTypeInvalid := by
    intro xs
    induction xs with
    | nil => intro rs _; simp
    | cons x xs ih =>
      intro rs hrs
      cases rs with
      | nil => simp at hrs
      | cons r rs =>
        obtain ⟨i1, i2⟩ := ih rs (by simpa using hrs)
        refine ⟨?_, ?_⟩
        · simp only [List.zipWith_cons_cons, List.map_cons, i1]
          rfl
        · intro p hp hu
          simp only [List.zipWith_cons_cons, List.zip_cons_cons, List.mem_cons] at hp
          rcases hp with hp | hp
          · subst hp
            simp only [unknownType, beq_iff_eq] at hu
            exact hu
          · exact i2 p hp hu
  obtain ⟨z1, z2⟩ := hzip ds reqs hlen
  refine ⟨_, reqs, rfl, ?_, z1, z2, hstep, ?_, ?_⟩
  · rw [List.length_zipWith, hlen, Nat.min_self, htoks, List.length_map]
  · intro hnull
    rw [show ds.length + f + 2 = ds.length + (f + 1) + 1 from rfl, hstep]
    cases vaRest with
    | nil => simp at hnull
    | cons v vs =>
      simp only [List.head?_cons, Option.some.injEq] at hnull
      subst hnull
      exact ClauseLoop_null _ _ _ _
  · intro e s hany h hub hee
    rw [show ds.length + f + 2 = ds.length + (f + 1) + 1 from rfl, hstep, hany, if_pos rfl] at h
    rcases ClauseLoop_err _ _ _ _ _ _ h with g | g | g | g
    · exact g
    · exact g
    · exact absurd g hub
    · exact absurd g hee

theorem fooHead_begin :
    LineBegin (resetSpec Internal.fresh "test".toList) "<a:foo> [<b:int>]".toList
        [VaArg.ptr 0, VaArg.ptr 1, VaArg.cstr "Two values".toList, VaArg.null] kSpecNoError
      = Run.ret fooHead := by
  simp only [LineBegin]
  simp +decide [resetSpec, fooHead]

theorem unknown_type_alignment_witness :
    ∃ (slots : List cArgInfo) (reqs : List Bool),
      slots = List.zipWith (fun d r => tokenSlot (resetSpec Internal.fresh "test".toList) d r)
          [⟨"<a:foo>".toList, some 0, -1⟩, ⟨"[<b:int>]".toList, some 1, -1⟩] reqs
      ∧ slots.length = (argTokens "<a:foo> [<b:int>]".toList).length
      ∧ slots.map (fun i => i.mLocation)
          = ([⟨"<a:foo>".toList, some 0, -1⟩, ⟨"[<b:int>]".toList, some 1, -1⟩]
              : List TokenDecl).map (fun d => d.loc)
      ∧ (∀ p ∈ slots.zip [⟨"<a:foo>".toList, some 0, -1⟩, ⟨"[<b:int>]".toList, some 1, -1⟩],
          unknownType (resetSpec Internal.fresh "test".toList) p.2 = true →
          p.1.mType = kTypeInvalid)
      ∧ ClauseLoop (([⟨"<a:foo>".toList, some 0, -1⟩, ⟨"[<b:int>]".toList, some 1, -1⟩]
              : List TokenDecl).length + 0 + 2)
            (resetSpec Internal.fresh "test".toList)
            (VaArg.cstr "<a:foo> [<b:int>]".toList
              :: [VaArg.ptr 0, VaArg.ptr 1, VaArg.cstr "Two values".toList, VaArg.null])
            kSpecNoError
          = ClauseLoop (([⟨"<a:foo>".toList, some 0, -1⟩, ⟨"[<b:int>]".toList, some 1, -1⟩]
                : List TokenDecl).length + 0 + 1)
              (withLine (resetSpec Internal.fresh "test".toList) fooHead slots
                "Two values".toList)
              [VaArg.null]
              (if ([⟨"<a:foo>".toList, some 0, -1⟩, ⟨"[<b:int>]".toList, some 1, -1⟩]
                    : List TokenDecl).any (unknownType (resetSpec Internal.fresh "test".toList))
                then kSpecUnknownType else kSpecNoError)
      ∧ (([VaArg.null] : List VaArg).head? = some VaArg.null →
          ClauseLoop (([⟨"<a:foo>".toList, some 0, -1⟩, ⟨"[<b:int>]".toList, some 1, -1⟩]
                : List TokenDecl).length + 0 + 2)
              (resetSpec Internal.fresh "test".toList)
              (VaArg.cstr "<a:foo> [<b:int>]".toList
                :: [VaArg.ptr 0, VaArg.ptr 1, VaArg.cstr "Two values".toList, VaArg.null])
              kSpecNoError
            = Run.ret ((if ([⟨"<a:foo>".toList, some 0, -1⟩, ⟨"[<b:int>]".toList, some 1, -1⟩]
                      : List TokenDecl).any
                        (unknownType (resetSpec Internal.fresh "test".toList))
                  then kSpecUnknownType else kSpecNoError),
                withLine (resetSpec Internal.fresh "test".toList) fooHead slots
                  "Two values".toList))
      ∧ ∀ (e : tArgSpecError) (s : Internal),
          ([⟨"<a:foo>".toList, some 0, -1⟩, ⟨"[<b:int>]".toList, some 1, -1⟩]
            : List TokenDecl).any (unknownType (resetSpec Internal.fresh "test".toList)) = true →
          ClauseLoop (([⟨"<a:foo>".toList, some 0, -1⟩, ⟨"[<b:int>]".toList, some 1, -1⟩]
                : List TokenDecl).length + 0 + 2)
              (resetSpec Internal.fresh "test".toList)
              (VaArg.cstr "<a:foo> [<b:int>]".toList
                :: [VaArg.ptr 0, VaArg.ptr 1, VaArg.cstr "Two values".toList, VaArg.null])
              kSpecNoError = Run.ret (e, s) →
          e ≠ kSpecUnbalancedBrackets → e ≠ kSpecEllipsisError → e = kSpecUnknownType :=
  unknown_type_alignment (resetSpec Internal.fresh "test".toList) 0 "<a:foo> [<b:int>]".toList
    [VaArg.ptr 0, VaArg.ptr 1, VaArg.cstr "Two values".toList, VaArg.null] kSpecNoError fooHead
    [⟨"<a:foo>".toList, some 0, -1⟩, ⟨"[<b:int>]".toList, some 1, -1⟩] "Two values".toList
    [VaArg.null] (by decide) (by decide) fooHead_begin (by decide) (by decide) (by decide) rfl

/-! ## C25: which error `ConstructSpec` returns -/

theorem ClauseLoop_unbalanced (fuel : Nat) (self : Internal) (line : CStr) (va : List VaArg)
    (err : tArgSpecError) (head : LineHead) (st : LineState)
    (h1 : line.head? ≠ some kEnumSpecChar) (h2 : line.head? ≠ some kEnumSpecInlineChar)
    (hb : LineBegin self line va err = Run.ret head)
    (hloop : TokenLoop self fuel head.start = Run.ret (none, st))
    (hdepth : bracketDepth (argTokens line) ≠ 0) :
    ClauseLoop (fuel + 1) self (VaArg.cstr line :: va) err
      = Run.ret (kSpecUnbalancedBrackets,
          (if head.isOption then self
            else { self with mMainArgs := { self.mMainArgs with mArguments := st.args } })) := by
  obtain ⟨hp, h0, -⟩ := LineBegin_pending self line va err head hb
  have hlevel : st.optionLevel = bracketDepth (argTokens line) := by
    rw [TokenLoop_level self fuel head.start st hloop, h0, hp, zero_add]
  have hne : st.optionLevel ≠ 0 := by rw [hlevel]; exact hdepth
  have hline : ConstructLine fuel self line va err
      = Run.ret (false, kSpecUnbalancedBrackets,
          (if head.isOption then self
            else { self with mMainArgs := { self.mMainArgs with mArguments := st.args } }),
          st.va) := by
    rw [ConstructLine_eq fuel self line va err head none st hb hloop]
    unfold LineEnd
    simp only [hne, ne_eq, not_false_eq_true, if_true]
  rw [ClauseLoop]
  simp only [va_cstr, if_neg h1, if_neg h2, hline]

theorem LineEnd_stops (self : Internal) (head : LineHead) (returned : Option tArgSpecError)
    (st : LineState) (e1 : tArgSpecError) (self1 : Internal) (va1 : List VaArg)
    (h : LineEnd self head returned st = Run.ret (false, e1, self1, va1)) :
    e1 = kSpecUnbalancedBrackets ∨ returned = some e1 := by
  unfold LineEnd at h
  cases returned with
  | some e =>
    dsimp only at h
    cases h
    exact Or.inr rfl
  | none =>
    dsimp only at h
    by_cases hlev : st.optionLevel ≠ 0
    · rw [if_pos hlev] at h
      cases h
      exact Or.inl rfl
    · rw [if_neg hlev] at h
      split at h
      · by_cases ho : head.isOption = true
        · rw [if_pos ho] at h
          cases h
        · rw [if_neg ho] at h
          cases h
      · cases h
      · cases h

theorem ConstructLine_stops (fuel : Nat) (self : Internal) (line : CStr) (va : List VaArg)
    (err e1 : tArgSpecError) (self1 : Internal) (va1 : List VaArg)
    (h : ConstructLine fuel self line va err = Run.ret (false, e1, self1, va1)) :
    e1 = kSpecUnbalancedBrackets ∨ e1 = kSpecEllipsisError := by
  unfold ConstructLine at h
  cases hb : LineBegin self line va err with
  | outOfFuel => rw [hb] at h; cases h
  | fault => rw [hb] at h; cases h
  | ret head =>
    rw [hb] at h
    dsimp only at h
    cases hl : TokenLoop self fuel head.start with
    | outOfFuel => rw [hl] at h; cases h
    | fault => rw [hl] at h; cases h
    | ret res =>
      obtain ⟨returned, st⟩ := res
      rw [hl] at h
      dsimp only at h
      obtain ⟨-, g2⟩ := TokenLoop_err self fuel head.start st returned hl
      rcases LineEnd_stops self head returned st e1 self1 va1 h with h3 | h3
      · exact Or.inl h3
      · exact Or.inr (g2 e1 h3)

theorem ClauseLoop_noError (fuel : Nat) (self : Internal) (va : List VaArg)
    (err : tArgSpecError) (s : Internal)
    (h : ClauseLoop fuel self va err = Run.ret (kSpecNoError, s)) : err = kSpecNoError := by
  rcases ClauseLoop_err fuel self va err kSpecNoError s h with g | g | g | g
  · exact g.symm
  · cases g
  · cases g
  · cases g

theorem ClauseLoop_noError_line (fuel : Nat) (self : Internal) (line : CStr)
    (va : List VaArg) (err : tArgSpecError) (s : Internal)
    (h1 : line.head? ≠ some kEnumSpecChar) (h2 : line.head? ≠ some kEnumSpecInlineChar)
    (h : ClauseLoop (fuel + 1) self (VaArg.cstr line :: va) err = Run.ret (kSpecNoError, s)) :
    ∃ self1 va2, ConstructLine fuel self line va err = Run.ret (true, kSpecNoError, self1, va2)
      ∧ ClauseLoop fuel self1 va2 kSpecNoError = Run.ret (kSpecNoError, s) := by
  rw [ClauseLoop] at h
  simp only [va_cstr, if_neg h1, if_neg h2] at h
  split at h
  · rename_i err1 self1 va2 hline
    have he : err1 = kSpecNoError := ClauseLoop_noError fuel self1 va2 err1 s h
    subst he
    exact ⟨self1, va2, hline, h⟩
  · rename_i err1 self1 va2 hline
    cases h
    rcases ConstructLine_stops fuel self line va err _ _ va2 hline with g | g
    · cases g
    · cases g
  · cases h
  · cases h

theorem fooThenOpen_begin :
    LineBegin fooSpec "<a:int> [<b:int>".toList
        [VaArg.ptr 1, VaArg.ptr 2, VaArg.cstr "Second".toList, VaArg.null] kSpecUnknownType
      = Run.ret ⟨false, [], -1,
          ⟨"[<b:int>".toList, "<a:int>".toList, 0, 0,
            [⟨kTypeInvalid, "x".toList, some 0, true, -1⟩],
            [VaArg.ptr 1, VaArg.ptr 2, VaArg.cstr "Second".toList, VaArg.null],
            kSpecUnknownType⟩⟩ := by
  decide

theorem fooThenOpen_loop :
    TokenLoop fooSpec 2
        ⟨"[<b:int>".toList, "<a:int>".toList, 0, 0,
          [⟨kTypeInvalid, "x".toList, some 0, true, -1⟩],
          [VaArg.ptr 1, VaArg.ptr 2, VaArg.cstr "Second".toList, VaArg.null], kSpecUnknownType⟩
      = Run.ret (none,
          ⟨[], [], 1, 1,
            [⟨kTypeInvalid, "x".toList, some 0, true, -1⟩,
              ⟨kTypeInt, "a".toList, some 1, true, -1⟩,
              ⟨kTypeInt, "b".toList, some 2, false, -1⟩],
            [VaArg.cstr "Second".toList, VaArg.null], kSpecUnknownType⟩) := by
  decide

theorem ClauseLoop_prefix :
    ∀ (k fuel : Nat) (self : Internal) (va : List VaArg) (err : tArgSpecError)
      (c : Internal × List VaArg × tArgSpecError),
      ClausePrefix k (k + fuel) self va err = some c →
      ClauseLoop (k + fuel) self va err = ClauseLoop fuel c.1 c.2.1 c.2.2 := by
  intro k
  induction k with
  | zero =>
    intro fuel self va err c h
    rw [Nat.zero_add] at h ⊢
    unfold ClausePrefix at h
    cases h
    rfl
  | succ k ih =>
    intro fuel self va err c h
    rw [show k + 1 + fuel = (k + fuel) + 1 by omega] at h ⊢
    rw [ClausePrefix] at h
    rw [ClauseLoop]
    split at h
    · rename_i optionCStr va1 hva
      rw [hva]
      dsimp only
      by_cases e1 : optionCStr.head? = some kEnumSpecChar
      · rw [if_pos e1] at h ⊢
        split at h
        · exact ih fuel _ _ _ c h
        · cases h
      · rw [if_neg e1] at h ⊢
        by_cases e2 : optionCStr.head? = some kEnumSpecInlineChar
        · rw [if_pos e2] at h ⊢
          split at h
          · rename_i store va2 hin
            rw [hin]
            exact ih fuel _ _ _ c h
          · cases h
        · rw [if_neg e2] at h ⊢
          split at h
          · rename_i err1 self1 va2 hline
            rw [hline]
            exact ih fuel _ _ _ c h
          · cases h
    · cases h

theorem ConstructLine_goesOn (fuel : Nat) (self : Internal) (line : CStr) (va : List VaArg)
    (err e1 : tArgSpecError) (self1 : Internal) (va1 : List VaArg)
    (h : ConstructLine fuel self line va err = Run.ret (true, e1, self1, va1)) :
    e1 = err ∨ e1 = kSpecUnknownType := by
  unfold ConstructLine at h
  cases hb : LineBegin self line va err with
  | outOfFuel => rw [hb] at h; cases h
  | fault => rw [hb] at h; cases h
  | ret head =>
    rw [hb] at h
    dsimp only at h
    obtain ⟨herr, -⟩ := LineBegin_err self line va err head hb
    cases hl : TokenLoop self fuel head.start with
    | outOfFuel => rw [hl] at h; cases h
    | fault => rw [hl] at h; cases h
    | ret res =>
      obtain ⟨returned, st⟩ := res
      rw [hl] at h
      dsimp only at h
      obtain ⟨g1, -⟩ := TokenLoop_err self fuel head.start st returned hl
      have he : e1 = st.err := by
        unfold LineEnd at h
        cases returned with
        | some e => dsimp only at h; cases h
        | none =>
          dsimp only at h
          by_cases hlev : st.optionLevel ≠ 0
          · rw [if_pos hlev] at h; cases h
          · rw [if_neg hlev] at h
            split at h
            · by_cases ho : head.isOption = true
              · rw [if_pos ho] at h; cases h; rfl
              · rw [if_neg ho] at h; cases h; rfl
            · cases h
            · cases h
      rw [he]
      rcases g1 with g | g
      · exact Or.inl (g.trans herr)
      · exact Or.inr g

theorem ClausePrefix_pending :
    ∀ (k fuel : Nat) (self : Internal) (va : List VaArg) (err : tArgSpecError)
      (c : Internal × List VaArg × tArgSpecError),
      ClausePrefix k fuel self va err = some c →
      c.2.2 = err ∨ c.2.2 = kSpecUnknownType := by
  intro k
  induction k with
  | zero =>
    intro fuel self va err c h
    unfold ClausePrefix at h
    cases h
    exact Or.inl rfl
  | succ k ih =>
    intro fuel self va err c h
    cases fuel with
    | zero => unfold ClausePrefix at h; cases h
    | succ fuel =>
      rw [ClausePrefix] at h
      split at h
      · rename_i optionCStr va1 hva
        by_cases e1 : optionCStr.head? = some kEnumSpecChar
        · rw [if_pos e1] at h
          split at h
          · exact ih fuel _ _ _ c h
          · cases h
        · rw [if_neg e1] at h
          by_cases e2 : optionCStr.head? = some kEnumSpecInlineChar
          · rw [if_pos e2] at h
            split at h
            · exact ih fuel _ _ _ c h
            · cases h
          · rw [if_neg e2] at h
            split at h
            · rename_i err1 self1 va2 hline
              rcases ConstructLine_goesOn fuel self optionCStr va1 err err1 self1 va2 hline
                with g | g
              · rw [← g]; exact ih fuel _ _ _ c h
              · rcases ih fuel _ _ _ c h with g2 | g2
                · exact Or.inr (g2.trans g)
                · exact Or.inr g2
            · cases h
      · cases h

/-- C25 (amended). A fatal error replaces a pending one. Take any sequence of
clauses. Let its first `k` clauses each let the clause loop go on, so that
none of them has unbalanced brackets or misuses an ellipsis, and let the
clause after them be a grammar line, not an enum declaration, that reaches the
end of its token loop with a bracket depth other than 0. Whatever error is
pending when the loop comes to that line, `ConstructSpec` returns
`kSpecUnbalancedBrackets`. The error pending there is the one pending at the
start or `kSpecUnknownType`; a `kSpecUnknownType` left by an earlier line
with an unrecognised type name is still pending there. A pending error is
never cleared: the clause loop returns `kSpecNoError` only when no error is
pending where it starts, and then every line it compiles ends without error
and hands over to a loop that again returns `kSpecNoError`. -/
theorem fatal_error_replaces_pending (k fuel : Nat) (old : Internal) (description : CStr)
    (args : List VaArg) (self : Internal) (line : CStr) (va : List VaArg)
    (err : tArgSpecError) (head : LineHead) (st : LineState)
    (hpre : ClausePrefix k (k + (fuel + 1)) (resetSpec old description) args kSpecNoError
      = some (self, VaArg.cstr line :: va, err))
    (h1 : line.head? ≠ some kEnumSpecChar) (h2 : line.head? ≠ some kEnumSpecInlineChar)
    (hb : LineBegin self line va err = Run.ret head)
    (hloop : TokenLoop self fuel head.start = Run.ret (none, st))
    (hdepth : bracketDepth (argTokens line) ≠ 0) :
    (∃ self1, ConstructSpec (k + (fuel + 1)) old description args
          = Run.ret (kSpecUnbalancedBrackets, self1))
      ∧ (err = kSpecNoError ∨ err = kSpecUnknownType)
      ∧ (∀ (j n : Nat) (s0 s : Internal) (va0 v : List VaArg) (e : tArgSpecError),
          ClausePrefix j n s0 va0 kSpecUnknownType = some (s, v, e) → e = kSpecUnknownType)
      ∧ (∀ (n : Nat) (s0 s : Internal) (va0 : List VaArg) (err0 : tArgSpecError),
          ClauseLoop n s0 va0 err0 = Run.ret (kSpecNoError, s) → err0 = kSpecNoError)
      ∧ ∀ (n : Nat) (s0 s : Internal) (line0 : CStr) (va0 : List VaArg)
          (err0 : tArgSpecError),
          line0.head? ≠ some kEnumSpecChar → line0.head? ≠ some kEnumSpecInlineChar →
          ClauseLoop (n + 1) s0 (VaArg.cstr line0 :: va0) err0 = Run.ret (kSpecNoError, s) →
          ∃ s1 va2, ConstructLine n s0 line0 va0 err0 = Run.ret (true, kSpecNoError, s1, va2)
            ∧ ClauseLoop n s1 va2 kSpecNoError = Run.ret (kSpecNoError, s) := by
  have hc := ClauseLoop_unbalanced fuel self line va err head st h1 h2 hb hloop hdepth
  have hp := ClauseLoop_prefix k (fuel + 1) (resetSpec old description) args kSpecNoError _ hpre
  have hs : ConstructSpec (k + (fuel + 1)) old description args
      = ClauseLoop (k + (fuel + 1)) (resetSpec old description) args kSpecNoError := rfl
  refine ⟨⟨_, hs.trans (hp.trans hc)⟩, ?_, ?_, ?_, ?_⟩
  · exact ClausePrefix_pending k _ _ _ _ _ hpre
  · intro j n s0 s va0 v e h
    rcases ClausePrefix_pending j n s0 va0 kSpecUnknownType _ h with g | g
    · exact g
    · exact g
  · intro n s0 s va0 err0 h
    exact ClauseLoop_noError n s0 va0 err0 s h
  · intro n s0 s line0 va0 err0 g1 g2 h
    exact ClauseLoop_noError_line n s0 line0 va0 err0 s g1 g2 h

theorem fatal_error_replaces_pending_witness :
    (∃ self1, ConstructSpec (1 + (2 + 1)) Internal.fresh "test".toList fooThenOpenArgs
          = Run.ret (kSpecUnbalancedBrackets, self1))
      ∧ (kSpecUnknownType = kSpecNoError ∨ kSpecUnknownType = kSpecUnknownType) :=
  have h := fatal_error_replaces_pending 1 2 Internal.fresh "test".toList fooThenOpenArgs
    fooSpec "<a:int> [<b:int>".toList
    [VaArg.ptr 1, VaArg.ptr 2, VaArg.cstr "Second".toList, VaArg.null] kSpecUnknownType
    ⟨false, [], -1,
      ⟨"[<b:int>".toList, "<a:int>".toList, 0, 0,
        [⟨kTypeInvalid, "x".toList, some 0, true, -1⟩],
        [VaArg.ptr 1, VaArg.ptr 2, VaArg.cstr "Second".toList, VaArg.null], kSpecUnknownType⟩⟩
    ⟨[], [], 1, 1,
      [⟨kTypeInvalid, "x".toList, some 0, true, -1⟩,
        ⟨kTypeInt, "a".toList, some 1, true, -1⟩,
        ⟨kTypeInt, "b".toList, some 2, false, -1⟩],
      [VaArg.cstr "Second".toList, VaArg.null], kSpecUnknownType⟩
    (by decide) (by decide) (by decide) fooThenOpen_begin fooThenOpen_loop (by decide)
  ⟨h.1, h.2.1⟩

/-- C25 as stated fails. The line `<x:foo>` has an unrecognised type name and
comes before the line `<a:int> [<b:int>`, whose bracket is not closed: the
first line leaves `kSpecUnknownType` pending, and `ConstructSpec` returns
`kSpecUnbalancedBrackets`, not `kSpecUnknownType`. With the option line
`-o ...` between the two, whose ellipsis follows no argument, `ConstructSpec`
returns `kSpecEllipsisError` at that line and does not come to the unbalanced
one. -/
theorem fatal_error_replaces_pending_counterexample :
    ConstructLine 3 (resetSpec Internal.fresh "test".toList) "<x:foo>".toList
        [VaArg.ptr 0, VaArg.cstr "First".toList,
          VaArg.cstr "<a:int> [<b:int>".toList, VaArg.ptr 1, VaArg.ptr 2,
          VaArg.cstr "Second".toList, VaArg.null] kSpecNoError
        = Run.ret (true, kSpecUnknownType, fooSpec,
            VaArg.cstr "<a:int> [<b:int>".toList
              :: [VaArg.ptr 1, VaArg.ptr 2, VaArg.cstr "Second".toList, VaArg.null])
      ∧ ConstructSpec 4 Internal.fresh "test".toList fooThenOpenArgs
        = Run.ret (kSpecUnbalancedBrackets,
            { fooSpec with
              mMainArgs :=
                ⟨[⟨kTypeInvalid, "x".toList, some 0, true, -1⟩,
                    ⟨kTypeInt, "a".toList, some 1, true, -1⟩,
                    ⟨kTypeInt, "b".toList, some 2, false, -1⟩], "First".toList⟩ })
      ∧ ConstructSpec 4 Internal.fresh "test".toList fooEllipsisOpenArgs
        = Run.ret (kSpecEllipsisError, fooSpec) := by
  decide

/-! ## C26: the two array markers -/

theorem and_listFlag_of_lt (x : Nat) (h : x < 2 ^ 15) : x &&& kTypeArrayListFlag = 0 := by
  show x &&& 2 ^ 15 = 0
  rw [Nat.and_two_pow, Nat.testBit_lt_two_pow h]
  rfl

theorem ArgTypeFromEnums_index (typeName : CStr) (arrayFlag : Nat) :
    ∀ (enums : List cEnumSpec) (i : Nat),
      ArgTypeFromEnums typeName arrayFlag enums i = kTypeInvalid
        ∨ ∃ j, i ≤ j ∧ j < i + enums.length
            ∧ ArgTypeFromEnums typeName arrayFlag enums i
              = ((kTypeEnumBegin + j) % 65536) ||| arrayFlag := by
  intro enums
  induction enums with
  | nil => intro i; exact Or.inl rfl
  | cons e rest ih =>
    intro i
    unfold ArgTypeFromEnums
    by_cases h : StrEq e.mName typeName = true
    · rw [if_pos h]
      exact Or.inr ⟨i, le_refl _, by simp, rfl⟩
    · rw [if_neg h]
      rcases ih (i + 1) with g | ⟨j, g1, g2, g3⟩
      · exact Or.inl g
      · exact Or.inr ⟨j, by omega, by simp; omega, g3⟩

theorem builtinTypeFromName_le (typeName : CStr) (typeLen t : Nat)
    (h : builtinTypeFromName typeName typeLen = some t) : t ≤ 9 := by
  unfold builtinTypeFromName at h
  split_ifs at h <;> cases h <;> decide

theorem ArgTypeFromName_noList (self : Internal) (typeName : CStr)
    (henum : self.mEnumSpecs.length ≤ 1024) :
    ArgTypeFromName self typeName &&& kTypeArrayListFlag = 0 := by
  apply and_listFlag_of_lt
  have hflag : (if hasArraySuffix typeName then kTypeArraySplitFlag else 0) < 2 ^ 15 := by
    split_ifs <;> decide
  unfold ArgTypeFromName
  dsimp only
  cases hb : builtinTypeFromName typeName
      (if hasArraySuffix typeName then typeName.length - 2 else typeName.length) with
  | some t =>
    dsimp only
    have ht := builtinTypeFromName_le _ _ _ hb
    exact Nat.or_lt_two_pow (by omega) hflag
  | none =>
    dsimp only
    rcases ArgTypeFromEnums_index typeName
      (if hasArraySuffix typeName then kTypeArraySplitFlag else 0) self.mEnumSpecs 0
      with g | ⟨j, -, g2, g3⟩
    · rw [g]; decide
    · rw [g3]
      refine Nat.or_lt_two_pow ?_ hflag
      have : kTypeEnumBegin + j < 65536 := by
        show 10 + j < 65536
        omega
      rw [Nat.mod_eq_of_lt this]
      show 10 + j < 2 ^ 15
      omega

theorem FindNameAndTypeFromOption_noList (self : Internal) (str : CStr)
    (henum : self.mEnumSpecs.length ≤ 1024) :
    (FindNameAndTypeFromOption self str).1 &&& kTypeArrayListFlag = 0 := by
  unfold FindNameAndTypeFromOption
  split_ifs
  · rfl
  · split <;> rfl
  · dsimp only
    split_ifs <;> exact ArgTypeFromName_noList self _ henum
  · dsimp only
    split_ifs <;> exact ArgTypeFromName_noList self _ henum

theorem construct_both (k : Nat) (old : Internal) (description : CStr) (x : Nat) (doc : CStr) :
    ConstructSpec (k + 3) old description (bothArgs x doc)
      = Run.ret (kSpecNoError, bothSpec old description x doc) := by
  have hb : LineBegin (resetSpec old description) "<x:int[]> ...".toList
      [VaArg.ptr x, VaArg.cstr doc, VaArg.null] kSpecNoError
      = Run.ret ⟨false, [], -1,
          ⟨"...".toList, "<x:int[]>".toList, 0, 0, [],
            [VaArg.ptr x, VaArg.cstr doc, VaArg.null], kSpecNoError⟩⟩ := by
    simp only [LineBegin]
    simp +decide [resetSpec]
  have hs1 : TokenStep (resetSpec old description)
      ⟨"...".toList, "<x:int[]>".toList, 0, 0, [],
        [VaArg.ptr x, VaArg.cstr doc, VaArg.null], kSpecNoError⟩
      = Run.ret (TokenStepResult.next
          ⟨[], "...".toList, 0, 0,
            [⟨kTypeInt ||| kTypeArraySplitFlag, "x".toList, some x, true, -1⟩],
            [VaArg.cstr doc, VaArg.null], kSpecNoError⟩) := by
    simp only [TokenStep]
    simp +decide [va_ptr, va_int]
    rw [FindNameAndTypeFromOption_builtin _ _ (by decide)]
    exact ⟨by decide, by decide⟩
  have hs2 : TokenStep (resetSpec old description)
      ⟨[], "...".toList, 0, 0,
        [⟨kTypeInt ||| kTypeArraySplitFlag, "x".toList, some x, true, -1⟩],
        [VaArg.cstr doc, VaArg.null], kSpecNoError⟩
      = Run.ret (TokenStepResult.next
          ⟨[], [], 0, 0,
            [⟨kTypeInt ||| kTypeArraySplitFlag ||| kTypeArrayListFlag, "x".toList, some x, true,
              -1⟩],
            [VaArg.cstr doc, VaArg.null], kSpecNoError⟩) := by
    rw [TokenStep_ellipsis _ _
        (show StrEq (tokenCore "...".toList) kEllipsisToken = true by decide),
      if_neg (by simp)]
    rfl
  have hloop : TokenLoop (resetSpec old description) (k + 2)
      ⟨"...".toList, "<x:int[]>".toList, 0, 0, [],
        [VaArg.ptr x, VaArg.cstr doc, VaArg.null], kSpecNoError⟩
      = Run.ret (none,
          ⟨[], [], 0, 0,
            [⟨kTypeInt ||| kTypeArraySplitFlag ||| kTypeArrayListFlag, "x".toList, some x, true,
              -1⟩],
            [VaArg.cstr doc, VaArg.null], kSpecNoError⟩) := by
    rw [TokenLoop_next _ (k + 1) _ _ (by show "<x:int[]>".toList ≠ []; decide) hs1,
      TokenLoop_next _ k _ _ (by show "...".toList ≠ []; decide) hs2,
      TokenLoop_done _ _ _ rfl]
  have hline := ConstructLine_eq (k + 2) _ _ _ _ _ none _ hb hloop
  show ClauseLoop (k + 2 + 1) (resetSpec old description)
    (VaArg.cstr "<x:int[]> ...".toList :: [VaArg.ptr x, VaArg.cstr doc, VaArg.null])
    kSpecNoError = _
  rw [ClauseLoop_line (k + 2) _ _ _ _ _ _ _ (by decide) (by decide) (hline.trans rfl),
    ClauseLoop_null]
  rfl

/-- C26 (amended). With at most 1024 enums declared (the range the source
reserves for them), the slot compiled for an argument token never carries the
list-array marker, whatever its type name. The marker comes from an ellipsis
after the token: the ellipsis adds it to the last slot of the group and keeps
that slot's split-array marker, so a slot whose type name has the `[]` suffix
and which an ellipsis follows carries both markers. The line `<x:int[]> ...`
compiles without error to such a slot, and `ParseArgument` takes the
list-array branch for every slot with the list-array marker, with or without
the split-array marker. -/
theorem array_markers (self : Internal) (core : CStr) (loc : Option Nat) (flag : Int)
    (req : Bool) (henum : self.mEnumSpecs.length ≤ 1024) :
    (declSlot self core loc flag req).mType &&& kTypeArrayListFlag = 0
      ∧ (∀ (st : LineState) (pre : List cArgInfo) (back : cArgInfo),
          StrEq (tokenCore st.nextToken) kEllipsisToken = true → st.options = [] →
          st.args = pre ++ [back] →
          ∃ st1, TokenStep self st = Run.ret (TokenStepResult.next st1)
            ∧ st1.args = pre ++ [{ back with mType := back.mType ||| kTypeArrayListFlag }]
            ∧ (back.mType ||| kTypeArrayListFlag) &&& kTypeArrayListFlag ≠ 0
            ∧ (back.mType ||| kTypeArrayListFlag) &&& kTypeArraySplitFlag
                = back.mType &&& kTypeArraySplitFlag)
      ∧ (∀ (k : Nat) (old : Internal) (description : CStr) (x : Nat) (doc : CStr),
          ConstructSpec (k + 3) old description (bothArgs x doc)
              = Run.ret (kSpecNoError, bothSpec old description x doc)
            ∧ ∀ i ∈ (bothSpec old description x doc).mMainArgs.mArguments,
                i.mType &&& kTypeArraySplitFlag ≠ 0 ∧ i.mType &&& kTypeArrayListFlag ≠ 0)
      ∧ ∀ (libc : Libc) (fuel : Nat) (s : Internal) (m : Mem) (info : cArgInfo)
          (argv : List CStr), info.mType &&& kTypeArrayListFlag ≠ 0 →
          ParseArgument libc fuel s m info argv
            = match info.mLocation with
              | none => Run.fault
              | some p =>
                ListArrayLoop libc info fuel (s.markFlag info.mFlagToSet)
                  (clear info.mType p m) argv := by
  refine ⟨?_, ?_, ?_, ?_⟩
  · exact FindNameAndTypeFromOption_noList self _ henum
  · intro st pre back hell hopt hargs
    have hstep := TokenStep_ellipsis self st hell
    rw [if_neg (by simp [hopt]), hargs, List.getLast?_concat] at hstep
    simp only [List.dropLast_concat] at hstep
    obtain ⟨b1, -, b3⟩ := or_listFlag back.mType
    exact ⟨_, hstep, rfl, b1, b3⟩
  · intro k old description x doc
    refine ⟨construct_both k old description x doc, ?_⟩
    intro i hi
    have : i = ⟨kTypeInt ||| kTypeArraySplitFlag ||| kTypeArrayListFlag, "x".toList, some x,
        true, -1⟩ := by
      simpa [bothSpec] using hi
    subst this
    exact ⟨show (kTypeInt ||| kTypeArraySplitFlag ||| kTypeArrayListFlag)
        &&& kTypeArraySplitFlag ≠ 0 by decide,
      show (kTypeInt ||| kTypeArraySplitFlag ||| kTypeArrayListFlag)
        &&& kTypeArrayListFlag ≠ 0 by decide⟩
  · intro libc fuel s m info argv h
    unfold ParseArgument
    simp only [h, ne_eq, not_false_eq_true, if_true]

theorem array_markers_witness :
    (declSlot Internal.fresh "<x:int[]>".toList (some 0) (-1) true).mType
          &&& kTypeArrayListFlag = 0
      ∧ (∀ (st : LineState) (pre : List cArgInfo) (back : cArgInfo),
          StrEq (tokenCore st.nextToken) kEllipsisToken = true → st.options = [] →
          st.args = pre ++ [back] →
          ∃ st1, TokenStep Internal.fresh st = Run.ret (TokenStepResult.next st1)
            ∧ st1.args = pre ++ [{ back with mType := back.mType ||| kTypeArrayListFlag }]
            ∧ (back.mType ||| kTypeArrayListFlag) &&& kTypeArrayListFlag ≠ 0
            ∧ (back.mType ||| kTypeArrayListFlag) &&& kTypeArraySplitFlag
                = back.mType &&& kTypeArraySplitFlag)
      ∧ (∀ (k : Nat) (old : Internal) (description : CStr) (x : Nat) (doc : CStr),
          ConstructSpec (k + 3) old description (bothArgs x doc)
              = Run.ret (kSpecNoError, bothSpec old description x doc)
            ∧ ∀ i ∈ (bothSpec old description x doc).mMainArgs.mArguments,
                i.mType &&& kTypeArraySplitFlag ≠ 0 ∧ i.mType &&& kTypeArrayListFlag ≠ 0)
      ∧ ∀ (libc : Libc) (fuel : Nat) (s : Internal) (m : Mem) (info : cArgInfo)
          (argv : List CStr), info.mType &&& kTypeArrayListFlag ≠ 0 →
          ParseArgument libc fuel s m info argv
            = match info.mLocation with
              | none => Run.fault
              | some p =>
                ListArrayLoop libc info fuel (s.markFlag info.mFlagToSet)
                  (clear info.mType p m) argv :=
  array_markers Internal.fresh "<x:int[]>".toList (some 0) (-1) true (by decide)

/-- The line `<x:int[]> ...` compiles without error to one slot, and that slot
has both the split-array and the list-array marker set. -/
theorem array_markers_counterexample :
    ConstructSpec 3 Internal.fresh "test".toList (bothArgs 0 "Numbers".toList)
        = Run.ret (kSpecNoError, bothSpec Internal.fresh "test".toList 0 "Numbers".toList)
      ∧ (bothSpec Internal.fresh "test".toList 0 "Numbers".toList).mMainArgs.mArguments.map
          (fun i => (i.mType &&& kTypeArraySplitFlag, i.mType &&& kTypeArrayListFlag))
        = [(kTypeArraySplitFlag, kTypeArrayListFlag)] := by
  decide

/-! ## C27: enum type names with the array suffix -/

theorem ArgTypeFromEnums_first (typeName : CStr) (arrayFlag : Nat) :
    ∀ (enums : List cEnumSpec) (i0 i : Nat) (e : cEnumSpec),
      enums[i]? = some e → StrEq e.mName typeName = true →
      (∀ j e1, j < i → enums[j]? = some e1 → StrEq e1.mName typeName = false) →
      ArgTypeFromEnums typeName arrayFlag enums i0
        = ((kTypeEnumBegin + (i0 + i)) % 65536) ||| arrayFlag := by
  intro enums
  induction enums with
  | nil => intro i0 i e hi; simp at hi
  | cons x rest ih =>
    intro i0 i e hi hm hfirst
    unfold ArgTypeFromEnums
    cases i with
    | zero =>
      simp only [List.getElem?_cons_zero, Option.some.injEq] at hi
      subst hi
      rw [if_pos hm]
      rfl
    | succ i =>
      have hx : StrEq x.mName typeName = false :=
        hfirst 0 x (by omega) (List.getElem?_cons_zero)
      rw [if_neg (by simp [hx])]
      simp only [List.getElem?_cons_succ] at hi
      rw [ih (i0 + 1) i e hi hm (fun j e1 hj he1 => hfirst (j + 1) e1 (by omega)
        (by simpa using he1))]
      have : i0 + 1 + i = i0 + (i + 1) := by omega
      rw [this]

theorem ArgTypeFromEnums_none (typeName : CStr) (arrayFlag : Nat) :
    ∀ (enums : List cEnumSpec) (i0 : Nat),
      (∀ e ∈ enums, StrEq e.mName typeName = false) →
      ArgTypeFromEnums typeName arrayFlag enums i0 = kTypeInvalid := by
  intro enums
  induction enums with
  | nil => intro i0 _; rfl
  | cons x rest ih =>
    intro i0 h
    unfold ArgTypeFromEnums
    rw [if_neg (by simp [h x (List.mem_cons_self _ _)])]
    exact ih (i0 + 1) (fun e he => h e (List.mem_cons_of_mem _ he))

theorem hasArraySuffix_append (E : CStr) (hne : E ≠ []) :
    hasArraySuffix (E ++ "[]".toList) = true := by
  have hlen : (E ++ "[]".toList).length = E.length + 2 := by simp
  have hpos : 0 < E.length := List.length_pos.mpr hne
  unfold hasArraySuffix
  rw [hlen]
  have h1 : (E ++ "[]".toList)[E.length + 2 - 2]? = some '[' := by
    rw [show E.length + 2 - 2 = E.length from rfl, List.getElem?_append_right (le_refl _)]
    simp
  have h2 : (E ++ "[]".toList)[E.length + 2 - 1]? = some ']' := by
    rw [show E.length + 2 - 1 = E.length + 1 from rfl,
      List.getElem?_append_right (by omega)]
    simp
  rw [h1, h2]
  simp
  omega

theorem StrEqN_append (E s n : CStr) :
    StrEqN (E ++ s) n E.length = StrEqN E n E.length := by
  unfold StrEqN
  rw [List.take_left, List.take_length]

theorem builtinTypeFromName_append (E s : CStr) (hne : E ≠ []) :
    builtinTypeFromName (E ++ s) E.length = builtinTypeFromName E E.length := by
  have hh : (E ++ s).head? = E.head? := by
    cases E with
    | nil => exact absurd rfl hne
    | cons c cs => rfl
  unfold builtinTypeFromName
  simp only [StrEqN_append, hh]

/-- C27. Let the enum named `E` be declared at index `i`, with no enum of the
same name (ignoring case) before it, where `E` is not empty, has no `[]`
suffix of its own and is not taken for a built-in type name, and let no enum be
declared under the name `E[]` itself. The type name `E` resolves to the enum
type `kTypeEnumBegin + i`. The type name `E[]` resolves to `kTypeInvalid`: the
loop over the enums compares every enum name with the whole type name, the
suffix included. So after the declaration of the enum `colour`, the line
`<c:colour[]>` compiles to a slot of type `kTypeInvalid` and `ConstructSpec`
returns `kSpecUnknownType`. -/
theorem enum_array_suffix (self : Internal) (E : CStr) (i : Nat) (e : cEnumSpec)
    (hi : self.mEnumSpecs[i]? = some e) (hname : e.mName = E)
    (hfirst : ∀ j e1, j < i → self.mEnumSpecs[j]? = some e1 → StrEq e1.mName E = false)
    (hne : E ≠ []) (hsuf : hasArraySuffix E = false)
    (hbuiltin : builtinTypeFromName E E.length = none)
    (hnone : ∀ e1 ∈ self.mEnumSpecs, e1.mName ≠ E → StrEq e1.mName (E ++ "[]".toList) = false) :
    ArgTypeFromName self E = (kTypeEnumBegin + i) % 65536
      ∧ ArgTypeFromName self (E ++ "[]".toList) = kTypeInvalid
      ∧ ConstructSpec 4 Internal.fresh "test".toList colourArrayArgs
        = Run.ret (kSpecUnknownType,
            { resetSpec Internal.fresh "test".toList with
              mEnumSpecs := [colourEnum]
              mMainArgs :=
                ⟨[⟨kTypeInvalid, "c".toList, some 0, true, -1⟩], "Colours".toList⟩ }) := by
  refine ⟨?_, ?_, by decide⟩
  · unfold ArgTypeFromName
    simp only [hsuf, Bool.false_eq_true, if_false, hbuiltin]
    rw [ArgTypeFromEnums_first E 0 self.mEnumSpecs 0 i e hi
      (by rw [hname]; simp [StrEq]) hfirst, Nat.zero_add, Nat.or_zero]
  · have hall : ∀ e1 ∈ self.mEnumSpecs, StrEq e1.mName (E ++ "[]".toList) = false := by
      intro e1 he1
      by_cases hn : e1.mName = E
      · rw [hn]
        unfold StrEq
        apply beq_false_of_ne
        intro hcon
        have := congrArg List.length hcon
        simp at this
      · exact hnone e1 he1 hn
    unfold ArgTypeFromName
    simp only [hasArraySuffix_append E hne, if_true]
    have hl : (E ++ "[]".toList).length - 2 = E.length := by simp
    rw [hl, builtinTypeFromName_append E _ hne, hbuiltin]
    exact ArgTypeFromEnums_none _ _ _ 0 hall

theorem enum_array_suffix_witness :
    ArgTypeFromName colourSpec "colour".toList = (kTypeEnumBegin + 0) % 65536
      ∧ ArgTypeFromName colourSpec ("colour".toList ++ "[]".toList) = kTypeInvalid
      ∧ ConstructSpec 4 Internal.fresh "test".toList colourArrayArgs
        = Run.ret (kSpecUnknownType,
            { resetSpec Internal.fresh "test".toList with
              mEnumSpecs := [colourEnum]
              mMainArgs :=
                ⟨[⟨kTypeInvalid, "c".toList, some 0, true, -1⟩], "Colours".toList⟩ }) :=
  enum_array_suffix colourSpec "colour".toList 0 colourEnum rfl rfl
    (fun j e1 hj _ => absurd hj (by omega)) (by decide) (by decide) (by decide)
    (by decide)

/-! ## C28: a `Vec3` given two tokens -/

theorem Parse_vec_two_of_three (libc : Libc) (v : Nat) (m : Mem) (es : CStr) (t1 t2 : CStr)
    (rest : List CStr) (h1 : IsOption t1 = false) (h2 : IsOption t2 = false)
    (hx1 : (libc.strtof t1).2 = []) (hx2 : (libc.strtof t2).2 = [])
    (hrest : ∀ t ∈ rest.head?, IsOption t = true) :
    Parse_vec libc 3 v (t1 :: t2 :: rest) m es
      = ⟨kArgNoError, rest, es,
          ((m.write v (Value.scalar (Scalar.float (libc.strtof t1).1))).write (v + 1)
            (Value.scalar (Scalar.float (libc.strtof t2).1))).write (v + 2)
            (Value.scalar (Scalar.float 0))⟩ := by
  have hl : Parse_vec_loop libc 3 v (t1 :: t2 :: rest) 0 m es
      = (2, ⟨kArgNoError, rest, es,
          (m.write v (Value.scalar (Scalar.float (libc.strtof t1).1))).write (v + 1)
            (Value.scalar (Scalar.float (libc.strtof t2).1))⟩) := by
    simp only [Parse_vec_loop, h1, h2, Parse_float_ok libc t1 hx1, Parse_float_ok libc t2 hx2,
      Nat.ofNat_pos, and_self, if_true, ne_eq, not_true_eq_false, if_false, Option.getD_none,
      Option.map_some', assign, Nat.add_zero, Nat.zero_add, Nat.one_lt_ofNat]
    cases rest with
    | nil => rfl
    | cons t ts =>
      have ht : IsOption t = true := hrest t (by simp)
      simp [Parse_vec_loop, ht]
  unfold Parse_vec
  simp only [hl, ne_eq, not_true_eq_false, if_false, OfNat.ofNat_ne_one, fill_loop]

/-- C28 (amended). Let a `Vec3` slot with destination `v[0..2]` be given two
tokens that are no option markers and that `strtof` reads to their end,
followed by an option marker or by the end of input, so that it consumes
exactly these two. `ParseArgument` returns `kArgNoError` with the tokens after
the two left over, the first two components hold the two values, and the third
component is set to 0, whatever it held before; memory outside `v[0..2]` is as
it was. -/
theorem vec3_two_tokens (libc : Libc) (fuel v : Nat) (self : Internal) (m : Mem)
    (info : cArgInfo) (t1 t2 : CStr) (rest : List CStr)
    (hty : info.mType = kTypeVec3) (hloc : info.mLocation = some v)
    (h1 : IsOption t1 = false) (h2 : IsOption t2 = false)
    (hx1 : (libc.strtof t1).2 = []) (hx2 : (libc.strtof t2).2 = [])
    (hrest : ∀ t ∈ rest.head?, IsOption t = true) :
    ∃ r, ParseArgument libc fuel self m info (t1 :: t2 :: rest) = Run.ret r
      ∧ r.error = kArgNoError ∧ r.argv = rest
      ∧ r.mem v = Value.scalar (Scalar.float (libc.strtof t1).1)
      ∧ r.mem (v + 1) = Value.scalar (Scalar.float (libc.strtof t2).1)
      ∧ r.mem (v + 2) = Value.scalar (Scalar.float 0)
      ∧ ∀ a, (a < v ∨ v + 3 ≤ a) → r.mem a = m a := by
  have hp := ParseArgument_vec libc fuel 3 v self m info (t1 :: t2 :: rest)
    (Or.inr (Or.inl rfl)) hty hloc
  rw [Parse_vec_two_of_three libc v m self.mErrorString t1 t2 rest h1 h2 hx1 hx2 hrest] at hp
  refine ⟨_, hp, rfl, rfl, ?_, ?_, ?_, ?_⟩
  · simp [Mem.write]
  · simp [Mem.write]
  · simp [Mem.write]
  · intro a ha
    have e1 : a ≠ v := by omega
    have e2 : a ≠ v + 1 := by omega
    have e3 : a ≠ v + 2 := by omega
    simp [Mem.write, e1, e2, e3]

theorem vec3_two_tokens_witness :
    ∃ r, ParseArgument exampleLibc 1 Internal.fresh sevenMem
          ⟨kTypeVec3, [], some 10, true, -1⟩ ("1".toList :: "2".toList :: ["-v".toList])
          = Run.ret r
      ∧ r.error = kArgNoError ∧ r.argv = ["-v".toList]
      ∧ r.mem 10 = Value.scalar (Scalar.float (exampleLibc.strtof "1".toList).1)
      ∧ r.mem (10 + 1) = Value.scalar (Scalar.float (exampleLibc.strtof "2".toList).1)
      ∧ r.mem (10 + 2) = Value.scalar (Scalar.float 0)
      ∧ ∀ a, (a < 10 ∨ 10 + 3 ≤ a) → r.mem a = sevenMem a :=
  vec3_two_tokens exampleLibc 1 10 Internal.fresh sevenMem ⟨kTypeVec3, [], some 10, true, -1⟩
    "1".toList "2".toList ["-v".toList] rfl rfl (by decide) (by decide) (by decide)
    (by decide) (by decide)

/-- A `Vec3` destination whose third component holds the bit pattern 7 is
given the two tokens `1` and `2`: the third component is 0 afterwards, not
7. -/
theorem vec3_two_tokens_counterexample :
    ∃ r, ParseArgument exampleLibc 1 Internal.fresh sevenMem
          ⟨kTypeVec3, [], some 10, true, -1⟩ ["1".toList, "2".toList] = Run.ret r
      ∧ r.error = kArgNoError ∧ r.argv = []
      ∧ sevenMem 12 = Value.scalar (Scalar.float 7)
      ∧ r.mem 12 = Value.scalar (Scalar.float 0) :=
  ⟨_, rfl, rfl, rfl, rfl, rfl⟩

/-! ## C29: option markers are not values -/

theorem takesValuesOnly_refl (argv : List CStr) : takesValuesOnly argv argv :=
  ⟨[], rfl, fun _ h => by cases h⟩

theorem takesValuesOnly_cons (t : CStr) (rest left : List CStr) (ht : IsOption t = false)
    (h : takesValuesOnly rest left) : takesValuesOnly (t :: rest) left := by
  obtain ⟨taken, h1, h2⟩ := h
  refine ⟨t :: taken, by rw [h1]; rfl, ?_⟩
  intro x hx
  rcases List.mem_cons.mp hx with rfl | hx
  · exact ht
  · exact h2 x hx

theorem takesValuesOnly_trans {a b c : List CStr} (h1 : takesValuesOnly a b)
    (h2 : takesValuesOnly b c) : takesValuesOnly a c := by
  obtain ⟨t1, e1, g1⟩ := h1
  obtain ⟨t2, e2, g2⟩ := h2
  refine ⟨t1 ++ t2, by rw [e1, e2, List.append_assoc], ?_⟩
  intro x hx
  rcases List.mem_append.mp hx with hx | hx
  · exact g1 x hx
  · exact g2 x hx

theorem Parse_vec_loop_takes (libc : Libc) (n v : Nat) :
    ∀ (argv : List CStr) (i : Nat) (m : Mem) (es : CStr),
      takesValuesOnly argv (Parse_vec_loop libc n v argv i m es).2.argv := by
  intro argv
  induction argv with
  | nil => intro i m es; exact takesValuesOnly_refl _
  | cons tok rest ih =>
    intro i m es
    unfold Parse_vec_loop
    by_cases hc : i < n ∧ IsOption tok = false
    · rw [if_pos hc]
      dsimp only
      split_ifs
      · exact takesValuesOnly_cons tok rest rest hc.2 (takesValuesOnly_refl _)
      · exact takesValuesOnly_cons tok rest _ hc.2 (ih _ _ _)
    · rw [if_neg hc]
      exact takesValuesOnly_refl _

theorem Parse_vec_takes (libc : Libc) (n v : Nat) (argv : List CStr) (m : Mem) (es : CStr) :
    takesValuesOnly argv (Parse_vec libc n v argv m es).argv := by
  have h := Parse_vec_loop_takes libc n v argv 0 m es
  unfold Parse_vec
  dsimp only
  split_ifs <;> exact h

theorem pushVec_takes (libc : Libc) (n : Nat) (info : cArgInfo) (argv : List CStr)
    (self : Internal) (m : Mem) : takesValuesOnly argv (pushVec libc n info argv self m).argv := by
  unfold pushVec
  dsimp only
  split_ifs <;> exact Parse_vec_takes libc n 0 argv _ _

theorem pushConverted_argv (c : Converted Scalar) (info : cArgInfo) (rest : List CStr)
    (self : Internal) (m : Mem) : (pushConverted c info rest self m).argv = rest := by
  unfold pushConverted
  dsimp only
  split_ifs
  · rfl
  · split <;> rfl

theorem ParseArrayArgument_takes (libc : Libc) (self : Internal) (m : Mem) (info : cArgInfo)
    (argv : List CStr) (r : PResult) (h : ParseArrayArgument libc self m info argv = Run.ret r)
    (hhead : ∀ t ∈ argv.head?, IsOption t = false) : takesValuesOnly argv r.argv := by
  unfold ParseArrayArgument at h
  simp only at h
  split_ifs at h
  · cases h; exact pushVec_takes _ _ _ _ _ _
  · cases h; exact pushVec_takes _ _ _ _ _ _
  · cases h; exact pushVec_takes _ _ _ _ _ _
  · split at h
    · split at h
      · cases h
      · rename_i arg rest
        cases h
        rw [pushConverted_argv]
        exact takesValuesOnly_cons arg rest rest (hhead arg (by simp)) (takesValuesOnly_refl _)
    · cases h; exact takesValuesOnly_refl _

theorem ListArrayLoop_takes (libc : Libc) (info : cArgInfo) :
    ∀ (fuel : Nat) (self : Internal) (m : Mem) (argv : List CStr) (r : PResult),
      ListArrayLoop libc info fuel self m argv = Run.ret r → takesValuesOnly argv r.argv := by
  intro fuel
  induction fuel with
  | zero => intro self m argv r h; cases h
  | succ fuel ih =>
    intro self m argv r h
    cases argv with
    | nil => simp only [ListArrayLoop] at h; cases h
    | cons tok rest =>
      simp only [ListArrayLoop] at h
      split_ifs at h with hopt
      · cases h; exact takesValuesOnly_refl _
      · cases hp : ParseArrayArgument libc self m info (tok :: rest) with
        | outOfFuel => rw [hp] at h; cases h
        | fault => rw [hp] at h; cases h
        | ret r1 =>
          rw [hp] at h
          have h1 := ParseArrayArgument_takes libc self m info _ r1 hp
            (fun t ht => by
              simp only [List.head?_cons, Option.mem_def, Option.some.injEq] at ht
              subst ht
              simpa using hopt)
          simp only at h
          split_ifs at h
          · cases h; exact h1
          · exact takesValuesOnly_trans h1 (ih _ _ _ _ h)
          · cases h; exact h1

theorem storeVec_takes (libc : Libc) (n : Nat) (info : cArgInfo) (argv : List CStr)
    (self : Internal) (m : Mem) (r : PResult) (h : storeVec libc n info argv self m = Run.ret r) :
    takesValuesOnly argv r.argv := by
  unfold storeVec at h
  split at h
  · cases h; exact Parse_vec_takes _ _ _ _ _ _
  · split at h
    · cases h
    · rename_i tok rest
      by_cases hopt : IsOption tok = true
      · rw [if_pos hopt] at h; cases h
      · rw [if_neg hopt] at h
        dsimp only at h
        split_ifs at h
        cases h
        exact takesValuesOnly_cons tok rest rest (by simpa using hopt) (takesValuesOnly_refl _)

theorem ParseArgument_takes (libc : Libc) (fuel : Nat) (self : Internal) (m : Mem)
    (info : cArgInfo) (argv : List CStr) (r : PResult)
    (h : ParseArgument libc fuel self m info argv = Run.ret r)
    (hhead : ∀ t ∈ argv.head?, IsOption t = false) : takesValuesOnly argv r.argv := by
  unfold ParseArgument at h
  simp only at h
  split_ifs at h
  · split at h
    · cases h
    · exact ListArrayLoop_takes libc info _ _ _ _ _ h
  · split at h
    · cases h
    · rename_i arg rest
      split at h
      · cases h
        exact takesValuesOnly_cons arg rest rest (hhead arg (by simp)) (takesValuesOnly_refl _)
      · cases h
      · cases h
  · exact storeVec_takes _ _ _ _ _ _ _ h
  · split at h
    · split at h
      · cases h
      · rename_i arg rest
        cases h
        exact takesValuesOnly_cons arg rest rest (hhead arg (by simp)) (takesValuesOnly_refl _)
    · cases h; exact takesValuesOnly_refl _

theorem ParseOptionArgs_takes (libc : Libc) (fuel : Nat) :
    ∀ (slots : List cArgInfo) (self : Internal) (m : Mem) (argv : List CStr) (r : PResult),
      ParseOptionArgs libc fuel slots self m argv = Run.ret r →
      takesValuesOnly argv r.argv := by
  intro slots
  induction slots with
  | nil =>
    intro self m argv r h
    simp only [ParseOptionArgs] at h
    cases h; exact takesValuesOnly_refl _
  | cons info later ih =>
    intro self m argv r h
    cases argv with
    | nil =>
      simp only [ParseOptionArgs, if_true] at h
      split_ifs at h <;> (cases h; exact takesValuesOnly_refl _)
    | cons tok rest =>
      by_cases hopt : IsOption tok = true
      · simp only [ParseOptionArgs, hopt, if_true] at h
        split_ifs at h <;> (cases h; exact takesValuesOnly_refl _)
      · simp only [ParseOptionArgs, hopt, Bool.false_eq_true, if_false] at h
        cases hp : ParseArgument libc fuel self m info (tok :: rest) with
        | outOfFuel => rw [hp] at h; cases h
        | fault => rw [hp] at h; cases h
        | ret r1 =>
          rw [hp] at h
          have h1 := ParseArgument_takes libc fuel self m info (tok :: rest) r1 hp
            (fun t ht => by
              simp only [List.head?_cons, Option.mem_def, Option.some.injEq] at ht
              subst ht
              simpa using hopt)
          dsimp only at h
          split_ifs at h
          · cases h; exact h1
          · exact takesValuesOnly_trans h1 (ih _ _ _ _ h)

theorem ParseOptionLoop_takes (libc : Libc) (fuel : Nat) (name : CStr) :
    ∀ (opts : List cOptionsSpec) (self : Internal) (m : Mem) (argv : List CStr) (r : PResult),
      ParseOptionLoop libc fuel name opts self m argv = Run.ret r →
      takesValuesOnly argv r.argv := by
  intro opts
  induction opts with
  | nil =>
    intro self m argv r h
    unfold ParseOptionLoop at h
    split_ifs at h
    · cases h; exact takesValuesOnly_refl _
    · cases h; exact takesValuesOnly_refl _
  | cons opt later ih =>
    intro self m argv r h
    by_cases hm : StrEq opt.mName name = true
    · rw [ParseOptionLoop_match_eq libc fuel name opt later self m argv hm] at h
      split at h
      · rename_i r1 hr1
        cases h
        exact (ParseOptionArgs_takes libc fuel _ _ _ _ r1 hr1 : takesValuesOnly argv r1.argv)
      · cases h
      · cases h
    · rw [ParseOptionLoop_cons_ne libc fuel name opt later self m argv (by simpa using hm)] at h
      exact ih _ _ _ _ h

theorem ParseOption_takes (libc : Libc) (fuel : Nat) (self : Internal) (m : Mem)
    (tok : CStr) (rest : List CStr) (r : PResult)
    (h : ParseOption libc fuel self m (tok :: rest) = Run.ret r) :
    takesValuesOnly rest r.argv := by
  unfold ParseOption at h
  dsimp only at h
  split_ifs at h
  · cases h; exact takesValuesOnly_refl _
  · exact ParseOptionLoop_takes libc fuel _ _ _ _ _ _ h
  · exact ParseOptionLoop_takes libc fuel _ _ _ _ _ _ h

/-- C29. No option marker is consumed as a value. Let `ParseArgument` be
entered at a token that is no option marker, as both its callers do, and let
it return: the tokens it took from `argv`, which are the only tokens it hands
to a converter or stores, are no option markers, whatever the kind of the slot
(scalar, enum, vector, list array, split array). The same holds for all the
tokens that `ParseOptionArgs` takes for the slots of an option, and for the
tokens that `ParseOption` takes after the marker it dispatches on. The main
loop of `Parse` hands a token that is an option marker to `ParseOption`, and
enters `ParseArgument` for a main slot only at a token that is none. -/
theorem option_markers_not_values (libc : Libc) (fuel : Nat) (self : Internal) (m : Mem)
    (info : cArgInfo) (argv : List CStr) (r : PResult)
    (h : ParseArgument libc fuel self m info argv = Run.ret r)
    (hhead : ∀ t ∈ argv.head?, IsOption t = false) :
    takesValuesOnly argv r.argv
      ∧ (∀ (slots : List cArgInfo) (s1 : Internal) (m1 : Mem) (argv1 : List CStr)
          (r1 : PResult), ParseOptionArgs libc fuel slots s1 m1 argv1 = Run.ret r1 →
          takesValuesOnly argv1 r1.argv)
      ∧ (∀ (s1 : Internal) (m1 : Mem) (tok : CStr) (rest : List CStr) (r1 : PResult),
          ParseOption libc fuel s1 m1 (tok :: rest) = Run.ret r1 →
          takesValuesOnly rest r1.argv)
      ∧ (∀ (commandName : CStr) (n : Nat) (mainArgs : List cArgInfo) (s1 : Internal)
          (m1 : Mem) (tok : CStr) (rest : List CStr), IsOption tok = true →
          ParseLoop libc commandName n (fuel + 1) mainArgs s1 m1 (tok :: rest)
            = match ParseOption libc fuel s1 m1 (tok :: rest) with
              | Run.ret r1 =>
                if r1.error ≠ kArgNoError then
                  if r1.error = kArgHelpRequested then
                    Run.ret ⟨r1.error, r1.argv,
                      { r1.self with
                        mErrorString :=
                          CreateHelpString r1.self commandName r1.self.mErrorString },
                      r1.mem⟩
                  else Run.ret r1
                else ParseLoop libc commandName n fuel mainArgs r1.self r1.mem r1.argv
              | Run.outOfFuel => Run.outOfFuel
              | Run.fault => Run.fault)
      ∧ ∀ (commandName : CStr) (n : Nat) (slot : cArgInfo) (later : List cArgInfo)
          (s1 : Internal) (m1 : Mem) (tok : CStr) (rest : List CStr), IsOption tok = false →
          ParseLoop libc commandName n (fuel + 1) (slot :: later) s1 m1 (tok :: rest)
            = match ParseArgument libc fuel s1 m1 slot (tok :: rest) with
              | Run.ret r1 =>
                if r1.error ≠ kArgNoError then Run.ret r1
                else ParseLoop libc commandName n fuel later r1.self r1.mem r1.argv
              | Run.outOfFuel => Run.outOfFuel
              | Run.fault => Run.fault := by
  refine ⟨ParseArgument_takes libc fuel self m info argv r h hhead,
    fun slots s1 m1 argv1 r1 h1 => ParseOptionArgs_takes libc fuel slots s1 m1 argv1 r1 h1,
    fun s1 m1 tok rest r1 h1 => ParseOption_takes libc fuel s1 m1 tok rest r1 h1, ?_, ?_⟩
  · intro commandName n mainArgs s1 m1 tok rest htok
    simp only [ParseLoop, htok, if_true]
  · intro commandName n slot later s1 m1 tok rest htok
    simp only [ParseLoop, htok, Bool.false_eq_true, if_false]

theorem vec_stops_at_marker :
    ParseArgument exampleLibc 1 Internal.fresh exampleMem
        ⟨kTypeVec3, [], some 10, true, -1⟩ ["1".toList, "-x".toList, "2".toList]
      = Run.ret ⟨kArgNoError, ["-x".toList, "2".toList], Internal.fresh,
          (Parse_vec exampleLibc 3 10 ["1".toList, "-x".toList, "2".toList] exampleMem []).mem⟩ := by
  rw [ParseArgument_vec exampleLibc 1 3 10 Internal.fresh exampleMem _ _ (Or.inr (Or.inl rfl))
    rfl rfl]
  rfl

theorem option_markers_not_values_witness :
    takesValuesOnly ["1".toList, "-x".toList, "2".toList]
        (⟨kArgNoError, ["-x".toList, "2".toList], Internal.fresh,
          (Parse_vec exampleLibc 3 10 ["1".toList, "-x".toList, "2".toList] exampleMem []).mem⟩
          : PResult).argv
      ∧ (∀ (slots : List cArgInfo) (s1 : Internal) (m1 : Mem) (argv1 : List CStr)
          (r1 : PResult), ParseOptionArgs exampleLibc 1 slots s1 m1 argv1 = Run.ret r1 →
          takesValuesOnly argv1 r1.argv)
      ∧ (∀ (s1 : Internal) (m1 : Mem) (tok : CStr) (rest : List CStr) (r1 : PResult),
          ParseOption exampleLibc 1 s1 m1 (tok :: rest) = Run.ret r1 →
          takesValuesOnly rest r1.argv)
      ∧ (∀ (commandName : CStr) (n : Nat) (mainArgs : List cArgInfo) (s1 : Internal)
          (m1 : Mem) (tok : CStr) (rest : List CStr), IsOption tok = true →
          ParseLoop exampleLibc commandName n (1 + 1) mainArgs s1 m1 (tok :: rest)
            = match ParseOption exampleLibc 1 s1 m1 (tok :: rest) with
              | Run.ret r1 =>
                if r1.error ≠ kArgNoError then
                  if r1.error = kArgHelpRequested then
                    Run.ret ⟨r1.error, r1.argv,
                      { r1.self with
                        mErrorString :=
                          CreateHelpString r1.self commandName r1.self.mErrorString },
                      r1.mem⟩
                  else Run.ret r1
                else ParseLoop exampleLibc commandName n 1 mainArgs r1.self r1.mem r1.argv
              | Run.outOfFuel => Run.outOfFuel
              | Run.fault => Run.fault)
      ∧ ∀ (commandName : CStr) (n : Nat) (slot : cArgInfo) (later : List cArgInfo)
          (s1 : Internal) (m1 : Mem) (tok : CStr) (rest : List CStr), IsOption tok = false →
          ParseLoop exampleLibc commandName n (1 + 1) (slot :: later) s1 m1 (tok :: rest)
            = match ParseArgument exampleLibc 1 s1 m1 slot (tok :: rest) with
              | Run.ret r1 =>
                if r1.error ≠ kArgNoError then Run.ret r1
                else ParseLoop exampleLibc commandName n 1 later r1.self r1.mem r1.argv
              | Run.outOfFuel => Run.outOfFuel
              | Run.fault => Run.fault :=
  option_markers_not_values exampleLibc 1 Internal.fresh exampleMem
    ⟨kTypeVec3, [], some 10, true, -1⟩ ["1".toList, "-x".toList, "2".toList]
    ⟨kArgNoError, ["-x".toList, "2".toList], Internal.fresh,
      (Parse_vec exampleLibc 3 10 ["1".toList, "-x".toList, "2".toList] exampleMem []).mem⟩
    vec_stops_at_marker (by decide)

/-! ## C30: the option `-v3 <vec3>` without values -/

theorem construct_v3 (k : Nat) (old : Internal) (description : CStr) (v : Nat) (doc : CStr) :
    ConstructSpec (k + 2) old description (v3Args v doc)
      = Run.ret (kSpecNoError, v3Spec old description v doc) := by
  have hb : LineBegin (resetSpec old description) "-v3 <vec3>".toList
      [VaArg.ptr v, VaArg.cstr doc, VaArg.null] kSpecNoError
      = Run.ret ⟨true, "v3".toList, -1,
          ⟨[], "<vec3>".toList, 0, 0, [], [VaArg.ptr v, VaArg.cstr doc, VaArg.null],
            kSpecNoError⟩⟩ := by
    simp only [LineBegin]
    simp +decide [resetSpec, va_int]
  have hs1 : TokenStep (resetSpec old description)
      ⟨[], "<vec3>".toList, 0, 0, [], [VaArg.ptr v, VaArg.cstr doc, VaArg.null], kSpecNoError⟩
      = Run.ret (TokenStepResult.next
          ⟨[], [], 0, 0, [⟨kTypeVec3, [], some v, true, -1⟩], [VaArg.cstr doc, VaArg.null],
            kSpecNoError⟩) := by
    simp only [TokenStep]
    simp +decide [va_ptr, va_int]
    rw [FindNameAndTypeFromOption_builtin _ _ (by decide)]
    exact ⟨by decide, by decide⟩
  have hloop : TokenLoop (resetSpec old description) (k + 1)
      ⟨[], "<vec3>".toList, 0, 0, [], [VaArg.ptr v, VaArg.cstr doc, VaArg.null], kSpecNoError⟩
      = Run.ret (none,
          ⟨[], [], 0, 0, [⟨kTypeVec3, [], some v, true, -1⟩], [VaArg.cstr doc, VaArg.null],
            kSpecNoError⟩) := by
    rw [TokenLoop_next _ k _ _ (by show "<vec3>".toList ≠ []; decide) hs1,
      TokenLoop_done _ _ _ rfl]
  have hline := ConstructLine_eq (k + 1) _ _ _ _ _ none _ hb hloop
  show ClauseLoop (k + 1 + 1) (resetSpec old description)
    (VaArg.cstr "-v3 <vec3>".toList :: [VaArg.ptr v, VaArg.cstr doc, VaArg.null])
    kSpecNoError = _
  rw [ClauseLoop_line (k + 1) _ _ _ _ _ _ _ (by decide) (by decide) (hline.trans rfl),
    ClauseLoop_null]
  rfl

/-- C30. The option declared as `-v3 <vec3>` compiles to one required `Vec3`
slot. When the token after `-v3` is an option marker, or when `-v3` is the
last token, `Parse` returns `kArgErrorNotEnoughArgs` with the message `Not
enough arguments: expecting at least 1 more in -v3`, the tokens after `-v3`
are left unconsumed, and no destination is written. -/
theorem v3_without_values (libc : Libc) (k f : Nat) (old : Internal)
    (description doc commandName : CStr) (v : Nat) (m : Mem) (rest : List CStr)
    (hrest : ∀ t ∈ rest.head?, IsOption t = true) :
    ∃ spec, ConstructSpec (k + 2) old description (v3Args v doc) = Run.ret (kSpecNoError, spec)
      ∧ spec.mOptions.map (fun o => o.mArguments.map (fun i => (i.mType, i.mIsRequired)))
          = [[(kTypeVec3, true)]]
      ∧ ∃ r, Parse libc (f + 1) spec m commandName ("-v3".toList :: rest) = Run.ret r
          ∧ r.error = kArgErrorNotEnoughArgs
          ∧ r.self.mErrorString
              = "Not enough arguments: expecting at least 1 more in -v3".toList
          ∧ r.argv = rest
          ∧ r.mem = m := by
  refine ⟨_, construct_v3 k old description v doc, rfl, ?_⟩
  have hargs : ParseOptionArgs libc f [⟨kTypeVec3, [], some v, true, -1⟩]
      (({ v3Spec old description v doc with mFlags := 0, mErrorString := [] }
        : Internal).markFlag (-1)) m rest
      = Run.ret ⟨kArgErrorNotEnoughArgs, rest,
          { v3Spec old description v doc with
            mFlags := 0,
            mErrorString := "Not enough arguments: expecting at least 1 more".toList },
          m⟩ := by
    rw [ParseOptionArgs_stop libc f _ _ _ _ rest hrest]
    simp only [markFlag_neg_one, notEnough_one, if_true]
  have hopt := ParseOption_only libc f
    { v3Spec old description v doc with mFlags := 0, mErrorString := [] } m
    "v3".toList _ [] rest _ (by decide) (by decide) rfl
    (show StrEq "v3".toList "v3".toList = true by decide) hargs
  refine ⟨_, Parse_option_err libc f _ m commandName "-v3".toList rest _ (by decide)
    hopt (by simp) (by simp), rfl, ?_, rfl, rfl⟩
  show "Not enough arguments: expecting at least 1 more".toList ++ " in -".toList
      ++ "v3".toList = _
  decide

theorem v3_without_values_witness :
    ∃ spec, ConstructSpec (0 + 2) Internal.fresh "test".toList (v3Args 10 "Set v3".toList)
        = Run.ret (kSpecNoError, spec)
      ∧ spec.mOptions.map (fun o => o.mArguments.map (fun i => (i.mType, i.mIsRequired)))
          = [[(kTypeVec3, true)]]
      ∧ ∃ r, Parse exampleLibc (1 + 1) spec exampleMem "cmd".toList
            ("-v3".toList :: ["-scale".toList, "2".toList]) = Run.ret r
          ∧ r.error = kArgErrorNotEnoughArgs
          ∧ r.self.mErrorString
              = "Not enough arguments: expecting at least 1 more in -v3".toList
          ∧ r.argv = ["-scale".toList, "2".toList]
          ∧ r.mem = exampleMem :=
  v3_without_values exampleLibc 0 1 Internal.fresh "test".toList "Set v3".toList "cmd".toList
    10 exampleMem ["-scale".toList, "2".toList] (by decide)

/-! ## C31: the option `-h` and the check for missing main arguments -/

theorem construct_help :
    ConstructSpec 5 Internal.fresh "test".toList helpArgs = Run.ret (kSpecNoError, helpSpec) := by
  decide

theorem ParseOptionArgs_none_needed (libc : Libc) (fuel : Nat) (slots : List cArgInfo)
    (self : Internal) (m : Mem) (h : ∀ i ∈ slots.head?, i.mIsRequired = false) :
    ParseOptionArgs libc fuel slots self m [] = Run.ret ⟨kArgNoError, [], self, m⟩ := by
  cases slots with
  | nil => rfl
  | cons info later =>
    rw [ParseOptionArgs_stop libc fuel info later self m [] (by simp), h info (by simp)]
    rfl

theorem ParseOptionLoop_help_declared (libc : Libc) (fuel : Nat) (self : Internal) (m : Mem)
    (pre post : List cOptionsSpec) (opt : cOptionsSpec)
    (hpre : ∀ o ∈ pre, StrEq o.mName "h".toList = false)
    (hname : StrEq opt.mName "h".toList = true)
    (hargs : ∀ i ∈ opt.mArguments.head?, i.mIsRequired = false) :
    ParseOptionLoop libc fuel "h".toList (pre ++ opt :: post) self m []
      = Run.ret ⟨kArgNoError, [],
          ({ self with mHelpRequested := true } : Internal).markFlag opt.mFlagToSet, m⟩ := by
  have hs : ∀ s : Internal, helpSeen "h".toList s = { s with mHelpRequested := true } :=
    fun s => rfl
  have hsel : helpSeen "h".toList (if pre = [] then self else helpSeen "h".toList self)
      = { self with mHelpRequested := true } := by
    split_ifs
    · exact hs self
    · rw [helpSeen_idem]; exact hs self
  rw [ParseOptionLoop_skip libc fuel "h".toList (opt :: post) m [] pre self hpre,
    ParseOptionLoop_match_eq libc fuel "h".toList opt post _ m [] hname, hsel,
    ParseOptionArgs_none_needed libc fuel opt.mArguments _ m hargs]
  rfl

theorem ParseOption_help_declared (libc : Libc) (fuel : Nat) (self : Internal) (m : Mem)
    (pre post : List cOptionsSpec) (opt : cOptionsSpec)
    (hopts : self.mOptions = pre ++ opt :: post)
    (hpre : ∀ o ∈ pre, StrEq o.mName "h".toList = false)
    (hname : StrEq opt.mName "h".toList = true)
    (hargs : ∀ i ∈ opt.mArguments.head?, i.mIsRequired = false) :
    ParseOption libc fuel self m ["-h".toList]
      = Run.ret ⟨kArgNoError, [],
          ({ self with mHelpRequested := true } : Internal).markFlag opt.mFlagToSet, m⟩ := by
  have h := ParseOptionLoop_help_declared libc fuel self m pre post opt hpre hname hargs
  rw [← hopts] at h
  rw [show "-h".toList = kOptionChar :: "h".toList from rfl,
    ParseOption_single libc fuel self m "h".toList [] (by decide)]
  exact h

/-- C31 (amended). Let the first option of the instance whose name is `h`
(ignoring case) have no value slot or an optional first one, and let the main
group start with a required slot. `Parse` of the single token `-h` returns
`kArgNoError`, not `kArgErrorNotEnoughArgs` and not `kArgHelpRequested`: the
option is found and dispatched, which raises the help marker, and the check
for missing main arguments after the loop is skipped while the marker is up.
The flag of the option is set, no destination is written, and the help marker
stays raised. With the marker down, the same check at the end of input returns
`kArgErrorNotEnoughArgs`. The lines `<name:string>` and `-h^ [<helpType>]` of
the example compile to such an instance. -/
theorem help_option_suppresses_check (libc : Libc) (f : Nat) (self : Internal) (m : Mem)
    (commandName : CStr) (pre post : List cOptionsSpec) (opt : cOptionsSpec)
    (info : cArgInfo) (later : List cArgInfo)
    (hopts : self.mOptions = pre ++ opt :: post)
    (hpre : ∀ o ∈ pre, StrEq o.mName "h".toList = false)
    (hname : StrEq opt.mName "h".toList = true)
    (hargs : ∀ i ∈ opt.mArguments.head?, i.mIsRequired = false)
    (hmain : self.mMainArgs.mArguments = info :: later) (hreq : info.mIsRequired = true) :
    (∃ r, Parse libc (f + 1) self m commandName ["-h".toList] = Run.ret r
        ∧ r.error = kArgNoError
        ∧ r.self.mHelpRequested = true
        ∧ r.mem = m
        ∧ ∀ F : Nat, F < 32 → opt.mFlagToSet = (F : Int) → r.self.Flag F = true)
      ∧ (∀ (s : Internal) (n : Nat), s.mHelpRequested = false →
          ∃ r, ParseLoop libc commandName n f self.mMainArgs.mArguments s m [] = Run.ret r
            ∧ r.error = kArgErrorNotEnoughArgs)
      ∧ ConstructSpec 5 Internal.fresh "test".toList helpArgs = Run.ret (kSpecNoError, helpSpec)
      ∧ helpSpec.mOptions.map (fun o => (o.mName, o.mFlagToSet)) = [("h".toList, 3)]
      ∧ helpSpec.mMainArgs.mArguments.map (fun i => i.mIsRequired) = [true] := by
  refine ⟨?_, ?_, construct_help, rfl, rfl⟩
  swap
  · intro s n hs
    rw [hmain, ParseLoop_nil_cons, if_pos ⟨hs, hreq⟩]
    exact ⟨_, rfl, rfl⟩
  have hopt := ParseOption_help_declared libc f
    { self with mFlags := 0, mErrorString := [] } m pre post opt hopts hpre hname hargs
  have hP : Parse libc (f + 1) self m commandName ["-h".toList]
      = Run.ret ⟨kArgNoError, [],
          ({ self with mFlags := 0, mErrorString := [], mHelpRequested := true }
            : Internal).markFlag opt.mFlagToSet, m⟩ := by
    rw [Parse, if_neg (by simp),
      ParseLoop_option_step libc commandName _ f _ _ m _ _ _ (by decide) hopt rfl, hmain,
      ParseLoop_nil_cons, if_neg (by simp)]
  refine ⟨_, hP, rfl, by simp, rfl, ?_⟩
  intro F hF hflag
  rw [hflag]
  exact Flag_markFlag_self _ F hF

theorem help_option_suppresses_check_witness :
    (∃ r, Parse exampleLibc (1 + 1) helpSpec exampleMem "cmd".toList ["-h".toList] = Run.ret r
        ∧ r.error = kArgNoError
        ∧ r.self.mHelpRequested = true
        ∧ r.mem = exampleMem
        ∧ ∀ F : Nat, F < 32 →
            (⟨⟨[⟨kTypeEnumBegin, [], some 1, false, -1⟩], "Show help".toList⟩, "h".toList, 3⟩
              : cOptionsSpec).mFlagToSet = (F : Int) → r.self.Flag F = true)
      ∧ (∀ (s : Internal) (n : Nat), s.mHelpRequested = false →
          ∃ r, ParseLoop exampleLibc "cmd".toList n 1 helpSpec.mMainArgs.mArguments s
                exampleMem [] = Run.ret r
            ∧ r.error = kArgErrorNotEnoughArgs)
      ∧ ConstructSpec 5 Internal.fresh "test".toList helpArgs = Run.ret (kSpecNoError, helpSpec)
      ∧ helpSpec.mOptions.map (fun o => (o.mName, o.mFlagToSet)) = [("h".toList, 3)]
      ∧ helpSpec.mMainArgs.mArguments.map (fun i => i.mIsRequired) = [true] :=
  help_option_suppresses_check exampleLibc 1 helpSpec exampleMem "cmd".toList [] []
    ⟨⟨[⟨kTypeEnumBegin, [], some 1, false, -1⟩], "Show help".toList⟩, "h".toList, 3⟩
    ⟨kTypeString, "name".toList, some 0, true, -1⟩ [] rfl (by decide) (by decide) (by decide)
    rfl rfl

/-- C31 as stated fails for an option `-h` with a required value. The lines
`<name:string>` and `-h^ <n:int>` compile to a main group that starts with a
required slot and an option `h` with flag 3 whose slot is required; on
`[cmd, -h]` the option's group finds no token for that slot and `Parse`
returns `kArgErrorNotEnoughArgs`. -/
theorem help_option_suppresses_check_counterexample :
    ConstructSpec 5 Internal.fresh "test".toList helpIntArgs
        = Run.ret (kSpecNoError, helpIntSpec)
      ∧ ∃ r, Parse exampleLibc 1 helpIntSpec exampleMem "cmd".toList ["-h".toList] = Run.ret r
          ∧ r.error = kArgErrorNotEnoughArgs := by
  refine ⟨by decide, ⟨_, rfl, by decide⟩⟩

/-! ## C32: an option declared with two dashes -/

theorem NextToken_whole (s : CStr) (h : ∀ c ∈ s, isTokenSep c = false) :
    NextToken s = (s, []) := by
  have h1 : s.dropWhile isTokenSep = s := by
    cases s with
    | nil => rfl
    | cons c cs => rw [List.dropWhile_cons, h c (List.mem_cons_self _ _)]; rfl
  have h2 : s.takeWhile (fun c => !isTokenSep c) = s := by
    rw [List.takeWhile_eq_self_iff]
    intro x hx
    simp [h x hx]
  have h3 : s.dropWhile (fun c => !isTokenSep c) = [] := by
    rw [List.dropWhile_eq_nil_iff]
    intro x hx
    simp [h x hx]
  rw [NextToken_eq, h1, h2, h3]
  rfl

theorem construct_dashed (k : Nat) (old : Internal) (description name doc : CStr)
    (hne : name ≠ []) (hnosep : ∀ c ∈ name, isTokenSep c = false)
    (hlast : name.getLast? ≠ some kSetFlagChar) :
    ConstructSpec (k + 2) old description
        [VaArg.cstr (kOptionChar :: kOptionChar :: name), VaArg.cstr doc, VaArg.null]
      = Run.ret (kSpecNoError, dashedSpec old description name doc) := by
  have hsep : ∀ c ∈ kOptionChar :: kOptionChar :: name, isTokenSep c = false := by
    intro c hc
    simp only [List.mem_cons] at hc
    rcases hc with rfl | rfl | hc
    · decide
    · decide
    · exact hnosep c hc
  have hl : (kOptionChar :: kOptionChar :: name).getLast? = name.getLast? := by
    cases name with
    | nil => exact absurd rfl hne
    | cons c cs => simp [List.getLast?_cons_cons]
  have hb : LineBegin (resetSpec old description) (kOptionChar :: kOptionChar :: name)
      [VaArg.cstr doc, VaArg.null] kSpecNoError
      = Run.ret ⟨true, kOptionChar :: name, -1,
          ⟨[], [], 0, 0, [], [VaArg.cstr doc, VaArg.null], kSpecNoError⟩⟩ := by
    have hopt : IsOption (kOptionChar :: kOptionChar :: name) = true := by
      simp [IsOption]
    have hflag : ((kOptionChar :: kOptionChar :: name).getLast? == some kSetFlagChar) = false := by
      rw [hl]
      exact beq_false_of_ne hlast
    unfold LineBegin
    simp only [NextToken_whole _ hsep, hopt, hflag, Bool.and_false, Bool.false_eq_true, if_false,
      if_true, List.drop_succ_cons, List.drop_zero]
    rfl
  have hline := ConstructLine_eq (k + 1) _ _ _ _ _ none _ hb (TokenLoop_done _ _ _ rfl)
  show ClauseLoop (k + 1 + 1) (resetSpec old description)
    (VaArg.cstr (kOptionChar :: kOptionChar :: name) :: [VaArg.cstr doc, VaArg.null])
    kSpecNoError = _
  rw [ClauseLoop_line (k + 1) _ _ _ _ _ _ _ (by simp [kEnumSpecChar, kOptionChar])
      (by simp [kEnumSpecInlineChar, kOptionChar]) (hline.trans rfl),
    ClauseLoop_null]
  rfl

theorem StrEq_cons_self (c : Char) (name : CStr) : StrEq (c :: name) name = false := by
  cases h : StrEq (c :: name) name
  · rfl
  · have := StrEq_length _ _ h
    simp at this

/-- C32 (amended). Let `name` begin with a letter, hold no separator, not end
in `^` and not be the reserved name `h` in either case. The grammar line
`--name` compiles to one option stored under the name `-name`: the compiler
drops one dash. On an instance with no help request pending, the token `-name`
is looked up as `name` and the token `--name` is looked up as `name` too, the
matcher dropping up to two dashes; neither equals the stored `-name`, and
`Parse` returns `kArgErrorUnknownOption` with the message
`Unknown option 'name'` for both, leaving the tokens after it unconsumed. -/
theorem double_dash_declaration (libc : Libc) (k f : Nat) (old : Internal)
    (description doc commandName name : CStr) (rest : List CStr) (m : Mem)
    (c : Char) (cs : CStr) (hname : name = c :: cs) (halpha : isalpha c = true)
    (hnosep : ∀ x ∈ name, isTokenSep x = false)
    (hlast : name.getLast? ≠ some kSetFlagChar)
    (hh : StrEq name "h".toList = false)
    (hfresh : old.mHelpRequested = false) :
    ∃ spec, ConstructSpec (k + 2) old description
          [VaArg.cstr (kOptionChar :: kOptionChar :: name), VaArg.cstr doc, VaArg.null]
        = Run.ret (kSpecNoError, spec)
      ∧ spec.mOptions.map (fun o => o.mName) = [kOptionChar :: name]
      ∧ (∃ r, Parse libc (f + 1) spec m commandName ((kOptionChar :: name) :: rest) = Run.ret r
          ∧ r.error = kArgErrorUnknownOption ∧ r.argv = rest
          ∧ r.self.mErrorString = Sprintf ("Unknown option '".toList ++ name ++ "'".toList))
      ∧ (∃ r, Parse libc (f + 1) spec m commandName
              ((kOptionChar :: kOptionChar :: name) :: rest) = Run.ret r
          ∧ r.error = kArgErrorUnknownOption ∧ r.argv = rest
          ∧ r.self.mErrorString = Sprintf ("Unknown option '".toList ++ name ++ "'".toList)) := by
  have hne : name ≠ [] := by rw [hname]; exact List.cons_ne_nil _ _
  have hhead : name.head? ≠ some kOptionChar := by
    rw [hname]
    intro h
    simp only [List.head?_cons, Option.some.injEq] at h
    rw [h] at halpha
    exact absurd halpha (by decide)
  have hloop : ParseOptionLoop libc f name
      ({ dashedSpec old description name doc with mFlags := 0, mErrorString := [] }
        : Internal).mOptions
      { dashedSpec old description name doc with mFlags := 0, mErrorString := [] } m rest
      = Run.ret ⟨kArgErrorUnknownOption, rest,
          { dashedSpec old description name doc with
            mFlags := 0,
            mErrorString := (Sprintf ("Unknown option '".toList ++ name ++ "'".toList)) },
          m⟩ := by
    refine ParseOptionLoop_nomatch libc f name m rest _
      { dashedSpec old description name doc with mFlags := 0, mErrorString := [] } hh hfresh ?_
    intro o ho
    have ho1 : o = (⟨⟨[], doc⟩, kOptionChar :: name, -1⟩ : cOptionsSpec) := by
      simpa [dashedSpec] using ho
    rw [ho1]
    exact StrEq_cons_self _ _
  have hsingle : ParseOption libc f
      { dashedSpec old description name doc with mFlags := 0, mErrorString := [] } m
      ((kOptionChar :: name) :: rest)
      = Run.ret ⟨kArgErrorUnknownOption, rest,
          { dashedSpec old description name doc with
            mFlags := 0,
            mErrorString := (Sprintf ("Unknown option '".toList ++ name ++ "'".toList)) },
          m⟩ := by
    rw [ParseOption_single libc f _ m name rest hhead]
    exact hloop
  have hdouble : ParseOption libc f
      { dashedSpec old description name doc with mFlags := 0, mErrorString := [] } m
      ((kOptionChar :: kOptionChar :: name) :: rest)
      = Run.ret ⟨kArgErrorUnknownOption, rest,
          { dashedSpec old description name doc with
            mFlags := 0,
            mErrorString := (Sprintf ("Unknown option '".toList ++ name ++ "'".toList)) },
          m⟩ := by
    rw [ParseOption_double libc f _ m name rest hne hhead]
    exact hsingle
  have ho1 : IsOption (kOptionChar :: name) = true := by
    rw [hname]
    simp [IsOption, halpha]
  have ho2 : IsOption (kOptionChar :: kOptionChar :: name) = true := by
    simp [IsOption]
  refine ⟨_, construct_dashed k old description name doc hne hnosep hlast, rfl, ?_, ?_⟩
  · exact ⟨_, Parse_option_err libc f _ m commandName _ rest _ ho1 hsingle (by simp)
      (by simp), rfl, rfl, rfl⟩
  · exact ⟨_, Parse_option_err libc f _ m commandName _ rest _ ho2 hdouble (by simp)
      (by simp), rfl, rfl, rfl⟩

theorem double_dash_declaration_witness :
    ∃ spec, ConstructSpec (0 + 2) Internal.fresh "test".toList
          [VaArg.cstr (kOptionChar :: kOptionChar :: "name".toList),
            VaArg.cstr "Named".toList, VaArg.null]
        = Run.ret (kSpecNoError, spec)
      ∧ spec.mOptions.map (fun o => o.mName) = [kOptionChar :: "name".toList]
      ∧ (∃ r, Parse exampleLibc (1 + 1) spec exampleMem "cmd".toList
              ((kOptionChar :: "name".toList) :: ["x".toList]) = Run.ret r
          ∧ r.error = kArgErrorUnknownOption ∧ r.argv = ["x".toList]
          ∧ r.self.mErrorString
              = Sprintf ("Unknown option '".toList ++ "name".toList ++ "'".toList))
      ∧ (∃ r, Parse exampleLibc (1 + 1) spec exampleMem "cmd".toList
              ((kOptionChar :: kOptionChar :: "name".toList) :: ["x".toList]) = Run.ret r
          ∧ r.error = kArgErrorUnknownOption ∧ r.argv = ["x".toList]
          ∧ r.self.mErrorString
              = Sprintf ("Unknown option '".toList ++ "name".toList ++ "'".toList)) :=
  double_dash_declaration exampleLibc 0 1 Internal.fresh "test".toList "Named".toList
    "cmd".toList "name".toList ["x".toList] exampleMem 'n' "ame".toList rfl (by decide)
    (by decide) (by decide) (by decide) rfl

/-- C32 as stated fails for three kinds of name. Declared as `--h`, the option
is stored as `-h`, and both `-h` and `--h` are looked up as `h`, the reserved
name: `Parse` returns `kArgHelpRequested`. Declared as `--9`, the option is
stored as `-9`, and the token `-9` is no option marker: it is taken for a
main argument and `Parse` returns `kArgErrorTooManyArgs`. Declared as `--a^`,
the option is stored as `-a`, without the `^`, which marks a flag. -/
theorem double_dash_declaration_counterexample :
    ConstructSpec 2 Internal.fresh "test".toList
        [VaArg.cstr "--h".toList, VaArg.cstr "Help".toList, VaArg.null]
        = Run.ret (kSpecNoError, dashedSpec Internal.fresh "test".toList "h".toList "Help".toList)
      ∧ (∃ r, Parse exampleLibc 1
            (dashedSpec Internal.fresh "test".toList "h".toList "Help".toList) exampleMem
            "cmd".toList ["-h".toList] = Run.ret r ∧ r.error = kArgHelpRequested)
      ∧ (∃ r, Parse exampleLibc 1
            (dashedSpec Internal.fresh "test".toList "h".toList "Help".toList) exampleMem
            "cmd".toList ["--h".toList] = Run.ret r ∧ r.error = kArgHelpRequested)
      ∧ ConstructSpec 2 Internal.fresh "test".toList
        [VaArg.cstr "--9".toList, VaArg.cstr "Nine".toList, VaArg.null]
        = Run.ret (kSpecNoError, dashedSpec Internal.fresh "test".toList "9".toList "Nine".toList)
      ∧ (∃ r, Parse exampleLibc 1
            (dashedSpec Internal.fresh "test".toList "9".toList "Nine".toList) exampleMem
            "cmd".toList ["-9".toList] = Run.ret r ∧ r.error = kArgErrorTooManyArgs)
      ∧ ∃ spec, ConstructSpec 2 Internal.fresh "test".toList
            [VaArg.cstr "--a^".toList, VaArg.int 1, VaArg.cstr "Flag".toList, VaArg.null]
          = Run.ret (kSpecNoError, spec)
        ∧ spec.mOptions.map (fun o => (o.mName, o.mFlagToSet)) = [("-a".toList, 1)] := by
  refine ⟨by decide, ⟨_, rfl, by decide⟩, ⟨_, rfl, by decide⟩, by decide, ⟨_, rfl, by decide⟩,
    ?_⟩
  refine ⟨{ resetSpec Internal.fresh "test".toList with
      mOptions := [⟨⟨[], "Flag".toList⟩, "-a".toList, 1⟩] }, by decide, by decide⟩

/-! ## C33: built-in type names are matched by their first characters -/

theorem StrEqN_isPrefixOf (p b : CStr) (hb : b.map tolower = b) :
    StrEqN p b p.length = (p.map tolower).isPrefixOf b := by
  unfold StrEqN
  rw [List.take_length, List.map_take, hb, Bool.eq_iff_iff, beq_iff_eq,
    List.isPrefixOf_iff_prefix, List.prefix_iff_eq_take, List.length_map]

theorem builtin_of_firstPrefixed (p : CStr) (t : Nat)
    (h : firstPrefixed (p.map tolower) = some t) :
    builtinTypeFromName p p.length = some t := by
  unfold builtinTypeFromName
  rw [StrEqN_isPrefixOf p "bool".toList (by decide), StrEqN_isPrefixOf p "int".toList (by decide),
    StrEqN_isPrefixOf p "float".toList (by decide), StrEqN_isPrefixOf p "double".toList (by decide),
    StrEqN_isPrefixOf p "string".toList (by decide), StrEqN_isPrefixOf p "cstr".toList (by decide)]
  simp only [firstPrefixed, builtinScalarNames, List.find?_cons, List.find?_nil] at h
  generalize (p.map tolower) = q at h ⊢
  cases h1 : q.isPrefixOf "bool".toList
  · rw [h1] at h
    cases h2 : q.isPrefixOf "int".toList
    · rw [h2] at h
      cases h3 : q.isPrefixOf "float".toList
      · rw [h3] at h
        cases h4 : q.isPrefixOf "double".toList
        · rw [h4] at h
          cases h5 : q.isPrefixOf "string".toList
          · rw [h5] at h
            cases h6 : q.isPrefixOf "cstr".toList
            · rw [h6] at h
              simp at h
            · rw [h6] at h
              simpa using h
          · rw [h5] at h
            simpa using h
        · rw [h4] at h
          simpa using h
      · rw [h3] at h
        simpa using h
    · rw [h2] at h
      simpa using h
  · rw [h1] at h
    simpa using h

theorem firstPrefixed_sound (q : CStr) (t : Nat) (h : firstPrefixed q = some t) :
    ∃ b ∈ builtinScalarNames, q <+: b.1 := by
  unfold firstPrefixed at h
  cases hf : builtinScalarNames.find? (fun b => q.isPrefixOf b.1) with
  | none => rw [hf] at h; cases h
  | some b =>
    refine ⟨b, List.mem_of_find?_eq_some hf, ?_⟩
    have := List.find?_some hf
    exact List.isPrefixOf_iff_prefix.mp this

theorem firstPrefixed_type (q : CStr) (t : Nat) (h : firstPrefixed q = some t) :
    ∃ b ∈ builtinScalarNames, q <+: b.1 ∧ b.2 = t := by
  unfold firstPrefixed at h
  cases hf : builtinScalarNames.find? (fun b => q.isPrefixOf b.1) with
  | none => rw [hf] at h; cases h
  | some b =>
    rw [hf] at h
    refine ⟨b, List.mem_of_find?_eq_some hf, ?_, ?_⟩
    · have := List.find?_some hf
      exact List.isPrefixOf_iff_prefix.mp this
    · simpa using h

theorem tolower_bracket (c : Char) (h : c = ']') : tolower c = ']' := by
  subst h
  decide

theorem no_suffix_of_firstPrefixed (p : CStr) (t : Nat)
    (h : firstPrefixed (p.map tolower) = some t) : hasArraySuffix p = false := by
  cases hs : hasArraySuffix p
  · rfl
  · exfalso
    simp only [hasArraySuffix, Bool.and_eq_true, decide_eq_true_eq, beq_iff_eq] at hs
    obtain ⟨⟨-, -⟩, hlast⟩ := hs
    have hmem : ']' ∈ p := List.mem_iff_getElem?.mpr ⟨_, hlast⟩
    have hq : ']' ∈ p.map tolower :=
      List.mem_map.mpr ⟨']', hmem, tolower_bracket _ rfl⟩
    obtain ⟨b, hb, hpre⟩ := firstPrefixed_sound _ t h
    have hin : ']' ∈ b.1 := hpre.subset hq
    have hall : ∀ x ∈ builtinScalarNames, ']' ∉ x.1 := by decide
    exact hall b hb hin

theorem ArgTypeFromName_firstPrefixed (self : Internal) (p : CStr) (t : Nat)
    (h : firstPrefixed (p.map tolower) = some t) : ArgTypeFromName self p = t := by
  unfold ArgTypeFromName
  simp only [no_suffix_of_firstPrefixed p t h, Bool.false_eq_true, if_false,
    builtin_of_firstPrefixed p t h, Nat.or_zero]

/-- C33. Let the type name `p`, in lower case, be a prefix of one of the
built-in names `bool`, `int`, `float`, `double`, `string`, `cstr`, and let `t`
be the type of the first of them, in this order, that it is a prefix of.
Whatever enums are declared, `ArgTypeFromName` resolves `p` to `t`, which is
below `kTypeEnumBegin`, the type of the first declared enum; so does
every type name that the loop over the enums would find equal to an enum named
`p`, which is why such an enum is never reached; and `p[]`, for `p` not empty,
resolves to `t` with the split-array marker. The empty type name resolves to
`kTypeBool`, `in` to `kTypeInt`, `f` to `kTypeFloat`, and the tokens `<x:>`,
`<x:in>` and `<x:F>` compile to slots named `x` of these types. -/
theorem builtin_prefix_match (self : Internal) (p : CStr) (t : Nat)
    (h : firstPrefixed (p.map tolower) = some t) :
    ArgTypeFromName self p = t
      ∧ t < kTypeEnumBegin
      ∧ (∀ typeName, StrEq p typeName = true → ArgTypeFromName self typeName = t)
      ∧ (p ≠ [] → ArgTypeFromName self (p ++ "[]".toList) = t ||| kTypeArraySplitFlag)
      ∧ ArgTypeFromName self [] = kTypeBool
      ∧ ArgTypeFromName self "in".toList = kTypeInt
      ∧ ArgTypeFromName self "f".toList = kTypeFloat
      ∧ FindNameAndTypeFromOption self "<x:>".toList = (kTypeBool, "x".toList)
      ∧ FindNameAndTypeFromOption self "<x:in>".toList = (kTypeInt, "x".toList)
      ∧ FindNameAndTypeFromOption self "<x:F>".toList = (kTypeFloat, "x".toList) := by
  have e0 : ArgTypeFromName self [] = kTypeBool :=
    ArgTypeFromName_firstPrefixed self [] kTypeBool (by decide)
  have e1 : ArgTypeFromName self "in".toList = kTypeInt :=
    ArgTypeFromName_firstPrefixed self _ kTypeInt (by decide)
  have e2 : ArgTypeFromName self "f".toList = kTypeFloat :=
    ArgTypeFromName_firstPrefixed self _ kTypeFloat (by decide)
  have e3 : ArgTypeFromName self "F".toList = kTypeFloat :=
    ArgTypeFromName_firstPrefixed self _ kTypeFloat (by decide)
  refine ⟨ArgTypeFromName_firstPrefixed self p t h, ?_, ?_, ?_, e0, e1, e2, ?_, ?_, ?_⟩
  · obtain ⟨b, hb, -, hbt⟩ := firstPrefixed_type _ t h
    have hall : ∀ x ∈ builtinScalarNames, x.2 < kTypeEnumBegin := by decide
    rw [← hbt]
    exact hall b hb
  · intro typeName heq
    apply ArgTypeFromName_firstPrefixed
    have : p.map tolower = typeName.map tolower := by
      simpa [StrEq] using heq
    rw [← this]
    exact h
  · intro hne
    unfold ArgTypeFromName
    simp only [hasArraySuffix_append p hne, if_true]
    have hl : (p ++ "[]".toList).length - 2 = p.length := by simp
    rw [hl, builtinTypeFromName_append p _ hne, builtin_of_firstPrefixed p t h]
  · have : FindNameAndTypeFromOption self "<x:>".toList
        = (ArgTypeFromName self [], "x".toList) := by
      simp only [FindNameAndTypeFromOption]
      simp +decide
    rw [this, e0]
  · have : FindNameAndTypeFromOption self "<x:in>".toList
        = (ArgTypeFromName self "in".toList, "x".toList) := by
      simp only [FindNameAndTypeFromOption]
      simp +decide
    rw [this, e1]
  · have : FindNameAndTypeFromOption self "<x:F>".toList
        = (ArgTypeFromName self "F".toList, "x".toList) := by
      simp only [FindNameAndTypeFromOption]
      simp +decide
    rw [this, e3]

theorem builtin_prefix_match_witness :
    ArgTypeFromName colourSpec "StR".toList = kTypeString
      ∧ kTypeString < kTypeEnumBegin
      ∧ (∀ typeName, StrEq "StR".toList typeName = true →
          ArgTypeFromName colourSpec typeName = kTypeString)
      ∧ ("StR".toList ≠ [] →
          ArgTypeFromName colourSpec ("StR".toList ++ "[]".toList)
            = kTypeString ||| kTypeArraySplitFlag)
      ∧ ArgTypeFromName colourSpec [] = kTypeBool
      ∧ ArgTypeFromName colourSpec "in".toList = kTypeInt
      ∧ ArgTypeFromName colourSpec "f".toList = kTypeFloat
      ∧ FindNameAndTypeFromOption colourSpec "<x:>".toList = (kTypeBool, "x".toList)
      ∧ FindNameAndTypeFromOption colourSpec "<x:in>".toList = (kTypeInt, "x".toList)
      ∧ FindNameAndTypeFromOption colourSpec "<x:F>".toList = (kTypeFloat, "x".toList) :=
  builtin_prefix_match colourSpec "StR".toList kTypeString (by decide)

/-! ## C34: base detection in the `int` converter -/

theorem digitIn_value (base : Nat) (c : Char) (v : Nat) (h : digitIn base c = some v) :
    (digitVal c).getD 0 = v := by
  unfold digitIn at h
  cases hd : digitVal c with
  | none => rw [hd] at h; cases h
  | some d =>
    rw [hd] at h
    dsimp only at h
    split_ifs at h
    cases h
    rfl

theorem baseValue_cons (base : Nat) (c : Char) (cs : CStr) :
    baseValue base (c :: cs) = (digitVal c).getD 0 * base ^ cs.length + baseValue base cs := by
  simp only [baseValue, List.reverse_cons, List.map_append, List.map_cons, List.map_nil,
    Nat.ofDigits_append, Nat.ofDigits_singleton, List.length_map, List.length_reverse]
  ring

theorem strtolDigits_run (base : Nat) :
    ∀ (d rest : CStr) (acc : Nat) (any : Bool),
      (∀ c ∈ d, (digitIn base c).isSome = true) →
      (∀ c ∈ rest.head?, digitIn base c = none) →
      strtolDigits base (d ++ rest) acc any
        = (acc * base ^ d.length + baseValue base d, any || !d.isEmpty, rest) := by
  intro d
  induction d with
  | nil =>
    intro rest acc any _ hrest
    cases rest with
    | nil => simp [strtolDigits, baseValue]
    | cons c cs =>
      have := hrest c (by simp)
      simp [strtolDigits, baseValue, this]
  | cons c cs ih =>
    intro rest acc any hd hrest
    obtain ⟨v, hv⟩ := Option.isSome_iff_exists.mp (hd c (List.mem_cons_self _ _))
    have e : strtolDigits base (c :: (cs ++ rest)) acc any
        = strtolDigits base (cs ++ rest) (acc * base + v) true := by
      simp only [strtolDigits, hv]
    rw [List.cons_append, e, ih rest _ true (fun x hx => hd x (List.mem_cons_of_mem _ hx)) hrest,
      baseValue_cons, digitIn_value base c v hv]
    simp only [List.length_cons, Bool.true_or, List.isEmpty_cons, Bool.not_false, Bool.or_true,
      Prod.mk.injEq, and_true]
    ring

theorem octal_facts (c : Char) (h : isOctalDigit c = true) :
    c ≠ 'x' ∧ c ≠ 'X' ∧ (digitIn 8 c).isSome = true := by
  simp only [isOctalDigit, Bool.and_eq_true, decide_eq_true_eq] at h
  obtain ⟨h0, h7⟩ := h
  have h0n : 48 ≤ c.toNat := h0
  have h7n : c.toNat ≤ 55 := h7
  refine ⟨?_, ?_, ?_⟩
  · intro hc; subst hc; revert h7n; decide
  · intro hc; subst hc; revert h7n; decide
  · have h9 : c ≤ '9' := by
      show c.toNat ≤ 57
      omega
    have hd : digitVal c = some (c.toNat - '0'.toNat) := by
      simp only [digitVal, h0, h9, and_self, if_true]
    simp only [digitIn, hd]
    have h8 : c.toNat - '0'.toNat < 8 := by
      have : '0'.toNat = 48 := rfl
      omega
    rw [if_pos h8]
    rfl

theorem nonoctal_facts (c : Char) (hd : isDecimalDigit c = true) (ho : isOctalDigit c = false) :
    digitIn 8 c = none := by
  simp only [isDecimalDigit, Bool.and_eq_true, decide_eq_true_eq] at hd
  obtain ⟨h0, h9⟩ := hd
  have h7 : ¬ c ≤ '7' := by
    intro h
    simp [isOctalDigit, h0, h] at ho
  have h0n : 48 ≤ c.toNat := h0
  have h7n : ¬ c.toNat ≤ 55 := h7
  have hv : digitVal c = some (c.toNat - '0'.toNat) := by
    simp only [digitVal, h0, h9, and_self, if_true]
  simp only [digitIn, hv]
  have h8 : ¬ c.toNat - '0'.toNat < 8 := by
    have : '0'.toNat = 48 := rfl
    omega
  rw [if_neg h8]

theorem hex_facts (c : Char) (h : isHexDigit c = true) : (digitIn 16 c).isSome = true := by
  simp only [isHexDigit, Bool.or_eq_true, Bool.and_eq_true, decide_eq_true_eq] at h
  rcases h with (⟨h1, h2⟩ | ⟨h1, h2⟩) | ⟨h1, h2⟩
  · have a1 : 48 ≤ c.toNat := h1
    have a2 : c.toNat ≤ 57 := h2
    have hd : digitVal c = some (c.toNat - '0'.toNat) := by
      simp only [digitVal, h1, h2, and_self, if_true]
    simp only [digitIn, hd]
    have hlt : c.toNat - '0'.toNat < 16 := by
      have : '0'.toNat = 48 := rfl
      omega
    rw [if_pos hlt]
    rfl
  · have a1 : 97 ≤ c.toNat := h1
    have a2 : c.toNat ≤ 102 := h2
    have n9 : ¬ (c ≤ '9') := by
      intro h9; have : c.toNat ≤ 57 := h9; omega
    have hz : c ≤ 'z' := by
      show c.toNat ≤ 122
      omega
    have hd : digitVal c = some (c.toNat - 'a'.toNat + 10) := by
      simp only [digitVal, n9, and_false, if_false, h1, hz, and_self, if_true]
    simp only [digitIn, hd]
    have hlt : c.toNat - 'a'.toNat + 10 < 16 := by
      have : 'a'.toNat = 97 := rfl
      omega
    rw [if_pos hlt]
    rfl
  · have a1 : 65 ≤ c.toNat := h1
    have a2 : c.toNat ≤ 70 := h2
    have n9 : ¬ (c ≤ '9') := by
      intro h9; have : c.toNat ≤ 57 := h9; omega
    have na : ¬ ('a' ≤ c) := by
      intro ha; have : 97 ≤ c.toNat := ha; omega
    have hZ : c ≤ 'Z' := by
      show c.toNat ≤ 90
      omega
    have hd : digitVal c = some (c.toNat - 'A'.toNat + 10) := by
      simp only [digitVal, n9, and_false, if_false, na, false_and, h1, hZ, and_self, if_true]
    simp only [digitIn, hd]
    have hlt : c.toNat - 'A'.toNat + 10 < 16 := by
      have : 'A'.toNat = 65 := rfl
      omega
    rw [if_pos hlt]
    rfl

theorem strtol_zero_prefixed (longBits : Nat) (d rest : CStr)
    (hd : ∀ c ∈ d, (digitIn 8 c).isSome = true)
    (hx : ∀ c ∈ (d ++ rest).head?, c ≠ 'x' ∧ c ≠ 'X')
    (hrest : ∀ c ∈ rest.head?, digitIn 8 c = none) :
    strtol longBits ('0' :: (d ++ rest)) = (clampLong longBits (baseValue 8 d), rest) := by
  have h1 : ('0' :: (d ++ rest)).dropWhile isspace = '0' :: (d ++ rest) := by
    rw [List.dropWhile_cons, if_neg (by decide)]
  have h2 : strtolSign ('0' :: (d ++ rest)) = (false, '0' :: (d ++ rest)) := by
    simp [strtolSign]
  have h3 : strtolBase ('0' :: (d ++ rest)) = (8, '0' :: (d ++ rest)) := by
    unfold strtolBase
    have hnx : (('0' :: (d ++ rest))[1]? == some 'x' || ('0' :: (d ++ rest))[1]? == some 'X')
        = false := by
      cases hdr : d ++ rest with
      | nil => rfl
      | cons c cs =>
        obtain ⟨a, b⟩ := hx c (by rw [hdr]; simp)
        simp [a, b]
    rw [hnx]
    simp
  have hz : (digitIn 8 '0').isSome = true := by decide
  have hrun := strtolDigits_run 8 ('0' :: d) rest 0 false
    (fun c hc => by
      rcases List.mem_cons.mp hc with rfl | hc
      · exact hz
      · exact hd c hc) hrest
  have hv : baseValue 8 ('0' :: d) = baseValue 8 d := by
    rw [baseValue_cons]
    have : (digitVal '0').getD 0 = 0 := by decide
    rw [this]
    simp
  simp only [strtol, h1, h2, h3]
  rw [← List.cons_append, hrun, hv]
  simp

theorem strtol_hex (longBits : Nat) (x : Char) (hs : CStr) (hx : x = 'x' ∨ x = 'X')
    (hne : hs ≠ []) (hd : ∀ c ∈ hs, (digitIn 16 c).isSome = true) :
    strtol longBits ('0' :: x :: hs) = (clampLong longBits (baseValue 16 hs), []) := by
  have h1 : ('0' :: x :: hs).dropWhile isspace = '0' :: x :: hs := by
    rw [List.dropWhile_cons, if_neg (by decide)]
  have h2 : strtolSign ('0' :: x :: hs) = (false, '0' :: x :: hs) := by
    simp [strtolSign]
  have h3 : strtolBase ('0' :: x :: hs) = (16, hs) := by
    unfold strtolBase
    cases hs with
    | nil => exact absurd rfl hne
    | cons c cs =>
      have hc := hd c (List.mem_cons_self _ _)
      rcases hx with rfl | rfl <;> simp [hc]
  have hrun := strtolDigits_run 16 hs [] 0 false hd (by simp)
  rw [List.append_nil] at hrun
  have hemp : hs.isEmpty = false := by
    cases hs with
    | nil => exact absurd rfl hne
    | cons c cs => rfl
  simp only [strtol, h1, h2, h3, hrun, hemp]
  simp

theorem Parse_int_octal (libc : Libc) (ds : CStr) (hoct : ds.all isOctalDigit = true)
    (hov : baseValue 8 ds < 2 ^ 31) :
    Parse_int libc ('0' :: ds) = ⟨kArgNoError, some (baseValue 8 ds : Int), none⟩ := by
  have hall : ∀ c ∈ ds, isOctalDigit c = true := List.all_eq_true.mp hoct
  have hs := strtol_zero_prefixed libc.longBits ds []
    (fun c hc => (octal_facts c (hall c hc)).2.2)
    (fun c hc => by
      rw [List.append_nil] at hc
      cases ds with
      | nil => simp at hc
      | cons a as =>
        simp only [List.head?_cons, Option.mem_def, Option.some.injEq] at hc
        subst hc
        exact ⟨(octal_facts _ (hall _ (List.mem_cons_self _ _))).1,
          (octal_facts _ (hall _ (List.mem_cons_self _ _))).2.1⟩)
    (by simp)
  rw [List.append_nil] at hs
  rw [Parse_int_ok libc _ (by rw [hs]), hs, clampLong_small libc.longBits libc.longBits_ge _ hov,
    toInt32_small _ hov]

theorem Parse_int_hex (libc : Libc) (x : Char) (hs : CStr) (hx : x = 'x' ∨ x = 'X')
    (hne : hs ≠ []) (hhex : hs.all isHexDigit = true) (hhv : baseValue 16 hs < 2 ^ 31) :
    Parse_int libc ('0' :: x :: hs) = ⟨kArgNoError, some (baseValue 16 hs : Int), none⟩ := by
  have hall : ∀ c ∈ hs, isHexDigit c = true := List.all_eq_true.mp hhex
  have h := strtol_hex libc.longBits x hs hx hne (fun c hc => hex_facts c (hall c hc))
  rw [Parse_int_ok libc _ (by rw [h]), h, clampLong_small libc.longBits libc.longBits_ge _ hhv,
    toInt32_small _ hhv]

theorem Parse_int_nonoctal (libc : Libc) (es : CStr) (hdec : es.all isDecimalDigit = true)
    (hno : es.all isOctalDigit = false) :
    (Parse_int libc ('0' :: es)).error = kArgErrorGarbage := by
  have hall : ∀ c ∈ es, isDecimalDigit c = true := List.all_eq_true.mp hdec
  have hsplit : es.takeWhile isOctalDigit ++ es.dropWhile isOctalDigit = es :=
    List.takeWhile_append_dropWhile _ _
  have hrest : es.dropWhile isOctalDigit ≠ [] := by
    intro h
    rw [List.dropWhile_eq_nil_iff] at h
    have : es.all isOctalDigit = true := List.all_eq_true.mpr h
    rw [this] at hno
    cases hno
  have hhead : ∀ c ∈ (es.dropWhile isOctalDigit).head?, digitIn 8 c = none := by
    intro c hc
    have hmem : c ∈ es.dropWhile isOctalDigit := List.mem_of_mem_head? hc
    have hces : c ∈ es := (List.dropWhile_sublist _).subset hmem
    have hnot : isOctalDigit c = false := by
      cases hdw : es.dropWhile isOctalDigit with
      | nil => rw [hdw] at hc; simp at hc
      | cons a as =>
        rw [hdw] at hc
        simp only [List.head?_cons, Option.mem_def, Option.some.injEq] at hc
        subst hc
        have := List.head_dropWhile_not isOctalDigit es (by rw [hdw]; simp)
        simpa [hdw] using this
    exact nonoctal_facts c (hall c hces) hnot
  have hs := strtol_zero_prefixed libc.longBits (es.takeWhile isOctalDigit)
    (es.dropWhile isOctalDigit)
    (fun c hc => (octal_facts c (List.mem_takeWhile_imp hc)).2.2)
    (fun c hc => by
      rw [hsplit] at hc
      have hces : c ∈ es := List.mem_of_mem_head? hc
      have hd := hall c hces
      simp only [isDecimalDigit, Bool.and_eq_true, decide_eq_true_eq] at hd
      have h9 : c.toNat ≤ 57 := hd.2
      constructor
      · intro h; subst h; revert h9; decide
      · intro h; subst h; revert h9; decide)
    hhead
  rw [hsplit] at hs
  rw [Parse_int_garbage libc _ (by rw [hs]; exact hrest)]

/-- C34. The `int` converter reads with the base that `strtol(arg, &sEnd, 0)`
detects. A token `0` followed by octal digits `ds` yields the value of `ds` in
base 8, and a token `0x` or `0X` followed by one or more hexadecimal digits
`hs` yields the value of `hs` in base 16 (values below `2^31`), both with
`kArgNoError`. A token `0` followed by decimal digits of which one is 8 or 9
is read as octal up to that digit and returns `kArgErrorGarbage`. The empty
token yields 0 with `kArgNoError`. So `010` yields 8 and `0x10` yields 16. -/
theorem int_base_detection (libc : Libc) (ds hs : CStr) (x : Char)
    (hoct : ds.all isOctalDigit = true) (hov : baseValue 8 ds < 2 ^ 31)
    (hx : x = 'x' ∨ x = 'X') (hne : hs ≠ []) (hhex : hs.all isHexDigit = true)
    (hhv : baseValue 16 hs < 2 ^ 31) :
    Parse_int libc ('0' :: ds) = ⟨kArgNoError, some (baseValue 8 ds : Int), none⟩
      ∧ Parse_int libc ('0' :: x :: hs) = ⟨kArgNoError, some (baseValue 16 hs : Int), none⟩
      ∧ (∀ es : CStr, es.all isDecimalDigit = true → es.all isOctalDigit = false →
          (Parse_int libc ('0' :: es)).error = kArgErrorGarbage)
      ∧ Parse_int libc [] = ⟨kArgNoError, some 0, none⟩
      ∧ Parse_int libc "010".toList = ⟨kArgNoError, some 8, none⟩
      ∧ Parse_int libc "0x10".toList = ⟨kArgNoError, some 16, none⟩ := by
  refine ⟨Parse_int_octal libc ds hoct hov, Parse_int_hex libc x hs hx hne hhex hhv,
    fun es h1 h2 => Parse_int_nonoctal libc es h1 h2, ?_, ?_, ?_⟩
  · have hs : strtol libc.longBits [] = (0, []) := rfl
    rw [Parse_int_ok libc [] (by rw [hs]), hs]
    rfl
  · have h := Parse_int_octal libc "10".toList (by decide) (by decide)
    have hv : baseValue 8 "10".toList = 8 := by decide
    rw [hv] at h
    exact h
  · have h := Parse_int_hex libc 'x' "10".toList (Or.inl rfl) (by decide) (by decide)
      (by decide)
    have hv : baseValue 16 "10".toList = 16 := by decide
    rw [hv] at h
    exact h

theorem int_base_detection_witness :
    Parse_int exampleLibc ('0' :: "17".toList)
        = ⟨kArgNoError, some (baseValue 8 "17".toList : Int), none⟩
      ∧ Parse_int exampleLibc ('0' :: 'X' :: "fF".toList)
        = ⟨kArgNoError, some (baseValue 16 "fF".toList : Int), none⟩
      ∧ (∀ es : CStr, es.all isDecimalDigit = true → es.all isOctalDigit = false →
          (Parse_int exampleLibc ('0' :: es)).error = kArgErrorGarbage)
      ∧ Parse_int exampleLibc [] = ⟨kArgNoError, some 0, none⟩
      ∧ Parse_int exampleLibc "010".toList = ⟨kArgNoError, some 8, none⟩
      ∧ Parse_int exampleLibc "0x10".toList = ⟨kArgNoError, some 16, none⟩ :=
  int_base_detection exampleLibc "17".toList "fF".toList 'X' (by decide) (by decide)
    (Or.inr rfl) (by decide) (by decide) (by decide)

/-! ## C35: tokens that are empty without their brackets -/

theorem StrEq_nil_ellipsis : StrEq [] kEllipsisToken = false := by decide

theorem TokenStep_emptyCore (self : Internal) (st : LineState)
    (hcore : tokenCore st.nextToken = []) : TokenStep self st = Run.fault := by
  have h2 : ((if (st.nextToken.head? == some kOpenBracketChar) = true then st.nextToken.drop 1
      else st.nextToken).reverse.dropWhile (fun c => c == kCloseBracketChar)).reverse = [] := hcore
  unfold TokenStep
  simp only [h2, StrEq_nil_ellipsis, Bool.false_eq_true, if_false, List.getLast?_nil]
  cases hv : va_ptr st.va with
  | ret x => rfl
  | outOfFuel =>
    exfalso
    unfold va_ptr at hv
    split at hv <;> cases hv
  | fault => rfl

theorem TokenLoop_emptyCore (self : Internal) (ds : List TokenDecl) (st : LineState)
    (tok : CStr) (more : List CStr) (vaMore : List VaArg)
    (harg : ∀ d ∈ ds, isArgToken d.tok = true)
    (hp : pendingTokens st = ds.map (fun d => d.tok) ++ tok :: more)
    (hva : st.va = tokenVas ds ++ vaMore)
    (hcore : tokenCore tok = []) :
    ∃ st1 : LineState, (∀ f, TokenLoop self (ds.length + f) st = TokenLoop self f st1)
      ∧ st1.nextToken = tok ∧ tok ≠ [] ∧ st1.va = vaMore
      ∧ TokenStep self st1 = Run.fault
      ∧ ∀ f, TokenLoop self (ds.length + f + 1) st = Run.fault := by
  obtain ⟨st1, reqs, g1, -, -, g4, g5, -, -⟩ :=
    TokenLoop_tokens self ds st (tok :: more) vaMore harg hp hva
  obtain ⟨htok, hne⟩ := pendingTokens_cons st1 tok more g5
  have hstep : TokenStep self st1 = Run.fault :=
    TokenStep_emptyCore self st1 (by rw [htok]; exact hcore)
  refine ⟨st1, g1, htok, by rw [← htok]; exact hne, g4, hstep, ?_⟩
  intro f
  rw [Nat.add_assoc, g1 (f + 1), TokenLoop, if_neg hne, hstep]

/-- C35. The token loop of `ConstructSpec` does read the last character of an
empty token. Let the grammar line hold, after its option name if it has one,
argument tokens `ds`, each with its location and flag index among the variadic
arguments, and then a token `tok` of which nothing is left once its leading
`[` and its trailing `]` characters are stripped, as for the tokens `[`, `]`
and `[]`. Then the loop reaches `tok` as its `nextToken`; what is left of it
is empty and has no last character, so the read at index `length - 1` for the
test against `^` is out of bounds; and with fuel for these tokens
`ConstructLine` is a fault. So are the calls of `ConstructSpec` with the lines
`[ <a:int> ]` and `[<a:int> ]`. -/
theorem empty_token_read (self : Internal) (line : CStr) (va : List VaArg)
    (err : tArgSpecError) (head : LineHead) (ds : List TokenDecl) (tok : CStr)
    (more : List CStr) (vaMore : List VaArg)
    (hb : LineBegin self line va err = Run.ret head)
    (htoks : argTokens line = ds.map (fun d => d.tok) ++ tok :: more)
    (harg : ∀ d ∈ ds, isArgToken d.tok = true)
    (hva : head.start.va = tokenVas ds ++ vaMore)
    (hcore : tokenCore tok = []) :
    (∃ st1 : LineState,
        (∀ f, TokenLoop self (ds.length + f) head.start = TokenLoop self f st1)
        ∧ st1.nextToken = tok ∧ tok ≠ [] ∧ st1.va = vaMore
        ∧ (tokenCore st1.nextToken).getLast? = none
        ∧ TokenStep self st1 = Run.fault)
      ∧ (∀ f, ConstructLine (ds.length + f + 1) self line va err = Run.fault)
      ∧ tokenCore "[".toList = [] ∧ tokenCore "]".toList = [] ∧ tokenCore "[]".toList = []
      ∧ ConstructSpec 5 Internal.fresh "test".toList looseBracketArgs = Run.fault
      ∧ ConstructSpec 5 Internal.fresh "test".toList looseCloseArgs = Run.fault := by
  obtain ⟨hp, -, -⟩ := LineBegin_pending self line va err head hb
  obtain ⟨st1, g1, g2, g3, g4, g5, g6⟩ :=
    TokenLoop_emptyCore self ds head.start tok more vaMore harg (by rw [hp, htoks]) hva hcore
  refine ⟨⟨st1, g1, g2, g3, g4, by rw [g2, hcore]; rfl, g5⟩, ?_, by decide, by decide, by decide,
    by decide, by decide⟩
  intro f
  rw [ConstructLine, hb]
  simp only [g6 f]

theorem empty_token_read_witness :
    (∃ st1 : LineState,
        (∀ f, TokenLoop Internal.fresh
            ([(⟨"[<a:int>".toList, some 0, -1⟩ : TokenDecl)].length + f)
            (⟨"]".toList, "[<a:int>".toList, 0, 0, [],
              [VaArg.ptr 0, VaArg.null, VaArg.cstr "One value".toList, VaArg.null],
              kSpecNoError⟩ : LineState)
          = TokenLoop Internal.fresh f st1)
        ∧ st1.nextToken = "]".toList ∧ "]".toList ≠ []
        ∧ st1.va = [VaArg.null, VaArg.cstr "One value".toList, VaArg.null]
        ∧ (tokenCore st1.nextToken).getLast? = none
        ∧ TokenStep Internal.fresh st1 = Run.fault)
      ∧ (∀ f, ConstructLine ([(⟨"[<a:int>".toList, some 0, -1⟩ : TokenDecl)].length + f + 1)
            Internal.fresh "[<a:int> ]".toList
            [VaArg.ptr 0, VaArg.null, VaArg.cstr "One value".toList, VaArg.null] kSpecNoError
          = Run.fault)
      ∧ tokenCore "[".toList = [] ∧ tokenCore "]".toList = [] ∧ tokenCore "[]".toList = []
      ∧ ConstructSpec 5 Internal.fresh "test".toList looseBracketArgs = Run.fault
      ∧ ConstructSpec 5 Internal.fresh "test".toList looseCloseArgs = Run.fault :=
  empty_token_read Internal.fresh "[<a:int> ]".toList
    [VaArg.ptr 0, VaArg.null, VaArg.cstr "One value".toList, VaArg.null] kSpecNoError
    ⟨false, [], -1, ⟨"]".toList, "[<a:int>".toList, 0, 0, [],
      [VaArg.ptr 0, VaArg.null, VaArg.cstr "One value".toList, VaArg.null], kSpecNoError⟩⟩
    [⟨"[<a:int>".toList, some 0, -1⟩] "]".toList []
    [VaArg.null, VaArg.cstr "One value".toList, VaArg.null]
    (by decide) (by decide) (by decide) (by decide) (by decide)

end AS
